import Mathlib

/-!
# A shallow embedding of the m61 debugging allocator (`m61.cc`, `m61.hh`)

Memory is a sparse little-endian store of 64-bit cells (absent cells read 0, as
freshly mapped anonymous memory does); pointers are absolute byte addresses,
`nullptr` is `0`.  `size_t`, `uintptr_t` and `unsigned long long` arithmetic is
taken modulo `2^64`, `unsigned int` modulo `2^32`.  A failed `assert` aborts the
call (`Fault.assertion`); loops that follow pointers stored in memory carry a
step budget (`Fault.fuel` when it runs out).
-/

namespace M61

/-! ## Memory -/

/-- Sparse store: a list of `(cell index, 64-bit value)`, kept in insertion order
by index; a cell that is not listed holds `0`. -/
structure Mem where
  cells : List (Nat × Nat)
  deriving DecidableEq, Repr

def cellGet : List (Nat × Nat) → Nat → Nat
  | [], _ => 0
  | (k, v) :: m, i => if i = k then v else cellGet m i

def cellSet : List (Nat × Nat) → Nat → Nat → List (Nat × Nat)
  | [], i, v => [(i, v)]
  | (k, w) :: m, i, v =>
    if i = k then (k, v) :: m
    else if i < k then (i, v) :: (k, w) :: m
    else (k, w) :: cellSet m i v

def Mem.cell (m : Mem) (i : Nat) : Nat := cellGet m.cells i

def Mem.setCell (m : Mem) (i v : Nat) : Mem := ⟨cellSet m.cells i v⟩

/-- Byte at address `a`. -/
@[irreducible] def load8 (m : Mem) (a : Nat) : Nat := m.cell (a / 8) / 256 ^ (a % 8) % 256

/-- Replace byte number `k` (`k < 8`) of the word `w` by `b`. -/
@[irreducible] def setByte (w k b : Nat) : Nat :=
  w % 256 ^ k + b % 256 * 256 ^ k + w / 256 ^ (k + 1) * 256 ^ (k + 1)

@[irreducible] def store8 (m : Mem) (a b : Nat) : Mem :=
  m.setCell (a / 8) (setByte (m.cell (a / 8)) (a % 8) b)

/-- Little-endian 32-bit load (`unsigned int`). -/
@[irreducible] def load32 (m : Mem) (a : Nat) : Nat :=
  load8 m a + 256 * load8 m (a + 1) + 65536 * load8 m (a + 2) + 16777216 * load8 m (a + 3)

@[irreducible] def store32 (m : Mem) (a v : Nat) : Mem :=
  store8 (store8 (store8 (store8 m a v) (a + 1) (v / 256)) (a + 2) (v / 65536))
    (a + 3) (v / 16777216)

/-- Little-endian 64-bit load (`size_t`, pointers). -/
@[irreducible] def load64 (m : Mem) (a : Nat) : Nat :=
  if a % 8 = 0 then m.cell (a / 8) % 18446744073709551616
  else load32 m a + 4294967296 * load32 m (a + 4)

@[irreducible] def store64 (m : Mem) (a v : Nat) : Mem :=
  if a % 8 = 0 then m.setCell (a / 8) (v % 18446744073709551616)
  else store32 (store32 m a v) (a + 4) (v / 4294967296)

/-- `memset(p, c, n)`. -/
def memset (m : Mem) (p c : Nat) : Nat → Mem
  | 0 => m
  | n + 1 => store8 (memset m p c n) (p + n) c

/-- `memcpy(dst, src, n)` as a library routine that copies bytes in ascending address order
performs it. The C library defines the result of `memcpy` only when the two ranges do not
overlap, and then the order of the copy does not matter; on overlapping ranges this is one of
the possible behaviours, `memcpy_backward` is another. -/
def memcpy_from (m : Mem) (dst src i : Nat) : Nat → Mem
  | 0 => m
  | n + 1 => memcpy_from (store8 m (dst + i) (load8 m (src + i))) dst src (i + 1) n

def memcpy (m : Mem) (dst src n : Nat) : Mem := memcpy_from m dst src 0 n

/-- `memcpy(dst, src, n)` as a library routine that copies bytes in descending address order
performs it: byte `n - 1` first, byte `0` last. On ranges that do not overlap the result is
that of `memcpy`. -/
def memcpy_backward (m : Mem) (dst src : Nat) : Nat → Mem
  | 0 => m
  | n + 1 => memcpy_backward (store8 m (dst + n) (load8 m (src + n))) dst src n

/-! ## Machine arithmetic -/

abbrev SIZE_MAX : Nat := 18446744073709551615
abbrev UINTPTR_MAX : Nat := 18446744073709551615

/-- Addition of `size_t` / pointer values. -/
@[irreducible] def wadd (a b : Nat) : Nat := (a + b) % 18446744073709551616

/-- Subtraction of `size_t` / pointer values. -/
@[irreducible] def wsub (a b : Nat) : Nat :=
  if b % 18446744073709551616 ≤ a % 18446744073709551616 then
    a % 18446744073709551616 - b % 18446744073709551616
  else a % 18446744073709551616 + 18446744073709551616 - b % 18446744073709551616

/-! ## Constants and macros of `m61.hh` -/

abbrev WORD_SIZE : Nat := 8
abbrev MIN_PAYLOAD : Nat := 2 * WORD_SIZE
abbrev ALLOC_META_SIZE : Nat := WORD_SIZE * 8
abbrev MIN_BLOCK : Nat := ALLOC_META_SIZE + MIN_PAYLOAD
abbrev ALIGNMENT : Nat := 16

abbrev ALLOC_BIT : Nat := 2
abbrev NEXT_ALLOC_BIT : Nat := 1
abbrev PREV_ALLOC_BIT : Nat := 4

def IS_ALLOC (m : Mem) (header : Nat) : Bool := decide (load64 m header &&& ALLOC_BIT > 0)
def IS_NEXT_ALLOC (m : Mem) (header : Nat) : Bool :=
  decide (load64 m header &&& NEXT_ALLOC_BIT > 0)
def IS_PREV_ALLOC (m : Mem) (header : Nat) : Bool :=
  decide (load64 m header &&& PREV_ALLOC_BIT > 0)
def GET_BITS (m : Mem) (header : Nat) : Nat :=
  load64 m header &&& (ALLOC_BIT ||| NEXT_ALLOC_BIT ||| PREV_ALLOC_BIT)

/-- `~(ALLOC_BIT | NEXT_ALLOC_BIT | PREV_ALLOC_BIT)` as a `size_t`. -/
abbrev SIZE_MASK : Nat := 18446744073709551608

def GET_SIZE (m : Mem) (header : Nat) : Nat := load64 m header &&& SIZE_MASK
def GET_HEADER_FROM_PAYLOAD (payload : Nat) : Nat := wsub payload WORD_SIZE
def GET_PAYLOAD (header : Nat) : Nat := wadd header WORD_SIZE
def INCREMENT_SIZE_T_PTR (ptr bytes : Nat) : Nat := wadd ptr (WORD_SIZE * (bytes / WORD_SIZE))
def DECREMENT_SIZE_T_PTR (ptr bytes : Nat) : Nat := wsub ptr (WORD_SIZE * (bytes / WORD_SIZE))

def PREV_FROM_HEADER (m : Mem) (header : Nat) : Nat :=
  DECREMENT_SIZE_T_PTR header (GET_SIZE m (wsub header WORD_SIZE))
def NEXT_FROM_HEADER (m : Mem) (header : Nat) : Nat :=
  INCREMENT_SIZE_T_PTR header (GET_SIZE m header)
def FOOTER_FROM_HEADER (m : Mem) (header : Nat) : Nat :=
  if GET_SIZE m header = 0 then 0 else wsub (NEXT_FROM_HEADER m header) WORD_SIZE
def HEADER_FROM_FOOTER (m : Mem) (footer : Nat) : Nat :=
  DECREMENT_SIZE_T_PTR footer (wsub (GET_SIZE m footer) 1)

def TOGGLE_NEXT_BITS (m : Mem) (header bits : Nat) : Mem :=
  store64 m (NEXT_FROM_HEADER m header) (load64 m (NEXT_FROM_HEADER m header) ^^^ bits)
def TOGGLE_PREV_BITS (m : Mem) (header bits : Nat) : Mem :=
  store64 m (PREV_FROM_HEADER m header) (load64 m (PREV_FROM_HEADER m header) ^^^ bits)

def LIST_PREV (m : Mem) (header : Nat) : Nat := wsub (FOOTER_FROM_HEADER m header) (2 * WORD_SIZE)
def LIST_NEXT (m : Mem) (header : Nat) : Nat := wsub (FOOTER_FROM_HEADER m header) (1 * WORD_SIZE)
def SET_LIST_PREV (m : Mem) (header ptr : Nat) : Mem := store64 m (LIST_PREV m header) ptr
def SET_LIST_NEXT (m : Mem) (header ptr : Nat) : Mem := store64 m (LIST_NEXT m header) ptr

def REQ_SIZE_FROM_HEADER (m : Mem) (header : Nat) : Nat :=
  wsub (FOOTER_FROM_HEADER m header) (5 * WORD_SIZE)
def REQ_SIZE_FROM_PAYLOAD (m : Mem) (payload : Nat) : Nat :=
  REQ_SIZE_FROM_HEADER m (GET_HEADER_FROM_PAYLOAD payload)
def SET_REQ_SIZE (m : Mem) (header size : Nat) : Mem :=
  store32 m (REQ_SIZE_FROM_HEADER m header) size
def GET_LINE_NUMBER (m : Mem) (header : Nat) : Nat := wadd (REQ_SIZE_FROM_HEADER m header) 4
def SET_LINE_NUMBER (m : Mem) (header ln : Nat) : Mem := store32 m (GET_LINE_NUMBER m header) ln
def GET_FILENAME (m : Mem) (header : Nat) : Nat :=
  wsub (FOOTER_FROM_HEADER m header) (4 * WORD_SIZE)
def SET_FILENAME (m : Mem) (header file : Nat) : Mem := store64 m (GET_FILENAME m header) file
def GET_HEADER_ADDR (m : Mem) (header : Nat) : Nat :=
  wsub (FOOTER_FROM_HEADER m header) (3 * WORD_SIZE)
def SET_HEADER_ADDR (m : Mem) (header addr : Nat) : Mem :=
  store64 m (GET_HEADER_ADDR m header) addr

/-- The bytes of `"kimbora!"`. -/
def magic_number : List Nat := [0x6b, 0x69, 0x6d, 0x62, 0x6f, 0x72, 0x61, 0x21]

/-! ## Program state -/

structure m61_statistics where
  nactive : Nat
  active_size : Nat
  nfree : Nat
  freed_size : Nat
  ntotal : Nat
  total_size : Nat
  nfail : Nat
  fail_size : Nat
  heap_min : Nat
  heap_max : Nat
  deriving DecidableEq, Repr

structure m61_memory_buffer where
  buffer : Nat
  pos : Nat
  size : Nat
  deriving DecidableEq, Repr

/-- The file-scope objects of `m61.cc` together with the memory they point into. -/
structure Heap where
  mem : Mem
  default_buffer : m61_memory_buffer
  statistics : m61_statistics
  free_list_start : Nat
  alloc_list_start : Nat
  top_of_heap : Nat
  end_of_heap : Nat
  deriving DecidableEq, Repr

inductive Fault where
  | assertion
  | segfault
  | fuel
  deriving DecidableEq, Repr

/-- Which list head a `size_t**` argument designates. -/
inductive ListRef where
  | free_list
  | alloc_list
  deriving DecidableEq, Repr

def ListRef.get (l : ListRef) (s : Heap) : Nat :=
  match l with
  | .free_list => s.free_list_start
  | .alloc_list => s.alloc_list_start

def ListRef.set (l : ListRef) (s : Heap) (v : Nat) : Heap :=
  match l with
  | .free_list => { s with free_list_start := v }
  | .alloc_list => { s with alloc_list_start := v }

def c_assert (b : Bool) : Except Fault Unit :=
  if b then pure () else throw Fault.assertion

/-! ## `m61.cc` -/

def m61_set_header_and_footer (m : Mem) (header size bits : Nat) : Mem :=
  let m1 := store64 m header (size ||| bits)
  let footer := FOOTER_FROM_HEADER m1 header
  store64 m1 footer (load64 m1 header)

/-- The constructor of `m61_memory_buffer`, given the address `buf` that `mmap` returned. -/
def m61_memory_buffer_init (buf : Nat) : Heap :=
  let size := 8 <<< 20
  let m0 : Mem := ⟨[]⟩
  let prologue_header := wadd buf (1 * WORD_SIZE)
  let prologue_size := WORD_SIZE * 2
  let m1 := m61_set_header_and_footer m0 prologue_header prologue_size (ALLOC_BIT ||| PREV_ALLOC_BIT)
  let free_header := NEXT_FROM_HEADER m1 prologue_header
  let free_header_size := wsub (wsub size (GET_SIZE m1 prologue_header)) (WORD_SIZE * 2)
  let m2 := m61_set_header_and_footer m1 free_header free_header_size
    (PREV_ALLOC_BIT ||| NEXT_ALLOC_BIT)
  let m3 := SET_LIST_NEXT m2 free_header 0
  let m4 := SET_LIST_PREV m3 free_header 0
  let end_header := NEXT_FROM_HEADER m4 free_header
  let m5 := store64 m4 end_header 0
  let m6 := store64 m5 end_header (load64 m5 end_header ||| (ALLOC_BIT ||| NEXT_ALLOC_BIT))
  { mem := m6
    default_buffer := { buffer := buf, pos := 0, size := size }
    statistics := ⟨0, 0, 0, 0, 0, 0, 0, 0, UINTPTR_MAX, 0⟩
    free_list_start := free_header
    alloc_list_start := 0
    top_of_heap := prologue_header
    end_of_heap := end_header }

def m61_get_adjusted_size (sz : Nat) : Except Fault Nat := do
  let asize :=
    if sz ≤ MIN_PAYLOAD then MIN_BLOCK
    else
      let asize := wadd sz ALLOC_META_SIZE
      if asize % ALIGNMENT = 0 then asize
      else wsub (wadd asize ALIGNMENT) (asize % ALIGNMENT)
  c_assert (asize % ALIGNMENT = 0)
  pure asize

def m61_find_fit_loop (m : Mem) (asize : Nat) : Nat → Nat → Except Fault Nat
  | 0, _ => throw Fault.fuel
  | fuel + 1, header =>
    if header ≠ 0 then
      if GET_SIZE m header ≥ asize then pure header
      else m61_find_fit_loop m asize fuel (load64 m (LIST_NEXT m header))
    else pure 0

def m61_find_fit (fuel : Nat) (s : Heap) (asize : Nat) : Except Fault Nat :=
  m61_find_fit_loop s.mem asize fuel s.free_list_start

def m61_unstitch_list (s : Heap) (prev next : Nat) (list : ListRef) : Except Fault Heap := do
  let m := s.mem
  if list.get s = s.alloc_list_start then
    c_assert ((load64 m prev = 0 || IS_ALLOC m (load64 m prev))
      && (load64 m next = 0 || IS_ALLOC m (load64 m next)))
  else
    c_assert ((load64 m prev = 0 || !IS_ALLOC m (load64 m prev))
      && (load64 m next = 0 || !IS_ALLOC m (load64 m next)))
  if load64 m prev = 0 ∧ load64 m next ≠ 0 then
    let m1 := SET_LIST_PREV m (load64 m next) 0
    pure (list.set { s with mem := m1 } (load64 m1 next))
  else if load64 m prev ≠ 0 ∧ load64 m next = 0 then
    pure { s with mem := SET_LIST_NEXT m (load64 m prev) 0 }
  else if load64 m prev = 0 ∧ load64 m next = 0 then
    pure (list.set s 0)
  else
    let m1 := SET_LIST_NEXT m (load64 m prev) (load64 m next)
    pure { s with mem := SET_LIST_PREV m1 (load64 m1 next) (load64 m1 prev) }

def m61_push_to_front (s : Heap) (header list : Nat) : Except Fault Heap := do
  let prev_front := list
  c_assert (header ≠ list)
  if list = s.free_list_start then
    c_assert (!IS_ALLOC s.mem header)
  else
    c_assert (IS_ALLOC s.mem header)
  let m1 :=
    if prev_front = 0 then SET_LIST_NEXT s.mem header 0
    else SET_LIST_PREV (SET_LIST_NEXT s.mem header prev_front) prev_front header
  let m2 := SET_LIST_PREV m1 header 0
  if list = s.free_list_start then
    pure { s with mem := m2, free_list_start := header }
  else
    pure { s with mem := m2, alloc_list_start := header }

def m61_place (s : Heap) (header asize : Nat) : Except Fault Heap := do
  let prev_free := LIST_PREV s.mem header
  let next_free := LIST_NEXT s.mem header
  let s ← m61_unstitch_list s prev_free next_free .free_list
  let s ←
    if wsub (GET_SIZE s.mem header) asize ≥ MIN_BLOCK then do
      let new_free_size := wsub (GET_SIZE s.mem header) asize
      let new_free_header := INCREMENT_SIZE_T_PTR header asize
      let m1 := m61_set_header_and_footer s.mem new_free_header new_free_size
        (PREV_ALLOC_BIT ||| NEXT_ALLOC_BIT)
      let s ← m61_push_to_front { s with mem := m1 } new_free_header s.free_list_start
      let m2 := m61_set_header_and_footer s.mem header asize (ALLOC_BIT ||| PREV_ALLOC_BIT)
      pure { s with mem := m2 }
    else do
      let m1 := m61_set_header_and_footer s.mem header (GET_SIZE s.mem header)
        (ALLOC_BIT ||| PREV_ALLOC_BIT ||| NEXT_ALLOC_BIT)
      pure { s with mem := TOGGLE_NEXT_BITS m1 header PREV_ALLOC_BIT }
  let s := { s with mem := TOGGLE_PREV_BITS s.mem header NEXT_ALLOC_BIT }
  m61_push_to_front s header s.alloc_list_start

def set_footer_magic_number_loop (m : Mem) (footer_magic_number : Nat) : Nat → List Nat → Mem
  | _, [] => m
  | i, b :: bs =>
    set_footer_magic_number_loop (store8 m (wadd footer_magic_number i) b) footer_magic_number
      (i + 1) bs

def set_footer_magic_number (m : Mem) (header sz : Nat) : Mem :=
  set_footer_magic_number_loop m (wadd (wadd header (1 * WORD_SIZE)) sz) 0 magic_number

def check_footer_magic_number_loop (m : Mem) (footer_magic_number : Nat) : Nat → List Nat → Bool
  | _, [] => true
  | i, b :: bs =>
    if load8 m (wadd footer_magic_number i) ≠ b then false
    else check_footer_magic_number_loop m footer_magic_number (i + 1) bs

def check_footer_magic_number (m : Mem) (header sz : Nat) : Bool :=
  check_footer_magic_number_loop m (wadd (wadd header (1 * WORD_SIZE)) sz) 0 magic_number

/-- Conversion of an `int` to `unsigned int`. -/
def int_to_unsigned (i : Int) : Nat := (i % 4294967296).toNat

/-- Here `sz` is the caller's `size_t`, converted to the `unsigned int` parameter. -/
def m61_set_alloc_metadata (m : Mem) (header sz file : Nat) (line : Int) : Mem :=
  let sz := sz % 4294967296
  let m := SET_REQ_SIZE m header sz
  let m := set_footer_magic_number m header sz
  let m := SET_LINE_NUMBER m header (int_to_unsigned line)
  let m := SET_FILENAME m header file
  SET_HEADER_ADDR m header header

def m61_record_malloc (st : m61_statistics) (header sz : Nat) : m61_statistics :=
  let payload := GET_PAYLOAD header
  let st := { st with ntotal := wadd st.ntotal 1 }
  let st := { st with nactive := wadd st.nactive 1 }
  let st := { st with active_size := wadd st.active_size sz }
  let st := { st with total_size := wadd st.total_size sz }
  let heap_max := if wadd payload sz > st.heap_max then wadd payload sz else st.heap_max
  let st := { st with heap_max := heap_max }
  let heap_min := if payload < st.heap_min then payload else st.heap_min
  { st with heap_min := heap_min }

def m61_record_free (st : m61_statistics) (sz : Nat) : m61_statistics :=
  let st := { st with nfree := wadd st.nfree 1 }
  let st := { st with nactive := wsub st.nactive 1 }
  let st := { st with active_size := wsub st.active_size sz }
  { st with freed_size := wadd st.freed_size sz }

def m61_malloc_fail (s : Heap) (sz : Nat) : Heap :=
  { s with statistics :=
    { s.statistics with
      nfail := wadd s.statistics.nfail 1
      fail_size := wadd s.statistics.fail_size sz } }

def m61_malloc (fuel : Nat) (s : Heap) (sz file : Nat) (line : Int) :
    Except Fault (Nat × Heap) := do
  if sz = 0 then
    pure (0, s)
  else if sz > SIZE_MAX - (ALIGNMENT + ALLOC_META_SIZE) then
    pure (0, m61_malloc_fail s sz)
  else
    let asize ← m61_get_adjusted_size sz
    let header ← m61_find_fit fuel s asize
    if header ≠ 0 then
      c_assert (!IS_ALLOC s.mem header)
      let s ← m61_place s header asize
      c_assert (IS_ALLOC s.mem header)
      let s := { s with mem := m61_set_alloc_metadata s.mem header sz file line }
      let s := { s with statistics := m61_record_malloc s.statistics header sz }
      pure (GET_PAYLOAD header, s)
    else
      pure (0, m61_malloc_fail s sz)

def m61_is_free_block (m : Mem) (header : Nat) : Bool :=
  let footer := wsub (wadd header (WORD_SIZE * (GET_SIZE m header / WORD_SIZE))) (1 * WORD_SIZE)
  if HEADER_FROM_FOOTER m footer = header ∧ GET_SIZE m header ≠ 0 then
    if !IS_ALLOC m footer ∧ GET_SIZE m footer = GET_SIZE m header then true
    else false
  else false

def m61_validate_block_ptrs (m : Mem) (header : Nat) : Bool :=
  let next := LIST_NEXT m header
  let prev := LIST_PREV m header
  if load64 m next ≠ 0 ∧ load64 m (LIST_PREV m (load64 m next)) ≠ header then false
  else if load64 m prev ≠ 0 ∧ load64 m (LIST_NEXT m (load64 m prev)) ≠ header then false
  else true

def m61_contains_ptr_loop (m : Mem) (ptr_int : Nat) : Nat → Nat → Except Fault Nat
  | 0, _ => throw Fault.fuel
  | fuel + 1, block =>
    if block ≠ 0 then
      let req_size := load32 m (REQ_SIZE_FROM_HEADER m block)
      let payload := GET_PAYLOAD block
      if ptr_int > payload ∧ ptr_int < wadd payload req_size then pure block
      else m61_contains_ptr_loop m ptr_int fuel (load64 m (LIST_NEXT m block))
    else pure 0

def m61_contains_ptr (fuel : Nat) (s : Heap) (ptr : Nat) : Except Fault Nat :=
  m61_contains_ptr_loop s.mem ptr fuel s.alloc_list_start

/-- What `m61_validate_free` prints on standard error. -/
inductive Diagnostic where
  | not_in_heap
  | not_allocated
  /-- The line `not allocated` followed by `<file>:<line>: <p> is <diff> bytes inside a
  <size> byte region allocated here`. -/
  | not_allocated_inside (container_file container_line diff container_size : Nat)
  | double_free
  | wild_write
  deriving DecidableEq, Repr

/-- Returns the `bool` of the source and the diagnostic printed, if any. -/
def m61_validate_free (fuel : Nat) (s : Heap) (ptr : Nat) :
    Except Fault (Bool × Option Diagnostic) := do
  let m := s.mem
  let ptr_val := ptr
  let header := GET_HEADER_FROM_PAYLOAD ptr
  if ptr_val < s.statistics.heap_min ∨ ptr_val > s.statistics.heap_max then
    pure (false, some .not_in_heap)
  else if ptr_val % 16 ≠ 0 then
    pure (false, some .not_allocated)
  else if !IS_ALLOC m header then
    if m61_is_free_block m header then
      pure (false, some .double_free)
    else
      let footer := INCREMENT_SIZE_T_PTR header (GET_SIZE m header)
      if HEADER_FROM_FOOTER m footer ≠ header then
        let container ← m61_contains_ptr fuel s ptr
        if container ≠ 0 then
          let diff := wsub ptr_val (GET_PAYLOAD container)
          let container_file := load64 m (GET_FILENAME m container)
          let container_line := load32 m (GET_LINE_NUMBER m container)
          let container_size := load32 m (REQ_SIZE_FROM_HEADER m container)
          pure (false, some (.not_allocated_inside container_file container_line diff
            container_size))
        else
          pure (false, some .not_allocated)
      else
        throw Fault.assertion
  else
    if !check_footer_magic_number m header (load32 m (REQ_SIZE_FROM_HEADER m header)) then
      pure (false, some .wild_write)
    else if header ≠ load64 m (GET_HEADER_ADDR m header) then
      pure (false, some .not_allocated)
    else if !m61_validate_block_ptrs m header then
      pure (false, some .not_allocated)
    else
      pure (true, none)

def m61_coalesce_next (s : Heap) (header next : Nat) : Except Fault (Nat × Heap) := do
  let size := wadd (GET_SIZE s.mem header) (GET_SIZE s.mem next)
  let prev_free := LIST_PREV s.mem next
  let next_free := LIST_NEXT s.mem next
  let m1 := m61_set_header_and_footer s.mem header size (PREV_ALLOC_BIT ||| NEXT_ALLOC_BIT)
  let s ← m61_unstitch_list { s with mem := m1 } prev_free next_free .free_list
  pure (header, s)

def m61_coalesce_prev (s : Heap) (header prev : Nat) : Except Fault (Nat × Heap) := do
  let size := wadd (GET_SIZE s.mem header) (GET_SIZE s.mem prev)
  let prev_free := LIST_PREV s.mem prev
  let next_free := LIST_NEXT s.mem prev
  let m1 := m61_set_header_and_footer s.mem prev size (PREV_ALLOC_BIT ||| NEXT_ALLOC_BIT)
  let s ← m61_unstitch_list { s with mem := m1 } prev_free next_free .free_list
  pure (prev, s)

def m61_coalesce (s : Heap) (header : Nat) : Except Fault (Nat × Heap) := do
  let prev_alloc := IS_PREV_ALLOC s.mem header
  let next_alloc := IS_NEXT_ALLOC s.mem header
  let size := GET_SIZE s.mem header
  let prev := PREV_FROM_HEADER s.mem header
  let next := NEXT_FROM_HEADER s.mem header
  let (header, s) ←
    if prev_alloc ∧ next_alloc then do
      let m1 := m61_set_header_and_footer s.mem header size (PREV_ALLOC_BIT ||| NEXT_ALLOC_BIT)
      let m2 := TOGGLE_NEXT_BITS m1 header PREV_ALLOC_BIT
      let m3 := TOGGLE_PREV_BITS m2 header NEXT_ALLOC_BIT
      pure (header, { s with mem := m3 })
    else if prev_alloc ∧ !next_alloc then do
      let (header, s) ← m61_coalesce_next s header next
      pure (header, { s with mem := TOGGLE_PREV_BITS s.mem header NEXT_ALLOC_BIT })
    else if !prev_alloc ∧ next_alloc then do
      let (header, s) ← m61_coalesce_prev s header prev
      pure (header, { s with mem := TOGGLE_NEXT_BITS s.mem header PREV_ALLOC_BIT })
    else do
      let (header, s) ← m61_coalesce_prev s header prev
      m61_coalesce_next s header next
  let s ← m61_push_to_front s header s.free_list_start
  pure (header, s)

def m61_free (fuel : Nat) (s : Heap) (ptr : Nat) : Except Fault Heap := do
  if ptr = 0 then
    pure s
  else
    let (valid, _) ← m61_validate_free fuel s ptr
    if valid then
      let header := GET_HEADER_FROM_PAYLOAD ptr
      c_assert (IS_ALLOC s.mem header)
      let s ← m61_unstitch_list s (LIST_PREV s.mem header) (LIST_NEXT s.mem header) .alloc_list
      let requested_size := load32 s.mem (REQ_SIZE_FROM_HEADER s.mem header)
      let (header, s) ← m61_coalesce s header
      c_assert (!IS_ALLOC s.mem header)
      pure { s with statistics := m61_record_free s.statistics requested_size }
    else
      pure s

def m61_calloc (fuel : Nat) (s : Heap) (count sz file : Nat) (line : Int) :
    Except Fault (Nat × Heap) := do
  if count = 0 then
    pure (0, s)
  else if sz > SIZE_MAX / count then
    pure (0, m61_malloc_fail s sz)
  else
    let (ptr, s) ← m61_malloc fuel s (count * sz % 18446744073709551616) file line
    if ptr ≠ 0 then
      pure (ptr, { s with mem := memset s.mem ptr 0 (count * sz % 18446744073709551616) })
    else
      pure (ptr, s)

/-- The common tail of the in-place expansions of `m61_realloc`: the statements after the
`if`/`else` ladder, preceded by the `m61_record_free(old_req_size)` that closes the
expansion branch. -/
def m61_realloc_finish (s : Heap) (new_payload old_req_size new_size file : Nat) (line : Int) :
    Except Fault (Nat × Heap) := do
  let s := { s with statistics := m61_record_free s.statistics old_req_size }
  c_assert (new_payload ≠ 0)
  let h := GET_HEADER_FROM_PAYLOAD new_payload
  let s := { s with mem := m61_set_alloc_metadata s.mem h new_size file line }
  let s ← m61_push_to_front s h s.alloc_list_start
  let s := { s with statistics := m61_record_malloc s.statistics h new_size }
  c_assert (load32 s.mem (REQ_SIZE_FROM_PAYLOAD s.mem new_payload) = new_size)
  pure (new_payload, s)

/-- The body of `m61_realloc`, with the library routine behind its three `memcpy` calls as
the parameter `copy`: two of the calls (`m61.cc` 602 and 633) are made on ranges that may
overlap, where the C library does not define what `memcpy` does. -/
def m61_realloc_with (copy : Mem → Nat → Nat → Nat → Mem) (fuel : Nat) (s : Heap)
    (ptr new_size file : Nat) (line : Int) : Except Fault (Nat × Heap) := do
  if ptr = 0 then
    m61_malloc fuel s new_size file line
  else if new_size = 0 then
    pure (0, s)
  else if new_size > SIZE_MAX - ALIGNMENT then
    pure (0, m61_malloc_fail s new_size)
  else
    let asize ← m61_get_adjusted_size new_size
    let (valid, _) ← m61_validate_free fuel s ptr
    if valid then
      let old_header := GET_HEADER_FROM_PAYLOAD ptr
      let old_req_size := load32 s.mem (REQ_SIZE_FROM_HEADER s.mem old_header)
      let old_size := GET_SIZE s.mem old_header
      let prev := PREV_FROM_HEADER s.mem old_header
      let next := NEXT_FROM_HEADER s.mem old_header
      let prev_avail := if IS_PREV_ALLOC s.mem old_header then 0 else GET_SIZE s.mem prev
      let next_avail := if IS_NEXT_ALLOC s.mem old_header then 0 else GET_SIZE s.mem next
      if new_size > old_req_size then
        -- expanding the allocation
        if wadd prev_avail old_size ≥ asize
            ∧ wsub prev_avail (wsub asize old_size) ≥ MIN_BLOCK then
          -- sufficient space by coalescing with previous block
          let s ← m61_unstitch_list s (LIST_PREV s.mem old_header) (LIST_NEXT s.mem old_header)
            .alloc_list
          let new_free_size := wsub prev_avail (wsub asize old_size)
          let next_new_bits := GET_BITS s.mem prev
          let new_bits := if IS_ALLOC s.mem next then ALLOC_BIT ||| NEXT_ALLOC_BIT else ALLOC_BIT
          let (new_free_header, s) ← m61_coalesce_prev s old_header prev
          let m1 := m61_set_header_and_footer s.mem new_free_header new_free_size next_new_bits
          let new_header := NEXT_FROM_HEADER m1 new_free_header
          let m2 := m61_set_header_and_footer m1 new_header asize new_bits
          let new_payload := GET_PAYLOAD new_header
          let m3 := copy m2 new_payload ptr old_req_size
          let s ← m61_push_to_front { s with mem := m3 } new_free_header s.free_list_start
          m61_realloc_finish s new_payload old_req_size new_size file line
        else if wadd next_avail old_size ≥ asize
            ∧ wsub next_avail (wsub asize old_size) ≥ MIN_BLOCK then
          -- sufficient space by coalescing with next block
          let s ← m61_unstitch_list s (LIST_PREV s.mem old_header) (LIST_NEXT s.mem old_header)
            .alloc_list
          let new_free_size := wsub next_avail (wsub asize old_size)
          let new_bits := if IS_ALLOC s.mem prev then ALLOC_BIT ||| PREV_ALLOC_BIT else ALLOC_BIT
          let next_new_bits := GET_BITS s.mem next
          let (new_header, s) ← m61_coalesce_next s old_header next
          let m1 := m61_set_header_and_footer s.mem new_header asize new_bits
          let m2 := m61_set_header_and_footer m1 (NEXT_FROM_HEADER m1 new_header) new_free_size
            next_new_bits
          let new_payload := GET_PAYLOAD new_header
          let s ← m61_push_to_front { s with mem := m2 } (NEXT_FROM_HEADER m2 new_header)
            s.free_list_start
          m61_realloc_finish s new_payload old_req_size new_size file line
        else if wadd (wadd prev_avail next_avail) old_size ≥ asize
            ∧ wsub next_avail (wsub (wsub asize old_size) prev_avail) ≥ MIN_BLOCK then
          -- sufficient space by using the entire previous block and some of next block
          let s ← m61_unstitch_list s (LIST_PREV s.mem old_header) (LIST_NEXT s.mem old_header)
            .alloc_list
          let new_free_size := wsub next_avail (wsub (wsub asize old_size) prev_avail)
          let new_bits := ALLOC_BIT ||| PREV_ALLOC_BIT
          let next_new_bits := GET_BITS s.mem next
          let (new_header, s) ← m61_coalesce_prev s old_header prev
          let (new_header, s) ← m61_coalesce_next s new_header next
          let m1 := m61_set_header_and_footer s.mem new_header asize new_bits
          let m2 := m61_set_header_and_footer m1 (NEXT_FROM_HEADER m1 new_header) new_free_size
            next_new_bits
          let new_payload := GET_PAYLOAD new_header
          let m3 := copy m2 new_payload ptr old_req_size
          let m4 := TOGGLE_PREV_BITS m3 new_header NEXT_ALLOC_BIT
          let s ← m61_push_to_front { s with mem := m4 } (NEXT_FROM_HEADER m4 new_header)
            s.free_list_start
          m61_realloc_finish s new_payload old_req_size new_size file line
        else
          -- no space for the new block here, just free and make a new allocation
          let (new_payload, s) ← m61_malloc fuel s new_size file line
          -- `memcpy` into the null page traps
          if new_payload = 0 ∧ old_req_size ≠ 0 then throw Fault.segfault
          let m1 := copy s.mem new_payload ptr old_req_size
          let s ← m61_free fuel { s with mem := m1 } ptr
          pure (new_payload, s)
      else if new_size < old_size then
        -- contracting the allocation
        if wsub old_size asize ≥ MIN_BLOCK then
          let is_next_alloc := IS_ALLOC s.mem next
          let new_free_size := wsub old_size asize
          let new_bits := if IS_ALLOC s.mem prev then ALLOC_BIT ||| PREV_ALLOC_BIT else ALLOC_BIT
          let m1 := m61_set_header_and_footer s.mem old_header asize new_bits
          let next := NEXT_FROM_HEADER m1 old_header
          let next_new_bits :=
            if is_next_alloc then PREV_ALLOC_BIT ||| NEXT_ALLOC_BIT else PREV_ALLOC_BIT
          let m2 := m61_set_header_and_footer m1 next new_free_size next_new_bits
          let s := { s with mem := m2 }
          let s ← if !is_next_alloc then (do let (_, s) ← m61_coalesce s next; pure s) else pure s
          let m3 := m61_set_header_and_footer s.mem old_header asize new_bits
          let m4 := m61_set_alloc_metadata m3 (GET_HEADER_FROM_PAYLOAD ptr) new_size file line
          let s := { s with mem := m4, statistics := m61_record_free s.statistics new_free_size }
          pure (ptr, s)
        else
          pure (ptr, s)
      else
        pure (ptr, s)
    else
      pure (0, s)

/-- `m61_realloc` linked with a `memcpy` that copies in ascending address order. -/
def m61_realloc (fuel : Nat) (s : Heap) (ptr new_size file : Nat) (line : Int) :
    Except Fault (Nat × Heap) :=
  m61_realloc_with memcpy fuel s ptr new_size file line

/-- The loop of `m61_print_heap`, from `block` on: it stops at the first header with size 0
and `ALLOC` set (the epilogue) and moves on with `NEXT_FROM_HEADER` otherwise; yields the
headers of the blocks it prints, in order. -/
def m61_print_heap_loop (m : Mem) : Nat → Nat → Except Fault (List Nat)
  | 0, _ => throw Fault.fuel
  | fuel + 1, block =>
    if GET_SIZE m block = 0 ∧ IS_ALLOC m block = true then pure []
    else do
      let rest ← m61_print_heap_loop m fuel (NEXT_FROM_HEADER m block)
      pure (block :: rest)

def m61_print_heap (fuel : Nat) (s : Heap) : Except Fault (List Nat) :=
  m61_print_heap_loop s.mem fuel (NEXT_FROM_HEADER s.mem s.top_of_heap)

/-! ## Specification-side definitions -/

/-- The block size the specification asks for: `MIN_BLOCK` for requests of at most
`MIN_PAYLOAD` bytes, otherwise `sz + ALLOC_META_SIZE` rounded up to a multiple of 16,
computed in unbounded arithmetic. -/
def adjusted_size_value (sz : Nat) : Nat :=
  if sz ≤ 16 then 80 else if (sz + 64) % 16 = 0 then sz + 64 else sz + 64 + 16 - (sz + 64) % 16

/-- The state after the `fail:` label of `m61_malloc`, written out field by field. -/
def failed_request (s : Heap) (sz : Nat) : Heap :=
  { mem := s.mem
    default_buffer := s.default_buffer
    statistics :=
      { nactive := s.statistics.nactive
        active_size := s.statistics.active_size
        nfree := s.statistics.nfree
        freed_size := s.statistics.freed_size
        ntotal := s.statistics.ntotal
        total_size := s.statistics.total_size
        nfail := (s.statistics.nfail + 1) % 18446744073709551616
        fail_size := (s.statistics.fail_size + sz) % 18446744073709551616
        heap_min := s.statistics.heap_min
        heap_max := s.statistics.heap_max }
    free_list_start := s.free_list_start
    alloc_list_start := s.alloc_list_start
    top_of_heap := s.top_of_heap
    end_of_heap := s.end_of_heap }

/-! ## Concrete runs -/

/-- The address `mmap` returned in the concrete runs (page aligned). -/
abbrev arena_base : Nat := 65536

/-- Step budget of the concrete runs; the arena holds fewer than 104858 blocks. -/
abbrev run_fuel : Nat := 200000

/-- Address of the caller's file-name string in the concrete runs. -/
abbrev file_name : Nat := 4202496

deriving instance DecidableEq for Except

/-- `p1 = malloc(100); p2 = malloc(100); p3 = malloc(8388160); free(p1); free(p2)` on a fresh
arena; yields `p2`, `p3` and the state reached. The third request takes the whole remaining
free block, so the free list is empty before the two frees. -/
def run_free_twice : Except Fault (Nat × Nat × Heap) := do
  let s := m61_memory_buffer_init arena_base
  let (p1, s) ← m61_malloc run_fuel s 100 file_name 10
  let (p2, s) ← m61_malloc run_fuel s 100 file_name 11
  let (p3, s) ← m61_malloc run_fuel s 8388160 file_name 12
  let s ← m61_free run_fuel s p1
  let s ← m61_free run_fuel s p2
  pure (p2, p3, s)

/-- `p0 = malloc(100); p1 = malloc(100); free(p0); free(p1); p = malloc(200);
q = realloc(p, 100)` on a fresh arena; yields `p`, `q` and the state reached. -/
def run_shrink : Except Fault (Nat × Nat × Heap) := do
  let s := m61_memory_buffer_init arena_base
  let (p0, s) ← m61_malloc run_fuel s 100 file_name 10
  let (p1, s) ← m61_malloc run_fuel s 100 file_name 11
  let s ← m61_free run_fuel s p0
  let s ← m61_free run_fuel s p1
  let (p, s) ← m61_malloc run_fuel s 200 file_name 12
  let (q, s) ← m61_realloc run_fuel s p 100 file_name 13
  pure (p, q, s)


/-! ## Lists and heap layout -/

/-- Following `LIST_NEXT` from `a` visits exactly the blocks `l`, none of them null, and
then reaches null. -/
def list_walk (m : Mem) : Nat → List Nat → Prop
  | a, [] => a = 0
  | a, h :: t => a = h ∧ h ≠ 0 ∧ list_walk m (load64 m (LIST_NEXT m h)) t

def list_walk_decidable (m : Mem) : (a : Nat) → (l : List Nat) → Decidable (list_walk m a l)
  | a, [] => inferInstanceAs (Decidable (a = 0))
  | _, _ :: t =>
    @instDecidableAnd _ _ _ (@instDecidableAnd _ _ _ (list_walk_decidable m _ t))

instance (m : Mem) (a : Nat) (l : List Nat) : Decidable (list_walk m a l) :=
  list_walk_decidable m a l

/-- A doubly linked list: `list_walk` from `a` through `l`, where moreover the `LIST_PREV`
slot of every block holds its predecessor (`p` for the first one). -/
def dlist (m : Mem) : Nat → Nat → List Nat → Prop
  | _, a, [] => a = 0
  | p, a, h :: t =>
    a = h ∧ h ≠ 0 ∧ load64 m (LIST_PREV m h) = p ∧ dlist m h (load64 m (LIST_NEXT m h)) t

def dlist_decidable (m : Mem) : (p a : Nat) → (l : List Nat) → Decidable (dlist m p a l)
  | _, a, [] => inferInstanceAs (Decidable (a = 0))
  | _, _, _ :: t =>
    @instDecidableAnd _ _ _ (@instDecidableAnd _ _ _ (@instDecidableAnd _ _ _
      (dlist_decidable m _ _ t)))

instance (m : Mem) (p a : Nat) (l : List Nat) : Decidable (dlist m p a l) :=
  dlist_decidable m p a l

/-- One block of the arena: the address of its header word, its size in bytes and whether
it is allocated. -/
structure Block where
  addr : Nat
  size : Nat
  alloc : Bool
  deriving DecidableEq, Repr

/-- The blocks `bs` lie one after the other from address `a` up to address `e`. -/
def tiles : Nat → List Block → Nat → Prop
  | a, [], e => a = e
  | a, b :: bs, e => b.addr = a ∧ tiles (a + b.size) bs e

def tiles_decidable : (a : Nat) → (bs : List Block) → (e : Nat) → Decidable (tiles a bs e)
  | a, [], e => inferInstanceAs (Decidable (a = e))
  | a, b :: bs, e => @instDecidableAnd _ _ _ (tiles_decidable (a + b.size) bs e)

instance (a : Nat) (bs : List Block) (e : Nat) : Decidable (tiles a bs e) :=
  tiles_decidable a bs e

/-- Header and footer of `b` carry its size, and the header its `ALLOC` bit. -/
def block_ok (m : Mem) (b : Block) : Prop :=
  b.size % 16 = 0 ∧ MIN_BLOCK ≤ b.size ∧ GET_SIZE m b.addr = b.size ∧
    IS_ALLOC m b.addr = b.alloc ∧ GET_SIZE m (b.addr + b.size - 8) = b.size

instance (m : Mem) (b : Block) : Decidable (block_ok m b) := by
  unfold block_ok
  infer_instance

/-- The `PREV_ALLOC` and `NEXT_ALLOC` bits of every block agree with the `ALLOC` state of
its neighbours in arena order; `pa` is the state of the block before the first one, and the
block after the last one (the epilogue) counts as allocated. -/
def flags_ok (m : Mem) : Bool → List Block → Prop
  | _, [] => True
  | pa, b :: bs =>
    IS_PREV_ALLOC m b.addr = pa ∧
    IS_NEXT_ALLOC m b.addr = (match bs with | [] => true | n :: _ => n.alloc) ∧
    flags_ok m b.alloc bs

def flags_ok_decidable (m : Mem) : (pa : Bool) → (bs : List Block) → Decidable (flags_ok m pa bs)
  | _, [] => inferInstanceAs (Decidable True)
  | _, b :: bs =>
    @instDecidableAnd _ _ _ (@instDecidableAnd _ _ _ (flags_ok_decidable m b.alloc bs))

instance (m : Mem) (pa : Bool) (bs : List Block) : Decidable (flags_ok m pa bs) :=
  flags_ok_decidable m pa bs

/-- A well-formed heap: `bs` are the blocks between prologue and epilogue in arena order,
`fl` the free list and `al` the alloc list in list order. -/
structure WellFormed (s : Heap) (bs fl al : List Block) : Prop where
  base_aligned : s.default_buffer.buffer % 16 = 0
  base_pos : 0 < s.default_buffer.buffer
  size_eq : s.default_buffer.size = 8388608
  in_space : s.default_buffer.buffer + s.default_buffer.size < 18446744073709551616
  prologue_footer : GET_SIZE s.mem (s.default_buffer.buffer + 16) = 16
  tiling : tiles (s.default_buffer.buffer + 24) bs
    (s.default_buffer.buffer + s.default_buffer.size - 8)
  blocks : ∀ b ∈ bs, block_ok s.mem b
  flags : flags_ok s.mem true bs
  free_list : dlist s.mem 0 s.free_list_start (fl.map Block.addr)
  free_sub : ∀ b ∈ fl, b ∈ bs ∧ b.alloc = false
  free_all : ∀ b ∈ bs, b.alloc = false → b ∈ fl
  free_nodup : fl.Nodup
  alloc_list : dlist s.mem 0 s.alloc_list_start (al.map Block.addr)
  alloc_sub : ∀ b ∈ al, b ∈ bs ∧ b.alloc = true
  alloc_all : ∀ b ∈ bs, b.alloc = true → b ∈ al
  alloc_nodup : al.Nodup

/-- The state after `p1 = malloc(100); p2 = malloc(100)` on a fresh arena (the fresh arena
itself if a call aborted). -/
def two_blocks : Heap :=
  match (do
    let (_, s) ← m61_malloc run_fuel (m61_memory_buffer_init arena_base) 100 file_name 10
    let (_, s) ← m61_malloc run_fuel s 100 file_name 11
    pure s : Except Fault Heap) with
  | .ok s => s
  | .error _ => m61_memory_buffer_init arena_base

/-- The first member of `l` whose block size is at least `asize`, null if there is none. -/
def first_fit (m : Mem) (asize : Nat) : List Nat → Nat
  | [] => 0
  | h :: t => if GET_SIZE m h ≥ asize then h else first_fit m asize t

/-- The statistics after a successful allocation of `sz` bytes at payload address `q`, as
the specification states them (counters are 64-bit). -/
def recorded_malloc (st : m61_statistics) (q sz : Nat) : m61_statistics :=
  { nactive := (st.nactive + 1) % 18446744073709551616
    active_size := (st.active_size + sz) % 18446744073709551616
    nfree := st.nfree
    freed_size := st.freed_size
    ntotal := (st.ntotal + 1) % 18446744073709551616
    total_size := (st.total_size + sz) % 18446744073709551616
    nfail := st.nfail
    fail_size := st.fail_size
    heap_min := min st.heap_min q
    heap_max := max st.heap_max (q + sz) }

/-- The state after `malloc(100)` on a fresh arena (the fresh arena if the call aborted). -/
def one_block : Heap :=
  match m61_malloc run_fuel (m61_memory_buffer_init arena_base) 100 file_name 10 with
  | .ok (_, s) => s
  | .error _ => m61_memory_buffer_init arena_base

/-- What `m61_unstitch_list`, `m61_push_to_front`, `m61_place` and `m61_coalesce` leave
alone: everything but the arena words and the two list heads. -/
def same_globals (s t : Heap) : Prop :=
  t.statistics = s.statistics ∧ t.default_buffer = s.default_buffer ∧
    t.top_of_heap = s.top_of_heap ∧ t.end_of_heap = s.end_of_heap


/-! ## Notions used in the proofs about `m61_place` and `m61_free` -/

/-- A doubly linked list described relative to a layout: the blocks `l` are visited from `a`,
the word at `size - 24` of each block holds its predecessor (`p` for the first) and the word
at `size - 16` its successor (`z` for the last). -/
def links (m : Mem) : Nat → Nat → List Block → Nat → Prop
  | _, a, [], z => a = z
  | p, a, b :: t, z =>
    a = b.addr ∧ load64 m (b.addr + b.size - 24) = p ∧
      links m b.addr (load64 m (b.addr + b.size - 16)) t z

/-- Address of the first block of `l`, or `z` when `l` is empty. -/
def first_addr (l : List Block) (z : Nat) : Nat :=
  match l with
  | [] => z
  | b :: _ => b.addr

/-- Address of the last block of `l`, or `p` when `l` is empty. -/
def last_addr (p : Nat) : List Block → Nat
  | [] => p
  | b :: t => last_addr b.addr t

/-- Alignment and extent of a block. -/
def block_geom (b : Block) : Prop :=
  0 < b.addr ∧ b.addr % 8 = 0 ∧ b.size % 8 = 0 ∧ 80 ≤ b.size ∧
    b.addr + b.size < 18446744073709551616

/-- The two blocks do not overlap. -/
def apart (x y : Block) : Prop :=
  x.addr + x.size ≤ y.addr ∨ y.addr + y.size ≤ x.addr

/-- The memory `m'` differs from `m` at most as follows: the aligned words listed in `W` may
hold anything, the aligned words listed in `T` keep their size field and `ALLOC` bit, every
other aligned word is unchanged. -/
def eff (W T : List Nat) (m m' : Mem) : Prop :=
  ∀ w, w % 8 = 0 → w ∉ W →
    GET_SIZE m' w = GET_SIZE m w ∧ IS_ALLOC m' w = IS_ALLOC m w ∧
      (w ∉ T → load64 m' w = load64 m w)

/-- The `ALLOC` bit that members of the designated list carry. -/
def ListRef.allocated : ListRef → Bool
  | .free_list => false
  | .alloc_list => true

/-! ## Further concrete runs -/

/-- The state after `p = malloc(100)` on a fresh arena in which the caller has then stored
the words `16` at `p + 8` and `24` at `p + 24` of the payload. -/
def forged_free_header : Heap :=
  { one_block with
    mem := store64 (store64 one_block.mem (arena_base + 32 + 8) 16) (arena_base + 32 + 24) 24 }

/-- `p = malloc(100); q = realloc(p, new_size)` on a fresh arena; yields `p`, the state
before the `realloc`, and its outcome. -/
def run_grow (new_size : Nat) : Except Fault (Nat × Heap × Except Fault (Nat × Heap)) := do
  let s := m61_memory_buffer_init arena_base
  let (p, s) ← m61_malloc run_fuel s 100 file_name 10
  pure (p, s, m61_realloc run_fuel s p new_size file_name 11)

/-- `a = malloc(100); b = malloc(176); c = malloc(100); free(b); p = malloc(100); free(a);
p[56] = 85; q = realloc(p, 101)` on a fresh arena. The freed block of `b` (240 bytes) is
reused whole for `p`, and `a` leaves a free block right before it. Yields `p`, `q`, the
requested size recorded for `p` and the byte `p[56]` before the `realloc`, and the byte
`q[56]` after it. -/
def run_grow_overlap : Except Fault (Nat × Nat × Nat × Nat × Nat) := do
  let s := m61_memory_buffer_init arena_base
  let (a, s) ← m61_malloc run_fuel s 100 file_name 10
  let (b, s) ← m61_malloc run_fuel s 176 file_name 11
  let (_, s) ← m61_malloc run_fuel s 100 file_name 12
  let s ← m61_free run_fuel s b
  let (p, s) ← m61_malloc run_fuel s 100 file_name 13
  let s ← m61_free run_fuel s a
  let s := { s with mem := store8 s.mem (p + 56) 85 }
  let old_req := load32 s.mem (REQ_SIZE_FROM_PAYLOAD s.mem p)
  let before := load8 s.mem (p + 56)
  let (q, s) ← m61_realloc run_fuel s p 101 file_name 14
  pure (p, q, old_req, before, load8 s.mem (q + 56))

/-- The run `run_shrink` followed by `r = realloc(p, k)`; yields `p`, then what the state
before the second `realloc` records for the block of `p` (requested size, block size,
`PREV_ALLOC`, `NEXT_ALLOC`, size of the block after it), then `r`. -/
def run_shrink_then (k : Nat) : Except Fault (Nat × List Nat × Bool × Bool × Nat) := do
  let (p, _, s) ← run_shrink
  let h := GET_HEADER_FROM_PAYLOAD p
  let (r, _) ← m61_realloc run_fuel s p k file_name 14
  pure (p, [load32 s.mem (REQ_SIZE_FROM_HEADER s.mem h), GET_SIZE s.mem h,
    GET_SIZE s.mem (NEXT_FROM_HEADER s.mem h)], IS_PREV_ALLOC s.mem h, IS_NEXT_ALLOC s.mem h, r)

/-- The state after `p = malloc(100)` on a fresh arena in which the caller has then written
a zero byte at `p[100]`, one past the allocation. -/
def overrun_block : Heap :=
  { one_block with mem := store8 one_block.mem (arena_base + 32 + 100) 0 }

/-- `a = malloc(144)` with file pointer `128`; `b = malloc(100)`; `free(a)`; `free(b)`;
`d = malloc(176)` with file pointer `40`; `free(d)`; `e = malloc(179)`; `free(b)` again;
`q = malloc(16)`, all on a fresh arena and with line number `0`. Yields `b`, the verdict of
`m61_validate_free` on `b` right before the second `free(b)`, and `q`. The block of `a` ends
where the block of `b` starts, at `arena_base + 232`; the block of `d` puts its file slot in
the word before that address and the block of `e` its requested-size slot at that address,
and the file slot of `a` is at `arena_base + 192`. -/
def run_misaligned : Except Fault (Nat × (Bool × Option Diagnostic) × Nat) := do
  let s := m61_memory_buffer_init arena_base
  let (a, s) ← m61_malloc run_fuel s 144 128 0
  let (b, s) ← m61_malloc run_fuel s 100 file_name 0
  let s ← m61_free run_fuel s a
  let s ← m61_free run_fuel s b
  let (d, s) ← m61_malloc run_fuel s 176 40 0
  let s ← m61_free run_fuel s d
  let (_, s) ← m61_malloc run_fuel s 179 file_name 0
  let v ← m61_validate_free run_fuel s b
  let s ← m61_free run_fuel s b
  let (q, _) ← m61_malloc run_fuel s 16 file_name 0
  pure (b, v, q)

/-- The `NEXT_ALLOC` bit of the prologue header and the `PREV_ALLOC` bit of the epilogue
header agree with the `ALLOC` state of the first and of the last block of the layout. -/
def sentinels_ok (s : Heap) (bs : List Block) : Prop :=
  (∀ b ∈ bs, b.addr = s.default_buffer.buffer + 24 →
    IS_NEXT_ALLOC s.mem (s.default_buffer.buffer + 8) = b.alloc) ∧
  (∀ b ∈ bs, b.addr + b.size = s.default_buffer.buffer + 8388600 →
    IS_PREV_ALLOC s.mem (s.default_buffer.buffer + 8388600) = b.alloc)

instance (s : Heap) (bs : List Block) : Decidable (sentinels_ok s bs) := by
  unfold sentinels_ok
  infer_instance

/-! ## Test programs -/

/-- Calls `m61_malloc(sz)` for each `sz` of the list in order; yields the returned pointers. -/
def malloc_each (s : Heap) : List Nat → Except Fault (List Nat × Heap)
  | [] => pure ([], s)
  | sz :: szs => do
    let (p, s) ← m61_malloc run_fuel s sz file_name 10
    let (ps, s) ← malloc_each s szs
    pure (p :: ps, s)

/-- Calls `m61_free(p)` for each `p` of the list in order; yields what `m61_validate_free`
says about each pointer at the moment of its call. -/
def free_each (s : Heap) : List Nat → Except Fault (List (Bool × Option Diagnostic) × Heap)
  | [] => pure ([], s)
  | p :: ps => do
    let v ← m61_validate_free run_fuel s p
    let s ← m61_free run_fuel s p
    let (vs, s) ← free_each s ps
    pure (v :: vs, s)

/-- The caller stores the byte `i + 1` at `p[i]` for every `i < n`. -/
def fill_payload (m : Mem) (p : Nat) : Nat → Mem
  | 0 => m
  | n + 1 => store8 (fill_payload m p n) (p + n) (n + 1)

/-- The bytes `p[0], ..., p[n - 1]`. -/
def payload_bytes (m : Mem) (p n : Nat) : List Nat :=
  (List.range n).map (fun i => load8 m (p + i))

/-- `p = malloc(200); q = realloc(p, 100)` on a fresh arena; yields `p`, `q` and the state
reached. -/
def run_shrink_fresh : Except Fault (Nat × Nat × Heap) := do
  let s := m61_memory_buffer_init arena_base
  let (p, s) ← m61_malloc run_fuel s 200 file_name 10
  let (q, s) ← m61_realloc run_fuel s p 100 file_name 11
  pure (p, q, s)

/-- The program of `test55.cc` up to the `realloc`, on a fresh arena: ten `malloc(100)`,
`free(ptrs[3])`, `free(ptrs[4])`, then (added here, to observe the copy) the caller fills
`ptrs[5][0..99]` with the bytes `1..100`, then `realloced = realloc(ptrs[5], 150)`, with
`copy` as the library's `memcpy`. Yields the ten pointers, `realloced`, and the states before
and after the `realloc`. -/
def run_test55_with (copy : Mem → Nat → Nat → Nat → Mem) :
    Except Fault (List Nat × Nat × Heap × Heap) := do
  let s := m61_memory_buffer_init arena_base
  let (ptrs, s) ← malloc_each s (List.replicate 10 100)
  let s ← m61_free run_fuel s (ptrs.getD 3 0)
  let s ← m61_free run_fuel s (ptrs.getD 4 0)
  let s := { s with mem := fill_payload s.mem (ptrs.getD 5 0) 100 }
  let (realloced, t) ← m61_realloc_with copy run_fuel s (ptrs.getD 5 0) 150 file_name 11
  pure (ptrs, realloced, s, t)

/-- The run `run_test55_with` with a `memcpy` that copies in ascending address order. -/
def run_test55 : Except Fault (List Nat × Nat × Heap × Heap) :=
  run_test55_with memcpy

/-- The first four calls of `test56.cc` on a fresh arena: `ptr1 = malloc(100);
ptr2 = malloc(100); ptr3 = malloc(8 << 19); ptr4 = realloc(ptr2, 500)`. Yields the four
pointers and the states before and after the `realloc`. -/
def run_test56 : Except Fault (List Nat × Heap × Heap) := do
  let s := m61_memory_buffer_init arena_base
  let (ptr1, s) ← m61_malloc run_fuel s 100 file_name 10
  let (ptr2, s) ← m61_malloc run_fuel s 100 file_name 11
  let (ptr3, s) ← m61_malloc run_fuel s (8 <<< 19) file_name 12
  let (ptr4, t) ← m61_realloc run_fuel s ptr2 500 file_name 13
  pure ([ptr1, ptr2, ptr3, ptr4], s, t)

/-- What `realloc(ptr, new_size)` does on its last path: `new = malloc(new_size);
memcpy(new, ptr, old_req_size); free(ptr); return new`. -/
def realloc_by_copy (s : Heap) (ptr new_size old_req_size file : Nat) (line : Int) :
    Except Fault (Nat × Heap) := do
  let (new_payload, s) ← m61_malloc run_fuel s new_size file line
  let s ← m61_free run_fuel { s with mem := memcpy s.mem new_payload ptr old_req_size } ptr
  pure (new_payload, s)

/-- The program of `test58.cc` on a fresh arena: `ptrs[i] = malloc(i + 1)` for `i < 10`, then
`free(ptrs[i])` for `i < 5`. Yields the ten pointers and the state reached. -/
def run_test58 : Except Fault (List Nat × Heap) := do
  let s := m61_memory_buffer_init arena_base
  let (ptrs, s) ← malloc_each s [1, 2, 3, 4, 5, 6, 7, 8, 9, 10]
  let (_, s) ← free_each s (ptrs.take 5)
  pure (ptrs, s)

/-- `x = malloc(200); y = malloc(100); q = realloc(x, 100)` on a fresh arena: the block of
`x` is followed by the allocated block of `y` when it is shrunk. Yields `x`, `y`, `q` and the
states before and after the `realloc`. -/
def run_shrink_tail : Except Fault (Nat × Nat × Nat × Heap × Heap) := do
  let s := m61_memory_buffer_init arena_base
  let (x, s) ← m61_malloc run_fuel s 200 file_name 10
  let (y, s) ← m61_malloc run_fuel s 100 file_name 11
  let (q, t) ← m61_realloc run_fuel s x 100 file_name 12
  pure (x, y, q, s, t)

/-- `a = malloc(200); b = malloc(100); c = malloc(100); free(a); x = malloc(200);
q = realloc(x, 100)` on a fresh arena: `x` reuses the whole block of `a`, so the alloc list is
`x, c, b` and the block of `x` is followed by the block of `b` when it is shrunk. Yields
`[a, b, c, x, q]` and the states before and after the `realloc`. -/
def run_shrink_reuse : Except Fault (List Nat × Heap × Heap) := do
  let s := m61_memory_buffer_init arena_base
  let (a, s) ← m61_malloc run_fuel s 200 file_name 10
  let (b, s) ← m61_malloc run_fuel s 100 file_name 11
  let (c, s) ← m61_malloc run_fuel s 100 file_name 12
  let s ← m61_free run_fuel s a
  let (x, s) ← m61_malloc run_fuel s 200 file_name 13
  let (q, t) ← m61_realloc run_fuel s x 100 file_name 14
  pure ([a, b, c, x, q], s, t)

/-- The run `run_free_twice` followed by a second `free(p2)`; yields the verdict of
`m61_validate_free` on `p2` right before that call and the state reached. -/
def run_free_again : Except Fault ((Bool × Option Diagnostic) × Heap) := do
  let (p2, _, s) ← run_free_twice
  let v ← m61_validate_free run_fuel s p2
  let s ← m61_free run_fuel s p2
  pure (v, s)

/-- The state that `run_free_again` reaches (the fresh arena if a call aborted). -/
def free_again_state : Heap :=
  match run_free_again with
  | .ok (_, s) => s
  | .error _ => m61_memory_buffer_init arena_base

/-! ## Notions used in the proofs about `m61_coalesce` -/

/-- The memory `m'` differs from `m` at most as follows: aligned words satisfying `P` may
hold anything, aligned words satisfying `Q` keep their size field and `ALLOC` bit, every
other aligned word is unchanged. -/
def effp (P Q : Nat → Prop) (m m' : Mem) : Prop :=
  ∀ w, w % 8 = 0 → ¬ P w →
    GET_SIZE m' w = GET_SIZE m w ∧ IS_ALLOC m' w = IS_ALLOC m w ∧
      (¬ Q w → load64 m' w = load64 m w)

/-- The blocks `l` form, in this order, the doubly linked list that starts at `start`, and
each of them has its size in its header, with `ALLOC` clear. -/
def free_state (m : Mem) (start : Nat) (l : List Block) : Prop :=
  links m 0 start l 0 ∧
    (∀ b ∈ l, block_geom b ∧ GET_SIZE m b.addr = b.size ∧ IS_ALLOC m b.addr = false) ∧
    l.Pairwise apart

/-- The word `w` lies in a free block of the layout or in the block `x`. -/
def dirty (bs : List Block) (x : Block) (w : Nat) : Prop :=
  ∃ c ∈ bs, (c.alloc = false ∨ c = x) ∧ c.addr ≤ w ∧ w < c.addr + c.size

/-- The word `w` is the header of a block of the layout, of the prologue or of the
epilogue. -/
def edge (s : Heap) (bs : List Block) (w : Nat) : Prop :=
  (∃ c ∈ bs, w = c.addr) ∨ w = s.default_buffer.buffer + 8 ∨
    w = s.default_buffer.buffer + 8388600

/-! ## Theorems -/

@[simp] theorem except_bind_ok {ε α β : Type} (a : α) (f : α → Except ε β) :
    (Except.ok a >>= f) = f a := rfl

@[simp] theorem except_bind_error {ε α β : Type} (e : ε) (f : α → Except ε β) :
    ((Except.error e : Except ε α) >>= f) = Except.error e := rfl

@[simp] theorem except_pure {ε α : Type} (a : α) : (pure a : Except ε α) = Except.ok a := rfl

theorem c_assert_true : c_assert true = Except.ok () := rfl

theorem c_assert_false : c_assert false = Except.error Fault.assertion := rfl

theorem m61_malloc_fail_eq (s : Heap) (sz : Nat) :
    m61_malloc_fail s sz = failed_request s sz := by
  unfold m61_malloc_fail failed_request wadd
  rfl

theorem m61_get_adjusted_size_eq (sz : Nat) (h : sz ≤ SIZE_MAX - 80) :
    m61_get_adjusted_size sz = Except.ok (adjusted_size_value sz) := by
  have hval : (if sz ≤ MIN_PAYLOAD then MIN_BLOCK
      else if wadd sz ALLOC_META_SIZE % ALIGNMENT = 0 then wadd sz ALLOC_META_SIZE
      else wsub (wadd (wadd sz ALLOC_META_SIZE) ALIGNMENT) (wadd sz ALLOC_META_SIZE % ALIGNMENT))
      = adjusted_size_value sz := by
    unfold adjusted_size_value wadd wsub
    simp only [MIN_PAYLOAD, MIN_BLOCK, ALLOC_META_SIZE, ALIGNMENT, WORD_SIZE, SIZE_MAX] at *
    split_ifs <;> omega
  have hal : adjusted_size_value sz % ALIGNMENT = 0 := by
    unfold adjusted_size_value
    simp only [ALIGNMENT]
    split_ifs <;> omega
  unfold m61_get_adjusted_size
  simp only [hval, hal, decide_True, c_assert_true, except_bind_ok, except_pure]


/-! ### The sparse store -/

theorem cellGet_cons (k w : Nat) (t : List (Nat × Nat)) (j : Nat) :
    cellGet ((k, w) :: t) j = if j = k then w else cellGet t j := rfl

theorem cellSet_cons (k w : Nat) (t : List (Nat × Nat)) (i v : Nat) :
    cellSet ((k, w) :: t) i v =
      if i = k then (k, v) :: t
      else if i < k then (i, v) :: (k, w) :: t
      else (k, w) :: cellSet t i v := rfl

theorem cellGet_cellSet (l : List (Nat × Nat)) (i v j : Nat) :
    cellGet (cellSet l i v) j = if j = i then v else cellGet l j := by
  induction l with
  | nil =>
    show cellGet [(i, v)] j = _
    rw [cellGet_cons]
  | cons x t ih =>
    obtain ⟨k, w⟩ := x
    rw [cellSet_cons]
    by_cases h1 : i = k
    · subst h1
      rw [if_pos rfl, cellGet_cons, cellGet_cons]
      split_ifs <;> rfl
    · rw [if_neg h1]
      by_cases h2 : i < k
      · rw [if_pos h2, cellGet_cons]
      · rw [if_neg h2, cellGet_cons, cellGet_cons, ih]
        by_cases h3 : j = k
        · have h4 : j ≠ i := by omega
          rw [if_pos h3, if_neg h4, if_pos h3]
        · rw [if_neg h3, if_neg h3]

theorem cell_setCell (m : Mem) (i v j : Nat) :
    (m.setCell i v).cell j = if j = i then v else m.cell j := by
  unfold Mem.setCell Mem.cell
  exact cellGet_cellSet m.cells i v j

theorem load64_lt (m : Mem) (a : Nat) : load64 m a < 18446744073709551616 := by
  unfold load64
  split_ifs
  · exact Nat.mod_lt _ (by decide)
  · unfold load32 load8
    omega

theorem load64_store64_same (m : Mem) (a v : Nat) (ha : a % 8 = 0) :
    load64 (store64 m a v) a = v % 18446744073709551616 := by
  unfold load64 store64
  simp only [ha, if_true, cell_setCell]
  omega

theorem load64_store64_ne (m : Mem) (a b v : Nat) (ha : a % 8 = 0) (hb : b % 8 = 0)
    (hne : b ≠ a) : load64 (store64 m a v) b = load64 m b := by
  unfold load64 store64
  simp only [ha, hb, if_true, cell_setCell]
  have : b / 8 ≠ a / 8 := by omega
  simp [this]

/-! ### Bit operations in arithmetic form -/

theorem and_decomp (x y : Nat) : x &&& y = 2 * (x / 2 &&& y / 2) + (x % 2) * (y % 2) := by
  have h1 := @Nat.and_div_two x y
  have h2 := @Nat.and_mod_two_eq_one x y
  have hx : x % 2 = 0 ∨ x % 2 = 1 := by omega
  have hy : y % 2 = 0 ∨ y % 2 = 1 := by omega
  rcases hx with hx | hx <;> rcases hy with hy | hy <;> rw [hx, hy] <;> omega

theorem or_decomp (x y : Nat) :
    x ||| y = 2 * (x / 2 ||| y / 2) + (x % 2 + y % 2 - (x % 2) * (y % 2)) := by
  have h1 := @Nat.or_div_two x y
  have h2 := @Nat.or_mod_two_eq_one x y
  have hx : x % 2 = 0 ∨ x % 2 = 1 := by omega
  have hy : y % 2 = 0 ∨ y % 2 = 1 := by omega
  rcases hx with hx | hx <;> rcases hy with hy | hy <;> rw [hx, hy] <;> omega

theorem xor_decomp (x y : Nat) :
    x ^^^ y = 2 * (x / 2 ^^^ y / 2) + (x % 2 + y % 2 - 2 * ((x % 2) * (y % 2))) := by
  have h1 := @Nat.xor_div_two x y
  have h2 := @Nat.xor_mod_two_eq_one x y
  have hx : x % 2 = 0 ∨ x % 2 = 1 := by omega
  have hy : y % 2 = 0 ∨ y % 2 = 1 := by omega
  rcases hx with hx | hx <;> rcases hy with hy | hy <;> rw [hx, hy] <;> omega

theorem and_one (w : Nat) : w &&& 1 = w % 2 := Nat.and_one_is_mod w

theorem and_two (w : Nat) : w &&& 2 = w / 2 % 2 * 2 := by
  rw [and_decomp w 2]
  have : w / 2 &&& 2 / 2 = w / 2 % 2 := Nat.and_one_is_mod _
  omega

theorem and_four (w : Nat) : w &&& 4 = w / 4 % 2 * 4 := by
  rw [and_decomp w 4]
  have : w / 2 &&& 4 / 2 = w / 2 / 2 % 2 * 2 := and_two _
  omega

theorem and_seven (w : Nat) : w &&& 7 = w % 8 :=
  Nat.and_pow_two_sub_one_eq_mod w 3

theorem and_size_mask (w : Nat) :
    w &&& 18446744073709551608 = w % 18446744073709551616 / 8 * 8 := by
  rw [and_decomp w, and_decomp (w / 2), and_decomp (w / 2 / 2)]
  have : w / 2 / 2 / 2 &&& 18446744073709551608 / 2 / 2 / 2 = w / 2 / 2 / 2 % 2 ^ 61 :=
    Nat.and_pow_two_sub_one_eq_mod _ 61
  omega

theorem or_bits (s b : Nat) (hs : s % 8 = 0) (hb : b < 8) : s ||| b = s + b := by
  rw [or_decomp s, or_decomp (s / 2), or_decomp (s / 2 / 2)]
  have h0 : b / 2 / 2 / 2 = 0 := by omega
  rw [h0, Nat.or_zero]
  have e1 : s % 2 = 0 := by omega
  have e2 : s / 2 % 2 = 0 := by omega
  have e3 : s / 2 / 2 % 2 = 0 := by omega
  rw [e1, e2, e3]
  omega

theorem xor_one (w : Nat) : w ^^^ 1 = w / 2 * 2 + (1 - w % 2) := by
  rw [xor_decomp w 1]
  have : w / 2 ^^^ 1 / 2 = w / 2 := Nat.xor_zero _
  have hx : w % 2 = 0 ∨ w % 2 = 1 := by omega
  rcases hx with hx | hx <;> rw [hx] <;> omega

theorem xor_four (w : Nat) : w ^^^ 4 = w / 8 * 8 + (1 - w / 4 % 2) * 4 + w % 4 := by
  rw [xor_decomp w 4, xor_decomp (w / 2), xor_decomp (w / 2 / 2)]
  have : w / 2 / 2 / 2 ^^^ 4 / 2 / 2 / 2 = w / 2 / 2 / 2 := Nat.xor_zero _
  have hx : w % 2 = 0 ∨ w % 2 = 1 := by omega
  have hy : w / 2 % 2 = 0 ∨ w / 2 % 2 = 1 := by omega
  have hz : w / 2 / 2 % 2 = 0 ∨ w / 2 / 2 % 2 = 1 := by omega
  rcases hx with hx | hx <;> rcases hy with hy | hy <;> rcases hz with hz | hz <;>
    rw [hx, hy, hz] <;> omega

/-! ### Machine arithmetic without wrap-around -/

theorem wadd_eq (a b : Nat) (h : a + b < 18446744073709551616) : wadd a b = a + b := by
  unfold wadd
  omega

theorem wsub_eq (a b : Nat) (h : b ≤ a) (ha : a < 18446744073709551616) : wsub a b = a - b := by
  unfold wsub
  split_ifs <;> omega

/-! ### Header words in arithmetic form -/

theorem GET_SIZE_eq (m : Mem) (h : Nat) : GET_SIZE m h = load64 m h / 8 * 8 := by
  unfold GET_SIZE
  rw [and_size_mask]
  have := load64_lt m h
  omega

theorem GET_SIZE_mod (m : Mem) (h : Nat) : GET_SIZE m h % 8 = 0 := by
  rw [GET_SIZE_eq]
  omega

theorem GET_SIZE_lt (m : Mem) (h : Nat) : GET_SIZE m h < 18446744073709551616 := by
  rw [GET_SIZE_eq]
  have := load64_lt m h
  omega

theorem IS_ALLOC_eq (m : Mem) (h : Nat) : IS_ALLOC m h = decide (load64 m h / 2 % 2 = 1) := by
  unfold IS_ALLOC
  rw [and_two]
  congr 1
  apply propext
  constructor <;> intro h1 <;> omega

theorem IS_NEXT_ALLOC_eq (m : Mem) (h : Nat) :
    IS_NEXT_ALLOC m h = decide (load64 m h % 2 = 1) := by
  unfold IS_NEXT_ALLOC
  rw [and_one]
  congr 1
  apply propext
  constructor <;> intro h1 <;> omega

theorem IS_PREV_ALLOC_eq (m : Mem) (h : Nat) :
    IS_PREV_ALLOC m h = decide (load64 m h / 4 % 2 = 1) := by
  unfold IS_PREV_ALLOC
  rw [and_four]
  congr 1
  apply propext
  constructor <;> intro h1 <;> omega

theorem GET_BITS_eq (m : Mem) (h : Nat) : GET_BITS m h = load64 m h % 8 := by
  unfold GET_BITS
  exact and_seven _

/-! ### Addresses derived from a header of known size -/

theorem NEXT_FROM_HEADER_eq (m : Mem) (h S : Nat) (hS : GET_SIZE m h = S)
    (hw : h + S < 18446744073709551616) : NEXT_FROM_HEADER m h = h + S := by
  unfold NEXT_FROM_HEADER INCREMENT_SIZE_T_PTR
  have := GET_SIZE_mod m h
  rw [hS] at this ⊢
  rw [wadd_eq] <;> (try simp only [WORD_SIZE]) <;> omega

theorem FOOTER_FROM_HEADER_eq (m : Mem) (h S : Nat) (hS : GET_SIZE m h = S) (h8 : 8 ≤ S)
    (hw : h + S < 18446744073709551616) : FOOTER_FROM_HEADER m h = h + S - 8 := by
  unfold FOOTER_FROM_HEADER
  rw [NEXT_FROM_HEADER_eq m h S hS hw, hS, if_neg (by omega), wsub_eq] <;>
    (try simp only [WORD_SIZE]) <;> omega

theorem LIST_NEXT_eq (m : Mem) (h S : Nat) (hS : GET_SIZE m h = S) (h8 : 16 ≤ S)
    (hw : h + S < 18446744073709551616) : LIST_NEXT m h = h + S - 16 := by
  unfold LIST_NEXT
  rw [FOOTER_FROM_HEADER_eq m h S hS (by omega) hw, wsub_eq] <;> (try simp only [WORD_SIZE]) <;> omega

theorem LIST_PREV_eq (m : Mem) (h S : Nat) (hS : GET_SIZE m h = S) (h8 : 24 ≤ S)
    (hw : h + S < 18446744073709551616) : LIST_PREV m h = h + S - 24 := by
  unfold LIST_PREV
  rw [FOOTER_FROM_HEADER_eq m h S hS (by omega) hw, wsub_eq] <;> (try simp only [WORD_SIZE]) <;> omega

theorem GET_HEADER_ADDR_eq (m : Mem) (h S : Nat) (hS : GET_SIZE m h = S) (h8 : 32 ≤ S)
    (hw : h + S < 18446744073709551616) : GET_HEADER_ADDR m h = h + S - 32 := by
  unfold GET_HEADER_ADDR
  rw [FOOTER_FROM_HEADER_eq m h S hS (by omega) hw, wsub_eq] <;> (try simp only [WORD_SIZE]) <;> omega

theorem GET_FILENAME_eq (m : Mem) (h S : Nat) (hS : GET_SIZE m h = S) (h8 : 40 ≤ S)
    (hw : h + S < 18446744073709551616) : GET_FILENAME m h = h + S - 40 := by
  unfold GET_FILENAME
  rw [FOOTER_FROM_HEADER_eq m h S hS (by omega) hw, wsub_eq] <;> (try simp only [WORD_SIZE]) <;> omega

theorem REQ_SIZE_FROM_HEADER_eq (m : Mem) (h S : Nat) (hS : GET_SIZE m h = S) (h8 : 48 ≤ S)
    (hw : h + S < 18446744073709551616) : REQ_SIZE_FROM_HEADER m h = h + S - 48 := by
  unfold REQ_SIZE_FROM_HEADER
  rw [FOOTER_FROM_HEADER_eq m h S hS (by omega) hw, wsub_eq] <;> (try simp only [WORD_SIZE]) <;> omega

theorem GET_LINE_NUMBER_eq (m : Mem) (h S : Nat) (hS : GET_SIZE m h = S) (h8 : 48 ≤ S)
    (hw : h + S < 18446744073709551616) : GET_LINE_NUMBER m h = h + S - 44 := by
  unfold GET_LINE_NUMBER
  rw [REQ_SIZE_FROM_HEADER_eq m h S hS h8 hw, wadd_eq] <;> omega

theorem PREV_FROM_HEADER_eq (m : Mem) (h P : Nat) (h8 : 8 ≤ h)
    (hP : GET_SIZE m (h - 8) = P) (hle : P ≤ h) (hw : h < 18446744073709551616) :
    PREV_FROM_HEADER m h = h - P := by
  unfold PREV_FROM_HEADER DECREMENT_SIZE_T_PTR
  have e : wsub h WORD_SIZE = h - 8 := by
    rw [wsub_eq] <;> (try simp only [WORD_SIZE]) <;> omega
  rw [e]
  have := GET_SIZE_mod m (h - 8)
  rw [hP] at this ⊢
  rw [wsub_eq] <;> (try simp only [WORD_SIZE]) <;> omega

theorem GET_PAYLOAD_eq (h : Nat) (hw : h + 8 < 18446744073709551616) : GET_PAYLOAD h = h + 8 := by
  unfold GET_PAYLOAD
  rw [wadd_eq] <;> (try simp only [WORD_SIZE]) <;> omega

theorem GET_HEADER_FROM_PAYLOAD_eq (p : Nat) (h8 : 8 ≤ p) (hw : p < 18446744073709551616) :
    GET_HEADER_FROM_PAYLOAD p = p - 8 := by
  unfold GET_HEADER_FROM_PAYLOAD
  rw [wsub_eq] <;> (try simp only [WORD_SIZE]) <;> omega

/-! ### Stores seen through the header macros -/

theorem load64_store64 (m : Mem) (a b v : Nat) (ha : a % 8 = 0) (hb : b % 8 = 0) :
    load64 (store64 m a v) b = if b = a then v % 18446744073709551616 else load64 m b := by
  by_cases h : b = a
  · subst h
    rw [if_pos rfl]
    exact load64_store64_same m b v ha
  · rw [if_neg h]
    exact load64_store64_ne m a b v ha hb h

theorem GET_SIZE_store64_ne (m : Mem) (a b v : Nat) (ha : a % 8 = 0) (hb : b % 8 = 0)
    (hne : b ≠ a) : GET_SIZE (store64 m a v) b = GET_SIZE m b := by
  unfold GET_SIZE
  rw [load64_store64_ne m a b v ha hb hne]

theorem IS_ALLOC_store64_ne (m : Mem) (a b v : Nat) (ha : a % 8 = 0) (hb : b % 8 = 0)
    (hne : b ≠ a) : IS_ALLOC (store64 m a v) b = IS_ALLOC m b := by
  unfold IS_ALLOC
  rw [load64_store64_ne m a b v ha hb hne]

/-- Writing `size | bits` into an aligned header. -/
theorem load64_store_header (m : Mem) (h S bits : Nat) (ha : h % 8 = 0) (hS : S % 8 = 0)
    (hb : bits < 8) (hw : S < 18446744073709551616) :
    load64 (store64 m h (S ||| bits)) h = S + bits := by
  rw [load64_store64_same m h _ ha, or_bits S bits hS hb]
  omega

theorem m61_set_header_and_footer_eq (m : Mem) (h S bits : Nat) (ha : h % 8 = 0)
    (hS : S % 8 = 0) (h8 : 8 ≤ S) (hb : bits < 8) (hw : h + S < 18446744073709551616) :
    m61_set_header_and_footer m h S bits
      = store64 (store64 m h (S + bits)) (h + S - 8) (S + bits) := by
  unfold m61_set_header_and_footer
  have e1 : load64 (store64 m h (S ||| bits)) h = S + bits :=
    load64_store_header m h S bits ha hS hb (by omega)
  have e2 : GET_SIZE (store64 m h (S ||| bits)) h = S := by
    rw [GET_SIZE_eq, e1]
    omega
  simp only
  rw [FOOTER_FROM_HEADER_eq _ h S e2 h8 hw, e1, or_bits S bits hS hb]

/-- C1: for every request `sz ≤ SIZE_MAX - 80`, `m61_get_adjusted_size sz` returns normally a
value `r` that is `80` when `sz ≤ 16` and otherwise the least multiple of 16 that is at least
`sz + 64`; in both cases `r` is a multiple of 16, at least 80 and at least `sz + 64`. -/
theorem m61_get_adjusted_size_spec (sz : Nat) (h : sz ≤ SIZE_MAX - 80) :
    ∃ r, m61_get_adjusted_size sz = Except.ok r ∧
      (sz ≤ 16 → r = 80) ∧
      (16 < sz → r % 16 = 0 ∧ sz + 64 ≤ r ∧ ∀ k, k % 16 = 0 → sz + 64 ≤ k → r ≤ k) ∧
      r % 16 = 0 ∧ 80 ≤ r ∧ sz + 64 ≤ r := by
  refine ⟨adjusted_size_value sz, m61_get_adjusted_size_eq sz h, ?_, ?_, ?_, ?_, ?_⟩
  · intro h1
    unfold adjusted_size_value
    simp [h1]
  · intro h1
    unfold adjusted_size_value
    refine ⟨?_, ?_, ?_⟩
    · split_ifs <;> omega
    · split_ifs <;> omega
    · intro k hk hle
      split_ifs <;> omega
  · unfold adjusted_size_value
    split_ifs <;> omega
  · unfold adjusted_size_value
    split_ifs <;> omega
  · unfold adjusted_size_value
    split_ifs <;> omega

/-- Witness for C1 at `sz = 100` (block size 176). -/
theorem m61_get_adjusted_size_spec_witness :
    100 ≤ SIZE_MAX - 80 ∧
    ∃ r, m61_get_adjusted_size 100 = Except.ok r ∧
      (100 ≤ 16 → r = 80) ∧
      (16 < 100 → r % 16 = 0 ∧ 100 + 64 ≤ r ∧ ∀ k, k % 16 = 0 → 100 + 64 ≤ k → r ≤ k) ∧
      r % 16 = 0 ∧ 80 ≤ r ∧ 100 + 64 ≤ r :=
  ⟨by decide!, m61_get_adjusted_size_spec 100 (by decide!)⟩

/-- C3: a request `sz > SIZE_MAX - (16 + 64)` makes `m61_malloc` return null with `nfail`
increased by one and `fail_size` by `sz` modulo `2^64`, every other part of the state
(arena, both list heads, the other statistics) unchanged, whatever the step budget; and for
`sz` at or below the bound the adjusted size is the unbounded-arithmetic value, which fits
in a `size_t`. -/
theorem m61_malloc_overflow_guard (fuel : Nat) (s : Heap) (sz file : Nat) (line : Int) :
    (SIZE_MAX - (16 + 64) < sz →
      m61_malloc fuel s sz file line = Except.ok (0, failed_request s sz)) ∧
    (sz ≤ SIZE_MAX - (16 + 64) →
      m61_get_adjusted_size sz = Except.ok (adjusted_size_value sz) ∧
      adjusted_size_value sz ≤ SIZE_MAX) := by
  constructor
  · intro h
    have h0 : sz ≠ 0 := by simp only [SIZE_MAX] at h; omega
    have h1 : sz > SIZE_MAX - (ALIGNMENT + ALLOC_META_SIZE) := by
      simp only [SIZE_MAX, ALIGNMENT, ALLOC_META_SIZE, WORD_SIZE] at *; omega
    unfold m61_malloc
    rw [if_neg h0, if_pos h1, m61_malloc_fail_eq]
    rfl
  · intro h
    refine ⟨m61_get_adjusted_size_eq sz (by simpa using h), ?_⟩
    unfold adjusted_size_value
    simp only [SIZE_MAX] at *
    split_ifs <;> omega

/-- Witness for C3: the largest `size_t` on the fresh arena, and the request `100`. -/
theorem m61_malloc_overflow_guard_witness :
    m61_malloc 0 (m61_memory_buffer_init arena_base) SIZE_MAX file_name 1
      = Except.ok (0, failed_request (m61_memory_buffer_init arena_base) SIZE_MAX) ∧
    m61_get_adjusted_size 100 = Except.ok (adjusted_size_value 100) ∧
    adjusted_size_value 100 ≤ SIZE_MAX :=
  ⟨(m61_malloc_overflow_guard 0 (m61_memory_buffer_init arena_base) SIZE_MAX file_name 1).1
      (by decide!),
    (m61_malloc_overflow_guard 0 (m61_memory_buffer_init arena_base) 100 file_name 1).2
      (by decide!)⟩

/-- C10: `m61_free` leaves the whole state (arena words, both lists, every statistic) as it
was when the pointer is null or when `m61_validate_free` returns false for it. -/
theorem m61_free_rejected_frame (fuel : Nat) (s : Heap) (p : Nat)
    (h : p = 0 ∨ ∃ d, m61_validate_free fuel s p = Except.ok (false, d)) :
    m61_free fuel s p = Except.ok s := by
  unfold m61_free
  by_cases hp : p = 0
  · simp [hp]
  · rcases h with h | ⟨d, hd⟩
    · exact absurd h hp
    · simp [hp, hd]

/-- Witness for C10: on the fresh arena `heap_min` is `UINTPTR_MAX`, so the first payload
address is rejected as not in the heap. -/
theorem m61_free_rejected_frame_witness :
    m61_validate_free 1 (m61_memory_buffer_init arena_base) (arena_base + 32)
      = Except.ok (false, some Diagnostic.not_in_heap) ∧
    m61_free 1 (m61_memory_buffer_init arena_base) (arena_base + 32)
      = Except.ok (m61_memory_buffer_init arena_base) :=
  ⟨by decide!, m61_free_rejected_frame 1 (m61_memory_buffer_init arena_base) (arena_base + 32)
    (Or.inr ⟨some Diagnostic.not_in_heap, by decide!⟩)⟩

/-- C9 (evaluation at the failing input): after `p1 = malloc(100); p2 = malloc(100);
p3 = malloc(8388160); free(p1); free(p2)` a second `free(p2)` is accepted by the validator
(`true`, no diagnostic), and `m61_free` then empties the alloc list although `p3` is live,
counts a third free and makes `nactive` zero. -/
theorem double_free_accepted :
    (run_free_twice >>= fun r =>
      m61_validate_free run_fuel r.2.2 r.1 >>= fun v =>
      m61_free run_fuel r.2.2 r.1 >>= fun t =>
      pure (v, [r.2.2.alloc_list_start, t.alloc_list_start, r.2.2.statistics.nfree,
        t.statistics.nfree, r.2.2.statistics.nactive, t.statistics.nactive]))
      = Except.ok ((true, none), [arena_base + 376, 0, 2, 3, 1, 0]) := by
  decide!

/-- C8 (evaluation at the failing input): after `p0 = malloc(100); p1 = malloc(100);
free(p0); free(p1); p = malloc(200); q = realloc(p, 100)` the call returns `q = p`, the block
is live, and `m61_validate_free` rejects `p` as not allocated. -/
theorem live_pointer_rejected_after_shrink :
    (run_shrink >>= fun r =>
      m61_validate_free run_fuel r.2.2 r.1 >>= fun v =>
      pure (r.1, r.2.1, v))
      = Except.ok (arena_base + 32, arena_base + 32, (false, some Diagnostic.not_allocated)) := by
  decide!

/-! ### First fit (C2) -/

theorem list_walk_ne_zero (m : Mem) : ∀ (l : List Nat) (a : Nat), list_walk m a l →
    ∀ h ∈ l, h ≠ 0 := by
  intro l
  induction l with
  | nil => intro a _ h hh; cases hh
  | cons x t ih =>
    intro a hw h hh
    obtain ⟨_, hx, ht⟩ := hw
    rcases List.mem_cons.mp hh with e | e
    · rw [e]; exact hx
    · exact ih _ ht h e

theorem m61_find_fit_loop_eq (m : Mem) (asize : Nat) : ∀ (l : List Nat) (a fuel : Nat),
    list_walk m a l → l.length < fuel →
    m61_find_fit_loop m asize fuel a = Except.ok (first_fit m asize l) := by
  intro l
  induction l with
  | nil =>
    intro a fuel hw hf
    have ha : a = 0 := hw
    subst ha
    cases fuel with
    | zero => simp at hf
    | succ n => simp [m61_find_fit_loop, first_fit]
  | cons x t ih =>
    intro a fuel hw hf
    obtain ⟨hax, hx, ht⟩ := hw
    subst hax
    cases fuel with
    | zero => simp at hf
    | succ n =>
      have hn : t.length < n := by simpa using hf
      unfold m61_find_fit_loop first_fit
      rw [if_pos hx]
      by_cases hs : GET_SIZE m a ≥ asize
      · rw [if_pos hs, if_pos hs]; rfl
      · rw [if_neg hs, if_neg hs]
        exact ih _ n ht hn

theorem first_fit_split (m : Mem) (asize : Nat) : ∀ (l : List Nat), (∀ h ∈ l, h ≠ 0) →
    first_fit m asize l ≠ 0 →
    ∃ l1 l2, l = l1 ++ first_fit m asize l :: l2 ∧ (∀ h ∈ l1, GET_SIZE m h < asize) ∧
      asize ≤ GET_SIZE m (first_fit m asize l) := by
  intro l
  induction l with
  | nil => intro _ h; exact absurd rfl h
  | cons x t ih =>
    intro hnz hne
    unfold first_fit at hne ⊢
    by_cases hs : GET_SIZE m x ≥ asize
    · rw [if_pos hs]
      exact ⟨[], t, rfl, fun h hh => (by cases hh), hs⟩
    · rw [if_neg hs] at hne ⊢
      obtain ⟨l1, l2, e, h1, h2⟩ := ih (fun h hh => hnz h (List.mem_cons_of_mem _ hh)) hne
      refine ⟨x :: l1, l2, ?_, ?_, h2⟩
      · rw [List.cons_append, ← e]
      · intro h hh
        rcases List.mem_cons.mp hh with e1 | e1
        · rw [e1]; omega
        · exact h1 h e1

theorem first_fit_eq_zero (m : Mem) (asize : Nat) : ∀ (l : List Nat), (∀ h ∈ l, h ≠ 0) →
    (first_fit m asize l = 0 ↔ ∀ h ∈ l, GET_SIZE m h < asize) := by
  intro l
  induction l with
  | nil => intro _; simp [first_fit]
  | cons x t ih =>
    intro hnz
    have hx : x ≠ 0 := hnz x (List.mem_cons_self _ _)
    have ht := ih (fun h hh => hnz h (List.mem_cons_of_mem _ hh))
    unfold first_fit
    by_cases hs : GET_SIZE m x ≥ asize
    · rw [if_pos hs]
      constructor
      · intro h0; exact absurd h0 hx
      · intro hall
        have := hall x (List.mem_cons_self _ _)
        omega
    · rw [if_neg hs, ht]
      constructor
      · intro hall h hh
        rcases List.mem_cons.mp hh with e1 | e1
        · rw [e1]; omega
        · exact hall h e1
      · intro hall h hh
        exact hall h (List.mem_cons_of_mem _ hh)

theorem m61_malloc_of_no_fit (fuel : Nat) (s : Heap) (sz file asize : Nat) (line : Int)
    (h0 : sz ≠ 0) (ha : m61_get_adjusted_size sz = Except.ok asize)
    (hf : m61_find_fit fuel s asize = Except.ok 0) :
    m61_malloc fuel s sz file line = Except.ok (0, failed_request s sz) := by
  unfold m61_malloc
  rw [if_neg h0]
  by_cases h1 : sz > SIZE_MAX - (ALIGNMENT + ALLOC_META_SIZE)
  · rw [if_pos h1, m61_malloc_fail_eq]; rfl
  · rw [if_neg h1, ha]
    show (m61_find_fit fuel s asize >>= _) = _
    rw [hf, ← m61_malloc_fail_eq]
    rfl

/-- C2: when the free list is the finite list `l` (in list order from the head) and the step
budget exceeds its length, `m61_find_fit` returns the first member of `l` whose size is at
least `asize`: every member before it is smaller; it returns null exactly when no member has
size at least `asize`, and in that case `m61_malloc` of a non-zero size with that adjusted
size returns null with `nfail` increased by one, `fail_size` by `sz` (64-bit counters) and
nothing else changed. -/
theorem m61_find_fit_first_fit (fuel : Nat) (s : Heap) (asize : Nat) (l : List Nat)
    (hl : list_walk s.mem s.free_list_start l) (hf : l.length < fuel) :
    ∃ r, m61_find_fit fuel s asize = Except.ok r ∧
      (r ≠ 0 → ∃ l1 l2, l = l1 ++ r :: l2 ∧ (∀ h ∈ l1, GET_SIZE s.mem h < asize) ∧
        asize ≤ GET_SIZE s.mem r) ∧
      (r = 0 ↔ ∀ h ∈ l, GET_SIZE s.mem h < asize) ∧
      (r = 0 → ∀ (sz file : Nat) (line : Int), sz ≠ 0 →
        m61_get_adjusted_size sz = Except.ok asize →
        m61_malloc fuel s sz file line = Except.ok (0, failed_request s sz)) := by
  have hnz := list_walk_ne_zero s.mem l _ hl
  have hr : m61_find_fit fuel s asize = Except.ok (first_fit s.mem asize l) :=
    m61_find_fit_loop_eq s.mem asize l _ fuel hl hf
  refine ⟨first_fit s.mem asize l, hr, first_fit_split s.mem asize l hnz,
    first_fit_eq_zero s.mem asize l hnz, ?_⟩
  intro h0 sz file line hsz ha
  exact m61_malloc_of_no_fit fuel s sz file asize line hsz ha (h0 ▸ hr)

/-- Witness for C2: the free list of the fresh arena is its single block; a request of
adjusted size 176 finds it. -/
theorem m61_find_fit_first_fit_witness :
    list_walk (m61_memory_buffer_init arena_base).mem
      (m61_memory_buffer_init arena_base).free_list_start [arena_base + 24] ∧
    ∃ r, m61_find_fit 2 (m61_memory_buffer_init arena_base) 176 = Except.ok r ∧
      (r ≠ 0 → ∃ l1 l2, [arena_base + 24] = l1 ++ r :: l2 ∧
        (∀ h ∈ l1, GET_SIZE (m61_memory_buffer_init arena_base).mem h < 176) ∧
        176 ≤ GET_SIZE (m61_memory_buffer_init arena_base).mem r) ∧
      (r = 0 ↔ ∀ h ∈ [arena_base + 24],
        GET_SIZE (m61_memory_buffer_init arena_base).mem h < 176) ∧
      (r = 0 → ∀ (sz file : Nat) (line : Int), sz ≠ 0 →
        m61_get_adjusted_size sz = Except.ok 176 →
        m61_malloc 2 (m61_memory_buffer_init arena_base) sz file line
          = Except.ok (0, failed_request (m61_memory_buffer_init arena_base) sz)) :=
  ⟨by decide!, m61_find_fit_first_fit 2 (m61_memory_buffer_init arena_base) 176
    [arena_base + 24] (by decide!) (by decide)⟩

/-! ### Statistics of `m61_malloc` (C4) -/

theorem c_assert_ok (b : Bool) (h : c_assert b = Except.ok ()) : b = true := by
  cases b
  · cases h
  · rfl

theorem c_assert_bind {α : Type} (b : Bool) (f : Unit → Except Fault α) (r : α)
    (h : (c_assert b >>= f) = Except.ok r) : b = true ∧ f () = Except.ok r := by
  cases b
  · cases h
  · exact ⟨rfl, h⟩

theorem pure_eq_ok {α : Type} {a b : α} (h : (pure a : Except Fault α) = Except.ok b) :
    a = b := Except.ok.inj h

theorem same_globals_refl (s : Heap) : same_globals s s := ⟨rfl, rfl, rfl, rfl⟩

theorem same_globals_trans {s t u : Heap} (h1 : same_globals s t) (h2 : same_globals t u) :
    same_globals s u :=
  ⟨h2.1.trans h1.1, h2.2.1.trans h1.2.1, h2.2.2.1.trans h1.2.2.1, h2.2.2.2.trans h1.2.2.2⟩

theorem same_globals_mem (s : Heap) (m : Mem) : same_globals s { s with mem := m } :=
  ⟨rfl, rfl, rfl, rfl⟩

theorem same_globals_set (l : ListRef) (s : Heap) (v : Nat) : same_globals s (l.set s v) := by
  cases l <;> exact ⟨rfl, rfl, rfl, rfl⟩

theorem m61_unstitch_list_globals (s t : Heap) (prev next : Nat) (list : ListRef)
    (h : m61_unstitch_list s prev next list = Except.ok t) : same_globals s t := by
  unfold m61_unstitch_list at h
  simp only [] at h
  split_ifs at h <;>
    (obtain ⟨_, h⟩ := c_assert_bind _ _ _ h
     have h := pure_eq_ok h
     rw [← h]
     cases list <;> exact ⟨rfl, rfl, rfl, rfl⟩)

theorem m61_push_to_front_globals (s t : Heap) (header list : Nat)
    (h : m61_push_to_front s header list = Except.ok t) : same_globals s t := by
  unfold m61_push_to_front at h
  simp only [] at h
  obtain ⟨_, h⟩ := c_assert_bind _ _ _ h
  split_ifs at h <;>
    (obtain ⟨_, h⟩ := c_assert_bind _ _ _ h
     have h := pure_eq_ok h
     rw [← h]
     exact ⟨rfl, rfl, rfl, rfl⟩)

theorem bind_ok {α β : Type} (x : Except Fault α) (f : α → Except Fault β) (r : β)
    (h : (x >>= f) = Except.ok r) : ∃ a, x = Except.ok a ∧ f a = Except.ok r := by
  cases x with
  | error e => cases h
  | ok a => exact ⟨a, rfl, h⟩

theorem m61_place_globals (s t : Heap) (header asize : Nat)
    (h : m61_place s header asize = Except.ok t) : same_globals s t := by
  unfold m61_place at h
  simp only [] at h
  obtain ⟨s1, h1, h⟩ := bind_ok _ _ _ h
  have g1 := m61_unstitch_list_globals _ _ _ _ _ h1
  refine same_globals_trans g1 ?_
  split_ifs at h
  · obtain ⟨s2, h2, h⟩ := bind_ok _ _ _ h
    have g2 := m61_push_to_front_globals _ _ _ _ h2
    obtain ⟨s3, h3, h⟩ := bind_ok _ _ _ h
    have e := pure_eq_ok h3
    have g3 := m61_push_to_front_globals _ _ _ _ h
    rw [← e] at g3
    exact same_globals_trans (same_globals_trans (same_globals_mem _ _) g2)
      (same_globals_trans (same_globals_trans (same_globals_mem _ _) (same_globals_mem _ _)) g3)
  · obtain ⟨s3, h3, h⟩ := bind_ok _ _ _ h
    have e := pure_eq_ok h3
    have g3 := m61_push_to_front_globals _ _ _ _ h
    rw [← e] at g3
    exact same_globals_trans (same_globals_trans (same_globals_mem _ _) (same_globals_mem _ _)) g3

theorem m61_find_fit_loop_mem (m : Mem) (asize : Nat) : ∀ (l : List Nat) (a fuel r : Nat),
    list_walk m a l → m61_find_fit_loop m asize fuel a = Except.ok r →
    r = 0 ∨ (r ∈ l ∧ asize ≤ GET_SIZE m r) := by
  intro l
  induction l with
  | nil =>
    intro a fuel r hw hr
    have ha : a = 0 := hw
    subst ha
    cases fuel with
    | zero => cases hr
    | succ n =>
      unfold m61_find_fit_loop at hr
      rw [if_neg (by simp)] at hr
      exact Or.inl (pure_eq_ok hr).symm
  | cons x t ih =>
    intro a fuel r hw hr
    obtain ⟨hax, hx, ht⟩ := hw
    subst hax
    cases fuel with
    | zero => cases hr
    | succ n =>
      unfold m61_find_fit_loop at hr
      rw [if_pos hx] at hr
      by_cases hs : GET_SIZE m a ≥ asize
      · rw [if_pos hs] at hr
        have e := pure_eq_ok hr
        subst e
        exact Or.inr ⟨List.mem_cons_self _ _, hs⟩
      · rw [if_neg hs] at hr
        rcases ih _ n r ht hr with h0 | ⟨hm, hsz⟩
        · exact Or.inl h0
        · exact Or.inr ⟨List.mem_cons_of_mem _ hm, hsz⟩

theorem m61_record_malloc_eq (st : m61_statistics) (header sz : Nat)
    (hq : header + 8 + sz < 18446744073709551616) :
    m61_record_malloc st header sz = recorded_malloc st (header + 8) sz := by
  unfold m61_record_malloc recorded_malloc
  have e1 : GET_PAYLOAD header = header + 8 := GET_PAYLOAD_eq header (by omega)
  have e2 : wadd (header + 8) sz = header + 8 + sz := wadd_eq _ _ hq
  simp only [e1, e2]
  unfold wadd
  have hmax : (if header + 8 + sz > st.heap_max then header + 8 + sz else st.heap_max)
      = max st.heap_max (header + 8 + sz) := by
    split_ifs <;> omega
  have hmin : (if header + 8 < st.heap_min then header + 8 else st.heap_min)
      = min st.heap_min (header + 8) := by
    split_ifs <;> omega
  rw [hmax, hmin]

/-- C4: when the free list is a finite list of blocks that lie inside the 64-bit address
space, a call of `m61_malloc` that returns the non-null payload address `q` leaves exactly
the statistics `recorded_malloc` (`ntotal`, `nactive` one more, `total_size`, `active_size`
`sz` more, `heap_min = min(old, q)`, `heap_max = max(old, q + sz)`, the four other counters
unchanged), and a call that returns null leaves `heap_min` and `heap_max` as they were. -/
theorem m61_malloc_statistics (fuel : Nat) (s t : Heap) (sz file q : Nat) (line : Int)
    (l : List Nat) (hl : list_walk s.mem s.free_list_start l)
    (hb : ∀ h ∈ l, h + GET_SIZE s.mem h < 18446744073709551616)
    (hr : m61_malloc fuel s sz file line = Except.ok (q, t)) :
    (q ≠ 0 → t.statistics = recorded_malloc s.statistics q sz) ∧
    (q = 0 → t.statistics.heap_min = s.statistics.heap_min ∧
      t.statistics.heap_max = s.statistics.heap_max) := by
  unfold m61_malloc at hr
  by_cases h0 : sz = 0
  · rw [if_pos h0] at hr
    have e := pure_eq_ok hr
    have eq : q = 0 := (congrArg Prod.fst e).symm
    have et : t = s := (congrArg Prod.snd e).symm
    subst et
    exact ⟨fun h => absurd eq h, fun _ => ⟨rfl, rfl⟩⟩
  · rw [if_neg h0] at hr
    by_cases h1 : sz > SIZE_MAX - (ALIGNMENT + ALLOC_META_SIZE)
    · rw [if_pos h1] at hr
      have e := pure_eq_ok hr
      have eq : q = 0 := (congrArg Prod.fst e).symm
      have et : t = m61_malloc_fail s sz := (congrArg Prod.snd e).symm
      subst et
      exact ⟨fun h => absurd eq h, fun _ => ⟨rfl, rfl⟩⟩
    · rw [if_neg h1] at hr
      have hle : sz ≤ SIZE_MAX - 80 := by
        simp only [SIZE_MAX, ALIGNMENT, ALLOC_META_SIZE, WORD_SIZE] at h1 ⊢
        omega
      rw [m61_get_adjusted_size_eq sz hle] at hr
      obtain ⟨asize, ha, hr⟩ := bind_ok _ _ _ hr
      have ea := Except.ok.inj ha
      subst ea
      obtain ⟨header, hf, hr⟩ := bind_ok _ _ _ hr
      by_cases hh : header ≠ 0
      · rw [if_pos hh] at hr
        obtain ⟨_, hr⟩ := c_assert_bind _ _ _ hr
        obtain ⟨s1, hp, hr⟩ := bind_ok _ _ _ hr
        obtain ⟨_, hr⟩ := c_assert_bind _ _ _ hr
        have e := pure_eq_ok hr
        have eq : q = GET_PAYLOAD header := (congrArg Prod.fst e).symm
        have et : t.statistics = m61_record_malloc s1.statistics header sz :=
          (congrArg (fun x => x.2.statistics) e).symm
        have g := m61_place_globals _ _ _ _ hp
        rcases m61_find_fit_loop_mem s.mem _ l _ fuel header hl hf with hz | ⟨hm, hsz⟩
        · exact absurd hz hh
        · have hbb := hb header hm
          have hadj : sz + 64 ≤ adjusted_size_value sz := by
            unfold adjusted_size_value
            split_ifs <;> omega
          have hq8 : GET_PAYLOAD header = header + 8 := GET_PAYLOAD_eq header (by omega)
          rw [hq8] at eq
          rw [et, g.1, eq]
          refine ⟨fun _ => m61_record_malloc_eq _ _ _ (by omega), fun hq0 => ?_⟩
          omega
      · rw [if_neg hh] at hr
        have e := pure_eq_ok hr
        have eq : q = 0 := (congrArg Prod.fst e).symm
        have et : t = m61_malloc_fail s sz := (congrArg Prod.snd e).symm
        subst et
        exact ⟨fun h => absurd eq h, fun _ => ⟨rfl, rfl⟩⟩

/-- Witness for C4: the first `malloc(100)` on the fresh arena returns the payload at offset
32 and the state `one_block`. -/
theorem m61_malloc_statistics_witness :
    m61_malloc run_fuel (m61_memory_buffer_init arena_base) 100 file_name 10
      = Except.ok (arena_base + 32, one_block) ∧
    (arena_base + 32 ≠ 0 → one_block.statistics
      = recorded_malloc (m61_memory_buffer_init arena_base).statistics (arena_base + 32) 100) ∧
    (arena_base + 32 = 0 →
      one_block.statistics.heap_min = (m61_memory_buffer_init arena_base).statistics.heap_min ∧
      one_block.statistics.heap_max = (m61_memory_buffer_init arena_base).statistics.heap_max) :=
  ⟨by decide!, m61_malloc_statistics run_fuel (m61_memory_buffer_init arena_base) one_block 100
    file_name (arena_base + 32) 10 [arena_base + 24] (by decide!) (by decide!) (by decide!)⟩

/-! ### Geometry of a tiling -/

theorem tiles_bounds : ∀ (bs : List Block) (a e : Nat), tiles a bs e →
    a ≤ e ∧ ∀ b ∈ bs, a ≤ b.addr ∧ b.addr + b.size ≤ e := by
  intro bs
  induction bs with
  | nil =>
    intro a e h
    have : a = e := h
    exact ⟨by omega, fun b hb => by cases hb⟩
  | cons x t ih =>
    intro a e h
    obtain ⟨hx, ht⟩ := h
    obtain ⟨h1, h2⟩ := ih _ _ ht
    refine ⟨by omega, ?_⟩
    intro b hb
    rcases List.mem_cons.mp hb with e1 | e1
    · subst e1; omega
    · have := h2 b e1; omega

theorem tiles_apart : ∀ (bs : List Block) (a e : Nat), tiles a bs e →
    (∀ b ∈ bs, 0 < b.size) → ∀ x ∈ bs, ∀ y ∈ bs, x ≠ y → apart x y := by
  intro bs
  induction bs with
  | nil => intro a e _ _ x hx; cases hx
  | cons b t ih =>
    intro a e h hpos x hx y hy hne
    obtain ⟨hb, ht⟩ := h
    have hbt := (tiles_bounds t _ _ ht).2
    have hpos' : ∀ b ∈ t, 0 < b.size := fun b hb => hpos b (List.mem_cons_of_mem _ hb)
    rcases List.mem_cons.mp hx with ex | ex <;> rcases List.mem_cons.mp hy with ey | ey
    · exact absurd (ex.trans ey.symm) hne
    · subst ex
      have := hbt y ey
      left; omega
    · subst ey
      have := hbt x ex
      right; omega
    · exact ih _ _ ht hpos' x ex y ey hne

theorem tiles_mod : ∀ (bs : List Block) (a e : Nat), tiles a bs e → a % 16 = 8 →
    (∀ b ∈ bs, b.size % 16 = 0) → ∀ b ∈ bs, b.addr % 16 = 8 := by
  intro bs
  induction bs with
  | nil => intro a e _ _ _ b hb; cases hb
  | cons x t ih =>
    intro a e h ha hs b hb
    obtain ⟨hx, ht⟩ := h
    have hxs := hs x (List.mem_cons_self _ _)
    rcases List.mem_cons.mp hb with e1 | e1
    · subst e1; omega
    · exact ih _ _ ht (by omega) (fun b hb => hs b (List.mem_cons_of_mem _ hb)) b e1

/-- What well-formedness says about one block, independently of the memory contents. -/
theorem wf_geom {s : Heap} {bs fl al : List Block} (wf : WellFormed s bs fl al) :
    ∀ b ∈ bs, block_geom b ∧ b.addr % 16 = 8 ∧ b.size % 16 = 0 ∧
      s.default_buffer.buffer + 24 ≤ b.addr ∧
      b.addr + b.size ≤ s.default_buffer.buffer + 8388600 := by
  intro b hb
  have hbk := wf.blocks b hb
  have hbd := (tiles_bounds bs _ _ wf.tiling).2 b hb
  have hmod := tiles_mod bs _ _ wf.tiling (by have := wf.base_aligned; omega)
    (fun b hb => (wf.blocks b hb).1) b hb
  have h1 := wf.base_pos
  have h2 := wf.size_eq
  have h3 := wf.in_space
  obtain ⟨hs16, hmin, _, _, _⟩ := hbk
  simp only [MIN_BLOCK, ALLOC_META_SIZE, MIN_PAYLOAD, WORD_SIZE] at hmin
  unfold block_geom
  refine ⟨⟨?_, ?_, ?_, ?_, ?_⟩, hmod, hs16, ?_, ?_⟩ <;> omega

theorem wf_apart {s : Heap} {bs fl al : List Block} (wf : WellFormed s bs fl al) :
    ∀ x ∈ bs, ∀ y ∈ bs, x ≠ y → apart x y :=
  tiles_apart bs _ _ wf.tiling (fun b hb => by
    have := (wf.blocks b hb).2.1
    simp only [MIN_BLOCK, ALLOC_META_SIZE, MIN_PAYLOAD, WORD_SIZE] at this
    omega)

/-! ### Effects on memory -/

theorem eff_refl (m : Mem) : eff [] [] m m := fun _ _ _ => ⟨rfl, rfl, fun _ => rfl⟩

theorem eff_store (m : Mem) (a v : Nat) (ha : a % 8 = 0) : eff [a] [] m (store64 m a v) := by
  intro w hw hn
  have hne : w ≠ a := by simpa using hn
  exact ⟨GET_SIZE_store64_ne m a w v ha hw hne, IS_ALLOC_store64_ne m a w v ha hw hne,
    fun _ => load64_store64_ne m a w v ha hw hne⟩

theorem eff_trans {W1 T1 W2 T2 : List Nat} {m m1 m2 : Mem} (h1 : eff W1 T1 m m1)
    (h2 : eff W2 T2 m1 m2) : eff (W1 ++ W2) (T1 ++ T2) m m2 := by
  intro w hw hn
  have hn1 : w ∉ W1 := fun h => hn (List.mem_append_left _ h)
  have hn2 : w ∉ W2 := fun h => hn (List.mem_append_right _ h)
  obtain ⟨a1, b1, c1⟩ := h1 w hw hn1
  obtain ⟨a2, b2, c2⟩ := h2 w hw hn2
  refine ⟨a2.trans a1, b2.trans b1, fun ht => ?_⟩
  have ht1 : w ∉ T1 := fun h => ht (List.mem_append_left _ h)
  have ht2 : w ∉ T2 := fun h => ht (List.mem_append_right _ h)
  exact (c2 ht2).trans (c1 ht1)

theorem eff_mono {W T W' T' : List Nat} {m m' : Mem} (h : eff W T m m')
    (hW : ∀ w ∈ W, w ∈ W') (hT : ∀ w ∈ T, w ∈ W' ∨ w ∈ T') : eff W' T' m m' := by
  intro w hw hn
  have hn1 : w ∉ W := fun h1 => hn (hW w h1)
  obtain ⟨a, b, c⟩ := h w hw hn1
  refine ⟨a, b, fun ht => c (fun h1 => ?_)⟩
  rcases hT w h1 with h2 | h2
  · exact hn h2
  · exact ht h2

/-- Flipping `NEXT_ALLOC` or `PREV_ALLOC` in a word keeps its size field and `ALLOC` bit. -/
theorem eff_toggle (m : Mem) (a bit : Nat) (ha : a % 8 = 0) (hb : bit = 1 ∨ bit = 4) :
    eff [] [a] m (store64 m a (load64 m a ^^^ bit)) := by
  intro w hw _
  by_cases hwa : w = a
  · subst hwa
    have hl := load64_lt m w
    have e : load64 (store64 m w (load64 m w ^^^ bit)) w = load64 m w ^^^ bit := by
      rw [load64_store64_same m w _ ha]
      apply Nat.mod_eq_of_lt
      rcases hb with hb | hb <;> subst hb
      · rw [xor_one]; omega
      · rw [xor_four]; omega
    refine ⟨?_, ?_, fun h => absurd (List.mem_singleton.mpr rfl) h⟩
    · rw [GET_SIZE_eq, GET_SIZE_eq, e]
      rcases hb with hb | hb <;> subst hb
      · rw [xor_one]; omega
      · rw [xor_four]; omega
    · rw [IS_ALLOC_eq, IS_ALLOC_eq, e]
      congr 1
      apply propext
      rcases hb with hb | hb <;> subst hb
      · rw [xor_one]; constructor <;> intro h <;> omega
      · rw [xor_four]; constructor <;> intro h <;> omega
  · exact ⟨GET_SIZE_store64_ne m a w _ ha hw hwa, IS_ALLOC_store64_ne m a w _ ha hw hwa,
      fun _ => load64_store64_ne m a w _ ha hw hwa⟩

/-! ### Layout-relative lists -/

theorem links_first (m : Mem) (l : List Block) (p a z : Nat) (h : links m p a l z) :
    a = first_addr l z := by
  cases l with
  | nil => exact h
  | cons b t => exact h.1

theorem links_append (m : Mem) : ∀ (l1 l2 : List Block) (p a z : Nat),
    links m p a (l1 ++ l2) z ↔
      links m p a l1 (first_addr l2 z) ∧ links m (last_addr p l1) (first_addr l2 z) l2 z := by
  intro l1
  induction l1 with
  | nil =>
    intro l2 p a z
    constructor
    · intro h
      have e := links_first m l2 p a z h
      exact ⟨e, e ▸ h⟩
    · intro h
      have e : a = first_addr l2 z := h.1
      rw [e]
      exact h.2
  | cons b t ih =>
    intro l2 p a z
    show (a = b.addr ∧ _ ∧ links m b.addr _ (t ++ l2) z) ↔
      (a = b.addr ∧ _ ∧ links m b.addr _ t (first_addr l2 z)) ∧
        links m (last_addr b.addr t) (first_addr l2 z) l2 z
    rw [ih]
    constructor
    · rintro ⟨h1, h2, h3, h4⟩
      exact ⟨⟨h1, h2, h3⟩, h4⟩
    · rintro ⟨⟨h1, h2, h3⟩, h4⟩
      exact ⟨h1, h2, h3, h4⟩

theorem links_frame (m m' : Mem) : ∀ (l : List Block) (p a z : Nat), links m p a l z →
    (∀ b ∈ l, load64 m' (b.addr + b.size - 24) = load64 m (b.addr + b.size - 24) ∧
      load64 m' (b.addr + b.size - 16) = load64 m (b.addr + b.size - 16)) →
    links m' p a l z := by
  intro l
  induction l with
  | nil => intro p a z h _; exact h
  | cons b t ih =>
    intro p a z h hf
    obtain ⟨h1, h2, h3⟩ := h
    obtain ⟨f1, f2⟩ := hf b (List.mem_cons_self _ _)
    refine ⟨h1, by rw [f1]; exact h2, ?_⟩
    rw [f2]
    exact ih _ _ _ h3 (fun b hb => hf b (List.mem_cons_of_mem _ hb))

/-- Changing the end pointer of a non-empty list: only the successor slot of its last block
matters. -/
theorem links_set_end (m : Mem) (v : Nat) : ∀ (l : List Block) (b : Block) (p a z : Nat),
    links m p a (l ++ [b]) z → (∀ c ∈ l ++ [b], block_geom c) →
    (l ++ [b]).Pairwise apart → v < 18446744073709551616 →
    links (store64 m (b.addr + b.size - 16) v) p a (l ++ [b]) v := by
  intro l
  induction l with
  | nil =>
    intro b p a z h hg _ hv
    obtain ⟨h1, h2, _⟩ := h
    obtain ⟨g0, g1, g2, g3, g4⟩ := hg b (List.mem_cons_self _ _)
    refine ⟨h1, ?_, ?_⟩
    · rw [load64_store64_ne _ _ _ _ (by omega) (by omega) (by omega)]
      exact h2
    · show load64 _ _ = v
      rw [load64_store64_same _ _ _ (by omega)]
      exact Nat.mod_eq_of_lt hv
  | cons c t ih =>
    intro b p a z h hg hpw hv
    obtain ⟨h1, h2, h3⟩ := h
    have hcm : c ∈ c :: t ++ [b] := List.mem_cons_self _ _
    have hbm : b ∈ c :: t ++ [b] :=
      List.mem_cons_of_mem _ (List.mem_append_right _ (List.mem_singleton.mpr rfl))
    obtain ⟨g0, g1, g2, g3, g4⟩ := hg c hcm
    obtain ⟨k0, k1, k2, k3, k4⟩ := hg b hbm
    obtain ⟨hc, ht⟩ := List.pairwise_cons.mp hpw
    have hcb : apart c b := hc b (List.mem_append_right _ (List.mem_singleton.mpr rfl))
    unfold apart at hcb
    refine ⟨h1, ?_, ?_⟩
    · rw [load64_store64_ne _ _ _ _ (by omega) (by omega) (by omega)]
      exact h2
    · rw [load64_store64_ne _ _ _ _ (by omega) (by omega) (by omega)]
      exact ih b _ _ _ h3 (fun d hd => hg d (List.mem_cons_of_mem _ hd)) ht hv

/-- A store outside the link slots of the blocks of `l` keeps the list. -/
theorem links_store (m : Mem) (w v : Nat) (l : List Block) (p a z : Nat)
    (h : links m p a l z) (hw : w % 8 = 0)
    (hg : ∀ b ∈ l, b.addr % 8 = 0 ∧ b.size % 8 = 0 ∧ 24 ≤ b.size)
    (hne : ∀ b ∈ l, w ≠ b.addr + b.size - 24 ∧ w ≠ b.addr + b.size - 16) :
    links (store64 m w v) p a l z := by
  apply links_frame m _ l p a z h
  intro b hb
  obtain ⟨g1, g2, g3⟩ := hg b hb
  obtain ⟨n1, n2⟩ := hne b hb
  exact ⟨load64_store64_ne _ _ _ _ hw (by omega) (by omega),
    load64_store64_ne _ _ _ _ hw (by omega) (by omega)⟩

theorem last_addr_append (p : Nat) (l : List Block) (b : Block) :
    last_addr p (l ++ [b]) = b.addr := by
  induction l generalizing p with
  | nil => rfl
  | cons c t ih => exact ih c.addr

theorem last_addr_nil (p : Nat) : last_addr p [] = p := rfl

/-! ### `m61_unstitch_list` on a well-formed list -/

theorem SET_LIST_NEXT_eq (m : Mem) (h S v : Nat) (hS : GET_SIZE m h = S) (h8 : 16 ≤ S)
    (hw : h + S < 18446744073709551616) :
    SET_LIST_NEXT m h v = store64 m (h + S - 16) v := by
  unfold SET_LIST_NEXT
  rw [LIST_NEXT_eq m h S hS h8 hw]

theorem SET_LIST_PREV_eq (m : Mem) (h S v : Nat) (hS : GET_SIZE m h = S) (h8 : 24 ≤ S)
    (hw : h + S < 18446744073709551616) :
    SET_LIST_PREV m h v = store64 m (h + S - 24) v := by
  unfold SET_LIST_PREV
  rw [LIST_PREV_eq m h S hS h8 hw]

theorem ListRef.get_set (l : ListRef) (s : Heap) (v : Nat) : l.get (l.set s v) = v := by
  cases l <;> rfl

theorem ListRef.set_mem (l : ListRef) (s : Heap) (v : Nat) : (l.set s v).mem = s.mem := by
  cases l <;> rfl

theorem ListRef.get_with_mem (l : ListRef) (s : Heap) (m : Mem) :
    l.get { s with mem := m } = l.get s := by
  cases l <;> rfl

theorem list_eq_nil_or_snoc (l : List Block) : l = [] ∨ ∃ L b, l = L ++ [b] := by
  rcases List.eq_nil_or_concat l with h | ⟨L, b, h⟩
  · exact Or.inl h
  · exact Or.inr ⟨L, b, by rw [h, List.concat_eq_append]⟩

/-- The value of `m61_unstitch_list` when its two asserts hold. -/
theorem m61_unstitch_list_run (s : Heap) (prev next : Nat) (list : ListRef) (P N : Nat)
    (hP : load64 s.mem prev = P) (hN : load64 s.mem next = N)
    (hPa : P = 0 ∨ IS_ALLOC s.mem P = decide (list.get s = s.alloc_list_start))
    (hNa : N = 0 ∨ IS_ALLOC s.mem N = decide (list.get s = s.alloc_list_start)) :
    m61_unstitch_list s prev next list = Except.ok (
      if P = 0 ∧ N ≠ 0 then
        let m1 := SET_LIST_PREV s.mem N 0
        list.set { s with mem := m1 } (load64 m1 next)
      else if P ≠ 0 ∧ N = 0 then { s with mem := SET_LIST_NEXT s.mem P 0 }
      else if P = 0 ∧ N = 0 then list.set s 0
      else
        let m1 := SET_LIST_NEXT s.mem P N
        { s with mem := SET_LIST_PREV m1 (load64 m1 next) (load64 m1 prev) }) := by
  subst hP hN
  unfold m61_unstitch_list
  simp only []
  by_cases hc : list.get s = s.alloc_list_start
  · rw [if_pos hc]
    rw [decide_eq_true hc] at hPa hNa
    have e : ((decide (load64 s.mem prev = 0) || IS_ALLOC s.mem (load64 s.mem prev))
        && (decide (load64 s.mem next = 0) || IS_ALLOC s.mem (load64 s.mem next))) = true := by
      rcases hPa with h1 | h1 <;> rcases hNa with h2 | h2 <;> simp [h1, h2]
    rw [e, c_assert_true, except_bind_ok]
    split_ifs <;> rfl
  · rw [if_neg hc]
    rw [decide_eq_false hc] at hPa hNa
    have e : ((decide (load64 s.mem prev = 0) || !IS_ALLOC s.mem (load64 s.mem prev))
        && (decide (load64 s.mem next = 0) || !IS_ALLOC s.mem (load64 s.mem next))) = true := by
      rcases hPa with h1 | h1 <;> rcases hNa with h2 | h2 <;> simp [h1, h2]
    rw [e, c_assert_true, except_bind_ok]
    split_ifs <;> rfl

theorem links_store_apart (m : Mem) (w v : Nat) (c : Block) (l : List Block) (p a z : Nat)
    (h : links m p a l z) (hc : block_geom c) (hw : w = c.addr + c.size - 24 ∨
      w = c.addr + c.size - 16 ∨ w = c.addr ∨ w = c.addr + c.size - 8)
    (hg : ∀ b ∈ l, block_geom b) (hap : ∀ b ∈ l, apart c b) :
    links (store64 m w v) p a l z := by
  obtain ⟨c0, c1, c2, c3, c4⟩ := hc
  apply links_store m w v l p a z h (by omega)
  · intro b hb
    obtain ⟨g0, g1, g2, g3, g4⟩ := hg b hb
    exact ⟨g1, g2, by omega⟩
  · intro b hb
    obtain ⟨g0, g1, g2, g3, g4⟩ := hg b hb
    have := hap b hb
    unfold apart at this
    constructor <;> omega

/-- The footprint of `m61_unstitch_list`: link slots of other members of the list. -/
theorem m61_unstitch_list_spec (s : Heap) (list : ListRef) (l1 l2 : List Block) (x : Block)
    (hL : links s.mem 0 (list.get s) (l1 ++ x :: l2) 0)
    (hg : ∀ b ∈ l1 ++ x :: l2, block_geom b)
    (hmem : ∀ b ∈ l1 ++ l2, GET_SIZE s.mem b.addr = b.size ∧
      IS_ALLOC s.mem b.addr = decide (list.get s = s.alloc_list_start))
    (hpw : (l1 ++ x :: l2).Pairwise apart) :
    ∃ t W, m61_unstitch_list s (x.addr + x.size - 24) (x.addr + x.size - 16) list
        = Except.ok t ∧
      same_globals s t ∧
      (list = ListRef.free_list → t.alloc_list_start = s.alloc_list_start) ∧
      (list = ListRef.alloc_list → t.free_list_start = s.free_list_start) ∧
      links t.mem 0 (list.get t) (l1 ++ l2) 0 ∧
      eff W [] s.mem t.mem ∧
      (∀ w ∈ W, ∃ b ∈ l1 ++ l2, w = b.addr + b.size - 16 ∨ w = b.addr + b.size - 24) := by
  obtain ⟨hA, hB⟩ := (links_append s.mem l1 (x :: l2) 0 _ 0).mp hL
  obtain ⟨_, hP, hC⟩ := hB
  have hN := links_first _ _ _ _ _ hC
  obtain ⟨pw1, pwx2, pw12⟩ := List.pairwise_append.mp hpw
  obtain ⟨pwx, pw2⟩ := List.pairwise_cons.mp pwx2
  obtain ⟨x0, x1, x2, x3, x4⟩ := hg x (List.mem_append_right _ (List.mem_cons_self _ _))
  rcases list_eq_nil_or_snoc l1 with e1 | ⟨L, b, e1⟩
  · subst e1
    cases l2 with
    | nil =>
      have hrun := m61_unstitch_list_run s _ _ list 0 0 hP hN (Or.inl rfl) (Or.inl rfl)
      rw [if_neg (by simp), if_neg (by simp), if_pos (by simp)] at hrun
      refine ⟨_, [], hrun, same_globals_set _ _ _, ?_, ?_, ?_, ?_, ?_⟩
      · intro e; subst e; rfl
      · intro e; subst e; rfl
      · exact ListRef.get_set _ _ _
      · rw [ListRef.set_mem]; exact eff_refl _
      · intro w hw; cases hw
    | cons n l2 =>
      have hnm : n ∈ [] ++ n :: l2 := List.mem_cons_self _ _
      obtain ⟨n0, n1, n2, n3, n4⟩ :=
        hg n (List.mem_cons_of_mem _ (List.mem_cons_self _ _))
      obtain ⟨hns, hna⟩ := hmem n hnm
      have hxn : apart x n := pwx n (List.mem_cons_self _ _)
      obtain ⟨pwn, pw2⟩ := List.pairwise_cons.mp pw2
      obtain ⟨_, _, hC⟩ := hC
      unfold apart at hxn
      have hrun := m61_unstitch_list_run s _ _ list 0 n.addr hP hN (Or.inl rfl) (Or.inr hna)
      rw [if_pos ⟨rfl, by omega⟩] at hrun
      simp only [] at hrun
      rw [SET_LIST_PREV_eq _ _ _ _ hns (by omega) n4,
        load64_store64_ne _ _ _ _ (by omega) (by omega) (by omega), hN] at hrun
      refine ⟨_, [n.addr + n.size - 24], hrun, ?_, ?_, ?_, ?_, ?_, ?_⟩
      · cases list <;> exact ⟨rfl, rfl, rfl, rfl⟩
      · intro e; subst e; rfl
      · intro e; subst e; rfl
      · rw [ListRef.get_set, ListRef.set_mem]
        refine ⟨rfl, ?_, ?_⟩
        · exact load64_store64_same _ _ _ (by omega)
        · rw [load64_store64_ne _ _ _ _ (by omega) (by omega) (by omega)]
          exact links_store_apart _ _ _ n _ _ _ _ hC ⟨n0, n1, n2, n3, n4⟩ (Or.inl rfl)
            (fun c hc => hg c (List.mem_cons_of_mem _ (List.mem_cons_of_mem _ hc))) pwn
      · rw [ListRef.set_mem]
        exact eff_store _ _ _ (by omega)
      · intro w hw
        exact ⟨n, hnm, Or.inr (List.mem_singleton.mp hw)⟩
  · subst e1
    have hbm1 : b ∈ L ++ [b] := List.mem_append_right _ (List.mem_singleton.mpr rfl)
    obtain ⟨b0, b1, b2, b3, b4⟩ := hg b (List.mem_append_left _ hbm1)
    have hbx : apart b x := pw12 b hbm1 x (List.mem_cons_self _ _)
    rw [last_addr_append] at hP
    have hgL : ∀ c ∈ L ++ [b], block_geom c := fun c hc => hg c (List.mem_append_left _ hc)
    unfold apart at hbx
    cases l2 with
    | nil =>
      obtain ⟨hbs, hba⟩ := hmem b (List.mem_append_left _ hbm1)
      have hrun := m61_unstitch_list_run s _ _ list b.addr 0 hP hN (Or.inr hba) (Or.inl rfl)
      rw [if_neg (by omega), if_pos ⟨by omega, rfl⟩] at hrun
      rw [SET_LIST_NEXT_eq _ _ _ _ hbs (by omega) b4] at hrun
      refine ⟨_, [b.addr + b.size - 16], hrun, same_globals_mem _ _, fun _ => rfl,
        fun _ => rfl, ?_, eff_store _ _ _ (by omega), ?_⟩
      · rw [List.append_nil]
        rw [ListRef.get_with_mem]
        exact links_set_end _ 0 L b _ _ _ hA hgL pw1 (by omega)
      · intro w hw
        exact ⟨b, List.mem_append_left _ hbm1, Or.inl (List.mem_singleton.mp hw)⟩
    | cons n l2 =>
      have hnm : n ∈ L ++ [b] ++ n :: l2 := List.mem_append_right _ (List.mem_cons_self _ _)
      obtain ⟨n0, n1, n2, n3, n4⟩ :=
        hg n (List.mem_append_right _ (List.mem_cons_of_mem _ (List.mem_cons_self _ _)))
      obtain ⟨hbs, hba⟩ := hmem b (List.mem_append_left _ hbm1)
      obtain ⟨hns, hna⟩ := hmem n hnm
      have hxn : apart x n := pwx n (List.mem_cons_self _ _)
      have hbn : apart b n := pw12 b hbm1 n (List.mem_cons_of_mem _ (List.mem_cons_self _ _))
      obtain ⟨pwn, pw2⟩ := List.pairwise_cons.mp pw2
      obtain ⟨_, _, hC⟩ := hC
      unfold apart at hxn hbn
      have hN : load64 s.mem (x.addr + x.size - 16) = n.addr := hN
      have hrun := m61_unstitch_list_run s _ _ list b.addr n.addr hP hN (Or.inr hba)
        (Or.inr hna)
      rw [if_neg (by omega), if_neg (by omega), if_neg (by omega)] at hrun
      simp only [] at hrun
      rw [SET_LIST_NEXT_eq _ _ _ _ hbs (by omega) b4,
        load64_store64_ne _ _ _ _ (by omega) (by omega) (by omega), hN,
        load64_store64_ne _ _ _ _ (by omega) (by omega) (by omega), hP,
        SET_LIST_PREV_eq _ _ _ _ ((GET_SIZE_store64_ne _ _ _ _ (by omega) (by omega)
          (by omega)).trans hns) (by omega) n4] at hrun
      refine ⟨_, [b.addr + b.size - 16] ++ [n.addr + n.size - 24], hrun, same_globals_mem _ _,
        fun _ => rfl, fun _ => rfl, ?_,
        eff_trans (eff_store _ _ _ (by omega)) (eff_store _ _ _ (by omega)), ?_⟩
      · rw [ListRef.get_with_mem]
        apply (links_append _ (L ++ [b]) (n :: l2) 0 _ 0).mpr
        constructor
        · exact links_store_apart _ _ _ n _ _ _ _
            (links_set_end _ n.addr L b _ _ _ hA hgL pw1 (by omega))
            ⟨n0, n1, n2, n3, n4⟩ (Or.inl rfl) hgL
            (fun c hc => by
              have := pw12 c hc n (List.mem_cons_of_mem _ (List.mem_cons_self _ _))
              obtain ⟨c0, c1, c2, c3, c4⟩ := hgL c hc
              unfold apart at this ⊢
              omega)
        · rw [last_addr_append]
          refine ⟨rfl, ?_, ?_⟩
          · rw [load64_store64_same _ _ _ (by omega)]
            exact Nat.mod_eq_of_lt (by omega)
          · rw [load64_store64_ne _ _ _ _ (by omega) (by omega) (by omega),
              load64_store64_ne _ _ _ _ (by omega) (by omega) (by omega)]
            have hg2 : ∀ c ∈ l2, block_geom c := fun c hc =>
              hg c (List.mem_append_right _ (List.mem_cons_of_mem _ (List.mem_cons_of_mem _ hc)))
            exact links_store_apart _ _ _ n _ _ _ _
              (links_store_apart _ _ _ b _ _ _ _ hC ⟨b0, b1, b2, b3, b4⟩ (Or.inr (Or.inl rfl))
                hg2 (fun c hc => pw12 b hbm1 c
                  (List.mem_cons_of_mem _ (List.mem_cons_of_mem _ hc))))
              ⟨n0, n1, n2, n3, n4⟩ (Or.inl rfl) hg2 pwn
      · intro w hw
        rcases List.mem_append.mp hw with h | h
        · exact ⟨b, List.mem_append_left _ hbm1, Or.inl (List.mem_singleton.mp h)⟩
        · exact ⟨n, hnm, Or.inr (List.mem_singleton.mp h)⟩

/-! ### Bytes and 32-bit words -/

theorem setByte_byte (w k b j : Nat) (hk : k < 8) (hj : j < 8) :
    setByte w k b / 256 ^ j % 256 = if j = k then b % 256 else w / 256 ^ j % 256 := by
  unfold setByte
  interval_cases k <;> interval_cases j <;> simp <;> omega

theorem load8_store8 (m : Mem) (a b c : Nat) :
    load8 (store8 m a b) c = if c = a then b % 256 else load8 m c := by
  unfold load8 store8
  rw [cell_setCell]
  by_cases hc : c / 8 = a / 8
  · rw [if_pos hc, setByte_byte _ _ _ _ (Nat.mod_lt _ (by decide)) (Nat.mod_lt _ (by decide))]
    by_cases hm : c % 8 = a % 8
    · rw [if_pos hm, if_pos (by omega)]
    · rw [if_neg hm, if_neg (by omega), hc]
  · rw [if_neg hc, if_neg (by intro e; exact hc (by rw [e]))]

theorem load8_lt (m : Mem) (a : Nat) : load8 m a < 256 := by
  unfold load8
  exact Nat.mod_lt _ (by decide)

theorem load64_store8_ne (m : Mem) (a b w : Nat) (hw : w % 8 = 0) (h : a < w ∨ w + 8 ≤ a) :
    load64 (store8 m a b) w = load64 m w := by
  unfold load64 store8
  rw [if_pos hw, if_pos hw, cell_setCell, if_neg (by omega)]

theorem load8_store64_ne (m : Mem) (w v c : Nat) (hw : w % 8 = 0) (h : c < w ∨ w + 8 ≤ c) :
    load8 (store64 m w v) c = load8 m c := by
  unfold load8 store64
  rw [if_pos hw, cell_setCell, if_neg (by omega)]

theorem load32_store32_same (m : Mem) (a v : Nat) :
    load32 (store32 m a v) a = v % 4294967296 := by
  unfold load32 store32
  simp only [load8_store8]
  simp
  omega

theorem load8_store32_ne (m : Mem) (a v c : Nat) (h : c < a ∨ a + 4 ≤ c) :
    load8 (store32 m a v) c = load8 m c := by
  unfold store32
  simp only [load8_store8]
  rw [if_neg (by omega), if_neg (by omega), if_neg (by omega), if_neg (by omega)]

theorem load32_store32_ne (m : Mem) (a v c : Nat) (h : c + 4 ≤ a ∨ a + 4 ≤ c) :
    load32 (store32 m a v) c = load32 m c := by
  unfold load32
  rw [load8_store32_ne _ _ _ _ (by omega), load8_store32_ne _ _ _ _ (by omega),
    load8_store32_ne _ _ _ _ (by omega), load8_store32_ne _ _ _ _ (by omega)]

theorem load32_store8_ne (m : Mem) (a b c : Nat) (h : a < c ∨ c + 4 ≤ a) :
    load32 (store8 m a b) c = load32 m c := by
  unfold load32
  simp only [load8_store8]
  rw [if_neg (by omega), if_neg (by omega), if_neg (by omega), if_neg (by omega)]

theorem load32_store64_ne (m : Mem) (w v c : Nat) (hw : w % 8 = 0) (h : c + 4 ≤ w ∨ w + 8 ≤ c) :
    load32 (store64 m w v) c = load32 m c := by
  unfold load32
  rw [load8_store64_ne _ _ _ _ hw (by omega), load8_store64_ne _ _ _ _ hw (by omega),
    load8_store64_ne _ _ _ _ hw (by omega), load8_store64_ne _ _ _ _ hw (by omega)]

theorem load64_store32_ne (m : Mem) (a v w : Nat) (hw : w % 8 = 0) (h : a + 4 ≤ w ∨ w + 8 ≤ a) :
    load64 (store32 m a v) w = load64 m w := by
  unfold store32
  rw [load64_store8_ne _ _ _ _ hw (by omega), load64_store8_ne _ _ _ _ hw (by omega),
    load64_store8_ne _ _ _ _ hw (by omega), load64_store8_ne _ _ _ _ hw (by omega)]

/-- On an aligned address the 32-bit load is the low half of the 64-bit word. -/
theorem load32_low (m : Mem) (a : Nat) (ha : a % 8 = 0) :
    load32 m a = load64 m a % 4294967296 := by
  unfold load32 load64 load8
  rw [if_pos ha]
  have e1 : (a + 1) / 8 = a / 8 := by omega
  have e2 : (a + 2) / 8 = a / 8 := by omega
  have e3 : (a + 3) / 8 = a / 8 := by omega
  have f1 : (a + 1) % 8 = 1 := by omega
  have f2 : (a + 2) % 8 = 2 := by omega
  have f3 : (a + 3) % 8 = 3 := by omega
  rw [e1, e2, e3, f1, f2, f3, ha]
  generalize m.cell (a / 8) = c
  norm_num
  omega

theorem GET_SIZE_congr {m m' : Mem} {w : Nat} (h : load64 m' w = load64 m w) :
    GET_SIZE m' w = GET_SIZE m w := by
  unfold GET_SIZE
  rw [h]

theorem IS_ALLOC_congr {m m' : Mem} {w : Nat} (h : load64 m' w = load64 m w) :
    IS_ALLOC m' w = IS_ALLOC m w := by
  unfold IS_ALLOC
  rw [h]

theorem IS_PREV_ALLOC_congr {m m' : Mem} {w : Nat} (h : load64 m' w = load64 m w) :
    IS_PREV_ALLOC m' w = IS_PREV_ALLOC m w := by
  unfold IS_PREV_ALLOC
  rw [h]

theorem IS_NEXT_ALLOC_congr {m m' : Mem} {w : Nat} (h : load64 m' w = load64 m w) :
    IS_NEXT_ALLOC m' w = IS_NEXT_ALLOC m w := by
  unfold IS_NEXT_ALLOC
  rw [h]

/-! ### The guard bytes -/

theorem magic_loop_load8 (p : Nat) : ∀ (bs : List Nat) (m : Mem) (i c : Nat),
    p + i + bs.length < 18446744073709551616 →
    load8 (set_footer_magic_number_loop m p i bs) c =
      if p + i ≤ c ∧ c < p + i + bs.length then bs.getD (c - (p + i)) 0 % 256
      else load8 m c := by
  intro bs
  induction bs with
  | nil =>
    intro m i c _
    rw [if_neg (by simp)]
    rfl
  | cons b t ih =>
    intro m i c hb
    have hlen : (b :: t).length = t.length + 1 := rfl
    rw [hlen] at hb ⊢
    show load8 (set_footer_magic_number_loop (store8 m (wadd p i) b) p (i + 1) t) c = _
    rw [ih _ _ _ (by omega), wadd_eq _ _ (by omega), load8_store8]
    by_cases h1 : c = p + i
    · rw [if_neg (by omega), if_pos h1, if_pos (by omega), h1, Nat.sub_self]
      rfl
    · rw [if_neg h1]
      by_cases h2 : p + (i + 1) ≤ c ∧ c < p + (i + 1) + t.length
      · rw [if_pos h2, if_pos (by omega)]
        have e : c - (p + i) = (c - (p + (i + 1))) + 1 := by omega
        rw [e, List.getD_cons_succ]
      · rw [if_neg h2, if_neg (by omega)]

theorem magic_loop_load64 (p : Nat) : ∀ (bs : List Nat) (m : Mem) (i w : Nat),
    p + i + bs.length < 18446744073709551616 → w % 8 = 0 →
    w + 8 ≤ p + i ∨ p + i + bs.length ≤ w →
    load64 (set_footer_magic_number_loop m p i bs) w = load64 m w := by
  intro bs
  induction bs with
  | nil => intro m i w _ _ _; rfl
  | cons b t ih =>
    intro m i w hb hw h
    have hlen : (b :: t).length = t.length + 1 := rfl
    rw [hlen] at hb h
    show load64 (set_footer_magic_number_loop (store8 m (wadd p i) b) p (i + 1) t) w = _
    rw [ih _ _ _ (by omega) hw (by omega), wadd_eq _ _ (by omega),
      load64_store8_ne _ _ _ _ hw (by omega)]

theorem magic_loop_load32 (p : Nat) : ∀ (bs : List Nat) (m : Mem) (i c : Nat),
    p + i + bs.length < 18446744073709551616 →
    c + 4 ≤ p + i ∨ p + i + bs.length ≤ c →
    load32 (set_footer_magic_number_loop m p i bs) c = load32 m c := by
  intro bs
  induction bs with
  | nil => intro m i c _ _; rfl
  | cons b t ih =>
    intro m i c hb h
    have hlen : (b :: t).length = t.length + 1 := rfl
    rw [hlen] at hb h
    show load32 (set_footer_magic_number_loop (store8 m (wadd p i) b) p (i + 1) t) c = _
    rw [ih _ _ _ (by omega) (by omega), wadd_eq _ _ (by omega),
      load32_store8_ne _ _ _ _ (by omega)]

theorem int_to_unsigned_lt (i : Int) : int_to_unsigned i < 4294967296 := by
  unfold int_to_unsigned
  omega

theorem int_to_unsigned_cast (i : Int) : (int_to_unsigned i : Int) = i % 4294967296 := by
  unfold int_to_unsigned
  omega

/-- What `m61_set_alloc_metadata` leaves in a block of size `S` whose payload has room for
`sz` bytes and the guard. -/
theorem m61_set_alloc_metadata_spec (m : Mem) (h S sz file : Nat) (line : Int)
    (hS : GET_SIZE m h = S) (h0 : h % 8 = 0) (hsz : sz + 64 ≤ S)
    (hw : h + S < 18446744073709551616) (h32 : sz < 4294967296)
    (hfile : file < 18446744073709551616) :
    load64 (m61_set_alloc_metadata m h sz file line) h = load64 m h ∧
    load64 (m61_set_alloc_metadata m h sz file line) (h + S - 32) = h ∧
    load32 (m61_set_alloc_metadata m h sz file line) (h + S - 48) = sz ∧
    load64 (m61_set_alloc_metadata m h sz file line) (h + S - 40) = file ∧
    load32 (m61_set_alloc_metadata m h sz file line) (h + S - 44) = int_to_unsigned line ∧
    ∀ i, i < 8 →
      load8 (m61_set_alloc_metadata m h sz file line) (h + 8 + sz + i) = magic_number.getD i 0 := by
  have hS8 : S % 8 = 0 := hS ▸ GET_SIZE_mod m h
  have hlen : magic_number.length = 8 := rfl
  unfold m61_set_alloc_metadata
  simp only []
  rw [Nat.mod_eq_of_lt h32]
  -- the requested size
  have e1 : SET_REQ_SIZE m h sz = store32 m (h + S - 48) sz := by
    unfold SET_REQ_SIZE
    rw [REQ_SIZE_FROM_HEADER_eq m h S hS (by omega) hw]
  rw [e1]
  obtain ⟨m1, hm1⟩ : ∃ m1, m1 = store32 m (h + S - 48) sz := ⟨_, rfl⟩
  rw [← hm1]
  have l1 : load64 m1 h = load64 m h := by
    rw [hm1]; exact load64_store32_ne _ _ _ _ h0 (by omega)
  -- the guard
  have e2 : set_footer_magic_number m1 h sz
      = set_footer_magic_number_loop m1 (h + 8 + sz) 0 magic_number := by
    unfold set_footer_magic_number
    have e8 : 1 * WORD_SIZE = 8 := rfl
    rw [e8, wadd_eq h 8 (by omega), wadd_eq _ _ (by omega)]
  rw [e2]
  obtain ⟨m2, hm2⟩ : ∃ m2, m2 = set_footer_magic_number_loop m1 (h + 8 + sz) 0 magic_number :=
    ⟨_, rfl⟩
  rw [← hm2]
  have l2 : load64 m2 h = load64 m h := by
    rw [hm2, magic_loop_load64 _ _ _ _ _ (by rw [hlen]; omega) h0 (by omega)]
    exact l1
  have s2 : GET_SIZE m2 h = S := (GET_SIZE_congr l2).trans hS
  -- the line number
  have e3 : SET_LINE_NUMBER m2 h (int_to_unsigned line)
      = store32 m2 (h + S - 44) (int_to_unsigned line) := by
    unfold SET_LINE_NUMBER
    rw [GET_LINE_NUMBER_eq m2 h S s2 (by omega) hw]
  rw [e3]
  obtain ⟨m3, hm3⟩ : ∃ m3, m3 = store32 m2 (h + S - 44) (int_to_unsigned line) := ⟨_, rfl⟩
  rw [← hm3]
  have l3 : load64 m3 h = load64 m h := by
    rw [hm3, load64_store32_ne _ _ _ _ h0 (by omega)]
    exact l2
  have s3 : GET_SIZE m3 h = S := (GET_SIZE_congr l3).trans hS
  -- the file name
  have e4 : SET_FILENAME m3 h file = store64 m3 (h + S - 40) file := by
    unfold SET_FILENAME
    rw [GET_FILENAME_eq m3 h S s3 (by omega) hw]
  rw [e4]
  obtain ⟨m4, hm4⟩ : ∃ m4, m4 = store64 m3 (h + S - 40) file := ⟨_, rfl⟩
  rw [← hm4]
  have l4 : load64 m4 h = load64 m h := by
    rw [hm4, load64_store64_ne _ _ _ _ (by omega) h0 (by omega)]
    exact l3
  have s4 : GET_SIZE m4 h = S := (GET_SIZE_congr l4).trans hS
  -- the self address
  have e5 : SET_HEADER_ADDR m4 h h = store64 m4 (h + S - 32) h := by
    unfold SET_HEADER_ADDR
    rw [GET_HEADER_ADDR_eq m4 h S s4 (by omega) hw]
  rw [e5]
  refine ⟨?_, ?_, ?_, ?_, ?_, ?_⟩
  · rw [load64_store64_ne _ _ _ _ (by omega) h0 (by omega)]
    exact l4
  · rw [load64_store64_same _ _ _ (by omega)]
    exact Nat.mod_eq_of_lt (by omega)
  · rw [load32_store64_ne _ _ _ _ (by omega) (by omega), hm4,
      load32_store64_ne _ _ _ _ (by omega) (by omega), hm3,
      load32_store32_ne _ _ _ _ (by omega), hm2,
      magic_loop_load32 _ _ _ _ _ (by rw [hlen]; omega) (by rw [hlen]; omega), hm1,
      load32_store32_same]
    exact Nat.mod_eq_of_lt h32
  · rw [load64_store64_ne _ _ _ _ (by omega) (by omega) (by omega), hm4,
      load64_store64_same _ _ _ (by omega)]
    exact Nat.mod_eq_of_lt hfile
  · rw [load32_store64_ne _ _ _ _ (by omega) (by omega), hm4,
      load32_store64_ne _ _ _ _ (by omega) (by omega), hm3, load32_store32_same]
    exact Nat.mod_eq_of_lt (int_to_unsigned_lt line)
  · intro i hi
    rw [load8_store64_ne _ _ _ _ (by omega) (by omega), hm4,
      load8_store64_ne _ _ _ _ (by omega) (by omega), hm3,
      load8_store32_ne _ _ _ _ (by omega), hm2,
      magic_loop_load8 _ _ _ _ _ (by rw [hlen]; omega), if_pos (by rw [hlen]; omega)]
    have e : h + 8 + sz + i - (h + 8 + sz + 0) = i := by omega
    rw [e]
    interval_cases i <;> rfl

/-! ### The range check of `m61_validate_free` (C11) -/

theorem m61_validate_free_out_of_range (fuel : Nat) (s : Heap) (p : Nat)
    (h : p < s.statistics.heap_min ∨ p > s.statistics.heap_max) :
    m61_validate_free fuel s p = Except.ok (false, some Diagnostic.not_in_heap) := by
  unfold m61_validate_free
  simp only []
  rw [if_pos h]
  rfl

theorem m61_validate_free_in_range (fuel : Nat) (s : Heap) (p : Nat)
    (h : ¬ (p < s.statistics.heap_min ∨ p > s.statistics.heap_max)) :
    m61_validate_free fuel s p ≠ Except.ok (false, some Diagnostic.not_in_heap) := by
  intro e
  unfold m61_validate_free at e
  simp only [] at e
  rw [if_neg h] at e
  split_ifs at e <;>
    first
    | cases pure_eq_ok e
    | cases e
    | (obtain ⟨c, _, e⟩ := bind_ok _ _ _ e
       split_ifs at e <;> cases pure_eq_ok e)

/-- C11: when `p < heap_min` or `p > heap_max`, `m61_validate_free` returns false with the
classification `not in heap` whatever the arena holds (the result is the same for every
memory content and every step budget); with `heap_max = 0`, as before the first successful
allocation, this is the outcome for every non-null pointer; and for a pointer equal to
`heap_max` that is not below `heap_min` the outcome is never `not in heap`. -/
theorem m61_validate_free_not_in_heap (fuel : Nat) (s : Heap) (p : Nat) :
    ((p < s.statistics.heap_min ∨ p > s.statistics.heap_max) →
      ∀ (m : Mem) (fuel1 : Nat), m61_validate_free fuel1 { s with mem := m } p
        = Except.ok (false, some Diagnostic.not_in_heap)) ∧
    (s.statistics.heap_min = UINTPTR_MAX → s.statistics.heap_max = 0 → p ≠ 0 →
      m61_validate_free fuel s p = Except.ok (false, some Diagnostic.not_in_heap)) ∧
    (s.statistics.heap_min ≤ p → p = s.statistics.heap_max →
      m61_validate_free fuel s p ≠ Except.ok (false, some Diagnostic.not_in_heap)) := by
  refine ⟨fun h m fuel1 => m61_validate_free_out_of_range fuel1 _ p h, fun _ h0 hp => ?_,
    fun h1 h2 => ?_⟩
  · exact m61_validate_free_out_of_range fuel s p (Or.inr (by omega))
  · exact m61_validate_free_in_range fuel s p (by omega)

/-- Witness for C11: on the fresh arena the first payload address is out of range; after one
`malloc(100)` the pointer `heap_max` (one past the allocation) passes the range check. -/
theorem m61_validate_free_not_in_heap_witness :
    ((arena_base + 32 < (m61_memory_buffer_init arena_base).statistics.heap_min ∨
        arena_base + 32 > (m61_memory_buffer_init arena_base).statistics.heap_max) ∧
      ∀ (m : Mem) (fuel1 : Nat),
        m61_validate_free fuel1 { m61_memory_buffer_init arena_base with mem := m }
          (arena_base + 32) = Except.ok (false, some Diagnostic.not_in_heap)) ∧
    (one_block.statistics.heap_min ≤ arena_base + 132 ∧
      arena_base + 132 = one_block.statistics.heap_max ∧
      m61_validate_free run_fuel one_block (arena_base + 132)
        ≠ Except.ok (false, some Diagnostic.not_in_heap)) :=
  ⟨⟨by decide!, (m61_validate_free_not_in_heap 0 (m61_memory_buffer_init arena_base)
      (arena_base + 32)).1 (by decide!)⟩,
    by decide!, by decide!,
    (m61_validate_free_not_in_heap run_fuel one_block (arena_base + 132)).2.2
      (by decide!) (by decide!)⟩

/-! ### The guard check of `m61_validate_free` (C12) -/

theorem check_footer_magic_number_loop_iff (m : Mem) (f : Nat) : ∀ (bs : List Nat) (i : Nat),
    check_footer_magic_number_loop m f i bs = true ↔
      ∀ j, j < bs.length → load8 m (wadd f (i + j)) = bs.getD j 0 := by
  intro bs
  induction bs with
  | nil => intro i; exact ⟨fun _ j hj => absurd hj (Nat.not_lt_zero _), fun _ => rfl⟩
  | cons b t ih =>
    intro i
    show (if load8 m (wadd f i) ≠ b then false
      else check_footer_magic_number_loop m f (i + 1) t) = true ↔ _
    by_cases h : load8 m (wadd f i) = b
    · rw [if_neg (not_not.mpr h), ih]
      constructor
      · intro H j hj
        cases j with
        | zero => exact h
        | succ k =>
          have := H k (Nat.lt_of_succ_lt_succ hj)
          rw [show i + (k + 1) = i + 1 + k by omega]
          exact this
      · intro H j hj
        have := H (j + 1) (Nat.succ_lt_succ hj)
        rw [show i + 1 + j = i + (j + 1) by omega]
        exact this
    · rw [if_pos h]
      constructor
      · intro e; cases e
      · intro H
        exact absurd (H 0 (Nat.succ_pos _)) h

theorem wadd_wsub_word (p : Nat) (hp : p < 18446744073709551616) :
    wadd (wsub p 8) 8 = p := by
  unfold wadd wsub
  split_ifs <;> omega

theorem wadd_wadd (a b c : Nat) : wadd (wadd a b) c = (a + b + c) % 18446744073709551616 := by
  unfold wadd
  omega

theorem check_footer_magic_number_iff (m : Mem) (p r : Nat) (hp : p < 18446744073709551616) :
    check_footer_magic_number m (GET_HEADER_FROM_PAYLOAD p) r = true ↔
      ∀ i, i < 8 → load8 m ((p + r + i) % 18446744073709551616) = magic_number.getD i 0 := by
  unfold check_footer_magic_number GET_HEADER_FROM_PAYLOAD
  have e8 : 1 * WORD_SIZE = 8 := rfl
  have eW : WORD_SIZE = 8 := rfl
  rw [check_footer_magic_number_loop_iff, e8, eW, wadd_wsub_word p hp]
  have hlen : magic_number.length = 8 := rfl
  rw [hlen]
  constructor
  · intro H i hi
    have := H i hi
    rw [Nat.zero_add, wadd_wadd] at this
    exact this
  · intro H i hi
    rw [Nat.zero_add, wadd_wadd]
    exact H i hi

/-- C12: for a pointer `p` inside `[heap_min, heap_max]`, 16-aligned, whose header word has
`ALLOC` set and whose requested-size slot holds `r`: if one of the 8 bytes at `p + r`,
...,`p + r + 7` differs from the corresponding byte of `"kimbora!"`, `m61_validate_free`
returns false with the classification `wild write`, whatever the self-address slot and the
list links hold; if all 8 bytes match, the classification is not `wild write`. -/
theorem m61_validate_free_wild_write (fuel : Nat) (s : Heap) (p : Nat)
    (hp : p < 18446744073709551616)
    (hr : s.statistics.heap_min ≤ p ∧ p ≤ s.statistics.heap_max) (ha : p % 16 = 0)
    (hal : IS_ALLOC s.mem (GET_HEADER_FROM_PAYLOAD p) = true) :
    ((∃ i, i < 8 ∧ load8 s.mem ((p + load32 s.mem
        (REQ_SIZE_FROM_HEADER s.mem (GET_HEADER_FROM_PAYLOAD p)) + i) % 18446744073709551616)
          ≠ magic_number.getD i 0) →
      m61_validate_free fuel s p = Except.ok (false, some Diagnostic.wild_write)) ∧
    ((∀ i, i < 8 → load8 s.mem ((p + load32 s.mem
        (REQ_SIZE_FROM_HEADER s.mem (GET_HEADER_FROM_PAYLOAD p)) + i) % 18446744073709551616)
          = magic_number.getD i 0) →
      ∀ b, m61_validate_free fuel s p ≠ Except.ok (b, some Diagnostic.wild_write)) := by
  have hiff := check_footer_magic_number_iff s.mem p
    (load32 s.mem (REQ_SIZE_FROM_HEADER s.mem (GET_HEADER_FROM_PAYLOAD p))) hp
  have hrange : ¬ (p < s.statistics.heap_min ∨ p > s.statistics.heap_max) := by omega
  have hal2 : ¬ ((!IS_ALLOC s.mem (GET_HEADER_FROM_PAYLOAD p)) = true) := by
    rw [hal]; decide
  constructor
  · intro ⟨i, hi, hne⟩
    have hck : check_footer_magic_number s.mem (GET_HEADER_FROM_PAYLOAD p)
        (load32 s.mem (REQ_SIZE_FROM_HEADER s.mem (GET_HEADER_FROM_PAYLOAD p))) = false := by
      cases hc : check_footer_magic_number s.mem (GET_HEADER_FROM_PAYLOAD p)
        (load32 s.mem (REQ_SIZE_FROM_HEADER s.mem (GET_HEADER_FROM_PAYLOAD p)))
      · rfl
      · exact absurd (hiff.mp hc i hi) hne
    unfold m61_validate_free
    simp only []
    rw [if_neg hrange, if_neg (not_not.mpr ha), if_neg hal2, hck]
    rfl
  · intro H b e
    have hck := hiff.mpr H
    unfold m61_validate_free at e
    simp only [] at e
    rw [if_neg hrange, if_neg (not_not.mpr ha), if_neg hal2, hck] at e
    rw [if_neg (by decide)] at e
    split_ifs at e <;> cases pure_eq_ok e

/-- Witness for C12: after `p = malloc(100)` and a zero byte written at `p[100]` the
validator reports a wild write. -/
theorem m61_validate_free_wild_write_witness :
    arena_base + 32 < 18446744073709551616 ∧
    (overrun_block.statistics.heap_min ≤ arena_base + 32 ∧
      arena_base + 32 ≤ overrun_block.statistics.heap_max) ∧
    (arena_base + 32) % 16 = 0 ∧
    IS_ALLOC overrun_block.mem (GET_HEADER_FROM_PAYLOAD (arena_base + 32)) = true ∧
    m61_validate_free run_fuel overrun_block (arena_base + 32)
      = Except.ok (false, some Diagnostic.wild_write) :=
  ⟨by decide, by decide!, by decide, by decide!,
    (m61_validate_free_wild_write run_fuel overrun_block (arena_base + 32) (by decide)
      (by decide!) (by decide) (by decide!)).1 ⟨0, by decide, by decide!⟩⟩

/-! ### Runs on which the code departs from the specification (C13 to C19) -/

/-- C13 (evaluation at the failing input): in the state `forged_free_header` the pointer
`p + 16` is inside `[heap_min, heap_max]` and 16-aligned, its header word (at `p + 8`) has
`ALLOC` clear and `m61_is_free_block` is false for it, yet `m61_validate_free` does not
return: it reaches `assert(false)`. -/
theorem m61_validate_free_reaches_assert_false :
    (forged_free_header.statistics.heap_min ≤ arena_base + 48 ∧
      arena_base + 48 ≤ forged_free_header.statistics.heap_max) ∧
    (arena_base + 48) % 16 = 0 ∧
    IS_ALLOC forged_free_header.mem (GET_HEADER_FROM_PAYLOAD (arena_base + 48)) = false ∧
    m61_is_free_block forged_free_header.mem (GET_HEADER_FROM_PAYLOAD (arena_base + 48))
      = false ∧
    m61_validate_free run_fuel forged_free_header (arena_base + 48)
      = Except.error Fault.assertion := by
  refine ⟨by decide!, by decide, by decide!, by decide!, by decide!⟩

/-- C14 (evaluation at the failing input): in the run `run_grow_overlap` the block of `p`
has 240 bytes for a recorded request of 100, its predecessor is free, and
`q = realloc(p, 101)` returns `q = p + 64`, non-null; the byte `p[56]`, which held 85 before
the call, is not copied: `q[56]` holds 179, the low byte of the header word that the call
wrote at `p + 56` before copying. -/
theorem m61_realloc_expansion_loses_payload :
    run_grow_overlap = Except.ok (arena_base + 208, arena_base + 272, 100, 85, 179) := by
  decide!

/-- C15 (evaluation at the failing input): after the run `run_shrink` the block of `p` is
live with recorded requested size 100, and `realloc(p, 50)` returns null, not `p`. -/
theorem m61_realloc_second_shrink_returns_null :
    run_shrink_then 50
      = Except.ok (arena_base + 32, [100, 176, 8388400], true, false, 0) := by
  decide!

/-- C16 (evaluation at the failing input): after the run `run_shrink` the block of `p` is
live with recorded requested size 100, and `realloc(p, 100)` returns null, not `p`. -/
theorem m61_realloc_same_size_returns_null :
    run_shrink_then 100
      = Except.ok (arena_base + 32, [100, 176, 8388400], true, false, 0) := by
  decide!

/-- C17 (evaluation at the failing input): after `p = malloc(100)` on a fresh arena,
`realloc(p, 8388608)` finds no in-place option, its fallback `m61_malloc(8388608)` returns
null, and the call then copies the old payload to the null pointer: it does not return. -/
theorem m61_realloc_fallback_null_copy :
    (run_grow 8388608 >>= fun r =>
      m61_malloc run_fuel r.2.1 8388608 file_name 11 >>= fun a =>
      pure (r.1, a.1, r.2.2))
      = Except.ok (arena_base + 32, 0, Except.error Fault.segfault) := by
  decide!

/-- C18 (evaluation at the failing input): for `new_size = SIZE_MAX - 20`, which exceeds
`SIZE_MAX - 80`, `m61_realloc` does not take the failure exit: it calls
`m61_get_adjusted_size`, where `new_size + 64` wraps around and the result is 48, and after
`p = malloc(100)` on a fresh arena the call `realloc(p, SIZE_MAX - 20)` aborts on an
assertion instead of returning null. -/
theorem m61_realloc_overflow_guard_too_weak :
    SIZE_MAX - 20 > SIZE_MAX - 80 ∧
    m61_get_adjusted_size (SIZE_MAX - 20) = Except.ok 48 ∧
    (run_grow (SIZE_MAX - 20) >>= fun r => pure (r.1, r.2.2))
      = Except.ok (arena_base + 32, Except.error Fault.assertion) := by
  refine ⟨by decide, by decide!, by decide!⟩

/-- C19 (evaluation at the failing input): after the run `run_shrink` the block of `p` is
live with recorded requested size 100 and size 176, its predecessor is allocated and its
successor is free with 8388400 bytes, so that for `k = 150` (adjusted size 224) both
conditions of the claim hold; `realloc(p, 150)` returns null, not `p`. -/
theorem m61_realloc_absorb_successor_returns_null :
    m61_get_adjusted_size 150 = Except.ok 224 ∧
    run_shrink_then 150
      = Except.ok (arena_base + 32, [100, 176, 8388400], true, false, 0) := by
  refine ⟨by decide!, by decide!⟩

/-! ### Lists of a well-formed heap -/

theorem dlist_links (m : Mem) : ∀ (l : List Block) (p a : Nat),
    dlist m p a (l.map Block.addr) →
    (∀ b ∈ l, block_geom b ∧ GET_SIZE m b.addr = b.size) → links m p a l 0 := by
  intro l
  induction l with
  | nil => intro p a h _; exact h
  | cons b t ih =>
    intro p a h hg
    obtain ⟨h1, _, h3, h4⟩ := h
    obtain ⟨⟨g0, g1, g2, g3, g4⟩, gs⟩ := hg b (List.mem_cons_self _ _)
    rw [LIST_PREV_eq m b.addr b.size gs (by omega) g4] at h3
    rw [LIST_NEXT_eq m b.addr b.size gs (by omega) g4] at h4
    exact ⟨h1, h3, ih _ _ h4 (fun c hc => hg c (List.mem_cons_of_mem _ hc))⟩

theorem links_dlist (m : Mem) : ∀ (l : List Block) (p a : Nat),
    links m p a l 0 →
    (∀ b ∈ l, block_geom b ∧ GET_SIZE m b.addr = b.size) → dlist m p a (l.map Block.addr) := by
  intro l
  induction l with
  | nil => intro p a h _; exact h
  | cons b t ih =>
    intro p a h hg
    obtain ⟨h1, h3, h4⟩ := h
    obtain ⟨⟨g0, g1, g2, g3, g4⟩, gs⟩ := hg b (List.mem_cons_self _ _)
    refine ⟨h1, by omega, ?_, ?_⟩
    · rw [LIST_PREV_eq m b.addr b.size gs (by omega) g4]
      exact h3
    · rw [LIST_NEXT_eq m b.addr b.size gs (by omega) g4]
      exact ih _ _ h4 (fun c hc => hg c (List.mem_cons_of_mem _ hc))

theorem dlist_list_walk (m : Mem) : ∀ (l : List Nat) (p a : Nat),
    dlist m p a l → list_walk m a l := by
  intro l
  induction l with
  | nil => intro p a h; exact h
  | cons b t ih =>
    intro p a h
    exact ⟨h.1, h.2.1, ih _ _ h.2.2.2⟩

theorem wf_free_links {s : Heap} {bs fl al : List Block} (wf : WellFormed s bs fl al) :
    links s.mem 0 s.free_list_start fl 0 :=
  dlist_links _ _ _ _ wf.free_list (fun b hb =>
    ⟨(wf_geom wf b (wf.free_sub b hb).1).1, (wf.blocks b (wf.free_sub b hb).1).2.2.1⟩)

theorem wf_alloc_links {s : Heap} {bs fl al : List Block} (wf : WellFormed s bs fl al) :
    links s.mem 0 s.alloc_list_start al 0 :=
  dlist_links _ _ _ _ wf.alloc_list (fun b hb =>
    ⟨(wf_geom wf b (wf.alloc_sub b hb).1).1, (wf.blocks b (wf.alloc_sub b hb).1).2.2.1⟩)

theorem wf_free_pairwise {s : Heap} {bs fl al : List Block} (wf : WellFormed s bs fl al) :
    fl.Pairwise apart :=
  List.Nodup.pairwise_of_forall_ne wf.free_nodup (fun a ha b hb hne =>
    wf_apart wf a (wf.free_sub a ha).1 b (wf.free_sub b hb).1 hne)

theorem wf_alloc_pairwise {s : Heap} {bs fl al : List Block} (wf : WellFormed s bs fl al) :
    al.Pairwise apart :=
  List.Nodup.pairwise_of_forall_ne wf.alloc_nodup (fun a ha b hb hne =>
    wf_apart wf a (wf.alloc_sub a ha).1 b (wf.alloc_sub b hb).1 hne)

/-- The two list heads differ as soon as the free list is not empty. -/
theorem wf_heads_ne {s : Heap} {bs fl al : List Block} (wf : WellFormed s bs fl al)
    (x : Block) (hx : x ∈ fl) : s.free_list_start ≠ s.alloc_list_start := by
  have hf := links_first _ _ _ _ _ (wf_free_links wf)
  have ha := links_first _ _ _ _ _ (wf_alloc_links wf)
  cases fl with
  | nil => cases hx
  | cons f ft =>
    have hfm : f ∈ f :: ft := List.mem_cons_self _ _
    have hfb := wf.free_sub f hfm
    have hfa : IS_ALLOC s.mem f.addr = false := by
      rw [(wf.blocks f hfb.1).2.2.2.1]; exact hfb.2
    have hfg := (wf_geom wf f hfb.1).1.1
    have hf : s.free_list_start = f.addr := hf
    cases al with
    | nil =>
      have ha : s.alloc_list_start = 0 := ha
      omega
    | cons a at_ =>
      have ham : a ∈ a :: at_ := List.mem_cons_self _ _
      have hab := wf.alloc_sub a ham
      have haa : IS_ALLOC s.mem a.addr = true := by
        rw [(wf.blocks a hab.1).2.2.2.1]; exact hab.2
      have ha : s.alloc_list_start = a.addr := ha
      intro e
      rw [hf, ha] at e
      rw [e, haa] at hfa
      cases hfa

/-- A member of the free list found by address. -/
theorem mem_map_addr (l : List Block) (h : Nat) (hm : h ∈ l.map Block.addr) :
    ∃ x ∈ l, x.addr = h := by
  obtain ⟨x, hx, e⟩ := List.mem_map.mp hm
  exact ⟨x, hx, e⟩

/-! ### Aligned addresses -/

theorem wsub_aligned (a b : Nat) (ha : a % 8 = 0) (hb : b % 8 = 0) : wsub a b % 8 = 0 := by
  unfold wsub
  split_ifs <;> omega

theorem wadd_aligned (a b : Nat) (ha : a % 8 = 0) (hb : b % 8 = 0) : wadd a b % 8 = 0 := by
  unfold wadd
  omega

theorem PREV_FROM_HEADER_aligned (m : Mem) (h : Nat) (ha : h % 8 = 0) :
    PREV_FROM_HEADER m h % 8 = 0 := by
  unfold PREV_FROM_HEADER DECREMENT_SIZE_T_PTR
  exact wsub_aligned _ _ ha (by simp only [WORD_SIZE]; omega)

theorem NEXT_FROM_HEADER_aligned (m : Mem) (h : Nat) (ha : h % 8 = 0) :
    NEXT_FROM_HEADER m h % 8 = 0 := by
  unfold NEXT_FROM_HEADER INCREMENT_SIZE_T_PTR
  exact wadd_aligned _ _ ha (by simp only [WORD_SIZE]; omega)

/-- Toggling `NEXT_ALLOC` in the previous block keeps every size field and `ALLOC` bit. -/
theorem TOGGLE_PREV_BITS_eff (m : Mem) (h : Nat) (ha : h % 8 = 0) :
    eff [] [PREV_FROM_HEADER m h] m (TOGGLE_PREV_BITS m h NEXT_ALLOC_BIT) :=
  eff_toggle m _ 1 (PREV_FROM_HEADER_aligned m h ha) (Or.inl rfl)

/-- Toggling `PREV_ALLOC` in the next block keeps every size field and `ALLOC` bit. -/
theorem TOGGLE_NEXT_BITS_eff (m : Mem) (h : Nat) (ha : h % 8 = 0) :
    eff [] [NEXT_FROM_HEADER m h] m (TOGGLE_NEXT_BITS m h PREV_ALLOC_BIT) :=
  eff_toggle m _ 4 (NEXT_FROM_HEADER_aligned m h ha) (Or.inr rfl)

/-! ### `m61_push_to_front` -/

theorem m61_push_to_front_ok (s t : Heap) (hd list : Nat)
    (h : m61_push_to_front s hd list = Except.ok t) :
    hd ≠ list ∧ IS_ALLOC s.mem hd = !decide (list = s.free_list_start) := by
  unfold m61_push_to_front at h
  simp only [] at h
  obtain ⟨h1, h⟩ := c_assert_bind _ _ _ h
  refine ⟨of_decide_eq_true h1, ?_⟩
  by_cases hc : list = s.free_list_start
  · rw [if_pos hc] at h
    obtain ⟨h2, _⟩ := c_assert_bind _ _ _ h
    rw [decide_eq_true hc]
    cases hA : IS_ALLOC s.mem hd
    · rfl
    · rw [hA] at h2; cases h2
  · rw [if_neg hc] at h
    obtain ⟨h2, _⟩ := c_assert_bind _ _ _ h
    rw [decide_eq_false hc]
    exact h2

/-- The value of `m61_push_to_front` when its asserts hold. -/
theorem m61_push_to_front_run (s : Heap) (hd list : Nat) (h1 : hd ≠ list)
    (h2 : IS_ALLOC s.mem hd = !decide (list = s.free_list_start)) :
    m61_push_to_front s hd list = Except.ok (
      let m1 :=
        if list = 0 then SET_LIST_NEXT s.mem hd 0
        else SET_LIST_PREV (SET_LIST_NEXT s.mem hd list) list hd
      let m2 := SET_LIST_PREV m1 hd 0
      if list = s.free_list_start then { s with mem := m2, free_list_start := hd }
      else { s with mem := m2, alloc_list_start := hd }) := by
  unfold m61_push_to_front
  simp only []
  rw [decide_eq_true h1, c_assert_true, except_bind_ok]
  by_cases hc : list = s.free_list_start
  · rw [if_pos hc, if_pos hc, if_pos hc]
    rw [decide_eq_true hc] at h2
    rw [h2]
    rfl
  · rw [if_neg hc, if_neg hc, if_neg hc]
    rw [decide_eq_false hc] at h2
    rw [h2]
    rfl

/-- The stores of `m61_push_to_front`: the two link slots of the pushed block and the
predecessor slot of the old head. -/
theorem m61_push_to_front_mem (s t : Heap) (hd list Sd Sl : Nat)
    (h : m61_push_to_front s hd list = Except.ok t)
    (hd8 : hd % 8 = 0) (hSd : GET_SIZE s.mem hd = Sd) (h80 : 80 ≤ Sd)
    (hw : hd + Sd < 18446744073709551616)
    (hl : list ≠ 0 → list % 8 = 0 ∧ GET_SIZE s.mem list = Sl ∧ 80 ≤ Sl ∧
      list + Sl < 18446744073709551616 ∧ (list + Sl ≤ hd ∨ hd + Sd ≤ list)) :
    t.mem = store64 (if list = 0 then store64 s.mem (hd + Sd - 16) 0
        else store64 (store64 s.mem (hd + Sd - 16) list) (list + Sl - 24) hd)
      (hd + Sd - 24) 0 ∧
    same_globals s t ∧
    (list = s.free_list_start →
      t.free_list_start = hd ∧ t.alloc_list_start = s.alloc_list_start) ∧
    (list ≠ s.free_list_start →
      t.alloc_list_start = hd ∧ t.free_list_start = s.free_list_start) := by
  have hS8 : Sd % 8 = 0 := hSd ▸ GET_SIZE_mod _ _
  obtain ⟨h1, h2⟩ := m61_push_to_front_ok s t hd list h
  rw [m61_push_to_front_run s hd list h1 h2] at h
  have e := (Except.ok.inj h).symm
  simp only [] at e
  have hm1 : (if list = 0 then SET_LIST_NEXT s.mem hd 0
        else SET_LIST_PREV (SET_LIST_NEXT s.mem hd list) list hd)
      = (if list = 0 then store64 s.mem (hd + Sd - 16) 0
        else store64 (store64 s.mem (hd + Sd - 16) list) (list + Sl - 24) hd) := by
    by_cases h0 : list = 0
    · rw [if_pos h0, if_pos h0, SET_LIST_NEXT_eq _ _ _ _ hSd (by omega) hw]
    · obtain ⟨l8, lS, l80, lw, lap⟩ := hl h0
      rw [if_neg h0, if_neg h0, SET_LIST_NEXT_eq _ _ _ _ hSd (by omega) hw,
        SET_LIST_PREV_eq _ _ Sl _ ((GET_SIZE_store64_ne _ _ _ _ (by omega) l8
          (by omega)).trans lS) (by omega) lw]
  have hS2 : GET_SIZE (if list = 0 then store64 s.mem (hd + Sd - 16) 0
        else store64 (store64 s.mem (hd + Sd - 16) list) (list + Sl - 24) hd) hd = Sd := by
    by_cases h0 : list = 0
    · rw [if_pos h0, GET_SIZE_store64_ne _ _ _ _ (by omega) hd8 (by omega)]
      exact hSd
    · obtain ⟨l8, lS, l80, lw, lap⟩ := hl h0
      have lS8 : Sl % 8 = 0 := lS ▸ GET_SIZE_mod _ _
      rw [if_neg h0, GET_SIZE_store64_ne _ _ _ _ (by omega) hd8 (by omega),
        GET_SIZE_store64_ne _ _ _ _ (by omega) hd8 (by omega)]
      exact hSd
  rw [hm1, SET_LIST_PREV_eq _ _ Sd _ hS2 (by omega) hw] at e
  by_cases hc : list = s.free_list_start
  · rw [if_pos hc] at e
    rw [e]
    exact ⟨rfl, ⟨rfl, rfl, rfl, rfl⟩, fun _ => ⟨rfl, rfl⟩, fun hn => absurd hc hn⟩
  · rw [if_neg hc] at e
    rw [e]
    exact ⟨rfl, ⟨rfl, rfl, rfl, rfl⟩, fun hn => absurd hn hc, fun _ => ⟨rfl, rfl⟩⟩

/-! ### `m61_place` on a well-formed heap -/

theorem m61_push_to_front_frame (s t : Heap) (hd list Sd Sl : Nat)
    (h : m61_push_to_front s hd list = Except.ok t)
    (hd8 : hd % 8 = 0) (hSd : GET_SIZE s.mem hd = Sd) (h80 : 80 ≤ Sd)
    (hw : hd + Sd < 18446744073709551616)
    (hl : list ≠ 0 → list % 8 = 0 ∧ GET_SIZE s.mem list = Sl ∧ 80 ≤ Sl ∧
      list + Sl < 18446744073709551616 ∧ (list + Sl ≤ hd ∨ hd + Sd ≤ list)) :
    ∀ w, w % 8 = 0 → w ≠ hd + Sd - 16 → w ≠ hd + Sd - 24 → (list ≠ 0 → w ≠ list + Sl - 24) →
      load64 t.mem w = load64 s.mem w := by
  have hS8 : Sd % 8 = 0 := hSd ▸ GET_SIZE_mod _ _
  obtain ⟨e, -, -, -⟩ := m61_push_to_front_mem s t hd list Sd Sl h hd8 hSd h80 hw hl
  intro w hw8 n1 n2 n3
  rw [e, load64_store64_ne _ _ _ _ (by omega) hw8 n2]
  by_cases h0 : list = 0
  · rw [if_pos h0, load64_store64_ne _ _ _ _ (by omega) hw8 n1]
  · obtain ⟨l8, lS, l80, lw, lap⟩ := hl h0
    have lS8 : Sl % 8 = 0 := lS ▸ GET_SIZE_mod _ _
    rw [if_neg h0, load64_store64_ne _ _ _ _ (by omega) hw8 (n3 h0),
      load64_store64_ne _ _ _ _ (by omega) hw8 n1]

theorem not_header_of_inside {s : Heap} {bs fl al : List Block} (wf : WellFormed s bs fl al)
    (c x : Block) (hc : c ∈ bs) (a : Nat) (h1 : c.addr < a ∨ (c = x ∧ c.addr ≤ a))
    (h2 : a < c.addr + c.size) : ∀ b ∈ bs, b ≠ x → a ≠ b.addr := by
  intro b hb hne e
  by_cases hbc : b = c
  · subst hbc
    rcases h1 with h1 | ⟨h1, _⟩
    · omega
    · exact hne h1
  · have hap := wf_apart wf b hb c hc hbc
    obtain ⟨-, -, -, g3, -⟩ := (wf_geom wf b hb).1
    unfold apart at hap
    omega

theorem sizes_store (bs : List Block) (x : Block) (m : Mem) (a v : Nat) (ha : a % 8 = 0)
    (hg : ∀ b ∈ bs, b.addr % 8 = 0) (hne : ∀ b ∈ bs, b ≠ x → a ≠ b.addr)
    (h : ∀ b ∈ bs, b ≠ x → GET_SIZE m b.addr = b.size) :
    ∀ b ∈ bs, b ≠ x → GET_SIZE (store64 m a v) b.addr = b.size := by
  intro b hb hn
  rw [GET_SIZE_store64_ne _ _ _ _ ha (hg b hb) (fun e => hne b hb hn e.symm)]
  exact h b hb hn

theorem INCREMENT_SIZE_T_PTR_eq (h n : Nat) (hn : n % 8 = 0)
    (hw : h + n < 18446744073709551616) : INCREMENT_SIZE_T_PTR h n = h + n := by
  unfold INCREMENT_SIZE_T_PTR
  have e : WORD_SIZE * (n / WORD_SIZE) = n := by simp only [WORD_SIZE]; omega
  rw [e, wadd_eq _ _ hw]

theorem GET_SIZE_store_header (m : Mem) (h S bits : Nat) (ha : h % 8 = 0) (hS : S % 8 = 0)
    (hb : bits < 8) (hw : S < 18446744073709551616) :
    GET_SIZE (store64 m h (S + bits)) h = S := by
  rw [GET_SIZE_eq, load64_store64_same _ _ _ ha, Nat.mod_eq_of_lt (by omega)]
  omega

/-- What `m61_unstitch_list` on the free list of a well-formed heap leaves alone. -/
theorem m61_unstitch_free_wf {s : Heap} {bs fl al : List Block} (wf : WellFormed s bs fl al)
    (x : Block) (hx : x ∈ fl) (t : Heap)
    (hu : m61_unstitch_list s (x.addr + x.size - 24) (x.addr + x.size - 16) ListRef.free_list
      = Except.ok t) :
    ∃ f1 f2, fl = f1 ++ x :: f2 ∧ same_globals s t ∧
      t.alloc_list_start = s.alloc_list_start ∧
      t.free_list_start = first_addr (f1 ++ f2) 0 ∧
      links t.mem 0 t.free_list_start (f1 ++ f2) 0 ∧
      (∀ b ∈ f1 ++ f2, b ∈ bs ∧ b ≠ x) ∧
      ∀ w, w % 8 = 0 →
        (∀ b ∈ f1 ++ f2, w ≠ b.addr + b.size - 16 ∧ w ≠ b.addr + b.size - 24) →
        load64 t.mem w = load64 s.mem w := by
  obtain ⟨f1, f2, hfl⟩ := List.append_of_mem hx
  have hL := wf_free_links wf
  have hpw := wf_free_pairwise wf
  rw [hfl] at hL hpw
  have hsub : ∀ b ∈ f1 ++ x :: f2, b ∈ bs ∧ b.alloc = false := fun b hb =>
    wf.free_sub b (hfl ▸ hb)
  have hsub2 : ∀ b ∈ f1 ++ f2, b ∈ f1 ++ x :: f2 := by
    intro b hb
    rcases List.mem_append.mp hb with h | h
    · exact List.mem_append_left _ h
    · exact List.mem_append_right _ (List.mem_cons_of_mem _ h)
  have hne := wf_heads_ne wf x hx
  obtain ⟨t', W, hu', hglob, hal, -, hlinks, heffW, hW⟩ :=
    m61_unstitch_list_spec s ListRef.free_list f1 f2 x hL
      (fun b hb => (wf_geom wf b (hsub b hb).1).1)
      (fun b hb => by
        have hb' := hsub b (hsub2 b hb)
        have hbk := wf.blocks b hb'.1
        refine ⟨hbk.2.2.1, ?_⟩
        rw [hbk.2.2.2.1, hb'.2]
        exact (decide_eq_false hne).symm)
      hpw
  have et : t = t' := Except.ok.inj (hu.symm.trans hu')
  subst et
  have hnx : x ∉ f1 ++ f2 :=
    (List.nodup_cons.mp (List.nodup_middle.mp (hfl ▸ wf.free_nodup))).1
  refine ⟨f1, f2, hfl, hglob, hal rfl, links_first _ _ _ _ _ hlinks, hlinks,
    fun b hb => ⟨(hsub b (hsub2 b hb)).1, fun e => hnx (e ▸ hb)⟩, ?_⟩
  intro w hw8 hns
  refine (heffW w hw8 (fun hin => ?_)).2.2 (fun h => by cases h)
  obtain ⟨b, hb, hor⟩ := hW w hin
  have := hns b hb
  omega

/-- Pushing a block that lies within the extent of `x` in front of a list whose head is
another block of the layout: outside the two link slots of the pushed block, the words that
are not strictly inside another block keep their value. -/
theorem m61_push_to_front_frame_wf {s : Heap} {bs fl al : List Block}
    (wf : WellFormed s bs fl al) (x : Block) (hxb : x ∈ bs) (cur t : Heap) (hd Sd list : Nat)
    (h : m61_push_to_front cur hd list = Except.ok t)
    (hd8 : hd % 8 = 0) (hSd : GET_SIZE cur.mem hd = Sd) (h80 : 80 ≤ Sd)
    (hin : x.addr ≤ hd ∧ hd + Sd ≤ x.addr + x.size)
    (hlist : list = 0 ∨ ∃ F ∈ bs, F ≠ x ∧ list = F.addr ∧ GET_SIZE cur.mem F.addr = F.size) :
    same_globals cur t ∧
    (list = cur.free_list_start →
      t.free_list_start = hd ∧ t.alloc_list_start = cur.alloc_list_start) ∧
    (list ≠ cur.free_list_start →
      t.alloc_list_start = hd ∧ t.free_list_start = cur.free_list_start) ∧
    ∀ w, w % 8 = 0 → w ≠ hd + Sd - 16 → w ≠ hd + Sd - 24 →
      (∀ b ∈ bs, b ≠ x → w ≤ b.addr ∨ b.addr + b.size ≤ w) →
      load64 t.mem w = load64 cur.mem w := by
  obtain ⟨⟨x0, x1, x2, x3, x4⟩, -, -, -, -⟩ := wf_geom wf x hxb
  rcases hlist with h0 | ⟨F, hF, hFx, hFa, hFs⟩
  · have hl : list ≠ 0 → list % 8 = 0 ∧ GET_SIZE cur.mem list = 0 ∧ 80 ≤ 0 ∧
        list + 0 < 18446744073709551616 ∧ (list + 0 ≤ hd ∨ hd + Sd ≤ list) :=
      fun hn => absurd h0 hn
    obtain ⟨-, g, a1, a2⟩ := m61_push_to_front_mem cur t hd list Sd 0 h hd8 hSd h80
      (by omega) hl
    refine ⟨g, a1, a2, fun w hw8 n1 n2 _ => ?_⟩
    exact m61_push_to_front_frame cur t hd list Sd 0 h hd8 hSd h80 (by omega) hl w hw8 n1 n2
      (fun hn => absurd h0 hn)
  · obtain ⟨⟨f0, f1, f2, f3, f4⟩, _, _, _, _⟩ := wf_geom wf F hF
    have hap := wf_apart wf F hF x hxb hFx
    unfold apart at hap
    have hl : list ≠ 0 → list % 8 = 0 ∧ GET_SIZE cur.mem list = F.size ∧ 80 ≤ F.size ∧
        list + F.size < 18446744073709551616 ∧ (list + F.size ≤ hd ∨ hd + Sd ≤ list) := by
      intro _
      rw [hFa]
      exact ⟨f1, hFs, f3, f4, by omega⟩
    obtain ⟨-, g, a1, a2⟩ := m61_push_to_front_mem cur t hd list Sd F.size h hd8 hSd h80
      (by omega) hl
    refine ⟨g, a1, a2, fun w hw8 n1 n2 hb => ?_⟩
    refine m61_push_to_front_frame cur t hd list Sd F.size h hd8 hSd h80 (by omega) hl w hw8
      n1 n2 (fun _ => ?_)
    have := hb F hF hFx
    rw [hFa]
    omega

/-- The address of a header is not strictly inside another block. -/
theorem header_boundary {s : Heap} {bs fl al : List Block} (wf : WellFormed s bs fl al)
    (c : Block) (hc : c ∈ bs) (w : Nat) (hw : c.addr ≤ w ∧ w < c.addr + c.size) (x : Block)
    (hcx : c = x ∨ w = c.addr) :
    ∀ b ∈ bs, b ≠ x → w ≤ b.addr ∨ b.addr + b.size ≤ w := by
  intro b hb hbx
  by_cases hbc : b = c
  · subst hbc
    rcases hcx with e | e
    · exact absurd e hbx
    · omega
  · have hap := wf_apart wf b hb c hc hbc
    unfold apart at hap
    omega

/-- The last step of `m61_place`: pushing the placed block on the alloc list keeps its
header word. -/
theorem m61_place_final {s : Heap} {bs fl al : List Block} (wf : WellFormed s bs fl al)
    (x : Block) (hx : x ∈ fl) (cur t : Heap) (S1 : Nat)
    (hpush : m61_push_to_front cur x.addr cur.alloc_list_start = Except.ok t)
    (hal : cur.alloc_list_start = s.alloc_list_start)
    (hS : GET_SIZE cur.mem x.addr = S1) (h80 : 80 ≤ S1) (hle : S1 ≤ x.size)
    (hinv : ∀ b ∈ bs, b ≠ x → GET_SIZE cur.mem b.addr = b.size) :
    load64 t.mem x.addr = load64 cur.mem x.addr := by
  have hxb := (wf.free_sub x hx).1
  obtain ⟨⟨x0, x1, x2, x3, x4⟩, -, -, -, -⟩ := wf_geom wf x hxb
  have hS8 : S1 % 8 = 0 := hS ▸ GET_SIZE_mod _ _
  have hlist : cur.alloc_list_start = 0 ∨ ∃ F ∈ bs, F ≠ x ∧ cur.alloc_list_start = F.addr ∧
      GET_SIZE cur.mem F.addr = F.size := by
    have ha := links_first _ _ _ _ _ (wf_alloc_links wf)
    cases hal2 : al with
    | nil =>
      rw [hal2] at ha
      exact Or.inl (hal.trans ha)
    | cons A r =>
      rw [hal2] at ha
      have hA := wf.alloc_sub A (hal2 ▸ List.mem_cons_self _ _)
      have hAx : A ≠ x := by
        intro e
        have := (wf.free_sub x hx).2
        rw [← e, hA.2] at this
        cases this
      exact Or.inr ⟨A, hA.1, hAx, hal.trans ha, hinv A hA.1 hAx⟩
  obtain ⟨-, -, -, hfr⟩ := m61_push_to_front_frame_wf wf x hxb cur t x.addr S1 _ hpush x1 hS
    h80 ⟨le_refl _, by omega⟩ hlist
  exact hfr x.addr x1 (by omega) (by omega)
    (header_boundary wf x hxb x.addr ⟨le_refl _, by omega⟩ x (Or.inl rfl))

theorem GET_SIZE_TOGGLE_PREV_BITS (m : Mem) (h w : Nat) (ha : h % 8 = 0) (hw : w % 8 = 0) :
    GET_SIZE (TOGGLE_PREV_BITS m h NEXT_ALLOC_BIT) w = GET_SIZE m w :=
  (TOGGLE_PREV_BITS_eff m h ha w hw (List.not_mem_nil _)).1

theorem GET_SIZE_TOGGLE_NEXT_BITS (m : Mem) (h w : Nat) (ha : h % 8 = 0) (hw : w % 8 = 0) :
    GET_SIZE (TOGGLE_NEXT_BITS m h PREV_ALLOC_BIT) w = GET_SIZE m w :=
  (TOGGLE_NEXT_BITS_eff m h ha w hw (List.not_mem_nil _)).1

/-- The size field that `m61_place` leaves in the header of the placed block. -/
theorem m61_place_size {s : Heap} {bs fl al : List Block} (wf : WellFormed s bs fl al)
    (x : Block) (hx : x ∈ fl) (asize : Nat) (ha80 : 80 ≤ asize) (ha8 : asize % 8 = 0)
    (hle : asize ≤ x.size) (s1 : Heap) (hp : m61_place s x.addr asize = Except.ok s1) :
    GET_SIZE s1.mem x.addr = asize ∨ GET_SIZE s1.mem x.addr = x.size := by
  have hxb := (wf.free_sub x hx).1
  obtain ⟨⟨x0, x1, x2, x3, x4⟩, -, -, -, -⟩ := wf_geom wf x hxb
  have hxs : GET_SIZE s.mem x.addr = x.size := (wf.blocks x hxb).2.2.1
  have hg8 : ∀ b ∈ bs, b.addr % 8 = 0 := fun b hb => (wf_geom wf b hb).1.2.1
  unfold m61_place at hp
  simp only [] at hp
  rw [LIST_PREV_eq _ _ _ hxs (by omega) x4, LIST_NEXT_eq _ _ _ hxs (by omega) x4] at hp
  obtain ⟨t1, hu, hp⟩ := bind_ok _ _ _ hp
  obtain ⟨f1, f2, hfl, hglob1, hal1, hfh1, hlinks1, hmem1, hfr1⟩ :=
    m61_unstitch_free_wf wf x hx t1 hu
  -- the headers are as before
  have hhdr1 : ∀ b ∈ bs, load64 t1.mem b.addr = load64 s.mem b.addr := by
    intro b hb
    apply hfr1 _ (hg8 b hb)
    intro c hc
    obtain ⟨hcb, -⟩ := hmem1 c hc
    obtain ⟨-, -, -, c3, -⟩ := (wf_geom wf c hcb).1
    by_cases hbc : b = c
    · subst hbc
      constructor <;> omega
    · have hap := wf_apart wf b hb c hcb hbc
      obtain ⟨-, -, -, b3, -⟩ := (wf_geom wf b hb).1
      unfold apart at hap
      constructor <;> omega
  have hsz1 : ∀ b ∈ bs, GET_SIZE t1.mem b.addr = b.size := fun b hb =>
    (GET_SIZE_congr (hhdr1 b hb)).trans (wf.blocks b hb).2.2.1
  have hxs1 := hsz1 x hxb
  rw [hxs1] at hp
  have hin0 : ∀ b ∈ bs, b ≠ x → x.addr ≠ b.addr :=
    not_header_of_inside wf x x hxb x.addr (Or.inr ⟨rfl, le_refl _⟩) (by omega)
  split_ifs at hp with hsplit
  · -- the block is split
    obtain ⟨s2, h2, hp⟩ := bind_ok _ _ _ hp
    obtain ⟨y, hy, hp⟩ := bind_ok _ _ _ hp
    have ey := pure_eq_ok hy
    subst ey
    have hws : wsub x.size asize = x.size - asize := wsub_eq _ _ hle (by omega)
    have hinc : INCREMENT_SIZE_T_PTR x.addr asize = x.addr + asize :=
      INCREMENT_SIZE_T_PTR_eq _ _ ha8 (by omega)
    have hb5 : PREV_ALLOC_BIT ||| NEXT_ALLOC_BIT = 5 := rfl
    have hb6 : ALLOC_BIT ||| PREV_ALLOC_BIT = 6 := rfl
    rw [hws] at hsplit
    simp only [MIN_BLOCK, ALLOC_META_SIZE, MIN_PAYLOAD, WORD_SIZE] at hsplit
    rw [hws, hinc, hb5, m61_set_header_and_footer_eq _ _ _ _ (by omega) (by omega) (by omega)
      (by omega) (by omega)] at h2
    have hnf : ∀ b ∈ bs, b ≠ x → x.addr + asize ≠ b.addr :=
      not_header_of_inside wf x x hxb _ (Or.inl (by omega)) (by omega)
    have hnft : ∀ b ∈ bs, b ≠ x → x.addr + asize + (x.size - asize) - 8 ≠ b.addr :=
      not_header_of_inside wf x x hxb _ (Or.inl (by omega)) (by omega)
    have hsz2 := sizes_store bs x _ (x.addr + asize + (x.size - asize) - 8)
      (x.size - asize + 5) (by omega) hg8 hnft
      (sizes_store bs x _ (x.addr + asize) (x.size - asize + 5) (by omega) hg8 hnf
        (fun b hb _ => hsz1 b hb))
    have hlist2 : t1.free_list_start = 0 ∨ ∃ F ∈ bs, F ≠ x ∧ t1.free_list_start = F.addr ∧
        GET_SIZE (store64 (store64 t1.mem (x.addr + asize) (x.size - asize + 5))
          (x.addr + asize + (x.size - asize) - 8) (x.size - asize + 5)) F.addr = F.size := by
      cases hff : f1 ++ f2 with
      | nil =>
        rw [hff] at hfh1
        exact Or.inl hfh1
      | cons F r =>
        rw [hff] at hfh1
        obtain ⟨hFb, hFx⟩ := hmem1 F (hff ▸ List.mem_cons_self _ _)
        exact Or.inr ⟨F, hFb, hFx, hfh1, hsz2 F hFb hFx⟩
    have hSnf : GET_SIZE (store64 (store64 t1.mem (x.addr + asize) (x.size - asize + 5))
        (x.addr + asize + (x.size - asize) - 8) (x.size - asize + 5)) (x.addr + asize)
        = x.size - asize := by
      rw [GET_SIZE_store64_ne _ _ _ _ (by omega) (by omega) (by omega)]
      exact GET_SIZE_store_header _ _ _ _ (by omega) (by omega) (by omega) (by omega)
    obtain ⟨-, hheads2, -, hfr2⟩ := m61_push_to_front_frame_wf wf x hxb _ s2 (x.addr + asize)
      (x.size - asize) _ h2 (by omega) hSnf (by omega) ⟨by omega, by omega⟩ hlist2
    clear hlist2
    have hsz3 : ∀ b ∈ bs, b ≠ x → GET_SIZE s2.mem b.addr = b.size := by
      intro b hb hbx
      refine (GET_SIZE_congr (hfr2 b.addr (hg8 b hb) ?_ ?_ ?_)).trans (hsz2 b hb hbx)
      · exact fun e => not_header_of_inside wf x x hxb (x.addr + asize + (x.size - asize) - 16)
          (Or.inl (by omega)) (by omega) b hb hbx e.symm
      · exact fun e => not_header_of_inside wf x x hxb (x.addr + asize + (x.size - asize) - 24)
          (Or.inl (by omega)) (by omega) b hb hbx e.symm
      · exact header_boundary wf b hb b.addr
          ⟨le_refl _, by have := (wf_geom wf b hb).1.2.2.2.1; omega⟩ x (Or.inr rfl)
    rw [hb6, m61_set_header_and_footer_eq _ _ _ _ x1 ha8 (by omega) (by omega) (by omega)] at hp
    have hfin := m61_place_final wf x hx _ s1 asize hp ((hheads2 rfl).2.trans hal1)
      (by
        show GET_SIZE (TOGGLE_PREV_BITS _ _ _) _ = _
        rw [GET_SIZE_TOGGLE_PREV_BITS _ _ _ x1 x1,
          GET_SIZE_store64_ne _ _ _ _ (by omega) x1 (by omega)]
        exact GET_SIZE_store_header _ _ _ _ x1 ha8 (by omega) (by omega))
      ha80 hle
      (by
        intro b hb hbx
        show GET_SIZE (TOGGLE_PREV_BITS _ _ _) _ = _
        rw [GET_SIZE_TOGGLE_PREV_BITS _ _ _ x1 (hg8 b hb)]
        exact sizes_store bs x _ _ _ (by omega) hg8
          (not_header_of_inside wf x x hxb _ (Or.inl (by omega)) (by omega))
          (sizes_store bs x _ _ _ x1 hg8 hin0 hsz3) b hb hbx)
    left
    rw [GET_SIZE_congr hfin]
    show GET_SIZE (TOGGLE_PREV_BITS _ _ _) _ = _
    rw [GET_SIZE_TOGGLE_PREV_BITS _ _ _ x1 x1,
      GET_SIZE_store64_ne _ _ _ _ (by omega) x1 (by omega)]
    exact GET_SIZE_store_header _ _ _ _ x1 ha8 (by omega) (by omega)
  · -- the whole block is used
    obtain ⟨y, hy, hp⟩ := bind_ok _ _ _ hp
    have ey := pure_eq_ok hy
    subst ey
    have hb7 : ALLOC_BIT ||| PREV_ALLOC_BIT ||| NEXT_ALLOC_BIT = 7 := rfl
    rw [hb7, m61_set_header_and_footer_eq _ _ _ _ x1 x2 (by omega) (by omega) (by omega)] at hp
    have hfin := m61_place_final wf x hx _ s1 x.size hp hal1
      (by
        show GET_SIZE (TOGGLE_PREV_BITS (TOGGLE_NEXT_BITS _ _ _) _ _) _ = _
        rw [GET_SIZE_TOGGLE_PREV_BITS _ _ _ x1 x1, GET_SIZE_TOGGLE_NEXT_BITS _ _ _ x1 x1,
          GET_SIZE_store64_ne _ _ _ _ (by omega) x1 (by omega)]
        exact GET_SIZE_store_header _ _ _ _ x1 x2 (by omega) (by omega))
      x3 (le_refl _)
      (by
        intro b hb hbx
        show GET_SIZE (TOGGLE_PREV_BITS (TOGGLE_NEXT_BITS _ _ _) _ _) _ = _
        rw [GET_SIZE_TOGGLE_PREV_BITS _ _ _ x1 (hg8 b hb),
          GET_SIZE_TOGGLE_NEXT_BITS _ _ _ x1 (hg8 b hb)]
        exact sizes_store bs x _ _ _ (by omega) hg8
          (not_header_of_inside wf x x hxb _ (Or.inl (by omega)) (by omega))
          (sizes_store bs x _ _ _ x1 hg8 hin0 (fun b hb _ => hsz1 b hb)) b hb hbx)
    right
    rw [GET_SIZE_congr hfin]
    show GET_SIZE (TOGGLE_PREV_BITS (TOGGLE_NEXT_BITS _ _ _) _ _) _ = _
    rw [GET_SIZE_TOGGLE_PREV_BITS _ _ _ x1 x1, GET_SIZE_TOGGLE_NEXT_BITS _ _ _ x1 x1,
      GET_SIZE_store64_ne _ _ _ _ (by omega) x1 (by omega)]
    exact GET_SIZE_store_header _ _ _ _ x1 x2 (by omega) (by omega)

/-! ### The block of a successful `m61_malloc` (C6, C20) -/

/-- The steps of a call of `m61_malloc` that returns a non-null pointer. -/
theorem m61_malloc_ok (fuel : Nat) (s t : Heap) (sz file q : Nat) (line : Int)
    (hr : m61_malloc fuel s sz file line = Except.ok (q, t)) (hq : q ≠ 0) :
    sz ≠ 0 ∧ sz ≤ SIZE_MAX - 80 ∧ ∃ header s1, header ≠ 0 ∧
      m61_find_fit fuel s (adjusted_size_value sz) = Except.ok header ∧
      m61_place s header (adjusted_size_value sz) = Except.ok s1 ∧
      IS_ALLOC s1.mem header = true ∧
      q = GET_PAYLOAD header ∧
      t.mem = m61_set_alloc_metadata s1.mem header sz file line ∧
      t.statistics = m61_record_malloc s1.statistics header sz ∧
      t.free_list_start = s1.free_list_start ∧ t.alloc_list_start = s1.alloc_list_start ∧
      t.default_buffer = s1.default_buffer := by
  unfold m61_malloc at hr
  by_cases h0 : sz = 0
  · rw [if_pos h0] at hr
    exact absurd (congrArg Prod.fst (pure_eq_ok hr)).symm hq
  · rw [if_neg h0] at hr
    by_cases h1 : sz > SIZE_MAX - (ALIGNMENT + ALLOC_META_SIZE)
    · rw [if_pos h1] at hr
      exact absurd (congrArg Prod.fst (pure_eq_ok hr)).symm hq
    · rw [if_neg h1] at hr
      have hle : sz ≤ SIZE_MAX - 80 := by
        simp only [SIZE_MAX, ALIGNMENT, ALLOC_META_SIZE, WORD_SIZE] at h1 ⊢
        omega
      rw [m61_get_adjusted_size_eq sz hle] at hr
      obtain ⟨asize, ha, hr⟩ := bind_ok _ _ _ hr
      have ea := Except.ok.inj ha
      subst ea
      obtain ⟨header, hf, hr⟩ := bind_ok _ _ _ hr
      by_cases hh : header ≠ 0
      · rw [if_pos hh] at hr
        obtain ⟨_, hr⟩ := c_assert_bind _ _ _ hr
        obtain ⟨s1, hp, hr⟩ := bind_ok _ _ _ hr
        obtain ⟨hal, hr⟩ := c_assert_bind _ _ _ hr
        have e := pure_eq_ok hr
        have eq : q = GET_PAYLOAD header := (congrArg Prod.fst e).symm
        have et := (congrArg Prod.snd e).symm
        simp only [] at et
        refine ⟨h0, hle, header, s1, hh, hf, hp, hal, eq, ?_, ?_, ?_, ?_, ?_⟩ <;> rw [et]
      · rw [if_neg hh] at hr
        exact absurd (congrArg Prod.fst (pure_eq_ok hr)).symm hq

theorem adjusted_size_value_facts (sz : Nat) :
    80 ≤ adjusted_size_value sz ∧ adjusted_size_value sz % 16 = 0 ∧
      sz + 64 ≤ adjusted_size_value sz := by
  unfold adjusted_size_value
  split_ifs <;> omega

/-- The block that a successful `m61_malloc` on a well-formed heap hands out: where its
header is, how large it is, and that the metadata were written last. -/
theorem m61_malloc_block {s : Heap} {bs fl al : List Block} (wf : WellFormed s bs fl al)
    (fuel : Nat) (t : Heap) (sz file q : Nat) (line : Int)
    (hr : m61_malloc fuel s sz file line = Except.ok (q, t)) (hq : q ≠ 0) :
    ∃ h S m1, q = h + 8 ∧ h % 16 = 8 ∧ GET_SIZE m1 h = S ∧ sz + 64 ≤ S ∧
      s.default_buffer.buffer + 24 ≤ h ∧ h + S ≤ s.default_buffer.buffer + 8388600 ∧
      h + S < 18446744073709551616 ∧
      t.mem = m61_set_alloc_metadata m1 h sz file line := by
  obtain ⟨_, _, header, s1, hh, hf, hp, _, eq, em, _, _, _, _⟩ :=
    m61_malloc_ok fuel s t sz file q line hr hq
  obtain ⟨a80, a16, a64⟩ := adjusted_size_value_facts sz
  have hl := dlist_list_walk _ _ _ _ wf.free_list
  rcases m61_find_fit_loop_mem s.mem _ _ _ fuel header hl hf with hz | ⟨hm, hsz⟩
  · exact absurd hz hh
  · obtain ⟨x, hx, hxa⟩ := mem_map_addr fl header hm
    subst hxa
    have hxb := (wf.free_sub x hx).1
    obtain ⟨⟨x0, x1, x2, x3, x4⟩, x16, _, xlo, xhi⟩ := wf_geom wf x hxb
    have hxs : GET_SIZE s.mem x.addr = x.size := (wf.blocks x hxb).2.2.1
    rw [hxs] at hsz
    have hps := m61_place_size wf x hx _ a80 (by omega) hsz s1 hp
    rw [GET_PAYLOAD_eq _ (by omega)] at eq
    refine ⟨x.addr, GET_SIZE s1.mem x.addr, s1.mem, eq, x16, rfl, ?_, xlo, ?_, ?_, em⟩ <;>
      rcases hps with e | e <;> rw [e] <;> omega

/-- The metadata of the block that a successful `m61_malloc` on a well-formed heap returns,
read back from the state it leaves. -/
theorem m61_malloc_readback (s : Heap) (bs fl al : List Block) (wf : WellFormed s bs fl al)
    (fuel : Nat) (t : Heap) (sz file q : Nat) (line : Int)
    (hfile : file < 18446744073709551616)
    (hr : m61_malloc fuel s sz file line = Except.ok (q, t)) (hq : q ≠ 0) :
    load64 t.mem (GET_HEADER_ADDR t.mem (GET_HEADER_FROM_PAYLOAD q))
      = GET_HEADER_FROM_PAYLOAD q ∧
    load32 t.mem (REQ_SIZE_FROM_HEADER t.mem (GET_HEADER_FROM_PAYLOAD q)) = sz ∧
    load64 t.mem (GET_FILENAME t.mem (GET_HEADER_FROM_PAYLOAD q)) = file ∧
    (load32 t.mem (GET_LINE_NUMBER t.mem (GET_HEADER_FROM_PAYLOAD q)) : Int)
      = line % 4294967296 ∧
    (∀ i, i < 8 → load8 t.mem (q + sz + i) = magic_number.getD i 0) ∧
    q + sz + 8 ≤ GET_HEADER_FROM_PAYLOAD q + GET_SIZE t.mem (GET_HEADER_FROM_PAYLOAD q) - 48 := by
  obtain ⟨h, S, m1, eq, h16, hS, hsz, hlo, hhi, hw, em⟩ :=
    m61_malloc_block wf fuel t sz file q line hr hq
  have hb := wf.size_eq
  have hsp := wf.in_space
  have e1 : GET_HEADER_FROM_PAYLOAD q = h := by
    rw [eq, GET_HEADER_FROM_PAYLOAD_eq _ (by omega) (by omega)]
    omega
  obtain ⟨k0, k1, k2, k3, k4, k5⟩ := m61_set_alloc_metadata_spec m1 h S sz file line hS
    (by omega) hsz hw (by omega) hfile
  rw [← em] at k0 k1 k2 k3 k4 k5
  have hS' : GET_SIZE t.mem h = S := (GET_SIZE_congr k0).trans hS
  rw [e1, GET_HEADER_ADDR_eq _ _ _ hS' (by omega) hw, REQ_SIZE_FROM_HEADER_eq _ _ _ hS'
    (by omega) hw, GET_FILENAME_eq _ _ _ hS' (by omega) hw, GET_LINE_NUMBER_eq _ _ _ hS'
    (by omega) hw, hS', k4, int_to_unsigned_cast]
  refine ⟨k1, k2, k3, rfl, ?_, by omega⟩
  intro i hi
  rw [eq]
  exact k5 i hi

/-- C6: on a well-formed heap, right after a call `m61_malloc(sz, file, line)` that returns
the non-null payload address `q` (header `h = q - 8`), the self-address slot holds `h`, the
requested-size slot holds `sz`, the file slot holds `file`, the line slot holds `line` (as
a 32-bit value), the 8 bytes at `q + sz` are the bytes of `"kimbora!"`, and these guard
bytes end at or before the first metadata slot: `q + sz + 8 ≤ h + size(h) - 48`. -/
theorem m61_malloc_metadata (s : Heap) (bs fl al : List Block) (wf : WellFormed s bs fl al)
    (fuel : Nat) (t : Heap) (sz file q : Nat) (line : Int)
    (hfile : file < 18446744073709551616)
    (hr : m61_malloc fuel s sz file line = Except.ok (q, t)) (hq : q ≠ 0) :
    load64 t.mem (GET_HEADER_ADDR t.mem (GET_HEADER_FROM_PAYLOAD q))
      = GET_HEADER_FROM_PAYLOAD q ∧
    load32 t.mem (REQ_SIZE_FROM_HEADER t.mem (GET_HEADER_FROM_PAYLOAD q)) = sz ∧
    load64 t.mem (GET_FILENAME t.mem (GET_HEADER_FROM_PAYLOAD q)) = file ∧
    (load32 t.mem (GET_LINE_NUMBER t.mem (GET_HEADER_FROM_PAYLOAD q)) : Int)
      = line % 4294967296 ∧
    (∀ i, i < 8 → load8 t.mem (q + sz + i) = magic_number.getD i 0) ∧
    q + sz + 8 ≤ GET_HEADER_FROM_PAYLOAD q + GET_SIZE t.mem (GET_HEADER_FROM_PAYLOAD q) - 48 :=
  m61_malloc_readback s bs fl al wf fuel t sz file q line hfile hr hq

/-- Witness for C6: the first `malloc(100)` on the fresh arena, which is well formed with
its single free block. -/
theorem m61_malloc_metadata_witness :
    WellFormed (m61_memory_buffer_init arena_base) [⟨arena_base + 24, 8388576, false⟩]
      [⟨arena_base + 24, 8388576, false⟩] [] ∧
    m61_malloc run_fuel (m61_memory_buffer_init arena_base) 100 file_name 10
      = Except.ok (arena_base + 32, one_block) ∧
    load32 one_block.mem
      (REQ_SIZE_FROM_HEADER one_block.mem (GET_HEADER_FROM_PAYLOAD (arena_base + 32))) = 100 ∧
    ∀ i, i < 8 → load8 one_block.mem (arena_base + 32 + 100 + i) = magic_number.getD i 0 :=
  ⟨by constructor <;> decide!, by decide!,
    (m61_malloc_metadata (m61_memory_buffer_init arena_base)
      [⟨arena_base + 24, 8388576, false⟩] [⟨arena_base + 24, 8388576, false⟩] []
      (by constructor <;> decide!) run_fuel one_block 100 file_name
      (arena_base + 32) 10 (by decide) (by decide!) (by decide)).2.1,
    (m61_malloc_metadata (m61_memory_buffer_init arena_base)
      [⟨arena_base + 24, 8388576, false⟩] [⟨arena_base + 24, 8388576, false⟩] []
      (by constructor <;> decide!) run_fuel one_block 100 file_name
      (arena_base + 32) 10 (by decide) (by decide!) (by decide)).2.2.2.2.1⟩

/-! ### `m61_calloc` (C20) -/

theorem load8_memset (m : Mem) (p c : Nat) : ∀ (n a : Nat),
    load8 (memset m p c n) a = if p ≤ a ∧ a < p + n then c % 256 else load8 m a := by
  intro n
  induction n with
  | zero =>
    intro a
    rw [if_neg (by omega)]
    rfl
  | succ n ih =>
    intro a
    show load8 (store8 (memset m p c n) (p + n) c) a = _
    rw [load8_store8, ih]
    by_cases h1 : a = p + n
    · rw [if_pos h1, if_pos (by omega)]
    · rw [if_neg h1]
      by_cases h2 : p ≤ a ∧ a < p + n
      · rw [if_pos h2, if_pos (by omega)]
      · rw [if_neg h2, if_neg (by omega)]

/-- C20: `m61_calloc(count, sz)` returns null and changes nothing when `count = 0`; returns
null with `nfail + 1` and `fail_size + sz` and nothing else changed when `count ≠ 0` and
`sz > SIZE_MAX / count`; otherwise it aborts when `m61_malloc(count * sz)` does, and when
that call returns `(q, t)` it returns the same `q` in a state `t'` with the statistics, list
heads and other globals of `t`, equal to `t` when `q` is null, and for non-null `q` with
zero bytes at `q`, ..., `q + count * sz - 1`, every byte outside that range as in `t` (so
all list words are those `m61_malloc` left), and, on a well-formed heap, the bytes of
`"kimbora!"` at `q + count * sz`. -/
theorem m61_calloc_spec (s : Heap) (bs fl al : List Block) (wf : WellFormed s bs fl al)
    (fuel count sz file : Nat) (line : Int) (hfile : file < 18446744073709551616) :
    (count = 0 → m61_calloc fuel s count sz file line = Except.ok (0, s)) ∧
    (count ≠ 0 → sz > SIZE_MAX / count →
      m61_calloc fuel s count sz file line = Except.ok (0, failed_request s sz)) ∧
    (count ≠ 0 → sz ≤ SIZE_MAX / count →
      (∀ e, m61_malloc fuel s (count * sz) file line = Except.error e →
        m61_calloc fuel s count sz file line = Except.error e) ∧
      ∀ q t, m61_malloc fuel s (count * sz) file line = Except.ok (q, t) →
        ∃ t1, m61_calloc fuel s count sz file line = Except.ok (q, t1) ∧
          t1.statistics = t.statistics ∧ t1.free_list_start = t.free_list_start ∧
          t1.alloc_list_start = t.alloc_list_start ∧ same_globals t t1 ∧
          (q = 0 → t1 = t) ∧
          (q ≠ 0 →
            (∀ i, i < count * sz → load8 t1.mem (q + i) = 0) ∧
            (∀ a, a < q ∨ q + count * sz ≤ a → load8 t1.mem a = load8 t.mem a) ∧
            (∀ i, i < 8 → load8 t1.mem (q + count * sz + i) = magic_number.getD i 0))) := by
  refine ⟨fun h0 => ?_, fun h0 h1 => ?_, fun h0 h1 => ?_⟩
  · unfold m61_calloc
    rw [if_pos h0]
    rfl
  · unfold m61_calloc
    rw [if_neg h0, if_pos h1, m61_malloc_fail_eq]
    rfl
  · have hprod : count * sz % 18446744073709551616 = count * sz := by
      apply Nat.mod_eq_of_lt
      have := Nat.mul_le_of_le_div count sz SIZE_MAX h1
      simp only [SIZE_MAX] at this
      rw [Nat.mul_comm]
      omega
    have h1' : ¬ sz > SIZE_MAX / count := by omega
    constructor
    · intro e he
      unfold m61_calloc
      rw [if_neg h0, if_neg h1', hprod]
      show (m61_malloc fuel s (count * sz) file line >>= _) = _
      rw [he]
      rfl
    · intro q t hm
      have hrun : m61_calloc fuel s count sz file line = Except.ok
          (if q ≠ 0 then (q, { t with mem := memset t.mem q 0 (count * sz) }) else (q, t)) := by
        unfold m61_calloc
        rw [if_neg h0, if_neg h1', hprod]
        show (m61_malloc fuel s (count * sz) file line >>= _) = _
        rw [hm, except_bind_ok]
        by_cases hq : q ≠ 0
        · rw [if_pos hq]
          show (if q ≠ 0 then _ else _) = _
          rw [if_pos hq]
          rfl
        · rw [if_neg hq]
          show (if q ≠ 0 then _ else _) = _
          rw [if_neg hq]
          rfl
      by_cases hq : q ≠ 0
      · rw [if_pos hq] at hrun
        refine ⟨_, hrun, rfl, rfl, rfl, ⟨rfl, rfl, rfl, rfl⟩, fun e => absurd e hq, fun _ => ?_⟩
        have hz : ∀ i, i < count * sz → load8 (memset t.mem q 0 (count * sz)) (q + i) = 0 := by
          intro i hi
          rw [load8_memset, if_pos (by omega)]
        have hout : ∀ a, a < q ∨ q + count * sz ≤ a →
            load8 (memset t.mem q 0 (count * sz)) a = load8 t.mem a := by
          intro a ha
          rw [load8_memset, if_neg (by omega)]
        refine ⟨hz, hout, fun i hi => ?_⟩
        show load8 (memset t.mem q 0 (count * sz)) (q + count * sz + i) = _
        rw [hout _ (by omega)]
        exact (m61_malloc_readback s bs fl al wf fuel t (count * sz) file q line hfile hm
          hq).2.2.2.2.1 i hi
      · rw [if_neg hq] at hrun
        exact ⟨t, hrun, rfl, rfl, rfl, ⟨rfl, rfl, rfl, rfl⟩, fun _ => rfl,
          fun h => absurd h hq⟩

/-- Witness for C20: `calloc(10, 10)` on the fresh arena returns the first payload address
with 100 zero bytes. -/
theorem m61_calloc_spec_witness :
    WellFormed (m61_memory_buffer_init arena_base) [⟨arena_base + 24, 8388576, false⟩]
      [⟨arena_base + 24, 8388576, false⟩] [] ∧
    file_name < 18446744073709551616 ∧ 10 ≠ 0 ∧ 10 ≤ SIZE_MAX / 10 ∧
    m61_malloc run_fuel (m61_memory_buffer_init arena_base) (10 * 10) file_name 10
      = Except.ok (arena_base + 32, one_block) ∧
    ∃ t1, m61_calloc run_fuel (m61_memory_buffer_init arena_base) 10 10 file_name 10
        = Except.ok (arena_base + 32, t1) ∧
      t1.statistics = one_block.statistics ∧
      ∀ i, i < 10 * 10 → load8 t1.mem (arena_base + 32 + i) = 0 := by
  refine ⟨by constructor <;> decide!, by decide, by decide, by decide, by decide!, ?_⟩
  obtain ⟨t1, h1, h2, _, _, _, _, h3⟩ :=
    ((m61_calloc_spec (m61_memory_buffer_init arena_base) [⟨arena_base + 24, 8388576, false⟩]
      [⟨arena_base + 24, 8388576, false⟩] [] (by constructor <;> decide!) run_fuel 10 10
      file_name 10 (by decide)).2.2 (by decide) (by decide)).2 (arena_base + 32) one_block
      (by decide!)
  exact ⟨t1, h1, h2, (h3 (by decide)).1⟩

/-! ### Effects described by predicates -/

theorem effp_refl (P Q : Nat → Prop) (m : Mem) : effp P Q m m :=
  fun _ _ _ => ⟨rfl, rfl, fun _ => rfl⟩

theorem effp_trans {P Q : Nat → Prop} {m m1 m2 : Mem} (h1 : effp P Q m m1)
    (h2 : effp P Q m1 m2) : effp P Q m m2 := by
  intro w hw hn
  obtain ⟨a1, b1, c1⟩ := h1 w hw hn
  obtain ⟨a2, b2, c2⟩ := h2 w hw hn
  exact ⟨a2.trans a1, b2.trans b1, fun hq => (c2 hq).trans (c1 hq)⟩

theorem effp_store (P Q : Nat → Prop) (m : Mem) (a v : Nat) (ha : a % 8 = 0) (hP : P a) :
    effp P Q m (store64 m a v) := by
  intro w hw hn
  have hne : w ≠ a := fun e => hn (e ▸ hP)
  exact ⟨GET_SIZE_store64_ne m a w v ha hw hne, IS_ALLOC_store64_ne m a w v ha hw hne,
    fun _ => load64_store64_ne m a w v ha hw hne⟩

theorem effp_of_eff {P Q : Nat → Prop} {W T : List Nat} {m m' : Mem} (h : eff W T m m')
    (hW : ∀ w ∈ W, P w) (hT : ∀ w ∈ T, P w ∨ Q w) : effp P Q m m' := by
  intro w hw hn
  obtain ⟨a, b, c⟩ := h w hw (fun hin => hn (hW w hin))
  refine ⟨a, b, fun hq => c (fun hin => ?_)⟩
  rcases hT w hin with h1 | h1
  · exact hn h1
  · exact hq h1

theorem effp_toggle_prev (P Q : Nat → Prop) (m : Mem) (h : Nat) (ha : h % 8 = 0)
    (hQ : P (PREV_FROM_HEADER m h) ∨ Q (PREV_FROM_HEADER m h)) :
    effp P Q m (TOGGLE_PREV_BITS m h NEXT_ALLOC_BIT) :=
  effp_of_eff (TOGGLE_PREV_BITS_eff m h ha) (fun _ hw => by cases hw)
    (fun w hw => by rw [List.mem_singleton.mp hw]; exact hQ)

theorem effp_toggle_next (P Q : Nat → Prop) (m : Mem) (h : Nat) (ha : h % 8 = 0)
    (hQ : P (NEXT_FROM_HEADER m h) ∨ Q (NEXT_FROM_HEADER m h)) :
    effp P Q m (TOGGLE_NEXT_BITS m h PREV_ALLOC_BIT) :=
  effp_of_eff (TOGGLE_NEXT_BITS_eff m h ha) (fun _ hw => by cases hw)
    (fun w hw => by rw [List.mem_singleton.mp hw]; exact hQ)

/-! ### Neighbours in the layout -/

theorem neighbours (m : Mem) : ∀ (bs : List Block) (a e : Nat) (pa : Bool),
    tiles a bs e → flags_ok m pa bs → ∀ x ∈ bs,
    ((x.addr = a ∧ IS_PREV_ALLOC m x.addr = pa) ∨
      ∃ P ∈ bs, P.addr + P.size = x.addr ∧ IS_PREV_ALLOC m x.addr = P.alloc) ∧
    ((x.addr + x.size = e ∧ IS_NEXT_ALLOC m x.addr = true) ∨
      ∃ N ∈ bs, N.addr = x.addr + x.size ∧ IS_NEXT_ALLOC m x.addr = N.alloc) := by
  intro bs
  induction bs with
  | nil => intro a e pa _ _ x hx; cases hx
  | cons b t ih =>
    intro a e pa ht hf x hx
    obtain ⟨hb, ht'⟩ := ht
    obtain ⟨hp, hn, hf'⟩ := hf
    rcases List.mem_cons.mp hx with e1 | e1
    · subst e1
      refine ⟨Or.inl ⟨hb, hp⟩, ?_⟩
      cases t with
      | nil =>
        have : a + x.size = e := ht'
        exact Or.inl ⟨by omega, hn⟩
      | cons n t' =>
        have : n.addr = a + x.size := ht'.1
        exact Or.inr ⟨n, List.mem_cons_of_mem _ (List.mem_cons_self _ _), by omega, hn⟩
    · obtain ⟨h1, h2⟩ := ih _ _ _ ht' hf' x e1
      constructor
      · rcases h1 with ⟨h1a, h1b⟩ | ⟨P, hP, h1a, h1b⟩
        · exact Or.inr ⟨b, List.mem_cons_self _ _, by omega, h1b⟩
        · exact Or.inr ⟨P, List.mem_cons_of_mem _ hP, h1a, h1b⟩
      · rcases h2 with h2 | ⟨N, hN, h2a, h2b⟩
        · exact Or.inl h2
        · exact Or.inr ⟨N, List.mem_cons_of_mem _ hN, h2a, h2b⟩

theorem wf_neighbours {s : Heap} {bs fl al : List Block} (wf : WellFormed s bs fl al)
    (x : Block) (hx : x ∈ bs) :
    ((x.addr = s.default_buffer.buffer + 24 ∧ IS_PREV_ALLOC s.mem x.addr = true) ∨
      ∃ P ∈ bs, P.addr + P.size = x.addr ∧ IS_PREV_ALLOC s.mem x.addr = P.alloc) ∧
    ((x.addr + x.size = s.default_buffer.buffer + 8388600 ∧
        IS_NEXT_ALLOC s.mem x.addr = true) ∨
      ∃ N ∈ bs, N.addr = x.addr + x.size ∧ IS_NEXT_ALLOC s.mem x.addr = N.alloc) := by
  have h := neighbours s.mem bs _ _ true wf.tiling wf.flags x hx
  have hs := wf.size_eq
  rw [hs] at h
  exact h

theorem apart_symm : Symmetric apart := fun _ _ h => Or.symm h

theorem mem_middle {b y : Block} {l1 l2 : List Block} (h : b ∈ l1 ++ y :: l2) :
    b = y ∨ b ∈ l1 ++ l2 := by
  rcases List.mem_append.mp h with h1 | h1
  · exact Or.inr (List.mem_append_left _ h1)
  · rcases List.mem_cons.mp h1 with h2 | h2
    · exact Or.inl h2
    · exact Or.inr (List.mem_append_right _ h2)

theorem mem_of_mem_middle {b y : Block} {l1 l2 : List Block} (h : b ∈ l1 ++ l2) :
    b ∈ l1 ++ y :: l2 := by
  rcases List.mem_append.mp h with h1 | h1
  · exact List.mem_append_left _ h1
  · exact List.mem_append_right _ (List.mem_cons_of_mem _ h1)

/-- Writing the header and footer of a merged free region `[hd0, hd0 + T)` that contains the
free-list member `y`, then removing `y` from the free list. -/
theorem merge_unstitch (c : Heap) (m1 : Mem) (hd0 T : Nat) (y : Block) (l1 l2 : List Block)
    (P Q : Nat → Prop)
    (hm1 : m1 = store64 (store64 c.mem hd0 (T + 5)) (hd0 + T - 8) (T + 5))
    (hd8 : hd0 % 8 = 0) (hT8 : T % 8 = 0) (hT : 16 ≤ T)
    (hw : hd0 + T < 18446744073709551616)
    (hin : hd0 ≤ y.addr ∧ y.addr + y.size ≤ hd0 + T)
    (hL : links c.mem 0 c.free_list_start (l1 ++ y :: l2) 0)
    (hg : ∀ b ∈ l1 ++ y :: l2, block_geom b)
    (hmem : ∀ b ∈ l1 ++ l2, GET_SIZE c.mem b.addr = b.size ∧ IS_ALLOC c.mem b.addr = false)
    (hpw : (l1 ++ y :: l2).Pairwise apart)
    (hap : ∀ b ∈ l1 ++ l2, b.addr + b.size ≤ hd0 ∨ hd0 + T ≤ b.addr)
    (hne : c.free_list_start ≠ c.alloc_list_start)
    (hP : ∀ w, hd0 ≤ w → w < hd0 + T → P w)
    (hPl : ∀ b ∈ l1 ++ l2, ∀ w, b.addr ≤ w → w < b.addr + b.size → P w) :
    ∃ c1, m61_unstitch_list { c with mem := m1 } (y.addr + y.size - 24)
        (y.addr + y.size - 16) ListRef.free_list = Except.ok c1 ∧
      same_globals c c1 ∧ c1.alloc_list_start = c.alloc_list_start ∧
      load64 c1.mem hd0 = T + 5 ∧
      links c1.mem 0 c1.free_list_start (l1 ++ l2) 0 ∧
      (∀ b ∈ l1 ++ l2, GET_SIZE c1.mem b.addr = b.size ∧ IS_ALLOC c1.mem b.addr = false) ∧
      effp P Q c.mem c1.mem ∧
      (∀ w, w % 8 = 0 → w ≠ hd0 → w ≠ hd0 + T - 8 →
        (∀ b ∈ l1 ++ l2, w ≠ b.addr + b.size - 16 ∧ w ≠ b.addr + b.size - 24) →
        load64 c1.mem w = load64 c.mem w) ∧
      load64 c1.mem (hd0 + T - 8) = T + 5 := by
  obtain ⟨y0, y1, y2, y3, y4⟩ := hg y (List.mem_append_right _ (List.mem_cons_self _ _))
  have hg2 : ∀ b ∈ l1 ++ l2, block_geom b := fun b hb => hg b (mem_of_mem_middle hb)
  -- the two stores leave the slots of the list alone
  have hslot : ∀ b ∈ l1 ++ y :: l2, ∀ w, (w = hd0 ∨ w = hd0 + T - 8) →
      w ≠ b.addr + b.size - 24 ∧ w ≠ b.addr + b.size - 16 := by
    intro b hb w hw'
    rcases mem_middle hb with e | hb2
    · subst e
      constructor <;> omega
    · obtain ⟨b0, b1, b2, b3, b4⟩ := hg2 b hb2
      have := hap b hb2
      constructor <;> omega
  have hg3 : ∀ b ∈ l1 ++ y :: l2, b.addr % 8 = 0 ∧ b.size % 8 = 0 ∧ 24 ≤ b.size := by
    intro b hb
    obtain ⟨b0, b1, b2, b3, b4⟩ := hg b hb
    exact ⟨b1, b2, by omega⟩
  have hL1 : links m1 0 c.free_list_start (l1 ++ y :: l2) 0 := by
    rw [hm1]
    exact links_store _ _ _ _ _ _ _
      (links_store _ _ _ _ _ _ _ hL hd8 hg3 (fun b hb => hslot b hb _ (Or.inl rfl)))
      (by omega) hg3 (fun b hb => hslot b hb _ (Or.inr rfl))
  have hhdr : ∀ b ∈ l1 ++ l2, load64 m1 b.addr = load64 c.mem b.addr := by
    intro b hb
    obtain ⟨b0, b1, b2, b3, b4⟩ := hg2 b hb
    have := hap b hb
    rw [hm1, load64_store64_ne _ _ _ _ (by omega) b1 (by omega),
      load64_store64_ne _ _ _ _ hd8 b1 (by omega)]
  obtain ⟨c1, W, hrun, hglob, hal, -, hlinks, heffW, hW⟩ :=
    m61_unstitch_list_spec { c with mem := m1 } ListRef.free_list l1 l2 y hL1 hg
      (fun b hb => ⟨(GET_SIZE_congr (hhdr b hb)).trans (hmem b hb).1,
        ((IS_ALLOC_congr (hhdr b hb)).trans (hmem b hb).2).trans (decide_eq_false hne).symm⟩)
      hpw
  have hWslot : ∀ w ∈ W, ∀ v, v % 8 = 0 →
      (∀ b ∈ l1 ++ l2, v ≠ b.addr + b.size - 16 ∧ v ≠ b.addr + b.size - 24) → v ≠ w := by
    intro w hw' v _ hv e
    obtain ⟨b, hb, hor⟩ := hW w hw'
    have := hv b hb
    omega
  have hfr : ∀ w, w % 8 = 0 →
      (∀ b ∈ l1 ++ l2, w ≠ b.addr + b.size - 16 ∧ w ≠ b.addr + b.size - 24) →
      load64 c1.mem w = load64 m1 w := by
    intro w hw8 hv
    exact (heffW w hw8 (fun hin' => hWslot w hin' w hw8 hv rfl)).2.2 (fun h => by cases h)
  have hpw2 := hpw.forall apart_symm
  have hhdr_slot : ∀ b ∈ l1 ++ l2, ∀ b' ∈ l1 ++ l2,
      b.addr ≠ b'.addr + b'.size - 16 ∧ b.addr ≠ b'.addr + b'.size - 24 := by
    intro b hb b' hb'
    obtain ⟨b0, b1, b2, b3, b4⟩ := hg2 b hb
    obtain ⟨d0, d1, d2, d3, d4⟩ := hg2 b' hb'
    by_cases e : b = b'
    · subst e
      constructor <;> omega
    · have := hpw2 (mem_of_mem_middle hb) (mem_of_mem_middle hb') e
      unfold apart at this
      constructor <;> omega
  refine ⟨c1, hrun, ⟨hglob.1, hglob.2.1, hglob.2.2.1, hglob.2.2.2⟩, hal rfl, ?_, hlinks, ?_,
    ?_, ?_, ?_⟩
  · rw [hfr hd0 hd8 (fun b hb => by
      obtain ⟨b0, b1, b2, b3, b4⟩ := hg2 b hb
      have := hap b hb
      constructor <;> omega)]
    show load64 m1 hd0 = _
    rw [hm1, load64_store64_ne _ _ _ _ (by omega) hd8 (by omega),
      load64_store64_same _ _ _ hd8]
    exact Nat.mod_eq_of_lt (by omega)
  · intro b hb
    have e := (hfr b.addr (hg2 b hb).2.1 (fun b' hb' => hhdr_slot b hb b' hb')).trans
      (hhdr b hb)
    exact ⟨(GET_SIZE_congr e).trans (hmem b hb).1, (IS_ALLOC_congr e).trans (hmem b hb).2⟩
  · have e1 : effp P Q c.mem m1 := by
      rw [hm1]
      exact effp_trans (effp_store P Q _ _ _ hd8 (hP _ (le_refl _) (by omega)))
        (effp_store P Q _ _ _ (by omega) (hP _ (by omega) (by omega)))
    refine effp_trans e1 (effp_of_eff heffW (fun w hw' => ?_) (fun w hw' => by cases hw'))
    obtain ⟨b, hb, hor⟩ := hW w hw'
    obtain ⟨b0, b1, b2, b3, b4⟩ := hg2 b hb
    exact hPl b hb w (by omega) (by omega)
  · intro w hw8 n1 n2 hv
    rw [hfr w hw8 hv]
    show load64 m1 w = _
    rw [hm1, load64_store64_ne _ _ _ _ (by omega) hw8 n2,
      load64_store64_ne _ _ _ _ hd8 hw8 n1]
  · rw [hfr (hd0 + T - 8) (by omega) (fun b hb => by
      obtain ⟨b0, b1, b2, b3, b4⟩ := hg2 b hb
      have := hap b hb
      constructor <;> omega)]
    show load64 m1 (hd0 + T - 8) = _
    rw [hm1, load64_store64_same _ _ _ (by omega)]
    exact Nat.mod_eq_of_lt (by omega)

/-- The free-list part of `m61_coalesce_next`: the block at `hd` of size `M` absorbs the free
block `N` that follows it. -/
theorem m61_coalesce_next_spec (c : Heap) (hd M : Nat) (N : Block) (l1 l2 : List Block)
    (P Q : Nat → Prop) (hd8 : hd % 8 = 0) (hM : GET_SIZE c.mem hd = M) (hM16 : 16 ≤ M)
    (hN : N.addr = hd + M) (hNs : GET_SIZE c.mem N.addr = N.size)
    (hL : links c.mem 0 c.free_list_start (l1 ++ N :: l2) 0)
    (hg : ∀ b ∈ l1 ++ N :: l2, block_geom b)
    (hmem : ∀ b ∈ l1 ++ l2, GET_SIZE c.mem b.addr = b.size ∧ IS_ALLOC c.mem b.addr = false)
    (hpw : (l1 ++ N :: l2).Pairwise apart)
    (hap : ∀ b ∈ l1 ++ l2, b.addr + b.size ≤ hd ∨ hd + (M + N.size) ≤ b.addr)
    (hne : c.free_list_start ≠ c.alloc_list_start)
    (hP : ∀ w, hd ≤ w → w < hd + (M + N.size) → P w)
    (hPl : ∀ b ∈ l1 ++ l2, ∀ w, b.addr ≤ w → w < b.addr + b.size → P w) :
    ∃ c1, m61_coalesce_next c hd N.addr = Except.ok (hd, c1) ∧
      same_globals c c1 ∧ c1.alloc_list_start = c.alloc_list_start ∧
      load64 c1.mem hd = M + N.size + 5 ∧
      links c1.mem 0 c1.free_list_start (l1 ++ l2) 0 ∧
      (∀ b ∈ l1 ++ l2, GET_SIZE c1.mem b.addr = b.size ∧ IS_ALLOC c1.mem b.addr = false) ∧
      effp P Q c.mem c1.mem ∧
      (∀ w, w % 8 = 0 → w ≠ hd → w ≠ hd + (M + N.size) - 8 →
        (∀ b ∈ l1 ++ l2, w ≠ b.addr + b.size - 16 ∧ w ≠ b.addr + b.size - 24) →
        load64 c1.mem w = load64 c.mem w) ∧
      load64 c1.mem (hd + (M + N.size) - 8) = M + N.size + 5 := by
  obtain ⟨n0, n1, n2, n3, n4⟩ := hg N (List.mem_append_right _ (List.mem_cons_self _ _))
  have hM8 : M % 8 = 0 := hM ▸ GET_SIZE_mod _ _
  have hb5 : PREV_ALLOC_BIT ||| NEXT_ALLOC_BIT = 5 := rfl
  obtain ⟨c1, hrun, rest⟩ := merge_unstitch c _ hd (M + N.size) N l1 l2 P Q rfl hd8
    (by omega) (by omega) (by omega) ⟨by omega, by omega⟩ hL hg hmem hpw hap hne hP hPl
  refine ⟨c1, ?_, rest⟩
  unfold m61_coalesce_next
  simp only []
  rw [hM, hNs, wadd_eq _ _ (by omega), LIST_PREV_eq _ _ _ hNs (by omega) n4,
    LIST_NEXT_eq _ _ _ hNs (by omega) n4, hb5,
    m61_set_header_and_footer_eq _ _ _ _ hd8 (by omega) (by omega) (by omega) (by omega),
    hrun]
  rfl

/-- The free-list part of `m61_coalesce_prev`: the free block `Pb` absorbs the block at `h`
of size `M` that follows it. -/
theorem m61_coalesce_prev_spec (c : Heap) (h M : Nat) (Pb : Block) (l1 l2 : List Block)
    (P Q : Nat → Prop) (h8 : h % 8 = 0) (hM : GET_SIZE c.mem h = M) (hM16 : 16 ≤ M)
    (hw : h + M < 18446744073709551616)
    (hPb : Pb.addr + Pb.size = h) (hPs : GET_SIZE c.mem Pb.addr = Pb.size)
    (hL : links c.mem 0 c.free_list_start (l1 ++ Pb :: l2) 0)
    (hg : ∀ b ∈ l1 ++ Pb :: l2, block_geom b)
    (hmem : ∀ b ∈ l1 ++ l2, GET_SIZE c.mem b.addr = b.size ∧ IS_ALLOC c.mem b.addr = false)
    (hpw : (l1 ++ Pb :: l2).Pairwise apart)
    (hap : ∀ b ∈ l1 ++ l2, b.addr + b.size ≤ Pb.addr ∨ Pb.addr + (M + Pb.size) ≤ b.addr)
    (hne : c.free_list_start ≠ c.alloc_list_start)
    (hP : ∀ w, Pb.addr ≤ w → w < Pb.addr + (M + Pb.size) → P w)
    (hPl : ∀ b ∈ l1 ++ l2, ∀ w, b.addr ≤ w → w < b.addr + b.size → P w) :
    ∃ c1, m61_coalesce_prev c h Pb.addr = Except.ok (Pb.addr, c1) ∧
      same_globals c c1 ∧ c1.alloc_list_start = c.alloc_list_start ∧
      load64 c1.mem Pb.addr = M + Pb.size + 5 ∧
      links c1.mem 0 c1.free_list_start (l1 ++ l2) 0 ∧
      (∀ b ∈ l1 ++ l2, GET_SIZE c1.mem b.addr = b.size ∧ IS_ALLOC c1.mem b.addr = false) ∧
      effp P Q c.mem c1.mem ∧
      (∀ w, w % 8 = 0 → w ≠ Pb.addr → w ≠ Pb.addr + (M + Pb.size) - 8 →
        (∀ b ∈ l1 ++ l2, w ≠ b.addr + b.size - 16 ∧ w ≠ b.addr + b.size - 24) →
        load64 c1.mem w = load64 c.mem w) ∧
      load64 c1.mem (Pb.addr + (M + Pb.size) - 8) = M + Pb.size + 5 := by
  obtain ⟨p0, p1, p2, p3, p4⟩ := hg Pb (List.mem_append_right _ (List.mem_cons_self _ _))
  have hM8 : M % 8 = 0 := hM ▸ GET_SIZE_mod _ _
  have hb5 : PREV_ALLOC_BIT ||| NEXT_ALLOC_BIT = 5 := rfl
  obtain ⟨c1, hrun, rest⟩ := merge_unstitch c _ Pb.addr (M + Pb.size) Pb l1 l2 P Q rfl p1
    (by omega) (by omega) (by omega) ⟨by omega, by omega⟩ hL hg hmem hpw hap hne hP hPl
  refine ⟨c1, ?_, rest⟩
  unfold m61_coalesce_prev
  simp only []
  rw [hM, hPs, wadd_eq _ _ (by omega), LIST_PREV_eq _ _ _ hPs (by omega) p4,
    LIST_NEXT_eq _ _ _ hPs (by omega) p4, hb5,
    m61_set_header_and_footer_eq _ _ _ _ p1 (by omega) (by omega) (by omega) (by omega),
    hrun]
  rfl

theorem IS_ALLOC_of_load (m : Mem) (h M : Nat) (hM : M % 8 = 0) (hl : load64 m h = M + 5) :
    IS_ALLOC m h = false := by
  rw [IS_ALLOC_eq, hl]
  exact decide_eq_false (by omega)

theorem GET_SIZE_of_load (m : Mem) (h M b : Nat) (hM : M % 8 = 0) (hb : b < 8)
    (hl : load64 m h = M + b) : GET_SIZE m h = M := by
  rw [GET_SIZE_eq, hl]
  omega

/-- Pushing the free block at `hd` (size `M`) in front of the free list `l`. -/
theorem push_free_spec (c : Heap) (hd M : Nat) (l : List Block) (P Q : Nat → Prop)
    (hd8 : hd % 8 = 0) (hd0 : 0 < hd) (hload : load64 c.mem hd = M + 5) (hM8 : M % 8 = 0)
    (hM : 80 ≤ M) (hw : hd + M < 18446744073709551616)
    (hL : links c.mem 0 c.free_list_start l 0)
    (hg : ∀ b ∈ l, block_geom b)
    (hmem : ∀ b ∈ l, GET_SIZE c.mem b.addr = b.size)
    (hap : ∀ b ∈ l, b.addr + b.size ≤ hd ∨ hd + M ≤ b.addr)
    (hP : ∀ w, hd ≤ w → w < hd + M → P w)
    (hPl : ∀ b ∈ l, ∀ w, b.addr ≤ w → w < b.addr + b.size → P w) :
    ∃ c1, m61_push_to_front c hd c.free_list_start = Except.ok c1 ∧
      same_globals c c1 ∧ c1.free_list_start = hd ∧
      c1.alloc_list_start = c.alloc_list_start ∧
      load64 c1.mem hd = M + 5 ∧ effp P Q c.mem c1.mem := by
  have hS : GET_SIZE c.mem hd = M := GET_SIZE_of_load _ _ _ 5 hM8 (by omega) hload
  have hfirst := links_first _ _ _ _ _ hL
  have hlist : c.free_list_start ≠ 0 → ∃ F ∈ l, c.free_list_start = F.addr := by
    intro hn
    cases l with
    | nil => exact absurd hfirst hn
    | cons F r => exact ⟨F, List.mem_cons_self _ _, hfirst⟩
  have h1 : hd ≠ c.free_list_start := by
    intro e
    obtain ⟨F, hF, hFa⟩ := hlist (by omega)
    obtain ⟨f0, f1, f2, f3, f4⟩ := hg F hF
    have := hap F hF
    omega
  have h2 : IS_ALLOC c.mem hd = !decide (c.free_list_start = c.free_list_start) := by
    rw [IS_ALLOC_of_load _ _ _ hM8 hload, decide_eq_true rfl]
    rfl
  have hrun := m61_push_to_front_run c hd c.free_list_start h1 h2
  obtain ⟨c1, hc1⟩ : ∃ c1, m61_push_to_front c hd c.free_list_start = Except.ok c1 :=
    ⟨_, hrun⟩
  clear hrun
  by_cases h0 : c.free_list_start = 0
  · have hl : c.free_list_start ≠ 0 → c.free_list_start % 8 = 0 ∧
        GET_SIZE c.mem c.free_list_start = 0 ∧ 80 ≤ 0 ∧
        c.free_list_start + 0 < 18446744073709551616 ∧
        (c.free_list_start + 0 ≤ hd ∨ hd + M ≤ c.free_list_start) := fun hn => absurd h0 hn
    obtain ⟨em, g, a1, -⟩ := m61_push_to_front_mem c c1 hd _ M 0 hc1 hd8 hS hM hw hl
    refine ⟨c1, hc1, g, (a1 rfl).1, (a1 rfl).2, ?_, ?_⟩
    · rw [m61_push_to_front_frame c c1 hd _ M 0 hc1 hd8 hS hM hw hl hd hd8 (by omega)
        (by omega) (fun hn => absurd h0 hn)]
      exact hload
    · rw [em, if_pos h0]
      exact effp_trans (effp_store P Q _ _ _ (by omega) (hP _ (by omega) (by omega)))
        (effp_store P Q _ _ _ (by omega) (hP _ (by omega) (by omega)))
  · obtain ⟨F, hF, hFa⟩ := hlist h0
    obtain ⟨f0, f1, f2, f3, f4⟩ := hg F hF
    have hFap := hap F hF
    have hl : c.free_list_start ≠ 0 → c.free_list_start % 8 = 0 ∧
        GET_SIZE c.mem c.free_list_start = F.size ∧ 80 ≤ F.size ∧
        c.free_list_start + F.size < 18446744073709551616 ∧
        (c.free_list_start + F.size ≤ hd ∨ hd + M ≤ c.free_list_start) := by
      intro _
      rw [hFa]
      exact ⟨f1, hmem F hF, f3, f4, hFap⟩
    obtain ⟨em, g, a1, -⟩ := m61_push_to_front_mem c c1 hd _ M F.size hc1 hd8 hS hM hw hl
    refine ⟨c1, hc1, g, (a1 rfl).1, (a1 rfl).2, ?_, ?_⟩
    · rw [m61_push_to_front_frame c c1 hd _ M F.size hc1 hd8 hS hM hw hl hd hd8 (by omega)
        (by omega) (fun _ => by rw [hFa]; omega)]
      exact hload
    · rw [em, if_neg h0, hFa]
      exact effp_trans (effp_trans
        (effp_store P Q _ _ _ (by omega) (hP _ (by omega) (by omega)))
        (effp_store P Q _ _ _ (by omega) (hPl F hF _ (by omega) (by omega))))
        (effp_store P Q _ _ _ (by omega) (hP _ (by omega) (by omega)))

/-- The free list after `m61_push_to_front` of the free block at `hd` (size `M`): `hd`
followed by the old list `l`; and the words that the push leaves alone. -/
theorem push_free_links (c c1 : Heap) (hd M : Nat) (l : List Block)
    (hrun : m61_push_to_front c hd c.free_list_start = Except.ok c1)
    (hd8 : hd % 8 = 0) (hS : GET_SIZE c.mem hd = M) (hM : 80 ≤ M)
    (hw : hd + M < 18446744073709551616)
    (hL : links c.mem 0 c.free_list_start l 0)
    (hg : ∀ b ∈ l, block_geom b)
    (hmem : ∀ b ∈ l, GET_SIZE c.mem b.addr = b.size)
    (hap : ∀ b ∈ l, b.addr + b.size ≤ hd ∨ hd + M ≤ b.addr)
    (hpw : l.Pairwise apart) :
    links c1.mem 0 hd (⟨hd, M, false⟩ :: l) 0 ∧
    (∀ w, w % 8 = 0 → w ≠ hd + M - 16 → w ≠ hd + M - 24 →
      (∀ b ∈ l, w ≠ b.addr + b.size - 24) → load64 c1.mem w = load64 c.mem w) := by
  have hM8 : M % 8 = 0 := hS ▸ GET_SIZE_mod _ _
  have hfirst := links_first _ _ _ _ _ hL
  cases l with
  | nil =>
    have h0 : c.free_list_start = 0 := hfirst
    have hl : c.free_list_start ≠ 0 → c.free_list_start % 8 = 0 ∧
        GET_SIZE c.mem c.free_list_start = 0 ∧ 80 ≤ 0 ∧
        c.free_list_start + 0 < 18446744073709551616 ∧
        (c.free_list_start + 0 ≤ hd ∨ hd + M ≤ c.free_list_start) := fun hn => absurd h0 hn
    obtain ⟨em, -, -, -⟩ := m61_push_to_front_mem c c1 hd _ M 0 hrun hd8 hS hM hw hl
    rw [if_pos h0] at em
    refine ⟨⟨rfl, ?_, ?_⟩, fun w hw8 n1 n2 _ => ?_⟩
    · show load64 c1.mem (hd + M - 24) = 0
      rw [em, load64_store64_same _ _ _ (by omega)]
    · show load64 c1.mem (hd + M - 16) = 0
      rw [em, load64_store64_ne _ _ _ _ (by omega) (by omega) (by omega),
        load64_store64_same _ _ _ (by omega)]
    · rw [em, load64_store64_ne _ _ _ _ (by omega) hw8 n2,
        load64_store64_ne _ _ _ _ (by omega) hw8 n1]
  | cons F r =>
    have hFa : c.free_list_start = F.addr := hfirst
    obtain ⟨f0, f1, f2, f3, f4⟩ := hg F (List.mem_cons_self _ _)
    have hFap := hap F (List.mem_cons_self _ _)
    have h0 : c.free_list_start ≠ 0 := by omega
    have hl : c.free_list_start ≠ 0 → c.free_list_start % 8 = 0 ∧
        GET_SIZE c.mem c.free_list_start = F.size ∧ 80 ≤ F.size ∧
        c.free_list_start + F.size < 18446744073709551616 ∧
        (c.free_list_start + F.size ≤ hd ∨ hd + M ≤ c.free_list_start) := by
      intro _
      rw [hFa]
      exact ⟨f1, hmem F (List.mem_cons_self _ _), f3, f4, hFap⟩
    obtain ⟨em, -, -, -⟩ := m61_push_to_front_mem c c1 hd _ M F.size hrun hd8 hS hM hw hl
    rw [if_neg h0, hFa] at em
    obtain ⟨-, -, h3⟩ := hL
    obtain ⟨hFr, hpr⟩ := List.pairwise_cons.mp hpw
    refine ⟨⟨rfl, ?_, ?_⟩, fun w hw8 n1 n2 n3 => ?_⟩
    · show load64 c1.mem (hd + M - 24) = 0
      rw [em, load64_store64_same _ _ _ (by omega)]
    · have e1 : load64 c1.mem (hd + M - 16) = F.addr := by
        rw [em, load64_store64_ne _ _ _ _ (by omega) (by omega) (by omega),
          load64_store64_ne _ _ _ _ (by omega) (by omega) (by omega),
          load64_store64_same _ _ _ (by omega)]
        exact Nat.mod_eq_of_lt (by omega)
      show links c1.mem hd (load64 c1.mem (hd + M - 16)) (F :: r) 0
      rw [e1]
      refine ⟨rfl, ?_, ?_⟩
      · rw [em, load64_store64_ne _ _ _ _ (by omega) (by omega) (by omega),
          load64_store64_same _ _ _ (by omega)]
        exact Nat.mod_eq_of_lt (by omega)
      · have e2 : load64 c1.mem (F.addr + F.size - 16) = load64 c.mem (F.addr + F.size - 16) := by
          rw [em, load64_store64_ne _ _ _ _ (by omega) (by omega) (by omega),
            load64_store64_ne _ _ _ _ (by omega) (by omega) (by omega),
            load64_store64_ne _ _ _ _ (by omega) (by omega) (by omega)]
        rw [e2]
        refine links_frame _ _ _ _ _ _ h3 (fun b hb => ?_)
        obtain ⟨b0, b1, b2, b3, b4⟩ := hg b (List.mem_cons_of_mem _ hb)
        have hbap := hap b (List.mem_cons_of_mem _ hb)
        have hFb := hFr b hb
        unfold apart at hFb
        rw [em]
        constructor
        · rw [load64_store64_ne _ _ _ _ (by omega) (by omega) (by omega),
            load64_store64_ne _ _ _ _ (by omega) (by omega) (by omega),
            load64_store64_ne _ _ _ _ (by omega) (by omega) (by omega)]
        · rw [load64_store64_ne _ _ _ _ (by omega) (by omega) (by omega),
            load64_store64_ne _ _ _ _ (by omega) (by omega) (by omega),
            load64_store64_ne _ _ _ _ (by omega) (by omega) (by omega)]
    · have := n3 F (List.mem_cons_self _ _)
      rw [em, load64_store64_ne _ _ _ _ (by omega) hw8 n2,
        load64_store64_ne _ _ _ _ (by omega) hw8 this,
        load64_store64_ne _ _ _ _ (by omega) hw8 n1]

/-! ### `m61_coalesce` on a well-formed heap -/

theorem edge_not_interior {s : Heap} {bs fl al : List Block} (wf : WellFormed s bs fl al)
    (w : Nat) (he : edge s bs w) : ∀ b ∈ bs, w ≤ b.addr ∨ b.addr + b.size ≤ w := by
  intro b hb
  obtain ⟨⟨b0, b1, b2, b3, b4⟩, -, -, blo, bhi⟩ := wf_geom wf b hb
  rcases he with ⟨c, hc, e⟩ | e | e
  · by_cases hcb : c = b
    · subst hcb; omega
    · have hap := wf_apart wf c hc b hb hcb
      obtain ⟨-, -, -, c3, -⟩ := (wf_geom wf c hc).1
      unfold apart at hap
      omega
  · omega
  · omega

/-- Words that the removal of `x` from the alloc list cannot have changed: they are not link
slots of another allocated block. -/
theorem not_alloc_slot {s : Heap} {bs fl al : List Block} (wf : WellFormed s bs fl al)
    (x c : Block) (hc : c ∈ bs) (w : Nat) (h1 : c.addr ≤ w) (h2 : w + 8 ≤ c.addr + c.size)
    (h3 : c.alloc = false ∨ c = x ∨ w = c.addr ∨ w + 8 = c.addr + c.size) :
    ∀ A ∈ bs, A.alloc = true → A ≠ x →
      w ≠ A.addr + A.size - 16 ∧ w ≠ A.addr + A.size - 24 := by
  intro A hA hAa hAx
  obtain ⟨-, -, -, a3, -⟩ := (wf_geom wf A hA).1
  by_cases hAc : A = c
  · subst hAc
    rcases h3 with h | h | h | h
    · rw [hAa] at h; cases h
    · exact absurd h hAx
    · constructor <;> omega
    · constructor <;> omega
  · have hap := wf_apart wf A hA c hc hAc
    unfold apart at hap
    constructor <;> omega

theorem not_alloc_slot_low {s : Heap} {bs fl al : List Block} (wf : WellFormed s bs fl al)
    (x : Block) (w : Nat) (h : w < s.default_buffer.buffer + 24) :
    ∀ A ∈ bs, A.alloc = true → A ≠ x →
      w ≠ A.addr + A.size - 16 ∧ w ≠ A.addr + A.size - 24 := by
  intro A hA _ _
  obtain ⟨⟨-, -, -, a3, -⟩, -, -, alo, -⟩ := wf_geom wf A hA
  constructor <;> omega

/-- The word before the header of `x` holds the size of what precedes `x`, and the block
header it leads to is a header of the layout or the prologue header. -/
theorem prev_info {s : Heap} {bs fl al : List Block} (wf : WellFormed s bs fl al)
    (x : Block) (hx : x ∈ bs) :
    ∃ ps, GET_SIZE s.mem (x.addr - 8) = ps ∧ 16 ≤ ps ∧ ps + 8 ≤ x.addr ∧
      edge s bs (x.addr - ps) ∧
      (∀ A ∈ bs, A.alloc = true → A ≠ x →
        x.addr - 8 ≠ A.addr + A.size - 16 ∧ x.addr - 8 ≠ A.addr + A.size - 24) := by
  obtain ⟨⟨x0, x1, x2, x3, x4⟩, -, -, xlo, xhi⟩ := wf_geom wf x hx
  have hbp := wf.base_pos
  rcases (wf_neighbours wf x hx).1 with ⟨h1, _⟩ | ⟨P, hP, h1, _⟩
  · refine ⟨16, ?_, le_refl _, by omega, Or.inr (Or.inl (by omega)),
      not_alloc_slot_low wf x _ (by omega)⟩
    have := wf.prologue_footer
    rw [h1]
    exact this
  · obtain ⟨⟨p0, p1, p2, p3, p4⟩, _, _, plo, phi⟩ := wf_geom wf P hP
    refine ⟨P.size, ?_, by omega, by omega, Or.inl ⟨P, hP, by omega⟩,
      not_alloc_slot wf x P hP _ (by omega) (by omega) (Or.inr (Or.inr (Or.inr (by omega))))⟩
    have := (wf.blocks P hP).2.2.2.2
    rw [← h1]
    exact this

theorem next_info {s : Heap} {bs fl al : List Block} (wf : WellFormed s bs fl al)
    (x : Block) (hx : x ∈ bs) : edge s bs (x.addr + x.size) := by
  rcases (wf_neighbours wf x hx).2 with ⟨h1, _⟩ | ⟨N, hN, h1, _⟩
  · exact Or.inr (Or.inr h1)
  · exact Or.inl ⟨N, hN, h1.symm⟩

theorem PREV_FROM_HEADER_of (m : Mem) (h ps : Nat) (hps : GET_SIZE m (h - 8) = ps)
    (h8 : ps + 8 ≤ h) (hw : h < 18446744073709551616) : PREV_FROM_HEADER m h = h - ps :=
  PREV_FROM_HEADER_eq m h ps (by omega) hps (by omega) hw

/-- The last step of `m61_coalesce`: after the neighbour bits have been toggled, the merged
block is pushed on the free list. -/
theorem coalesce_finish {s : Heap} {bs fl al : List Block} (wf : WellFormed s bs fl al)
    (x : Block) (cur cur1 : Heap) (hd M : Nat) (l : List Block)
    (hd8 : hd % 8 = 0) (hd0 : 0 < hd) (hM8 : M % 8 = 0) (hM : 80 ≤ M)
    (hw : hd + M < 18446744073709551616)
    (hload : load64 cur.mem hd = M + 5)
    (hL : links cur.mem 0 cur.free_list_start l 0)
    (hl : ∀ b ∈ l, b ∈ bs ∧ b.alloc = false)
    (hmem : ∀ b ∈ l, GET_SIZE cur.mem b.addr = b.size)
    (hap : ∀ b ∈ l, b.addr + b.size ≤ hd ∨ hd + M ≤ b.addr)
    (hP : ∀ w, hd ≤ w → w < hd + M → dirty bs x w)
    (hfs : cur1.free_list_start = cur.free_list_start)
    (htog : effp (fun _ => False) (edge s bs) cur.mem cur1.mem)
    (hload1 : load64 cur1.mem hd = load64 cur.mem hd) :
    ∃ c1, m61_push_to_front cur1 hd cur1.free_list_start = Except.ok c1 ∧
      same_globals cur1 c1 ∧ c1.free_list_start = hd ∧
      c1.alloc_list_start = cur1.alloc_list_start ∧
      load64 c1.mem hd = M + 5 ∧ effp (dirty bs x) (edge s bs) cur1.mem c1.mem := by
  have hg : ∀ b ∈ l, block_geom b := fun b hb => (wf_geom wf b (hl b hb).1).1
  refine push_free_spec cur1 hd M l (dirty bs x) (edge s bs) hd8 hd0 (hload1.trans hload) hM8
    hM hw ?_ hg ?_ hap hP ?_
  · rw [hfs]
    refine links_frame _ _ _ _ _ _ hL (fun b hb => ?_)
    obtain ⟨b0, b1, b2, b3, b4⟩ := hg b hb
    constructor
    · refine (htog _ (by omega) (fun h => h)).2.2 (fun he => ?_)
      have := edge_not_interior wf _ he b (hl b hb).1
      omega
    · refine (htog _ (by omega) (fun h => h)).2.2 (fun he => ?_)
      have := edge_not_interior wf _ he b (hl b hb).1
      omega
  · intro b hb
    exact ((htog _ (hg b hb).2.1 (fun h => h)).1).trans (hmem b hb)
  · intro b hb w h1 h2
    exact ⟨b, (hl b hb).1, Or.inl (hl b hb).2, h1, h2⟩

theorem effp_mono {P P1 Q : Nat → Prop} {m m1 : Mem} (h : effp P Q m m1)
    (hP : ∀ w, P w → P1 w) : effp P1 Q m m1 :=
  fun w hw hn => h w hw (fun hp => hn (hP w hp))

/-- The end of `m61_coalesce`, with what the caller needs about the merged block. -/
theorem coalesce_finish_block {s : Heap} {bs fl al : List Block}
    (wf : WellFormed s bs fl al)
    (x : Block) (cur cur1 : Heap) (hd M : Nat) (l : List Block)
    (hd8 : hd % 8 = 0) (hd0 : 0 < hd) (hM8 : M % 8 = 0) (hM : 80 ≤ M)
    (hw : hd + M < 18446744073709551616)
    (hload : load64 cur.mem hd = M + 5)
    (hL : links cur.mem 0 cur.free_list_start l 0)
    (hl : ∀ b ∈ l, b ∈ bs ∧ b.alloc = false)
    (hmem : ∀ b ∈ l, GET_SIZE cur.mem b.addr = b.size)
    (hap : ∀ b ∈ l, b.addr + b.size ≤ hd ∨ hd + M ≤ b.addr)
    (hP : ∀ w, hd ≤ w → w < hd + M → dirty bs x w)
    (hfs : cur1.free_list_start = cur.free_list_start)
    (htog : effp (fun _ => False) (edge s bs) cur.mem cur1.mem)
    (hload1 : load64 cur1.mem hd = load64 cur.mem hd) :
    ∃ c1, m61_push_to_front cur1 hd cur1.free_list_start = Except.ok c1 ∧
      same_globals cur1 c1 ∧ c1.free_list_start = hd ∧
      c1.alloc_list_start = cur1.alloc_list_start ∧
      IS_ALLOC c1.mem hd = false ∧ GET_SIZE c1.mem hd = M ∧
      effp (dirty bs x) (edge s bs) cur.mem c1.mem := by
  obtain ⟨c1, h1, h2, h3, h4, h5, h6⟩ := coalesce_finish wf x cur cur1 hd M l hd8 hd0 hM8 hM
    hw hload hL hl hmem hap hP hfs htog hload1
  exact ⟨c1, h1, h2, h3, h4, IS_ALLOC_of_load _ _ _ hM8 h5,
    GET_SIZE_of_load _ _ _ 5 hM8 (by omega) h5,
    effp_trans (effp_mono htog (fun _ h => h.elim)) h6⟩

theorem load64_TOGGLE_PREV_BITS_ne (m : Mem) (h w : Nat) (ha : h % 8 = 0) (hw : w % 8 = 0)
    (hne : w ≠ PREV_FROM_HEADER m h) :
    load64 (TOGGLE_PREV_BITS m h NEXT_ALLOC_BIT) w = load64 m w := by
  unfold TOGGLE_PREV_BITS
  exact load64_store64_ne _ _ _ _ (PREV_FROM_HEADER_aligned m h ha) hw hne

theorem load64_TOGGLE_NEXT_BITS_ne (m : Mem) (h w : Nat) (ha : h % 8 = 0) (hw : w % 8 = 0)
    (hne : w ≠ NEXT_FROM_HEADER m h) :
    load64 (TOGGLE_NEXT_BITS m h PREV_ALLOC_BIT) w = load64 m w := by
  unfold TOGGLE_NEXT_BITS
  exact load64_store64_ne _ _ _ _ (NEXT_FROM_HEADER_aligned m h ha) hw hne

/-- An address on a block boundary is not strictly inside a block. -/
theorem edge_ne_inside {s : Heap} {bs fl al : List Block} (wf : WellFormed s bs fl al)
    (w : Nat) (he : edge s bs w) (b : Block) (hb : b ∈ bs) (j : Nat) (h0 : 0 < j)
    (h1 : j < b.size) : w ≠ b.addr + j := by
  have := edge_not_interior wf w he b hb
  omega

/-- The free list and the untouched words after the last step of `m61_coalesce`. -/
theorem coalesce_finish_links {s : Heap} {bs fl al : List Block} (wf : WellFormed s bs fl al)
    (cur cur1 c1 : Heap) (hd M : Nat) (l : List Block)
    (hd8 : hd % 8 = 0) (hM8 : M % 8 = 0) (hM : 80 ≤ M)
    (hw : hd + M < 18446744073709551616)
    (hload : load64 cur.mem hd = M + 5)
    (hL : links cur.mem 0 cur.free_list_start l 0)
    (hl : ∀ b ∈ l, b ∈ bs ∧ b.alloc = false)
    (hmem : ∀ b ∈ l, GET_SIZE cur.mem b.addr = b.size)
    (hap : ∀ b ∈ l, b.addr + b.size ≤ hd ∨ hd + M ≤ b.addr)
    (hfs : cur1.free_list_start = cur.free_list_start)
    (htog : effp (fun _ => False) (edge s bs) cur.mem cur1.mem)
    (hload1 : load64 cur1.mem hd = load64 cur.mem hd) (hnd : l.Nodup)
    (hrun : m61_push_to_front cur1 hd cur1.free_list_start = Except.ok c1) :
    links c1.mem 0 hd (⟨hd, M, false⟩ :: l) 0 ∧
    (∀ b ∈ l, GET_SIZE c1.mem b.addr = b.size) ∧
    (∀ w, w % 8 = 0 → w ≠ hd + M - 16 → w ≠ hd + M - 24 →
      (∀ b ∈ l, w ≠ b.addr + b.size - 24) → load64 c1.mem w = load64 cur1.mem w) ∧
    load64 c1.mem hd = M + 5 ∧
    load64 c1.mem (hd + M - 8) = load64 cur1.mem (hd + M - 8) := by
  have hg : ∀ b ∈ l, block_geom b := fun b hb => (wf_geom wf b (hl b hb).1).1
  have hpw : l.Pairwise apart :=
    List.Nodup.pairwise_of_forall_ne hnd (fun a ha b hb hne =>
      wf_apart wf a (hl a ha).1 b (hl b hb).1 hne)
  have hL1 : links cur1.mem 0 cur1.free_list_start l 0 := by
    rw [hfs]
    refine links_frame _ _ _ _ _ _ hL (fun b hb => ?_)
    obtain ⟨b0, b1, b2, b3, b4⟩ := hg b hb
    constructor
    · refine (htog _ (by omega) (fun h => h)).2.2 (fun he => ?_)
      have := edge_not_interior wf _ he b (hl b hb).1
      omega
    · refine (htog _ (by omega) (fun h => h)).2.2 (fun he => ?_)
      have := edge_not_interior wf _ he b (hl b hb).1
      omega
  have hmem1 : ∀ b ∈ l, GET_SIZE cur1.mem b.addr = b.size := fun b hb =>
    ((htog _ (hg b hb).2.1 (fun h => h)).1).trans (hmem b hb)
  have hS1 : GET_SIZE cur1.mem hd = M :=
    GET_SIZE_of_load _ _ _ 5 hM8 (by omega) (hload1.trans hload)
  obtain ⟨hlinks, hfr⟩ := push_free_links cur1 c1 hd M l hrun hd8 hS1 hM hw hL1 hg hmem1 hap hpw
  have hin : ∀ w, hd ≤ w → w < hd + M → ∀ b ∈ l, w ≠ b.addr + b.size - 24 := by
    intro w h1 h2 b hb
    obtain ⟨-, -, -, b3, -⟩ := hg b hb
    have := hap b hb
    omega
  refine ⟨hlinks, fun b hb => ?_, hfr, ?_, ?_⟩
  · obtain ⟨b0, b1, b2, b3, b4⟩ := hg b hb
    have hbap := hap b hb
    rw [GET_SIZE_congr (hfr b.addr b1 (by omega) (by omega) (fun b' hb' => ?_))]
    · exact hmem1 b hb
    · obtain ⟨d0, d1, d2, d3, d4⟩ := hg b' hb'
      by_cases e : b = b'
      · subst e
        omega
      · have := wf_apart wf b (hl b hb).1 b' (hl b' hb').1 e
        unfold apart at this
        omega
  · rw [hfr hd hd8 (by omega) (by omega) (hin hd (le_refl _) (by omega))]
    exact hload1.trans hload
  · exact hfr _ (by omega) (by omega) (by omega) (hin _ (by omega) (by omega))

theorem xor_lt_word (v b : Nat) (hv : v < 18446744073709551616) (hb : b < 8) :
    v ^^^ b < 18446744073709551616 := by
  have e : (18446744073709551616 : Nat) = 2 ^ 64 := by norm_num
  rw [e] at hv ⊢
  exact Nat.xor_lt_two_pow hv (lt_of_lt_of_le hb (by norm_num))

theorem load64_TOGGLE_NEXT_BITS_same (m : Mem) (h : Nat) (ha : h % 8 = 0) :
    load64 (TOGGLE_NEXT_BITS m h PREV_ALLOC_BIT) (NEXT_FROM_HEADER m h)
      = load64 m (NEXT_FROM_HEADER m h) ^^^ 4 := by
  unfold TOGGLE_NEXT_BITS
  rw [load64_store64_same _ _ _ (NEXT_FROM_HEADER_aligned m h ha)]
  exact Nat.mod_eq_of_lt (xor_lt_word _ 4 (load64_lt _ _) (by omega))

theorem load64_TOGGLE_PREV_BITS_same (m : Mem) (h : Nat) (ha : h % 8 = 0) :
    load64 (TOGGLE_PREV_BITS m h NEXT_ALLOC_BIT) (PREV_FROM_HEADER m h)
      = load64 m (PREV_FROM_HEADER m h) ^^^ 1 := by
  unfold TOGGLE_PREV_BITS
  rw [load64_store64_same _ _ _ (PREV_FROM_HEADER_aligned m h ha)]
  exact Nat.mod_eq_of_lt (xor_lt_word _ 1 (load64_lt _ _) (by omega))

/-- Flipping bit 2 of a header word flips `PREV_ALLOC`. -/
theorem IS_PREV_ALLOC_flip (m m' : Mem) (a : Nat) (h : load64 m' a = load64 m a ^^^ 4) :
    IS_PREV_ALLOC m' a = !IS_PREV_ALLOC m a := by
  rw [IS_PREV_ALLOC_eq, IS_PREV_ALLOC_eq, h, xor_four]
  rcases Nat.mod_two_eq_zero_or_one (load64 m a / 4) with e | e
  · rw [decide_eq_true (by omega), decide_eq_false (by omega)]
    rfl
  · rw [decide_eq_false (by omega), decide_eq_true (by omega)]
    rfl

/-- Flipping bit 0 of a header word flips `NEXT_ALLOC`. -/
theorem IS_NEXT_ALLOC_flip (m m' : Mem) (a : Nat) (h : load64 m' a = load64 m a ^^^ 1) :
    IS_NEXT_ALLOC m' a = !IS_NEXT_ALLOC m a := by
  rw [IS_NEXT_ALLOC_eq, IS_NEXT_ALLOC_eq, h, xor_one]
  rcases Nat.mod_two_eq_zero_or_one (load64 m a) with e | e
  · rw [decide_eq_true (by omega), decide_eq_false (by omega)]
    rfl
  · rw [decide_eq_false (by omega), decide_eq_true (by omega)]
    rfl

/-- Two blocks of the layout that end at the same address are the same block. -/
theorem pred_unique {s : Heap} {bs fl al : List Block} (wf : WellFormed s bs fl al)
    (b c : Block) (hb : b ∈ bs) (hc : c ∈ bs) (h : b.addr + b.size = c.addr + c.size) :
    b = c := by
  by_contra hne
  have hap := wf_apart wf b hb c hc hne
  obtain ⟨-, -, -, b3, -⟩ := (wf_geom wf b hb).1
  obtain ⟨-, -, -, c3, -⟩ := (wf_geom wf c hc).1
  unfold apart at hap
  omega

/-- Two blocks of the layout that start at the same address are the same block. -/
theorem succ_unique {s : Heap} {bs fl al : List Block} (wf : WellFormed s bs fl al)
    (b c : Block) (hb : b ∈ bs) (hc : c ∈ bs) (h : b.addr = c.addr) : b = c := by
  by_contra hne
  have hap := wf_apart wf b hb c hc hne
  obtain ⟨-, -, -, b3, -⟩ := (wf_geom wf b hb).1
  obtain ⟨-, -, -, c3, -⟩ := (wf_geom wf c hc).1
  unfold apart at hap
  omega

/-- The `PREV_ALLOC` bit of the header after `x`, and the `NEXT_ALLOC` bit of the header
before `x`, record whether `x` is allocated. -/
theorem neighbour_flags {s : Heap} {bs fl al : List Block} (wf : WellFormed s bs fl al)
    (hsen : sentinels_ok s bs) (x : Block) (hx : x ∈ bs) :
    IS_PREV_ALLOC s.mem (x.addr + x.size) = x.alloc ∧
    IS_NEXT_ALLOC s.mem (x.addr - GET_SIZE s.mem (x.addr - 8)) = x.alloc := by
  obtain ⟨⟨x0, x1, x2, x3, x4⟩, -, -, xlo, xhi⟩ := wf_geom wf x hx
  constructor
  · rcases (wf_neighbours wf x hx).2 with ⟨h1, -⟩ | ⟨N, hN, h1, -⟩
    · rw [h1]
      exact hsen.2 x hx h1
    · rcases (wf_neighbours wf N hN).1 with ⟨h2, -⟩ | ⟨P, hP, h2, h3⟩
      · omega
      · have e : P = x := pred_unique wf P x hP hx (by omega)
        rw [← h1, h3, e]
  · rcases (wf_neighbours wf x hx).1 with ⟨h1, -⟩ | ⟨P, hP, h1, -⟩
    · have e : x.addr - 8 = s.default_buffer.buffer + 16 := by omega
      rw [e, wf.prologue_footer]
      have e2 : x.addr - 16 = s.default_buffer.buffer + 8 := by omega
      rw [e2]
      exact hsen.1 x hx h1
    · obtain ⟨⟨-, -, -, p3, -⟩, -, -, -, -⟩ := wf_geom wf P hP
      have e : x.addr - 8 = P.addr + P.size - 8 := by omega
      rw [e, (wf.blocks P hP).2.2.2.2]
      have e2 : x.addr - P.size = P.addr := by omega
      rw [e2]
      rcases (wf_neighbours wf P hP).2 with ⟨h2, -⟩ | ⟨N, hN, h2, h3⟩
      · omega
      · have e3 : N = x := succ_unique wf N x hN hx (by omega)
        rw [h3, e3]

/-- No free block of the layout ends where a block with `PREV_ALLOC` set starts. -/
theorem no_free_pred {s : Heap} {bs fl al : List Block} (wf : WellFormed s bs fl al)
    (x : Block) (hx : x ∈ bs) (hpa : IS_PREV_ALLOC s.mem x.addr = true) :
    ∀ b ∈ bs, b.alloc = false → b.addr + b.size ≠ x.addr := by
  intro b hb hf e
  obtain ⟨⟨-, -, -, b3, -⟩, -, -, blo, -⟩ := wf_geom wf b hb
  rcases (wf_neighbours wf x hx).1 with ⟨h1, -⟩ | ⟨P, hP, h1, h2⟩
  · omega
  · have e2 : b = P := pred_unique wf b P hb hP (by omega)
    rw [hpa, ← e2, hf] at h2
    cases h2

/-- No free block of the layout starts where a block with `NEXT_ALLOC` set ends. -/
theorem no_free_succ {s : Heap} {bs fl al : List Block} (wf : WellFormed s bs fl al)
    (x : Block) (hx : x ∈ bs) (hna : IS_NEXT_ALLOC s.mem x.addr = true) :
    ∀ b ∈ bs, b.alloc = false → b.addr ≠ x.addr + x.size := by
  intro b hb hf e
  obtain ⟨⟨-, -, -, b3, -⟩, -, -, -, bhi⟩ := wf_geom wf b hb
  rcases (wf_neighbours wf x hx).2 with ⟨h1, -⟩ | ⟨N, hN, h1, h2⟩
  · omega
  · have e2 : b = N := succ_unique wf b N hb hN (by omega)
    rw [hna, ← e2, hf] at h2
    cases h2

/-- Link slots of allocated blocks lie strictly inside them, so no boundary address is one. -/
theorem edge_not_alloc_slot {s : Heap} {bs fl al : List Block} (wf : WellFormed s bs fl al)
    (x : Block) (w : Nat) (he : edge s bs w) :
    ∀ A ∈ bs, A.alloc = true → A ≠ x →
      w ≠ A.addr + A.size - 16 ∧ w ≠ A.addr + A.size - 24 := by
  intro A hA _ _
  obtain ⟨-, -, -, a3, -⟩ := (wf_geom wf A hA).1
  have := edge_not_interior wf w he A hA
  constructor <;> omega


/-- A frame for the words outside a merged region `[hd, hd + T)` and outside the link slots
of the blocks `L`, read at a block boundary: only `hd` itself is excluded, because the footer
of the region lies strictly inside the block `B`. -/
theorem edge_frame_merge {s : Heap} {bs fl al : List Block} (wf : WellFormed s bs fl al)
    (m m' : Mem) (hd T : Nat) (L : List Block) (hL : ∀ b ∈ L, b ∈ bs ∧ b.alloc = false)
    (B : Block) (hB : B ∈ bs) (hin : B.addr + 8 < hd + T ∧ hd + T ≤ B.addr + B.size)
    (hfr : ∀ w, w % 8 = 0 → w ≠ hd → w ≠ hd + T - 8 →
      (∀ b ∈ L, w ≠ b.addr + b.size - 16 ∧ w ≠ b.addr + b.size - 24) →
      load64 m' w = load64 m w) :
    ∀ w, w % 8 = 0 → edge s bs w → w ≠ hd → load64 m' w = load64 m w := by
  intro w hw he hne
  refine hfr w hw hne ?_ (fun b hb => ?_)
  · have := edge_not_interior wf w he B hB
    omega
  · obtain ⟨-, -, -, b3, -⟩ := (wf_geom wf b (hL b hb).1).1
    have := edge_not_interior wf w he b (hL b hb).1
    constructor <;> omega

/-- A frame for the words outside the link slots written by a push of the block at `hd` of
size `M` in front of `L`, read at a block boundary: the two link slots of the pushed block lie
strictly inside the block `B`. -/
theorem edge_frame_push {s : Heap} {bs fl al : List Block} (wf : WellFormed s bs fl al)
    (m m' : Mem) (hd M : Nat) (L : List Block) (hL : ∀ b ∈ L, b ∈ bs ∧ b.alloc = false)
    (B : Block) (hB : B ∈ bs) (hin : B.addr + 24 < hd + M ∧ hd + M ≤ B.addr + B.size)
    (hfr : ∀ w, w % 8 = 0 → w ≠ hd + M - 16 → w ≠ hd + M - 24 →
      (∀ b ∈ L, w ≠ b.addr + b.size - 24) → load64 m' w = load64 m w) :
    ∀ w, w % 8 = 0 → edge s bs w → load64 m' w = load64 m w := by
  intro w hw he
  have hB' := edge_not_interior wf w he B hB
  refine hfr w hw (by omega) (by omega) (fun b hb => ?_)
  obtain ⟨-, -, -, b3, -⟩ := (wf_geom wf b (hL b hb).1).1
  have := edge_not_interior wf w he b (hL b hb).1
  omega

/-- The word before the header of a block of the layout (the footer of what precedes it) is
not a link slot of any block. -/
theorem prev_footer_not_slot {s : Heap} {bs fl al : List Block} (wf : WellFormed s bs fl al)
    (R : Block) (hR : R ∈ bs) :
    ∀ b ∈ bs, R.addr - 8 ≠ b.addr + b.size - 16 ∧ R.addr - 8 ≠ b.addr + b.size - 24 := by
  intro b hb
  obtain ⟨-, -, -, b3, -⟩ := (wf_geom wf b hb).1
  obtain ⟨r0, r1, -, -, -⟩ := (wf_geom wf R hR).1
  by_cases e : b = R
  · subst e
    constructor <;> omega
  · have hap := wf_apart wf b hb R hR e
    unfold apart at hap
    constructor <;> omega

/-- A merge into the region that starts at `hd` leaves the word before the header of a block
`R` at or below `hd` as it was. -/
theorem low_frame_merge {s : Heap} {bs fl al : List Block} (wf : WellFormed s bs fl al)
    (m m' : Mem) (hd T : Nat) (L : List Block) (hL : ∀ b ∈ L, b ∈ bs ∧ b.alloc = false)
    (R : Block) (hR : R ∈ bs) (hle : R.addr ≤ hd) (hT : 8 ≤ T)
    (hfr : ∀ w, w % 8 = 0 → w ≠ hd → w ≠ hd + T - 8 →
      (∀ b ∈ L, w ≠ b.addr + b.size - 16 ∧ w ≠ b.addr + b.size - 24) →
      load64 m' w = load64 m w) :
    load64 m' (R.addr - 8) = load64 m (R.addr - 8) := by
  obtain ⟨r0, r1, -, -, -⟩ := (wf_geom wf R hR).1
  exact hfr _ (by omega) (by omega) (by omega)
    (fun b hb => prev_footer_not_slot wf R hR b (hL b hb).1)

/-- A push of the block at `hd` leaves the word before the header of a block `R` at or below
`hd` as it was. -/
theorem low_frame_push {s : Heap} {bs fl al : List Block} (wf : WellFormed s bs fl al)
    (m m' : Mem) (hd M : Nat) (L : List Block) (hL : ∀ b ∈ L, b ∈ bs ∧ b.alloc = false)
    (R : Block) (hR : R ∈ bs) (hle : R.addr ≤ hd) (hM : 24 ≤ M)
    (hfr : ∀ w, w % 8 = 0 → w ≠ hd + M - 16 → w ≠ hd + M - 24 →
      (∀ b ∈ L, w ≠ b.addr + b.size - 24) → load64 m' w = load64 m w) :
    load64 m' (R.addr - 8) = load64 m (R.addr - 8) := by
  obtain ⟨r0, r1, -, -, -⟩ := (wf_geom wf R hR).1
  exact hfr _ (by omega) (by omega) (by omega)
    (fun b hb => (prev_footer_not_slot wf R hR b (hL b hb).1).2)

/-! ### The four cases of `m61_coalesce` -/

/-- What `m61_coalesce` needs from the state in which `x` has just left the alloc list. -/
theorem coalesce_prelude {s : Heap} {bs fl al : List Block} (wf : WellFormed s bs fl al)
    (x : Block) (hxb : x ∈ bs) (hxa : x.alloc = true) (t1 : Heap)
    (hfr1 : ∀ w, w % 8 = 0 →
      (∀ A ∈ bs, A.alloc = true → A ≠ x →
        w ≠ A.addr + A.size - 16 ∧ w ≠ A.addr + A.size - 24) →
      load64 t1.mem w = load64 s.mem w)
    (hfl1 : t1.free_list_start = s.free_list_start)
    (hals : t1.alloc_list_start = 0 ∨
      ∃ A ∈ bs, A.alloc = true ∧ t1.alloc_list_start = A.addr) :
    load64 t1.mem x.addr = load64 s.mem x.addr ∧
    links t1.mem 0 t1.free_list_start fl 0 ∧
    (∀ b ∈ fl, GET_SIZE t1.mem b.addr = b.size ∧ IS_ALLOC t1.mem b.addr = false) ∧
    (∀ b ∈ fl, t1.free_list_start ≠ t1.alloc_list_start) ∧
    (∀ b ∈ fl, b.addr + b.size ≤ x.addr ∨ x.addr + x.size ≤ b.addr) ∧
    (∀ b ∈ bs, load64 t1.mem b.addr = load64 s.mem b.addr) := by
  obtain ⟨⟨x0, x1, x2, x3, x4⟩, -, -, xlo, xhi⟩ := wf_geom wf x hxb
  have hhdr : ∀ b ∈ bs, load64 t1.mem b.addr = load64 s.mem b.addr := by
    intro b hb
    obtain ⟨b0, b1, b2, b3, b4⟩ := (wf_geom wf b hb).1
    exact hfr1 _ b1 (not_alloc_slot wf x b hb _ (le_refl _) (by omega)
      (Or.inr (Or.inr (Or.inl rfl))))
  have hflb := wf.free_sub
  have hne_x : ∀ b ∈ fl, b ≠ x := by
    intro b hb e
    have := (hflb b hb).2
    rw [e, hxa] at this
    cases this
  refine ⟨hhdr x hxb, ?_, ?_, ?_, ?_, hhdr⟩
  · rw [hfl1]
    refine links_frame _ _ _ _ _ _ (wf_free_links wf) (fun b hb => ?_)
    obtain ⟨b0, b1, b2, b3, b4⟩ := (wf_geom wf b (hflb b hb).1).1
    exact ⟨hfr1 _ (by omega) (not_alloc_slot wf x b (hflb b hb).1 _ (by omega) (by omega)
        (Or.inl (hflb b hb).2)),
      hfr1 _ (by omega) (not_alloc_slot wf x b (hflb b hb).1 _ (by omega) (by omega)
        (Or.inl (hflb b hb).2))⟩
  · intro b hb
    have hbk := wf.blocks b (hflb b hb).1
    refine ⟨(GET_SIZE_congr (hhdr b (hflb b hb).1)).trans hbk.2.2.1, ?_⟩
    rw [IS_ALLOC_congr (hhdr b (hflb b hb).1), hbk.2.2.2.1]
    exact (hflb b hb).2
  · intro b hb
    have hfirst := links_first _ _ _ _ _ (wf_free_links wf)
    rw [hfl1]
    cases hfl : fl with
    | nil => rw [hfl] at hb; cases hb
    | cons F r =>
      rw [hfl] at hfirst
      have hF : F ∈ fl := hfl ▸ List.mem_cons_self _ _
      have hFa : s.free_list_start = F.addr := hfirst
      obtain ⟨⟨f0, f1, f2, f3, f4⟩, -, -, -, -⟩ := wf_geom wf F (hflb F hF).1
      rcases hals with h0 | ⟨A, hA, hAa, hAe⟩
      · omega
      · rw [hAe, hFa]
        have hFA : F ≠ A := by
          intro e
          have := (hflb F hF).2
          rw [e, hAa] at this
          cases this
        have hap := wf_apart wf F (hflb F hF).1 A hA hFA
        obtain ⟨-, -, -, a3, -⟩ := (wf_geom wf A hA).1
        unfold apart at hap
        omega
  · intro b hb
    have hap := wf_apart wf b (hflb b hb).1 x hxb (hne_x b hb)
    exact hap

theorem dirty_self (bs : List Block) (x : Block) (hxb : x ∈ bs) (w : Nat)
    (h1 : x.addr ≤ w) (h2 : w < x.addr + x.size) : dirty bs x w :=
  ⟨x, hxb, Or.inr rfl, h1, h2⟩

theorem dirty_free (bs : List Block) (x b : Block) (hb : b ∈ bs) (hf : b.alloc = false)
    (w : Nat) (h1 : b.addr ≤ w) (h2 : w < b.addr + b.size) : dirty bs x w :=
  ⟨b, hb, Or.inl hf, h1, h2⟩

/-- The head of a non-empty list of free blocks is not the head of the alloc list. -/
theorem free_head_ne {s : Heap} {bs fl al : List Block} (wf : WellFormed s bs fl al)
    (l : List Block) (start als : Nat) (hfirst : start = first_addr l 0)
    (hl : ∀ b ∈ l, b ∈ bs ∧ b.alloc = false) (y : Block) (hy : y ∈ l)
    (hals : als = 0 ∨ ∃ A ∈ bs, A.alloc = true ∧ als = A.addr) : start ≠ als := by
  cases hl2 : l with
  | nil => rw [hl2] at hy; cases hy
  | cons F r =>
    rw [hl2] at hfirst
    have hF : F ∈ l := hl2 ▸ List.mem_cons_self _ _
    have hFa : start = F.addr := hfirst
    obtain ⟨⟨f0, f1, f2, f3, f4⟩, -, -, -, -⟩ := wf_geom wf F (hl F hF).1
    rcases hals with h0 | ⟨A, hA, hAa, hAe⟩
    · omega
    · rw [hAe, hFa]
      have hFA : F ≠ A := by
        intro e
        have := (hl F hF).2
        rw [e, hAa] at this
        cases this
      have hap := wf_apart wf F (hl F hF).1 A hA hFA
      obtain ⟨-, -, -, a3, -⟩ := (wf_geom wf A hA).1
      unfold apart at hap
      omega

/-- `m61_coalesce` when both neighbours are allocated: the block itself becomes the head of
the free list, and one bit is flipped in each of the two neighbouring headers. -/
theorem coalesce_case_none_full {s : Heap} {bs fl al : List Block}
    (wf : WellFormed s bs fl al)
    (x : Block) (hxb : x ∈ bs) (hxa : x.alloc = true) (t1 : Heap)
    (hfr1 : ∀ w, w % 8 = 0 →
      (∀ A ∈ bs, A.alloc = true → A ≠ x →
        w ≠ A.addr + A.size - 16 ∧ w ≠ A.addr + A.size - 24) →
      load64 t1.mem w = load64 s.mem w)
    (hfl1 : t1.free_list_start = s.free_list_start)
    (hals : t1.alloc_list_start = 0 ∨
      ∃ A ∈ bs, A.alloc = true ∧ t1.alloc_list_start = A.addr)
    (hpa : IS_PREV_ALLOC s.mem x.addr = true) (hna : IS_NEXT_ALLOC s.mem x.addr = true) :
    ∃ t2, m61_coalesce t1 x.addr = Except.ok (x.addr, t2) ∧ same_globals t1 t2 ∧
      t2.alloc_list_start = t1.alloc_list_start ∧ t2.free_list_start = x.addr ∧
      effp (dirty bs x) (edge s bs) t1.mem t2.mem ∧
      load64 t2.mem x.addr = x.size + 5 ∧ load64 t2.mem (x.addr + x.size - 8) = x.size + 5 ∧
      links t2.mem 0 x.addr (⟨x.addr, x.size, false⟩ :: fl) 0 ∧
      (∀ b ∈ fl, GET_SIZE t2.mem b.addr = b.size) ∧
      load64 t2.mem (x.addr + x.size) = load64 s.mem (x.addr + x.size) ^^^ 4 ∧
      load64 t2.mem (x.addr - GET_SIZE s.mem (x.addr - 8))
        = load64 s.mem (x.addr - GET_SIZE s.mem (x.addr - 8)) ^^^ 1 ∧
      load64 t2.mem (x.addr - 8) = load64 s.mem (x.addr - 8) := by
  obtain ⟨⟨x0, x1, x2, x3, x4⟩, -, -, xlo, xhi⟩ := wf_geom wf x hxb
  obtain ⟨hxl, hL1, hmem1, hne1, hapx, hhdr⟩ :=
    coalesce_prelude wf x hxb hxa t1 hfr1 hfl1 hals
  have hS : GET_SIZE t1.mem x.addr = x.size :=
    (GET_SIZE_congr hxl).trans (wf.blocks x hxb).2.2.1
  have hpa1 : IS_PREV_ALLOC t1.mem x.addr = true := (IS_PREV_ALLOC_congr hxl).trans hpa
  have hna1 : IS_NEXT_ALLOC t1.mem x.addr = true := (IS_NEXT_ALLOC_congr hxl).trans hna
  obtain ⟨ps, hps, ps16, psle, pedge, pns⟩ := prev_info wf x hxb
  have hps1 : GET_SIZE t1.mem (x.addr - 8) = ps :=
    (GET_SIZE_congr (hfr1 _ (by omega) pns)).trans hps
  have ps8 : ps % 8 = 0 := hps ▸ GET_SIZE_mod _ _
  have nedge := next_info wf x hxb
  have hb5 : PREV_ALLOC_BIT ||| NEXT_ALLOC_BIT = 5 := rfl
  obtain ⟨m1, hm1⟩ : ∃ m1, m1 = store64 (store64 t1.mem x.addr (x.size + 5))
    (x.addr + x.size - 8) (x.size + 5) := ⟨_, rfl⟩
  have hl1 : load64 m1 x.addr = x.size + 5 := by
    rw [hm1, load64_store64_ne _ _ _ _ (by omega) x1 (by omega), load64_store64_same _ _ _ x1]
    exact Nat.mod_eq_of_lt (by omega)
  have hft1 : load64 m1 (x.addr + x.size - 8) = x.size + 5 := by
    rw [hm1, load64_store64_same _ _ _ (by omega)]
    exact Nat.mod_eq_of_lt (by omega)
  have hfr_m1 : ∀ w, w % 8 = 0 → w ≠ x.addr → w ≠ x.addr + x.size - 8 →
      load64 m1 w = load64 t1.mem w := by
    intro w hw n1 n2
    rw [hm1, load64_store64_ne _ _ _ _ (by omega) hw n2, load64_store64_ne _ _ _ _ x1 hw n1]
  obtain ⟨m2, hm2⟩ : ∃ m2, m2 = TOGGLE_NEXT_BITS m1 x.addr PREV_ALLOC_BIT := ⟨_, rfl⟩
  obtain ⟨m3, hm3⟩ : ∃ m3, m3 = TOGGLE_PREV_BITS m2 x.addr NEXT_ALLOC_BIT := ⟨_, rfl⟩
  have hnext : NEXT_FROM_HEADER m1 x.addr = x.addr + x.size :=
    NEXT_FROM_HEADER_eq m1 _ _ (GET_SIZE_of_load _ _ _ 5 x2 (by omega) hl1) x4
  have hG2 : GET_SIZE m2 (x.addr - 8) = ps := by
    rw [hm2, GET_SIZE_TOGGLE_NEXT_BITS _ _ _ x1 (by omega),
      GET_SIZE_congr (hfr_m1 _ (by omega) (by omega) (by omega))]
    exact hps1
  have hprev : PREV_FROM_HEADER m2 x.addr = x.addr - ps :=
    PREV_FROM_HEADER_of m2 _ ps hG2 psle (by omega)
  have e2 : effp (fun _ => False) (edge s bs) m1 m2 := by
    rw [hm2]
    exact effp_toggle_next _ _ m1 _ x1 (Or.inr (by rw [hnext]; exact nedge))
  have e3 : effp (fun _ => False) (edge s bs) m2 m3 := by
    rw [hm3]
    exact effp_toggle_prev _ _ m2 _ x1 (Or.inr (by rw [hprev]; exact pedge))
  have hload3 : load64 m3 x.addr = load64 m1 x.addr := by
    rw [hm3, load64_TOGGLE_PREV_BITS_ne _ _ _ x1 x1 (by rw [hprev]; omega), hm2,
      load64_TOGGLE_NEXT_BITS_ne _ _ _ x1 x1 (by rw [hnext]; omega)]
  have hft3 : load64 m3 (x.addr + x.size - 8) = x.size + 5 := by
    rw [hm3, load64_TOGGLE_PREV_BITS_ne _ _ _ x1 (by omega) (by rw [hprev]; omega), hm2,
      load64_TOGGLE_NEXT_BITS_ne _ _ _ x1 (by omega) (by rw [hnext]; omega)]
    exact hft1
  have hnx3 : load64 m3 (x.addr + x.size) = load64 s.mem (x.addr + x.size) ^^^ 4 := by
    have h := load64_TOGGLE_NEXT_BITS_same m1 x.addr x1
    rw [hnext, ← hm2] at h
    rw [hm3, load64_TOGGLE_PREV_BITS_ne _ _ _ x1 (by omega) (by rw [hprev]; omega), h,
      hfr_m1 _ (by omega) (by omega) (by omega),
      hfr1 _ (by omega) (edge_not_alloc_slot wf x _ nedge)]
  have hpv3 : load64 m3 (x.addr - ps) = load64 s.mem (x.addr - ps) ^^^ 1 := by
    have h := load64_TOGGLE_PREV_BITS_same m2 x.addr x1
    rw [hprev, ← hm3] at h
    rw [h, hm2, load64_TOGGLE_NEXT_BITS_ne _ _ _ x1 (by omega) (by rw [hnext]; omega),
      hfr_m1 _ (by omega) (by omega) (by omega),
      hfr1 _ (by omega) (edge_not_alloc_slot wf x _ pedge)]
  have hapx2 : ∀ b ∈ fl, apart x b := fun b hb => Or.symm (hapx b hb)
  have hgfl : ∀ b ∈ fl, block_geom b := fun b hb => (wf_geom wf b (wf.free_sub b hb).1).1
  have hLm1 : links m1 0 t1.free_list_start fl 0 := by
    rw [hm1]
    exact links_store_apart _ _ _ x _ _ _ _
      (links_store_apart _ _ _ x _ _ _ _ hL1 ⟨x0, x1, x2, x3, x4⟩ (Or.inr (Or.inr (Or.inl rfl)))
        hgfl hapx2)
      ⟨x0, x1, x2, x3, x4⟩ (Or.inr (Or.inr (Or.inr rfl))) hgfl hapx2
  have hmem_m1 : ∀ b ∈ fl, GET_SIZE m1 b.addr = b.size := by
    intro b hb
    obtain ⟨b0, b1, b2, b3, b4⟩ := hgfl b hb
    have := hapx b hb
    rw [GET_SIZE_congr (hfr_m1 _ b1 (by omega) (by omega))]
    exact (hmem1 b hb).1
  obtain ⟨c1, hpush, hg, hfs, hal, -, -, heff⟩ :=
    coalesce_finish_block wf x { t1 with mem := m1 } { t1 with mem := m3 } x.addr x.size fl
      x1 x0 x2 x3 x4 hl1 hLm1 wf.free_sub hmem_m1 hapx (dirty_self bs x hxb) rfl
      (effp_trans e2 e3) hload3
  obtain ⟨hlinks, hsz, hfr2, hhd, hft⟩ :=
    coalesce_finish_links wf { t1 with mem := m1 } { t1 with mem := m3 } c1 x.addr x.size fl
      x1 x2 x3 x4 hl1 hLm1 wf.free_sub hmem_m1 hapx rfl (effp_trans e2 e3) hload3
      wf.free_nodup hpush
  have hEp : ∀ w, w % 8 = 0 → edge s bs w → load64 c1.mem w = load64 m3 w :=
    edge_frame_push wf _ _ _ _ _ wf.free_sub x hxb ⟨by omega, by omega⟩ hfr2
  have hlow3 : load64 m3 (x.addr - 8) = load64 s.mem (x.addr - 8) := by
    rw [hm3, load64_TOGGLE_PREV_BITS_ne _ _ _ x1 (by omega) (by rw [hprev]; omega), hm2,
      load64_TOGGLE_NEXT_BITS_ne _ _ _ x1 (by omega) (by rw [hnext]; omega),
      hfr_m1 _ (by omega) (by omega) (by omega), hfr1 _ (by omega) pns]
  rw [hps]
  refine ⟨c1, ?_, ⟨hg.1, hg.2.1, hg.2.2.1, hg.2.2.2⟩, hal, hfs, ?_, hhd, hft.trans hft3,
    hlinks, hsz, (hEp _ (by omega) nedge).trans hnx3, (hEp _ (by omega) pedge).trans hpv3,
    (low_frame_push wf _ _ _ _ _ wf.free_sub x hxb (le_refl _) (by omega) hfr2).trans hlow3⟩
  · unfold m61_coalesce
    simp only []
    rw [if_pos ⟨hpa1, hna1⟩, hS, hb5,
      m61_set_header_and_footer_eq _ _ _ _ x1 x2 (by omega) (by omega) x4, ← hm1, ← hm2, ← hm3]
    show (m61_push_to_front _ _ _ >>= _) = _
    rw [hpush]
    rfl
  · refine effp_trans ?_ heff
    show effp _ _ t1.mem m1
    rw [hm1]
    exact effp_trans
      (effp_store _ _ _ _ _ x1 (dirty_self bs x hxb _ (le_refl _) (by omega)))
      (effp_store _ _ _ _ _ (by omega) (dirty_self bs x hxb _ (by omega) (by omega)))

/-- `m61_coalesce` when both neighbours are allocated. -/
theorem coalesce_case_none {s : Heap} {bs fl al : List Block} (wf : WellFormed s bs fl al)
    (x : Block) (hxb : x ∈ bs) (hxa : x.alloc = true) (t1 : Heap)
    (hfr1 : ∀ w, w % 8 = 0 →
      (∀ A ∈ bs, A.alloc = true → A ≠ x →
        w ≠ A.addr + A.size - 16 ∧ w ≠ A.addr + A.size - 24) →
      load64 t1.mem w = load64 s.mem w)
    (hfl1 : t1.free_list_start = s.free_list_start)
    (hals : t1.alloc_list_start = 0 ∨
      ∃ A ∈ bs, A.alloc = true ∧ t1.alloc_list_start = A.addr)
    (hpa : IS_PREV_ALLOC s.mem x.addr = true) (hna : IS_NEXT_ALLOC s.mem x.addr = true) :
    ∃ hd t2, m61_coalesce t1 x.addr = Except.ok (hd, t2) ∧ same_globals t1 t2 ∧
      t2.alloc_list_start = t1.alloc_list_start ∧ t2.free_list_start = hd ∧
      IS_ALLOC t2.mem hd = false ∧ hd ≤ x.addr ∧ x.addr + x.size ≤ hd + GET_SIZE t2.mem hd ∧
      effp (dirty bs x) (edge s bs) t1.mem t2.mem := by
  obtain ⟨⟨-, -, x2, -, -⟩, -, -, -, -⟩ := wf_geom wf x hxb
  obtain ⟨t2, h1, h2, h3, h4, h5, h6, -⟩ :=
    coalesce_case_none_full wf x hxb hxa t1 hfr1 hfl1 hals hpa hna
  exact ⟨x.addr, t2, h1, h2, h3, h4, IS_ALLOC_of_load _ _ _ x2 h6, le_refl _,
    by rw [GET_SIZE_of_load _ _ _ 5 x2 (by omega) h6], h5⟩

/-- `m61_coalesce` when the previous block is allocated and the next block `N` is free: the
block absorbs `N`, which leaves the free list, and becomes the head of the free list. -/
theorem coalesce_case_next_full {s : Heap} {bs fl al : List Block}
    (wf : WellFormed s bs fl al)
    (x : Block) (hxb : x ∈ bs) (hxa : x.alloc = true) (t1 : Heap)
    (hfr1 : ∀ w, w % 8 = 0 →
      (∀ A ∈ bs, A.alloc = true → A ≠ x →
        w ≠ A.addr + A.size - 16 ∧ w ≠ A.addr + A.size - 24) →
      load64 t1.mem w = load64 s.mem w)
    (hfl1 : t1.free_list_start = s.free_list_start)
    (hals : t1.alloc_list_start = 0 ∨
      ∃ A ∈ bs, A.alloc = true ∧ t1.alloc_list_start = A.addr)
    (hpa : IS_PREV_ALLOC s.mem x.addr = true) (hna : IS_NEXT_ALLOC s.mem x.addr = false)
    (N : Block) (hN : N ∈ bs) (hNa : N.addr = x.addr + x.size) (hNf : N.alloc = false) :
    ∃ t2 f1 f2, m61_coalesce t1 x.addr = Except.ok (x.addr, t2) ∧ same_globals t1 t2 ∧
      t2.alloc_list_start = t1.alloc_list_start ∧ t2.free_list_start = x.addr ∧
      effp (dirty bs x) (edge s bs) t1.mem t2.mem ∧
      fl = f1 ++ N :: f2 ∧
      load64 t2.mem x.addr = x.size + N.size + 5 ∧
      load64 t2.mem (x.addr + (x.size + N.size) - 8) = x.size + N.size + 5 ∧
      links t2.mem 0 x.addr (⟨x.addr, x.size + N.size, false⟩ :: (f1 ++ f2)) 0 ∧
      (∀ b ∈ f1 ++ f2, GET_SIZE t2.mem b.addr = b.size) ∧
      load64 t2.mem (N.addr + N.size) = load64 s.mem (N.addr + N.size) ∧
      load64 t2.mem (x.addr - GET_SIZE s.mem (x.addr - 8))
        = load64 s.mem (x.addr - GET_SIZE s.mem (x.addr - 8)) ^^^ 1 ∧
      load64 t2.mem (x.addr - 8) = load64 s.mem (x.addr - 8) := by
  obtain ⟨⟨x0, x1, x2, x3, x4⟩, -, -, -, -⟩ := wf_geom wf x hxb
  obtain ⟨⟨-, -, n2, n3, n4⟩, -, -, -, -⟩ := wf_geom wf N hN
  obtain ⟨hxl, hL1, hmem1, hne1, hapx, hhdr⟩ :=
    coalesce_prelude wf x hxb hxa t1 hfr1 hfl1 hals
  have hS : GET_SIZE t1.mem x.addr = x.size :=
    (GET_SIZE_congr hxl).trans (wf.blocks x hxb).2.2.1
  have hpa1 : IS_PREV_ALLOC t1.mem x.addr = true := (IS_PREV_ALLOC_congr hxl).trans hpa
  have hna1 : IS_NEXT_ALLOC t1.mem x.addr = false := (IS_NEXT_ALLOC_congr hxl).trans hna
  obtain ⟨ps, hps, ps16, psle, pedge, pns⟩ := prev_info wf x hxb
  have hps1 : GET_SIZE t1.mem (x.addr - 8) = ps :=
    (GET_SIZE_congr (hfr1 _ (by omega) pns)).trans hps
  have ps8 : ps % 8 = 0 := hps ▸ GET_SIZE_mod _ _
  have nedge := next_info wf N hN
  have hNfl : N ∈ fl := wf.free_all N hN hNf
  obtain ⟨f1, f2, hfl⟩ := List.append_of_mem hNfl
  have hsub : ∀ b ∈ f1 ++ f2, b ∈ fl := fun b hb => hfl ▸ mem_of_mem_middle hb
  have hnd := List.nodup_cons.mp (List.nodup_middle.mp (hfl ▸ wf.free_nodup))
  have hNnot : N ∉ f1 ++ f2 := hnd.1
  have hl : ∀ b ∈ f1 ++ f2, b ∈ bs ∧ b.alloc = false := fun b hb => wf.free_sub b (hsub b hb)
  have hap : ∀ b ∈ f1 ++ f2, b.addr + b.size ≤ x.addr ∨ x.addr + (x.size + N.size) ≤ b.addr := by
    intro b hb
    have h1 := hapx b (hsub b hb)
    have h2 := wf_apart wf b (hl b hb).1 N hN (fun e => hNnot (e ▸ hb))
    obtain ⟨-, -, -, b3, -⟩ := (wf_geom wf b (hl b hb).1).1
    unfold apart at h2
    omega
  have hPreg : ∀ w, x.addr ≤ w → w < x.addr + (x.size + N.size) → dirty bs x w := by
    intro w h1 h2
    by_cases h3 : w < x.addr + x.size
    · exact dirty_self bs x hxb w h1 h3
    · exact dirty_free bs x N hN hNf w (by omega) (by omega)
  have hPl : ∀ b ∈ f1 ++ f2, ∀ w, b.addr ≤ w → w < b.addr + b.size → dirty bs x w :=
    fun b hb w h1 h2 => dirty_free bs x b (hl b hb).1 (hl b hb).2 w h1 h2
  obtain ⟨c1, hrun, hg1, hal1, hload1, hLc1, hmemc1, heff1, hfrc1, hfoot1⟩ :=
    m61_coalesce_next_spec t1 x.addr x.size N f1 f2 (dirty bs x) (edge s bs) x1 hS (by omega)
      hNa (hmem1 N hNfl).1 (hfl ▸ hL1)
      (fun b hb => (wf_geom wf b (wf.free_sub b (hfl ▸ hb)).1).1)
      (fun b hb => hmem1 b (hsub b hb)) (hfl ▸ wf_free_pairwise wf) hap (hne1 N hNfl)
      hPreg hPl
  -- the toggle of the previous block
  have hG : GET_SIZE c1.mem (x.addr - 8) = ps := by
    rw [GET_SIZE_congr (hfrc1 _ (by omega) (by omega) (by omega) (fun b hb => by
      obtain ⟨-, b1, b2, b3, -⟩ := (wf_geom wf b (hl b hb).1).1
      have := hap b hb
      constructor <;> omega))]
    exact hps1
  have hprev : PREV_FROM_HEADER c1.mem x.addr = x.addr - ps :=
    PREV_FROM_HEADER_of _ _ ps hG psle (by omega)
  obtain ⟨c2, hpush, hg, hfs, hal, -, -, heff⟩ :=
    coalesce_finish_block wf x c1
      { c1 with mem := TOGGLE_PREV_BITS c1.mem x.addr NEXT_ALLOC_BIT } x.addr
      (x.size + N.size) (f1 ++ f2) x1 x0 (by omega) (by omega) (by omega)
      (by rw [hload1]) hLc1 hl (fun b hb => (hmemc1 b hb).1) hap hPreg rfl
      (effp_toggle_prev _ _ _ _ x1 (Or.inr (by rw [hprev]; exact pedge)))
      (load64_TOGGLE_PREV_BITS_ne _ _ _ x1 x1 (by rw [hprev]; omega))
  have hrun0 : m61_coalesce t1 x.addr = Except.ok (x.addr, c2) := by
    unfold m61_coalesce
    simp only []
    rw [if_neg (by rw [hna1]; simp), if_pos ⟨hpa1, by rw [hna1]; rfl⟩,
      NEXT_FROM_HEADER_eq _ _ _ hS x4, ← hNa, hrun]
    show (m61_push_to_front _ _ _ >>= _) = _
    rw [hpush]
    rfl
  clear hrun hxl hS hps1 hfl1 hapx hne1 hmem1 hL1 hhdr hpa1 hna1 hG hPreg hPl
  obtain ⟨hlinks, hsz, hfr2, hhd, hft⟩ :=
    coalesce_finish_links wf c1
      { c1 with mem := TOGGLE_PREV_BITS c1.mem x.addr NEXT_ALLOC_BIT } c2 x.addr
      (x.size + N.size) (f1 ++ f2) x1 (by omega) (by omega) (by omega)
      (by rw [hload1]) hLc1 hl (fun b hb => (hmemc1 b hb).1) hap rfl
      (effp_toggle_prev _ _ _ _ x1 (Or.inr (by rw [hprev]; exact pedge)))
      (load64_TOGGLE_PREV_BITS_ne _ _ _ x1 x1 (by rw [hprev]; omega)) hnd.2 hpush
  have hEp : ∀ w, w % 8 = 0 → edge s bs w →
      load64 c2.mem w = load64 (TOGGLE_PREV_BITS c1.mem x.addr NEXT_ALLOC_BIT) w :=
    edge_frame_push wf _ _ _ _ _ hl N hN ⟨by omega, by omega⟩ hfr2
  have hEc : ∀ w, w % 8 = 0 → edge s bs w → w ≠ x.addr →
      load64 c1.mem w = load64 s.mem w := fun w hw he hne =>
    (edge_frame_merge wf _ _ _ _ _ hl N hN ⟨by omega, by omega⟩ hfrc1 w hw he hne).trans
      (hfr1 w hw (edge_not_alloc_slot wf x w he))
  have htg := load64_TOGGLE_PREV_BITS_same c1.mem x.addr x1
  rw [hprev] at htg
  rw [hps]
  refine ⟨c2, f1, f2, hrun0, same_globals_trans hg1 ⟨hg.1, hg.2.1, hg.2.2.1, hg.2.2.2⟩,
    hal.trans hal1, hfs, effp_trans heff1 heff, hfl, hhd,
    (hft.trans (load64_TOGGLE_PREV_BITS_ne _ _ _ x1 (by omega) (by rw [hprev]; omega))).trans
      hfoot1, hlinks, hsz, ?_, ?_,
    (low_frame_push wf _ _ _ _ _ hl x hxb (le_refl _) (by omega) hfr2).trans
      ((load64_TOGGLE_PREV_BITS_ne _ _ _ x1 (by omega) (by rw [hprev]; omega)).trans
        ((low_frame_merge wf _ _ _ _ _ hl x hxb (le_refl _) (by omega) hfrc1).trans
          (hfr1 _ (by omega) pns)))⟩
  · rw [hEp _ (by omega) nedge,
      load64_TOGGLE_PREV_BITS_ne _ _ _ x1 (by omega) (by rw [hprev]; omega),
      hEc _ (by omega) nedge (by omega)]
  · rw [hEp _ (by omega) pedge, htg, hEc _ (by omega) pedge (by omega)]

/-- `m61_coalesce` when the previous block is allocated and the next block `N` is free. -/
theorem coalesce_case_next {s : Heap} {bs fl al : List Block} (wf : WellFormed s bs fl al)
    (x : Block) (hxb : x ∈ bs) (hxa : x.alloc = true) (t1 : Heap)
    (hfr1 : ∀ w, w % 8 = 0 →
      (∀ A ∈ bs, A.alloc = true → A ≠ x →
        w ≠ A.addr + A.size - 16 ∧ w ≠ A.addr + A.size - 24) →
      load64 t1.mem w = load64 s.mem w)
    (hfl1 : t1.free_list_start = s.free_list_start)
    (hals : t1.alloc_list_start = 0 ∨
      ∃ A ∈ bs, A.alloc = true ∧ t1.alloc_list_start = A.addr)
    (hpa : IS_PREV_ALLOC s.mem x.addr = true) (hna : IS_NEXT_ALLOC s.mem x.addr = false)
    (N : Block) (hN : N ∈ bs) (hNa : N.addr = x.addr + x.size) (hNf : N.alloc = false) :
    ∃ hd t2, m61_coalesce t1 x.addr = Except.ok (hd, t2) ∧ same_globals t1 t2 ∧
      t2.alloc_list_start = t1.alloc_list_start ∧ t2.free_list_start = hd ∧
      IS_ALLOC t2.mem hd = false ∧ hd ≤ x.addr ∧ x.addr + x.size ≤ hd + GET_SIZE t2.mem hd ∧
      effp (dirty bs x) (edge s bs) t1.mem t2.mem := by
  obtain ⟨⟨-, -, x2, -, -⟩, -, -, -, -⟩ := wf_geom wf x hxb
  obtain ⟨⟨-, -, n2, -, -⟩, -, -, -, -⟩ := wf_geom wf N hN
  obtain ⟨t2, -, -, h1, h2, h3, h4, h5, -, h6, -⟩ :=
    coalesce_case_next_full wf x hxb hxa t1 hfr1 hfl1 hals hpa hna N hN hNa hNf
  exact ⟨x.addr, t2, h1, h2, h3, h4, IS_ALLOC_of_load _ _ _ (by omega) h6, le_refl _,
    by rw [GET_SIZE_of_load _ _ _ 5 (by omega) (by omega) h6]; omega, h5⟩

/-- `m61_coalesce` when the previous block `Pb` is free and the next block is allocated:
`Pb` absorbs the block, leaves its place in the free list and becomes the head of the free
list. -/
theorem coalesce_case_prev_full {s : Heap} {bs fl al : List Block}
    (wf : WellFormed s bs fl al)
    (x : Block) (hxb : x ∈ bs) (hxa : x.alloc = true) (t1 : Heap)
    (hfr1 : ∀ w, w % 8 = 0 →
      (∀ A ∈ bs, A.alloc = true → A ≠ x →
        w ≠ A.addr + A.size - 16 ∧ w ≠ A.addr + A.size - 24) →
      load64 t1.mem w = load64 s.mem w)
    (hfl1 : t1.free_list_start = s.free_list_start)
    (hals : t1.alloc_list_start = 0 ∨
      ∃ A ∈ bs, A.alloc = true ∧ t1.alloc_list_start = A.addr)
    (hpa : IS_PREV_ALLOC s.mem x.addr = false) (hna : IS_NEXT_ALLOC s.mem x.addr = true)
    (Pb : Block) (hP : Pb ∈ bs) (hPa : Pb.addr + Pb.size = x.addr) (hPf : Pb.alloc = false) :
    ∃ t2 f1 f2, m61_coalesce t1 x.addr = Except.ok (Pb.addr, t2) ∧ same_globals t1 t2 ∧
      t2.alloc_list_start = t1.alloc_list_start ∧ t2.free_list_start = Pb.addr ∧
      effp (dirty bs x) (edge s bs) t1.mem t2.mem ∧
      fl = f1 ++ Pb :: f2 ∧
      load64 t2.mem Pb.addr = x.size + Pb.size + 5 ∧
      load64 t2.mem (Pb.addr + (x.size + Pb.size) - 8) = x.size + Pb.size + 5 ∧
      links t2.mem 0 Pb.addr (⟨Pb.addr, x.size + Pb.size, false⟩ :: (f1 ++ f2)) 0 ∧
      (∀ b ∈ f1 ++ f2, GET_SIZE t2.mem b.addr = b.size) ∧
      load64 t2.mem (x.addr + x.size) = load64 s.mem (x.addr + x.size) ^^^ 4 ∧
      load64 t2.mem (Pb.addr - GET_SIZE s.mem (Pb.addr - 8))
        = load64 s.mem (Pb.addr - GET_SIZE s.mem (Pb.addr - 8)) ∧
      load64 t2.mem (Pb.addr - 8) = load64 s.mem (Pb.addr - 8) := by
  obtain ⟨⟨x0, x1, x2, x3, x4⟩, -, -, -, -⟩ := wf_geom wf x hxb
  obtain ⟨⟨p0, p1, p2, p3, p4⟩, -, -, -, -⟩ := wf_geom wf Pb hP
  obtain ⟨hxl, hL1, hmem1, hne1, hapx, hhdr⟩ :=
    coalesce_prelude wf x hxb hxa t1 hfr1 hfl1 hals
  have hS : GET_SIZE t1.mem x.addr = x.size :=
    (GET_SIZE_congr hxl).trans (wf.blocks x hxb).2.2.1
  have hpa1 : IS_PREV_ALLOC t1.mem x.addr = false := (IS_PREV_ALLOC_congr hxl).trans hpa
  have hna1 : IS_NEXT_ALLOC t1.mem x.addr = true := (IS_NEXT_ALLOC_congr hxl).trans hna
  have nedge := next_info wf x hxb
  obtain ⟨ps, hps, ps16, psle, pedge, -⟩ := prev_info wf Pb hP
  have ps8 : ps % 8 = 0 := hps ▸ GET_SIZE_mod _ _
  have hfoot : GET_SIZE t1.mem (x.addr - 8) = Pb.size := by
    have e : x.addr - 8 = Pb.addr + Pb.size - 8 := by omega
    rw [e, GET_SIZE_congr (hfr1 _ (by omega) (not_alloc_slot wf x Pb hP _ (by omega)
      (by omega) (Or.inl hPf)))]
    exact (wf.blocks Pb hP).2.2.2.2
  have hprev0 : PREV_FROM_HEADER t1.mem x.addr = Pb.addr := by
    rw [PREV_FROM_HEADER_of _ _ Pb.size hfoot (by omega) (by omega)]
    omega
  have hPfl : Pb ∈ fl := wf.free_all Pb hP hPf
  obtain ⟨f1, f2, hfl⟩ := List.append_of_mem hPfl
  have hsub : ∀ b ∈ f1 ++ f2, b ∈ fl := fun b hb => hfl ▸ mem_of_mem_middle hb
  have hnd := List.nodup_cons.mp (List.nodup_middle.mp (hfl ▸ wf.free_nodup))
  have hPnot : Pb ∉ f1 ++ f2 := hnd.1
  have hl : ∀ b ∈ f1 ++ f2, b ∈ bs ∧ b.alloc = false := fun b hb => wf.free_sub b (hsub b hb)
  have hap : ∀ b ∈ f1 ++ f2,
      b.addr + b.size ≤ Pb.addr ∨ Pb.addr + (x.size + Pb.size) ≤ b.addr := by
    intro b hb
    have h1 := hapx b (hsub b hb)
    have h2 := wf_apart wf b (hl b hb).1 Pb hP (fun e => hPnot (e ▸ hb))
    obtain ⟨-, -, -, b3, -⟩ := (wf_geom wf b (hl b hb).1).1
    unfold apart at h2
    omega
  have hPreg : ∀ w, Pb.addr ≤ w → w < Pb.addr + (x.size + Pb.size) → dirty bs x w := by
    intro w h1 h2
    by_cases h3 : w < x.addr
    · exact dirty_free bs x Pb hP hPf w h1 (by omega)
    · exact dirty_self bs x hxb w (by omega) (by omega)
  have hPl : ∀ b ∈ f1 ++ f2, ∀ w, b.addr ≤ w → w < b.addr + b.size → dirty bs x w :=
    fun b hb w h1 h2 => dirty_free bs x b (hl b hb).1 (hl b hb).2 w h1 h2
  obtain ⟨c1, hrun, hg1, hal1, hload1, hLc1, hmemc1, heff1, hfrc1, hfoot1⟩ :=
    m61_coalesce_prev_spec t1 x.addr x.size Pb f1 f2 (dirty bs x) (edge s bs) x1 hS (by omega)
      x4 hPa (hmem1 Pb hPfl).1 (hfl ▸ hL1)
      (fun b hb => (wf_geom wf b (wf.free_sub b (hfl ▸ hb)).1).1)
      (fun b hb => hmem1 b (hsub b hb)) (hfl ▸ wf_free_pairwise wf) hap (hne1 Pb hPfl)
      hPreg hPl
  -- the toggle of the next block
  have hnext : NEXT_FROM_HEADER c1.mem Pb.addr = x.addr + x.size := by
    rw [NEXT_FROM_HEADER_eq _ _ (x.size + Pb.size)
      (GET_SIZE_of_load _ _ _ 5 (by omega) (by omega) hload1) (by omega)]
    omega
  obtain ⟨c2, hpush, hg, hfs, hal, -, -, heff⟩ :=
    coalesce_finish_block wf x c1
      { c1 with mem := TOGGLE_NEXT_BITS c1.mem Pb.addr PREV_ALLOC_BIT } Pb.addr
      (x.size + Pb.size) (f1 ++ f2) p1 p0 (by omega) (by omega) (by omega)
      (by rw [hload1]) hLc1 hl (fun b hb => (hmemc1 b hb).1) hap hPreg rfl
      (effp_toggle_next _ _ _ _ p1 (Or.inr (by rw [hnext]; exact nedge)))
      (load64_TOGGLE_NEXT_BITS_ne _ _ _ p1 p1 (by rw [hnext]; omega))
  have hrun0 : m61_coalesce t1 x.addr = Except.ok (Pb.addr, c2) := by
    unfold m61_coalesce
    simp only []
    rw [if_neg (by rw [hpa1]; simp), if_neg (by rw [hpa1]; simp),
      if_pos ⟨by rw [hpa1]; rfl, hna1⟩, hprev0, hrun]
    show (m61_push_to_front _ _ _ >>= _) = _
    rw [hpush]
    rfl
  clear hrun hxl hS hfl1 hapx hne1 hmem1 hL1 hhdr hpa1 hna1 hPreg hPl hfoot hprev0
  obtain ⟨hlinks, hsz, hfr2, hhd, hft⟩ :=
    coalesce_finish_links wf c1
      { c1 with mem := TOGGLE_NEXT_BITS c1.mem Pb.addr PREV_ALLOC_BIT } c2 Pb.addr
      (x.size + Pb.size) (f1 ++ f2) p1 (by omega) (by omega) (by omega)
      (by rw [hload1]) hLc1 hl (fun b hb => (hmemc1 b hb).1) hap rfl
      (effp_toggle_next _ _ _ _ p1 (Or.inr (by rw [hnext]; exact nedge)))
      (load64_TOGGLE_NEXT_BITS_ne _ _ _ p1 p1 (by rw [hnext]; omega)) hnd.2 hpush
  have hEp : ∀ w, w % 8 = 0 → edge s bs w →
      load64 c2.mem w = load64 (TOGGLE_NEXT_BITS c1.mem Pb.addr PREV_ALLOC_BIT) w :=
    edge_frame_push wf _ _ _ _ _ hl x hxb ⟨by omega, by omega⟩ hfr2
  have hEc : ∀ w, w % 8 = 0 → edge s bs w → w ≠ Pb.addr →
      load64 c1.mem w = load64 s.mem w := fun w hw he hne =>
    (edge_frame_merge wf _ _ _ _ _ hl x hxb ⟨by omega, by omega⟩ hfrc1 w hw he hne).trans
      (hfr1 w hw (edge_not_alloc_slot wf x w he))
  have htg := load64_TOGGLE_NEXT_BITS_same c1.mem Pb.addr p1
  rw [hnext] at htg
  rw [hps]
  refine ⟨c2, f1, f2, hrun0, same_globals_trans hg1 ⟨hg.1, hg.2.1, hg.2.2.1, hg.2.2.2⟩,
    hal.trans hal1, hfs, effp_trans heff1 heff, hfl, hhd,
    (hft.trans (load64_TOGGLE_NEXT_BITS_ne _ _ _ p1 (by omega) (by rw [hnext]; omega))).trans
      hfoot1, hlinks, hsz, ?_, ?_,
    (low_frame_push wf _ _ _ _ _ hl Pb hP (le_refl _) (by omega) hfr2).trans
      ((load64_TOGGLE_NEXT_BITS_ne _ _ _ p1 (by omega) (by rw [hnext]; omega)).trans
        ((low_frame_merge wf _ _ _ _ _ hl Pb hP (le_refl _) (by omega) hfrc1).trans
          (hfr1 _ (by omega) (fun A hA _ _ => prev_footer_not_slot wf Pb hP A hA))))⟩
  · rw [hEp _ (by omega) nedge, htg, hEc _ (by omega) nedge (by omega)]
  · rw [hEp _ (by omega) pedge,
      load64_TOGGLE_NEXT_BITS_ne _ _ _ p1 (by omega) (by rw [hnext]; omega),
      hEc _ (by omega) pedge (by omega)]

/-- `m61_coalesce` when the previous block `Pb` is free and the next block is allocated. -/
theorem coalesce_case_prev {s : Heap} {bs fl al : List Block} (wf : WellFormed s bs fl al)
    (x : Block) (hxb : x ∈ bs) (hxa : x.alloc = true) (t1 : Heap)
    (hfr1 : ∀ w, w % 8 = 0 →
      (∀ A ∈ bs, A.alloc = true → A ≠ x →
        w ≠ A.addr + A.size - 16 ∧ w ≠ A.addr + A.size - 24) →
      load64 t1.mem w = load64 s.mem w)
    (hfl1 : t1.free_list_start = s.free_list_start)
    (hals : t1.alloc_list_start = 0 ∨
      ∃ A ∈ bs, A.alloc = true ∧ t1.alloc_list_start = A.addr)
    (hpa : IS_PREV_ALLOC s.mem x.addr = false) (hna : IS_NEXT_ALLOC s.mem x.addr = true)
    (Pb : Block) (hP : Pb ∈ bs) (hPa : Pb.addr + Pb.size = x.addr) (hPf : Pb.alloc = false) :
    ∃ hd t2, m61_coalesce t1 x.addr = Except.ok (hd, t2) ∧ same_globals t1 t2 ∧
      t2.alloc_list_start = t1.alloc_list_start ∧ t2.free_list_start = hd ∧
      IS_ALLOC t2.mem hd = false ∧ hd ≤ x.addr ∧ x.addr + x.size ≤ hd + GET_SIZE t2.mem hd ∧
      effp (dirty bs x) (edge s bs) t1.mem t2.mem := by
  obtain ⟨⟨-, -, x2, -, -⟩, -, -, -, -⟩ := wf_geom wf x hxb
  obtain ⟨⟨-, -, p2, -, -⟩, -, -, -, -⟩ := wf_geom wf Pb hP
  obtain ⟨t2, -, -, h1, h2, h3, h4, h5, -, h6, -⟩ :=
    coalesce_case_prev_full wf x hxb hxa t1 hfr1 hfl1 hals hpa hna Pb hP hPa hPf
  exact ⟨Pb.addr, t2, h1, h2, h3, h4, IS_ALLOC_of_load _ _ _ (by omega) h6, by omega,
    by rw [GET_SIZE_of_load _ _ _ 5 (by omega) (by omega) h6]; omega, h5⟩

/-- `m61_coalesce` when both neighbours, `Pb` before and `N` after, are free: `Pb` absorbs
the block and `N`; both leave their places in the free list and the merged block becomes its
head. -/
theorem coalesce_case_both_full {s : Heap} {bs fl al : List Block}
    (wf : WellFormed s bs fl al)
    (x : Block) (hxb : x ∈ bs) (hxa : x.alloc = true) (t1 : Heap)
    (hfr1 : ∀ w, w % 8 = 0 →
      (∀ A ∈ bs, A.alloc = true → A ≠ x →
        w ≠ A.addr + A.size - 16 ∧ w ≠ A.addr + A.size - 24) →
      load64 t1.mem w = load64 s.mem w)
    (hfl1 : t1.free_list_start = s.free_list_start)
    (hals : t1.alloc_list_start = 0 ∨
      ∃ A ∈ bs, A.alloc = true ∧ t1.alloc_list_start = A.addr)
    (hpa : IS_PREV_ALLOC s.mem x.addr = false) (hna : IS_NEXT_ALLOC s.mem x.addr = false)
    (Pb : Block) (hP : Pb ∈ bs) (hPa : Pb.addr + Pb.size = x.addr) (hPf : Pb.alloc = false)
    (N : Block) (hN : N ∈ bs) (hNa : N.addr = x.addr + x.size) (hNf : N.alloc = false) :
    ∃ t2 f1 f2 g1 g2, m61_coalesce t1 x.addr = Except.ok (Pb.addr, t2) ∧ same_globals t1 t2 ∧
      t2.alloc_list_start = t1.alloc_list_start ∧ t2.free_list_start = Pb.addr ∧
      effp (dirty bs x) (edge s bs) t1.mem t2.mem ∧
      (fl = f1 ++ Pb :: f2 ∧ f1 ++ f2 = g1 ++ N :: g2) ∧
      load64 t2.mem Pb.addr = x.size + Pb.size + N.size + 5 ∧
      load64 t2.mem (Pb.addr + (x.size + Pb.size + N.size) - 8)
        = x.size + Pb.size + N.size + 5 ∧
      links t2.mem 0 Pb.addr (⟨Pb.addr, x.size + Pb.size + N.size, false⟩ :: (g1 ++ g2)) 0 ∧
      (∀ b ∈ g1 ++ g2, GET_SIZE t2.mem b.addr = b.size) ∧
      load64 t2.mem (N.addr + N.size) = load64 s.mem (N.addr + N.size) ∧
      load64 t2.mem (Pb.addr - GET_SIZE s.mem (Pb.addr - 8))
        = load64 s.mem (Pb.addr - GET_SIZE s.mem (Pb.addr - 8)) ∧
      load64 t2.mem (Pb.addr - 8) = load64 s.mem (Pb.addr - 8) := by
  obtain ⟨⟨x0, x1, x2, x3, x4⟩, -, -, -, -⟩ := wf_geom wf x hxb
  obtain ⟨⟨p0, p1, p2, p3, p4⟩, -, -, -, -⟩ := wf_geom wf Pb hP
  obtain ⟨⟨-, -, n2, n3, n4⟩, -, -, -, -⟩ := wf_geom wf N hN
  obtain ⟨hxl, hL1, hmem1, hne1, hapx, hhdr⟩ :=
    coalesce_prelude wf x hxb hxa t1 hfr1 hfl1 hals
  have hS : GET_SIZE t1.mem x.addr = x.size :=
    (GET_SIZE_congr hxl).trans (wf.blocks x hxb).2.2.1
  have hpa1 : IS_PREV_ALLOC t1.mem x.addr = false := (IS_PREV_ALLOC_congr hxl).trans hpa
  have hna1 : IS_NEXT_ALLOC t1.mem x.addr = false := (IS_NEXT_ALLOC_congr hxl).trans hna
  have nedge := next_info wf N hN
  obtain ⟨ps, hps, ps16, psle, pedge, -⟩ := prev_info wf Pb hP
  have ps8 : ps % 8 = 0 := hps ▸ GET_SIZE_mod _ _
  have hfoot : GET_SIZE t1.mem (x.addr - 8) = Pb.size := by
    have e : x.addr - 8 = Pb.addr + Pb.size - 8 := by omega
    rw [e, GET_SIZE_congr (hfr1 _ (by omega) (not_alloc_slot wf x Pb hP _ (by omega)
      (by omega) (Or.inl hPf)))]
    exact (wf.blocks Pb hP).2.2.2.2
  have hprev0 : PREV_FROM_HEADER t1.mem x.addr = Pb.addr := by
    rw [PREV_FROM_HEADER_of _ _ Pb.size hfoot (by omega) (by omega)]
    omega
  have hPfl : Pb ∈ fl := wf.free_all Pb hP hPf
  have hNfl : N ∈ fl := wf.free_all N hN hNf
  obtain ⟨f1, f2, hfl⟩ := List.append_of_mem hPfl
  have hsub : ∀ b ∈ f1 ++ f2, b ∈ fl := fun b hb => hfl ▸ mem_of_mem_middle hb
  have hndP := List.nodup_cons.mp (List.nodup_middle.mp (hfl ▸ wf.free_nodup))
  have hPnot : Pb ∉ f1 ++ f2 := hndP.1
  have hl : ∀ b ∈ f1 ++ f2, b ∈ bs ∧ b.alloc = false := fun b hb => wf.free_sub b (hsub b hb)
  have hNP : N ≠ Pb := by
    intro e
    rw [e] at hNa
    omega
  have hNf12 : N ∈ f1 ++ f2 := by
    rcases mem_middle (hfl ▸ hNfl) with e | h
    · exact absurd e hNP
    · exact h
  have hap : ∀ b ∈ f1 ++ f2,
      b.addr + b.size ≤ Pb.addr ∨ Pb.addr + (x.size + Pb.size) ≤ b.addr := by
    intro b hb
    have h1 := hapx b (hsub b hb)
    have h2 := wf_apart wf b (hl b hb).1 Pb hP (fun e => hPnot (e ▸ hb))
    obtain ⟨-, -, -, b3, -⟩ := (wf_geom wf b (hl b hb).1).1
    unfold apart at h2
    omega
  have hPreg : ∀ w, Pb.addr ≤ w → w < Pb.addr + (x.size + Pb.size) → dirty bs x w := by
    intro w h1 h2
    by_cases h3 : w < x.addr
    · exact dirty_free bs x Pb hP hPf w h1 (by omega)
    · exact dirty_self bs x hxb w (by omega) (by omega)
  have hPl : ∀ b ∈ f1 ++ f2, ∀ w, b.addr ≤ w → w < b.addr + b.size → dirty bs x w :=
    fun b hb w h1 h2 => dirty_free bs x b (hl b hb).1 (hl b hb).2 w h1 h2
  have hpwfl := wf_free_pairwise wf
  rw [hfl] at hpwfl
  obtain ⟨c1, hrun, hg1, hal1, hload1, hLc1, hmemc1, heff1, hfrc1, -⟩ :=
    m61_coalesce_prev_spec t1 x.addr x.size Pb f1 f2 (dirty bs x) (edge s bs) x1 hS (by omega)
      x4 hPa (hmem1 Pb hPfl).1 (hfl ▸ hL1)
      (fun b hb => (wf_geom wf b (wf.free_sub b (hfl ▸ hb)).1).1)
      (fun b hb => hmem1 b (hsub b hb)) hpwfl hap (hne1 Pb hPfl)
      hPreg hPl
  -- the second merge
  obtain ⟨g1, g2, hg12⟩ := List.append_of_mem hNf12
  have hsub2 : ∀ b ∈ g1 ++ g2, b ∈ f1 ++ f2 := fun b hb => hg12 ▸ mem_of_mem_middle hb
  have hndN := List.nodup_cons.mp (List.nodup_middle.mp (hg12 ▸ hndP.2))
  have hNnot : N ∉ g1 ++ g2 := hndN.1
  have hl2 : ∀ b ∈ g1 ++ g2, b ∈ bs ∧ b.alloc = false := fun b hb => hl b (hsub2 b hb)
  have hpw12 : (f1 ++ f2).Pairwise apart :=
    hpwfl.sublist ((List.sublist_cons_self Pb f2).append_left f1)
  have hap2 : ∀ b ∈ g1 ++ g2,
      b.addr + b.size ≤ Pb.addr ∨ Pb.addr + (x.size + Pb.size + N.size) ≤ b.addr := by
    intro b hb
    have h1 := hap b (hsub2 b hb)
    have h2 := wf_apart wf b (hl2 b hb).1 N hN (fun e => hNnot (e ▸ hb))
    obtain ⟨-, -, -, b3, -⟩ := (wf_geom wf b (hl2 b hb).1).1
    unfold apart at h2
    omega
  have hPreg2 : ∀ w, Pb.addr ≤ w → w < Pb.addr + (x.size + Pb.size + N.size) →
      dirty bs x w := by
    intro w h1 h2
    by_cases h3 : w < x.addr + x.size
    · exact hPreg w h1 (by omega)
    · exact dirty_free bs x N hN hNf w (by omega) (by omega)
  have hPl2 : ∀ b ∈ g1 ++ g2, ∀ w, b.addr ≤ w → w < b.addr + b.size → dirty bs x w :=
    fun b hb w h1 h2 => dirty_free bs x b (hl2 b hb).1 (hl2 b hb).2 w h1 h2
  have hne2 : c1.free_list_start ≠ c1.alloc_list_start := by
    rw [hal1]
    exact free_head_ne wf (f1 ++ f2) _ _ (links_first _ _ _ _ _ hLc1) hl N hNf12 hals
  obtain ⟨c2, hrun2, hg2, hal2, hload2, hLc2, hmemc2, heff2, hfrc2, hfoot2⟩ :=
    m61_coalesce_next_spec c1 Pb.addr (x.size + Pb.size) N g1 g2 (dirty bs x) (edge s bs) p1
      (GET_SIZE_of_load _ _ _ 5 (by omega) (by omega) hload1) (by omega) (by omega)
      (hmemc1 N hNf12).1 (hg12 ▸ hLc1)
      (fun b hb => (wf_geom wf b (hl b (hg12 ▸ hb)).1).1)
      (fun b hb => hmemc1 b (hsub2 b hb)) (hg12 ▸ hpw12) hap2 hne2 hPreg2 hPl2
  obtain ⟨c3, hpush, hg, hfs, hal, -, -, heff⟩ :=
    coalesce_finish_block wf x c2 c2 Pb.addr (x.size + Pb.size + N.size) (g1 ++ g2) p1 p0
      (by omega) (by omega) (by omega) (by rw [hload2]) hLc2 hl2
      (fun b hb => (hmemc2 b hb).1) hap2 hPreg2 rfl (effp_refl _ _ _) rfl
  have hrun0 : m61_coalesce t1 x.addr = Except.ok (Pb.addr, c3) := by
    unfold m61_coalesce
    simp only []
    rw [if_neg (by rw [hpa1]; simp), if_neg (by rw [hpa1]; simp),
      if_neg (by rw [hna1]; simp), hprev0, hrun, NEXT_FROM_HEADER_eq _ _ _ hS x4, ← hNa]
    show (m61_coalesce_next c1 Pb.addr N.addr >>= _) = _
    rw [hrun2]
    show (m61_push_to_front _ _ _ >>= _) = _
    rw [hpush]
    rfl
  clear hrun hrun2 hxl hS hfl1 hapx hne1 hmem1 hL1 hhdr hpa1 hna1 hPreg hPl hfoot hprev0
    hPreg2 hPl2 hne2 hpw12 hpwfl
  obtain ⟨hlinks, hsz, hfr2, hhd, hft⟩ :=
    coalesce_finish_links wf c2 c2 c3 Pb.addr (x.size + Pb.size + N.size) (g1 ++ g2) p1
      (by omega) (by omega) (by omega) (by rw [hload2]) hLc2 hl2
      (fun b hb => (hmemc2 b hb).1) hap2 rfl (effp_refl _ _ _) rfl hndN.2 hpush
  have hE : ∀ w, w % 8 = 0 → edge s bs w → w ≠ Pb.addr →
      load64 c3.mem w = load64 s.mem w := fun w hw he hne =>
    ((edge_frame_push wf _ _ _ _ _ hl2 N hN ⟨by omega, by omega⟩ hfr2 w hw he).trans
      (edge_frame_merge wf _ _ _ _ _ hl2 N hN ⟨by omega, by omega⟩ hfrc2 w hw he hne)).trans
      ((edge_frame_merge wf _ _ _ _ _ hl x hxb ⟨by omega, by omega⟩ hfrc1 w hw he hne).trans
        (hfr1 w hw (edge_not_alloc_slot wf x w he)))
  rw [hps]
  exact ⟨c3, f1, f2, g1, g2, hrun0,
    same_globals_trans (same_globals_trans hg1 hg2) hg,
    (hal.trans hal2).trans hal1, hfs, effp_trans (effp_trans heff1 heff2) heff,
    ⟨hfl, hg12⟩, hhd, hft.trans hfoot2, hlinks, hsz,
    hE _ (by omega) nedge (by omega), hE _ (by omega) pedge (by omega),
    ((low_frame_push wf _ _ _ _ _ hl2 Pb hP (le_refl _) (by omega) hfr2).trans
      (low_frame_merge wf _ _ _ _ _ hl2 Pb hP (le_refl _) (by omega) hfrc2)).trans
      ((low_frame_merge wf _ _ _ _ _ hl Pb hP (le_refl _) (by omega) hfrc1).trans
        (hfr1 _ (by omega) (fun A hA _ _ => prev_footer_not_slot wf Pb hP A hA)))⟩

/-- `m61_coalesce` when both neighbours, `Pb` before and `N` after, are free. -/
theorem coalesce_case_both {s : Heap} {bs fl al : List Block} (wf : WellFormed s bs fl al)
    (x : Block) (hxb : x ∈ bs) (hxa : x.alloc = true) (t1 : Heap)
    (hfr1 : ∀ w, w % 8 = 0 →
      (∀ A ∈ bs, A.alloc = true → A ≠ x →
        w ≠ A.addr + A.size - 16 ∧ w ≠ A.addr + A.size - 24) →
      load64 t1.mem w = load64 s.mem w)
    (hfl1 : t1.free_list_start = s.free_list_start)
    (hals : t1.alloc_list_start = 0 ∨
      ∃ A ∈ bs, A.alloc = true ∧ t1.alloc_list_start = A.addr)
    (hpa : IS_PREV_ALLOC s.mem x.addr = false) (hna : IS_NEXT_ALLOC s.mem x.addr = false)
    (Pb : Block) (hP : Pb ∈ bs) (hPa : Pb.addr + Pb.size = x.addr) (hPf : Pb.alloc = false)
    (N : Block) (hN : N ∈ bs) (hNa : N.addr = x.addr + x.size) (hNf : N.alloc = false) :
    ∃ hd t2, m61_coalesce t1 x.addr = Except.ok (hd, t2) ∧ same_globals t1 t2 ∧
      t2.alloc_list_start = t1.alloc_list_start ∧ t2.free_list_start = hd ∧
      IS_ALLOC t2.mem hd = false ∧ hd ≤ x.addr ∧ x.addr + x.size ≤ hd + GET_SIZE t2.mem hd ∧
      effp (dirty bs x) (edge s bs) t1.mem t2.mem := by
  obtain ⟨⟨-, -, x2, -, -⟩, -, -, -, -⟩ := wf_geom wf x hxb
  obtain ⟨⟨-, -, p2, -, -⟩, -, -, -, -⟩ := wf_geom wf Pb hP
  obtain ⟨⟨-, -, n2, -, -⟩, -, -, -, -⟩ := wf_geom wf N hN
  obtain ⟨t2, -, -, -, -, h1, h2, h3, h4, h5, -, h6, -⟩ :=
    coalesce_case_both_full wf x hxb hxa t1 hfr1 hfl1 hals hpa hna Pb hP hPa hPf N hN hNa hNf
  exact ⟨Pb.addr, t2, h1, h2, h3, h4, IS_ALLOC_of_load _ _ _ (by omega) h6, by omega,
    by rw [GET_SIZE_of_load _ _ _ 5 (by omega) (by omega) h6]; omega, h5⟩

/-! ### The effect of `m61_free` on a well-formed heap -/

/-- `m61_coalesce` on the block `x` of a well-formed layout, in a state in which only link
slots of other allocated blocks differ from the well-formed one. -/
theorem m61_coalesce_wf {s : Heap} {bs fl al : List Block} (wf : WellFormed s bs fl al)
    (x : Block) (hxb : x ∈ bs) (hxa : x.alloc = true) (t1 : Heap)
    (hfr1 : ∀ w, w % 8 = 0 →
      (∀ A ∈ bs, A.alloc = true → A ≠ x →
        w ≠ A.addr + A.size - 16 ∧ w ≠ A.addr + A.size - 24) →
      load64 t1.mem w = load64 s.mem w)
    (hfl1 : t1.free_list_start = s.free_list_start)
    (hals : t1.alloc_list_start = 0 ∨
      ∃ A ∈ bs, A.alloc = true ∧ t1.alloc_list_start = A.addr) :
    ∃ hd t2, m61_coalesce t1 x.addr = Except.ok (hd, t2) ∧ same_globals t1 t2 ∧
      t2.alloc_list_start = t1.alloc_list_start ∧ t2.free_list_start = hd ∧
      IS_ALLOC t2.mem hd = false ∧ hd ≤ x.addr ∧ x.addr + x.size ≤ hd + GET_SIZE t2.mem hd ∧
      effp (dirty bs x) (edge s bs) t1.mem t2.mem := by
  obtain ⟨hprev, hnext⟩ := wf_neighbours wf x hxb
  cases hpa : IS_PREV_ALLOC s.mem x.addr <;> cases hna : IS_NEXT_ALLOC s.mem x.addr
  · -- both free
    rcases hprev with ⟨_, h⟩ | ⟨Pb, hP, hPa, hPe⟩
    · rw [hpa] at h; cases h
    · rcases hnext with ⟨_, h⟩ | ⟨N, hN, hNa, hNe⟩
      · rw [hna] at h; cases h
      · exact coalesce_case_both wf x hxb hxa t1 hfr1 hfl1 hals hpa hna Pb hP hPa
          (hPe.symm.trans hpa) N hN hNa (hNe.symm.trans hna)
  · rcases hprev with ⟨_, h⟩ | ⟨Pb, hP, hPa, hPe⟩
    · rw [hpa] at h; cases h
    · exact coalesce_case_prev wf x hxb hxa t1 hfr1 hfl1 hals hpa hna Pb hP hPa
        (hPe.symm.trans hpa)
  · rcases hnext with ⟨_, h⟩ | ⟨N, hN, hNa, hNe⟩
    · rw [hna] at h; cases h
    · exact coalesce_case_next wf x hxb hxa t1 hfr1 hfl1 hals hpa hna N hN hNa
        (hNe.symm.trans hna)
  · exact coalesce_case_none wf x hxb hxa t1 hfr1 hfl1 hals hpa hna

theorem erase_middle (a1 a2 : List Block) (x : Block) (h : x ∉ a1) :
    (a1 ++ x :: a2).erase x = a1 ++ a2 := by
  induction a1 with
  | nil => simp
  | cons b t ih =>
    have hb : b ≠ x := fun e => h (e ▸ List.mem_cons_self _ _)
    have ht : x ∉ t := fun e => h (List.mem_cons_of_mem _ e)
    simp [List.erase_cons, hb, ih ht]

/-- The whole of `m61_free` for a block `x` of the alloc list of a well-formed heap that the
validator accepts. -/
theorem m61_free_wf (s : Heap) (bs fl al : List Block) (wf : WellFormed s bs fl al)
    (fuel : Nat) (x : Block) (hx : x ∈ al) (d : Option Diagnostic)
    (hv : m61_validate_free fuel s (x.addr + 8) = Except.ok (true, d)) :
    ∃ t hd, m61_free fuel s (x.addr + 8) = Except.ok t ∧
      dlist t.mem 0 t.alloc_list_start ((al.erase x).map Block.addr) ∧
      x.addr ∉ (al.erase x).map Block.addr ∧
      t.free_list_start = hd ∧ IS_ALLOC t.mem hd = false ∧
      hd ≤ x.addr ∧ x.addr + x.size ≤ hd + GET_SIZE t.mem hd ∧
      t.statistics
        = m61_record_free s.statistics (load32 s.mem (REQ_SIZE_FROM_HEADER s.mem x.addr)) := by
  have hxb := (wf.alloc_sub x hx).1
  have hxa := (wf.alloc_sub x hx).2
  obtain ⟨⟨x0, x1, x2, x3, x4⟩, -, -, xlo, xhi⟩ := wf_geom wf x hxb
  have hxs : GET_SIZE s.mem x.addr = x.size := (wf.blocks x hxb).2.2.1
  have hxal : IS_ALLOC s.mem x.addr = true := by
    rw [(wf.blocks x hxb).2.2.2.1]; exact hxa
  obtain ⟨a1, a2, hal⟩ := List.append_of_mem hx
  have hxnot : x ∉ a1 ++ a2 :=
    (List.nodup_cons.mp (List.nodup_middle.mp (hal ▸ wf.alloc_nodup))).1
  have hsub : ∀ b ∈ a1 ++ a2, b ∈ al := fun b hb => hal ▸ mem_of_mem_middle hb
  have hl : ∀ b ∈ a1 ++ a2, b ∈ bs ∧ b.alloc = true := fun b hb => wf.alloc_sub b (hsub b hb)
  have hne : ∀ b ∈ a1 ++ a2, b ≠ x := fun b hb e => hxnot (e ▸ hb)
  -- the removal from the alloc list
  obtain ⟨t1, W, hrun1, hglob1, -, hfl1, hlinks1, heffW, hW⟩ :=
    m61_unstitch_list_spec s ListRef.alloc_list a1 a2 x (hal ▸ wf_alloc_links wf)
      (fun b hb => (wf_geom wf b (wf.alloc_sub b (hal ▸ hb)).1).1)
      (fun b hb => by
        have hbk := wf.blocks b (hl b hb).1
        refine ⟨hbk.2.2.1, ?_⟩
        rw [hbk.2.2.2.1, (hl b hb).2]
        exact (decide_eq_true rfl).symm)
      (hal ▸ wf_alloc_pairwise wf)
  have hfr1 : ∀ w, w % 8 = 0 →
      (∀ A ∈ bs, A.alloc = true → A ≠ x →
        w ≠ A.addr + A.size - 16 ∧ w ≠ A.addr + A.size - 24) →
      load64 t1.mem w = load64 s.mem w := by
    intro w hw8 hns
    refine (heffW w hw8 (fun hin => ?_)).2.2 (fun h => by cases h)
    obtain ⟨b, hb, hor⟩ := hW w hin
    have := hns b (hl b hb).1 (hl b hb).2 (hne b hb)
    omega
  have hals : t1.alloc_list_start = 0 ∨
      ∃ A ∈ bs, A.alloc = true ∧ t1.alloc_list_start = A.addr := by
    have hfirst : t1.alloc_list_start = first_addr (a1 ++ a2) 0 :=
      links_first _ _ _ _ _ hlinks1
    cases h12 : a1 ++ a2 with
    | nil =>
      rw [h12] at hfirst
      exact Or.inl hfirst
    | cons A r =>
      rw [h12] at hfirst
      have hA := hl A (h12 ▸ List.mem_cons_self _ _)
      exact Or.inr ⟨A, hA.1, hA.2, hfirst⟩
  obtain ⟨hd, t2, hrun2, hglob2, hal2, hfs2, hIA, hle1, hle2, heff⟩ :=
    m61_coalesce_wf wf x hxb hxa t1 hfr1 (hfl1 rfl) hals
  clear hals
  -- the requested size is read from an untouched word
  have hreq : load32 t1.mem (REQ_SIZE_FROM_HEADER t1.mem x.addr)
      = load32 s.mem (REQ_SIZE_FROM_HEADER s.mem x.addr) := by
    have hxs1 : GET_SIZE t1.mem x.addr = x.size :=
      (GET_SIZE_congr (hfr1 _ x1 (not_alloc_slot wf x x hxb _ (le_refl _) (by omega)
        (Or.inr (Or.inl rfl))))).trans hxs
    rw [REQ_SIZE_FROM_HEADER_eq _ _ _ hxs1 (by omega) x4,
      REQ_SIZE_FROM_HEADER_eq _ _ _ hxs (by omega) x4,
      load32_low _ _ (by omega), load32_low _ _ (by omega),
      hfr1 _ (by omega) (not_alloc_slot wf x x hxb _ (by omega) (by omega)
        (Or.inr (Or.inl rfl)))]
  obtain ⟨rq, hrq⟩ : ∃ rq, rq = load32 t1.mem (REQ_SIZE_FROM_HEADER t1.mem x.addr) :=
    ⟨_, rfl⟩
  refine ⟨{ t2 with statistics := m61_record_free t2.statistics rq }, hd, ?_, ?_, ?_, hfs2,
    hIA, hle1, hle2, ?_⟩
  · unfold m61_free
    rw [if_neg (by omega)]
    simp only []
    rw [hv]
    simp only [except_bind_ok]
    rw [if_pos trivial, GET_HEADER_FROM_PAYLOAD_eq _ (by omega) (by omega)]
    have e : x.addr + 8 - 8 = x.addr := by omega
    rw [e, hxal, c_assert_true, except_bind_ok, LIST_PREV_eq _ _ _ hxs (by omega) x4,
      LIST_NEXT_eq _ _ _ hxs (by omega) x4, hrun1, except_bind_ok, hrun2, except_bind_ok]
    show (c_assert (!IS_ALLOC t2.mem hd) >>= _) = _
    rw [hIA, hrq]
    rfl
  · -- the alloc list
    rw [hal, erase_middle a1 a2 x (fun h => hxnot (List.mem_append_left _ h))]
    have hslot : ∀ A ∈ a1 ++ a2, ∀ w, w % 8 = 0 → A.addr ≤ w → w < A.addr + A.size →
        ¬ dirty bs x w := by
      intro A hA w _ h1 h2 ⟨c, hc, hcc, h3, h4⟩
      have hAc : A ≠ c := by
        intro e
        rcases hcc with h | h
        · rw [← e, (hl A hA).2] at h; cases h
        · exact hne A hA (e.trans h)
      have hap := wf_apart wf A (hl A hA).1 c hc hAc
      unfold apart at hap
      omega
    have hgA : ∀ A ∈ a1 ++ a2, block_geom A := fun A hA => (wf_geom wf A (hl A hA).1).1
    have hlinks2 : links t2.mem 0 t2.alloc_list_start (a1 ++ a2) 0 := by
      rw [hal2]
      refine links_frame _ _ _ _ _ _ hlinks1 (fun A hA => ?_)
      obtain ⟨b0, b1, b2, b3, b4⟩ := hgA A hA
      constructor
      · refine (heff _ (by omega) (hslot A hA _ (by omega) (by omega) (by omega))).2.2
          (fun he => ?_)
        have := edge_not_interior wf _ he A (hl A hA).1
        omega
      · refine (heff _ (by omega) (hslot A hA _ (by omega) (by omega) (by omega))).2.2
          (fun he => ?_)
        have := edge_not_interior wf _ he A (hl A hA).1
        omega
    refine links_dlist _ _ _ _ hlinks2 (fun A hA => ⟨hgA A hA, ?_⟩)
    obtain ⟨b0, b1, b2, b3, b4⟩ := hgA A hA
    show GET_SIZE t2.mem A.addr = A.size
    rw [(heff _ b1 (hslot A hA _ b1 (le_refl _) (by omega))).1,
      GET_SIZE_congr (hfr1 _ b1 (not_alloc_slot wf x A (hl A hA).1 _ (le_refl _) (by omega)
        (Or.inr (Or.inr (Or.inl rfl)))))]
    exact (wf.blocks A (hl A hA).1).2.2.1
  · -- the freed block is no longer a member
    rw [hal, erase_middle a1 a2 x (fun h => hxnot (List.mem_append_left _ h))]
    intro hin
    obtain ⟨A, hA, hAx⟩ := List.mem_map.mp hin
    have hap := wf_apart wf A (hl A hA).1 x hxb (hne A hA)
    obtain ⟨b0, b1, b2, b3, b4⟩ := (wf_geom wf A (hl A hA).1).1
    unfold apart at hap
    omega
  · show m61_record_free t2.statistics rq = _
    rw [hrq, hreq, hglob2.1, hglob1.1]

/-- In a well-formed heap, when `m61_validate_free` accepts the payload pointer of a block
`x` of the alloc list whose requested-size field holds `r` (read in the state before the call,
hence before coalescing), `m61_free` returns, the alloc list is the old one with `x` removed,
the head of the free list is a block with its ALLOC bit clear whose extent covers `x`, `nfree`
grows by 1 and `freed_size` by `r`, `nactive` shrinks by 1 and `active_size` by `r`, and
`ntotal`, `total_size`, `nfail`, `fail_size`, `heap_min`, `heap_max` are unchanged. -/
theorem m61_free_effect (s : Heap) (bs fl al : List Block) (wf : WellFormed s bs fl al)
    (fuel : Nat) (x : Block) (hx : x ∈ al) (d : Option Diagnostic)
    (hv : m61_validate_free fuel s (x.addr + 8) = Except.ok (true, d)) (r : Nat)
    (hr : load32 s.mem (REQ_SIZE_FROM_HEADER s.mem x.addr) = r) :
    ∃ t, m61_free fuel s (x.addr + 8) = Except.ok t ∧
      dlist t.mem 0 t.alloc_list_start ((al.erase x).map Block.addr) ∧
      x.addr ∉ (al.erase x).map Block.addr ∧
      IS_ALLOC t.mem t.free_list_start = false ∧
      t.free_list_start ≤ x.addr ∧
      x.addr + x.size ≤ t.free_list_start + GET_SIZE t.mem t.free_list_start ∧
      t.statistics.nfree = wadd s.statistics.nfree 1 ∧
      t.statistics.freed_size = wadd s.statistics.freed_size r ∧
      t.statistics.nactive = wsub s.statistics.nactive 1 ∧
      t.statistics.active_size = wsub s.statistics.active_size r ∧
      t.statistics.ntotal = s.statistics.ntotal ∧
      t.statistics.total_size = s.statistics.total_size ∧
      t.statistics.nfail = s.statistics.nfail ∧
      t.statistics.fail_size = s.statistics.fail_size ∧
      t.statistics.heap_min = s.statistics.heap_min ∧
      t.statistics.heap_max = s.statistics.heap_max := by
  obtain ⟨t, hd, hrun, hlist, hgone, hfs, hIA, h1, h2, hst⟩ :=
    m61_free_wf s bs fl al wf fuel x hx d hv
  subst hfs
  rw [hr] at hst
  refine ⟨t, hrun, hlist, hgone, hIA, h1, h2, ?_⟩
  rw [hst]
  exact ⟨rfl, rfl, rfl, rfl, rfl, rfl, rfl, rfl, rfl, rfl⟩

/-- An instance of `m61_free_effect`: after `p1 = malloc(100); p2 = malloc(100)` on the fresh
arena the heap is well formed with two allocated blocks and one free block, and the validator
accepts `p1`. -/
theorem m61_free_effect_witness :
    WellFormed two_blocks
      [⟨arena_base + 24, 176, true⟩, ⟨arena_base + 200, 176, true⟩,
        ⟨arena_base + 376, 8388224, false⟩]
      [⟨arena_base + 376, 8388224, false⟩]
      [⟨arena_base + 200, 176, true⟩, ⟨arena_base + 24, 176, true⟩] ∧
    m61_validate_free run_fuel two_blocks (arena_base + 24 + 8) = Except.ok (true, none) ∧
    load32 two_blocks.mem (REQ_SIZE_FROM_HEADER two_blocks.mem (arena_base + 24)) = 100 ∧
    ∃ t, m61_free run_fuel two_blocks (arena_base + 24 + 8) = Except.ok t ∧
      t.statistics.nfree = wadd two_blocks.statistics.nfree 1 ∧
      t.statistics.freed_size = wadd two_blocks.statistics.freed_size 100 ∧
      t.statistics.nactive = wsub two_blocks.statistics.nactive 1 ∧
      t.statistics.active_size = wsub two_blocks.statistics.active_size 100 :=
  ⟨by constructor <;> decide!, by decide!, by decide!,
    (m61_free_effect two_blocks
      [⟨arena_base + 24, 176, true⟩, ⟨arena_base + 200, 176, true⟩,
        ⟨arena_base + 376, 8388224, false⟩]
      [⟨arena_base + 376, 8388224, false⟩]
      [⟨arena_base + 200, 176, true⟩, ⟨arena_base + 24, 176, true⟩]
      (by constructor <;> decide!) run_fuel ⟨arena_base + 24, 176, true⟩ (by decide) none
      (by decide!) 100 (by decide!)).imp
      (fun _ h => ⟨h.1, h.2.2.2.2.2.2.1, h.2.2.2.2.2.2.2.1, h.2.2.2.2.2.2.2.2.1,
        h.2.2.2.2.2.2.2.2.2.1⟩)⟩

/-! ### Alignment of returned pointers (C5) -/

/-- On a well-formed heap a non-null pointer returned by `m61_malloc` lies at a multiple of
16 bytes from the arena base. -/
theorem m61_malloc_aligned_wf {s : Heap} {bs fl al : List Block} (wf : WellFormed s bs fl al)
    (fuel : Nat) (t : Heap) (sz file q : Nat) (line : Int)
    (hr : m61_malloc fuel s sz file line = Except.ok (q, t)) (hq : q ≠ 0) :
    (q - s.default_buffer.buffer) % 16 = 0 := by
  obtain ⟨h, S, m1, e, h16, _, _, hlo, _, _, _⟩ := m61_malloc_block wf fuel t sz file q line hr hq
  have := wf.base_aligned
  omega

/-- C5 (evaluation at the failing input): after `a = malloc(144)` with file pointer `128`,
`b = malloc(100)`, `free(a)`, `free(b)`, `d = malloc(176)` with file pointer `40`, `free(d)`,
`e = malloc(179)`, the validator accepts a second `free(b)` (`true`, no diagnostic), and the
next `malloc(16)` returns `arena_base + 200`, which is 8 modulo 16 from the arena base. -/
theorem m61_malloc_returns_misaligned_pointer :
    run_misaligned.map (fun r => (r.1, r.2.1, r.2.2, (r.2.2 - arena_base) % 16))
      = Except.ok (arena_base + 240, (true, none), arena_base + 200, 8) := by
  decide!

/-! ### Scenarios on a fresh arena (C21, C24, C25, C26, C27, C28, C29) -/

/-- C21 (evaluation at the failing input): after `p = malloc(200); q = realloc(p, 100)` on a
fresh arena the alloc list consists of the one block of `p`, whose recorded requested size is
100, while `nactive` is 0 and `active_size` is 104. -/
theorem statistics_diverge_after_shrink :
    run_shrink_fresh.map (fun r => (r.1, r.2.1,
      decide (dlist r.2.2.mem 0 r.2.2.alloc_list_start [arena_base + 24]),
      load32 r.2.2.mem (REQ_SIZE_FROM_HEADER r.2.2.mem (arena_base + 24)),
      r.2.2.statistics.nactive, r.2.2.statistics.active_size))
      = Except.ok (arena_base + 32, arena_base + 32, true, 100, 0, 104) := by
  decide!

/-- C24 (evaluation at the failing input): in the program of `test55.cc`, with the bytes
`1..100` stored in `ptrs[5]` before the call, `realloc(ptrs[5], 150)` returns
`arena_base + 864`, which is 48 bytes below `ptrs[5]`, so that the two ranges of its `memcpy`
of 100 bytes overlap. Whatever the order of that copy, the returned block has `ALLOC` set and
size 224 and is followed by the block of `ptrs[6]`, the free list is the 304-byte block in
front of it followed by the rest of the arena, and the frees of `ptrs[0..2]`, `ptrs[6..9]`
and of the returned pointer are then all accepted by the validator. With a copy in ascending
address order the first 100 payload bytes are those stored before the call; with a copy in
descending address order they are not: the payload then starts with `97, 98, 99, 100, 53,
54`. -/
theorem m61_realloc_test55_overlapping_copy :
    (run_test55 >>= fun r =>
      let ptrs := r.1
      let q := r.2.1
      let t := r.2.2.2
      let h := GET_HEADER_FROM_PAYLOAD q
      (free_each t [ptrs.getD 0 0, ptrs.getD 1 0, ptrs.getD 2 0, ptrs.getD 6 0, ptrs.getD 7 0,
        ptrs.getD 8 0, ptrs.getD 9 0, q]).map (fun u =>
        (q,
          [GET_SIZE t.mem h, GET_SIZE t.mem (arena_base + 552),
            GET_SIZE t.mem (arena_base + 1784)],
          [IS_ALLOC t.mem h,
            decide (NEXT_FROM_HEADER t.mem h = GET_HEADER_FROM_PAYLOAD (ptrs.getD 6 0)),
            decide (dlist t.mem 0 t.free_list_start [arena_base + 552, arena_base + 1784]),
            decide (NEXT_FROM_HEADER t.mem (arena_base + 552) = h),
            decide (payload_bytes t.mem q 100 = payload_bytes r.2.2.1.mem (ptrs.getD 5 0) 100),
            decide (payload_bytes t.mem q 100 = (List.range 100).map (fun i => i + 1)),
            decide (u.1 = List.replicate 8 (true, none))])))
      = Except.ok (arena_base + 864, [224, 304, 8386816], List.replicate 7 true) ∧
    (run_test55_with memcpy_backward >>= fun r =>
      let ptrs := r.1
      let q := r.2.1
      let t := r.2.2.2
      let h := GET_HEADER_FROM_PAYLOAD q
      (free_each t [ptrs.getD 0 0, ptrs.getD 1 0, ptrs.getD 2 0, ptrs.getD 6 0, ptrs.getD 7 0,
        ptrs.getD 8 0, ptrs.getD 9 0, q]).map (fun u =>
        (q,
          [GET_SIZE t.mem h, GET_SIZE t.mem (arena_base + 552),
            GET_SIZE t.mem (arena_base + 1784)] ++ (payload_bytes t.mem q 100).take 6,
          [IS_ALLOC t.mem h,
            decide (NEXT_FROM_HEADER t.mem h = GET_HEADER_FROM_PAYLOAD (ptrs.getD 6 0)),
            decide (dlist t.mem 0 t.free_list_start [arena_base + 552, arena_base + 1784]),
            decide (NEXT_FROM_HEADER t.mem (arena_base + 552) = h),
            decide (u.1 = List.replicate 8 (true, none)),
            decide (q < ptrs.getD 5 0 ∧ ptrs.getD 5 0 < q + 100),
            decide (payload_bytes t.mem q 100
              = payload_bytes r.2.2.1.mem (ptrs.getD 5 0) 100)])))
      = Except.ok (arena_base + 864, [224, 304, 8386816, 97, 98, 99, 100, 53, 54],
          [true, true, true, true, true, true, false]) :=
  ⟨by decide!, by decide!⟩

/-- C25: in the program of `test56.cc`, both physical neighbours of `ptr2` are allocated
before `ptr4 = realloc(ptr2, 500)`, the call is the allocate-copy-free path and `ptr4` differs
from `ptr2`; `free(ptr1)`, `free(ptr3)`, `free(ptr4)` are accepted; and the final `free(ptr2)`
is rejected as `not allocated` and leaves the whole state as it was. -/
theorem m61_realloc_test56 :
    (run_test56 >>= fun r =>
      let ptr2 := r.1.getD 1 0
      let s := r.2.1
      let t := r.2.2
      let h := GET_HEADER_FROM_PAYLOAD ptr2
      free_each t [r.1.getD 0 0, r.1.getD 2 0, r.1.getD 3 0] >>= fun u =>
      m61_validate_free run_fuel u.2 ptr2 >>= fun v =>
      (m61_free run_fuel u.2 ptr2).map (fun w =>
        (r.1,
          [IS_PREV_ALLOC s.mem h, IS_NEXT_ALLOC s.mem h,
            decide (m61_realloc run_fuel s ptr2 500 file_name 13
              = realloc_by_copy s ptr2 500 100 file_name 13),
            decide (w = u.2)],
          u.1 ++ [v])))
      = Except.ok ([arena_base + 32, arena_base + 208, arena_base + 384, arena_base + 4194752],
          List.replicate 4 true,
          [(true, none), (true, none), (true, none),
            (false, some Diagnostic.not_allocated)]) := by
  decide!

/-- C26 (counterexample): right after `ptr4 = realloc(ptr2, 500)` of `test56.cc`, the
validator does not classify `ptr2` as `not allocated`. -/
theorem free_after_realloc_not_classified_not_allocated :
    (run_test56 >>= fun r => m61_validate_free run_fuel r.2.2 (r.1.getD 1 0))
      ≠ Except.ok (false, some Diagnostic.not_allocated) := by
  decide!

/-- C26 (amended): right after `ptr4 = realloc(ptr2, 500)` of `test56.cc`, `free(ptr2)` is
rejected as a double free and leaves the whole state (arena, both lists, statistics) as it
was. -/
theorem free_after_realloc_is_double_free :
    (run_test56 >>= fun r =>
      m61_validate_free run_fuel r.2.2 (r.1.getD 1 0) >>= fun v =>
      (m61_free run_fuel r.2.2 (r.1.getD 1 0)).map (fun w => (v, decide (w = r.2.2))))
      = Except.ok ((false, some Diagnostic.double_free), true) := by
  decide!

/-- C27: in the program of `test58.cc` the free list is exactly the 400-byte merge of the five
freed blocks followed by the remainder of the arena, both with `ALLOC` clear, and the alloc
list is exactly the five blocks of `ptrs[9], ..., ptrs[5]`, all with `ALLOC` set. -/
theorem lists_after_test58 :
    run_test58.map (fun r =>
      let s := r.2
      (r.1.map (fun p => p - arena_base),
        [GET_SIZE s.mem (arena_base + 24), GET_SIZE s.mem (arena_base + 824)],
        [decide (dlist s.mem 0 s.free_list_start [arena_base + 24, arena_base + 824]),
          !IS_ALLOC s.mem (arena_base + 24), !IS_ALLOC s.mem (arena_base + 824),
          decide (dlist s.mem 0 s.alloc_list_start
            ((r.1.drop 5).reverse.map GET_HEADER_FROM_PAYLOAD)),
          (r.1.drop 5).all (fun p => IS_ALLOC s.mem (GET_HEADER_FROM_PAYLOAD p))]))
      = Except.ok ([32, 112, 192, 272, 352, 432, 512, 592, 672, 752], [400, 8387776],
          List.replicate 5 true) := by
  decide!

/-- C29 (evaluation at the failing input): the first allocation of 8388512 bytes on a fresh
arena, which takes the only free block whole while the alloc list is empty, stops at a failed
assertion instead of returning. -/
theorem m61_malloc_whole_arena_aborts :
    m61_malloc run_fuel (m61_memory_buffer_init arena_base) 8388512 file_name 10
      = Except.error Fault.assertion := by
  decide!

/-- C28 (evaluation at the failing input): the fresh arena is well formed, its only free-list
member is the block at `arena_base + 24` of size 8388576, and `m61_place` of that block with
`asize = 8388576` (the case without a split, with an empty alloc list) stops at a failed
assertion instead of returning. -/
theorem m61_place_whole_arena_aborts :
    WellFormed (m61_memory_buffer_init arena_base) [⟨arena_base + 24, 8388576, false⟩]
      [⟨arena_base + 24, 8388576, false⟩] [] ∧
    sentinels_ok (m61_memory_buffer_init arena_base) [⟨arena_base + 24, 8388576, false⟩] ∧
    GET_SIZE (m61_memory_buffer_init arena_base).mem (arena_base + 24) - 8388576 < MIN_BLOCK ∧
    m61_place (m61_memory_buffer_init arena_base) (arena_base + 24) 8388576
      = Except.error Fault.assertion :=
  ⟨by constructor <;> decide!, by decide!, by decide!, by decide!⟩

/-! ### The arena after initialization (C22, C23) -/

theorem load64_empty (a : Nat) (ha : a % 8 = 0) : load64 ⟨[]⟩ a = 0 := by
  unfold load64
  rw [if_pos ha]
  rfl

/-- The words that the constructor of `m61_memory_buffer` writes, and the globals it sets. -/
theorem m61_memory_buffer_init_eq (buf : Nat) (hb : buf % 8 = 0)
    (hw : buf + 8388608 < 18446744073709551616) :
    m61_memory_buffer_init buf =
      { mem := store64 (store64 (store64 (store64 (store64 (store64 (store64 (store64 ⟨[]⟩
          (buf + 8) 22) (buf + 16) 22) (buf + 24) 8388581) (buf + 8388592) 8388581)
          (buf + 8388584) 0) (buf + 8388576) 0) (buf + 8388600) 0) (buf + 8388600) 3
        default_buffer := { buffer := buf, pos := 0, size := 8388608 }
        statistics := ⟨0, 0, 0, 0, 0, 0, 0, 0, UINTPTR_MAX, 0⟩
        free_list_start := buf + 24
        alloc_list_start := 0
        top_of_heap := buf + 8
        end_of_heap := buf + 8388600 } := by
  have e0 : (8 <<< 20 : Nat) = 8388608 := by decide
  have e1 : wadd buf (1 * WORD_SIZE) = buf + 8 := by
    rw [wadd_eq] <;> simp only [WORD_SIZE] <;> omega
  obtain ⟨m1, hm1⟩ : ∃ m1, m1 = store64 (store64 ⟨[]⟩ (buf + 8) 22) (buf + 16) 22 := ⟨_, rfl⟩
  have e2 : m61_set_header_and_footer ⟨[]⟩ (buf + 8) (WORD_SIZE * 2)
      (ALLOC_BIT ||| PREV_ALLOC_BIT) = m1 := by
    have a : WORD_SIZE * 2 = 16 := rfl
    have b : ALLOC_BIT ||| PREV_ALLOC_BIT = 6 := by decide
    rw [a, b, m61_set_header_and_footer_eq _ _ 16 6 (by omega) (by omega) (by omega) (by omega)
      (by omega), hm1]
    have c : buf + 8 + 16 - 8 = buf + 16 := by omega
    rw [c]
  have l1 : load64 m1 (buf + 8) = 22 := by
    rw [hm1, load64_store64_ne _ _ _ _ (by omega) (by omega) (by omega),
      load64_store64_same _ _ _ (by omega)]
  have s1 : GET_SIZE m1 (buf + 8) = 16 := GET_SIZE_of_load _ _ 16 6 (by omega) (by omega) l1
  have e3 : NEXT_FROM_HEADER m1 (buf + 8) = buf + 24 :=
    (NEXT_FROM_HEADER_eq _ _ 16 s1 (by omega)).trans (by omega)
  have e4 : wsub (wsub 8388608 16) (WORD_SIZE * 2) = 8388576 := by decide!
  obtain ⟨m2, hm2⟩ : ∃ m2, m2 = store64 (store64 m1 (buf + 24) 8388581) (buf + 8388592)
      8388581 := ⟨_, rfl⟩
  have e5 : m61_set_header_and_footer m1 (buf + 24) 8388576
      (PREV_ALLOC_BIT ||| NEXT_ALLOC_BIT) = m2 := by
    have b : PREV_ALLOC_BIT ||| NEXT_ALLOC_BIT = 5 := by decide
    rw [b, m61_set_header_and_footer_eq _ _ 8388576 5 (by omega) (by omega) (by omega)
      (by omega) (by omega), hm2]
    have c : buf + 24 + 8388576 - 8 = buf + 8388592 := by omega
    rw [c]
  have l2 : load64 m2 (buf + 24) = 8388576 + 5 := by
    rw [hm2, load64_store64_ne _ _ _ _ (by omega) (by omega) (by omega),
      load64_store64_same _ _ _ (by omega)]
  have s2 : GET_SIZE m2 (buf + 24) = 8388576 :=
    GET_SIZE_of_load _ _ 8388576 5 (by omega) (by omega) l2
  have e6 : SET_LIST_NEXT m2 (buf + 24) 0 = store64 m2 (buf + 8388584) 0 := by
    unfold SET_LIST_NEXT
    have c : buf + 24 + 8388576 - 16 = buf + 8388584 := by omega
    rw [LIST_NEXT_eq _ _ _ s2 (by omega) (by omega), c]
  have s3 : GET_SIZE (store64 m2 (buf + 8388584) 0) (buf + 24) = 8388576 := by
    rw [GET_SIZE_store64_ne _ _ _ _ (by omega) (by omega) (by omega)]
    exact s2
  have e7 : SET_LIST_PREV (store64 m2 (buf + 8388584) 0) (buf + 24) 0
      = store64 (store64 m2 (buf + 8388584) 0) (buf + 8388576) 0 := by
    unfold SET_LIST_PREV
    have c : buf + 24 + 8388576 - 24 = buf + 8388576 := by omega
    rw [LIST_PREV_eq _ _ _ s3 (by omega) (by omega), c]
  have s4 : GET_SIZE (store64 (store64 m2 (buf + 8388584) 0) (buf + 8388576) 0) (buf + 24)
      = 8388576 := by
    rw [GET_SIZE_store64_ne _ _ _ _ (by omega) (by omega) (by omega)]
    exact s3
  have e8 : NEXT_FROM_HEADER (store64 (store64 m2 (buf + 8388584) 0) (buf + 8388576) 0)
      (buf + 24) = buf + 8388600 :=
    (NEXT_FROM_HEADER_eq _ _ _ s4 (by omega)).trans (by omega)
  have e9 : ∀ m : Mem, load64 (store64 m (buf + 8388600) 0) (buf + 8388600)
      ||| (ALLOC_BIT ||| NEXT_ALLOC_BIT) = 3 := by
    intro m
    rw [load64_store64_same _ _ _ (by omega)]
    decide
  unfold m61_memory_buffer_init
  simp only []
  rw [e0, e1, e2, e3, s1, e4, e5, e6, e7, e8, e9, hm2, hm1]

/-- The seven words of the arena that the constructor leaves set. -/
theorem m61_memory_buffer_init_words (buf : Nat) (hb : buf % 8 = 0)
    (hw : buf + 8388608 < 18446744073709551616) :
    load64 (m61_memory_buffer_init buf).mem (buf + 8) = 16 + 6 ∧
    load64 (m61_memory_buffer_init buf).mem (buf + 16) = 16 + 6 ∧
    load64 (m61_memory_buffer_init buf).mem (buf + 24) = 8388576 + 5 ∧
    load64 (m61_memory_buffer_init buf).mem (buf + 8388592) = 8388576 + 5 ∧
    load64 (m61_memory_buffer_init buf).mem (buf + 8388584) = 0 ∧
    load64 (m61_memory_buffer_init buf).mem (buf + 8388576) = 0 ∧
    load64 (m61_memory_buffer_init buf).mem (buf + 8388600) = 0 + 3 := by
  rw [m61_memory_buffer_init_eq buf hb hw]
  refine ⟨?_, ?_, ?_, ?_, ?_, ?_, ?_⟩ <;> dsimp only
  · rw [load64_store64_ne _ _ _ _ (by omega) (by omega) (by omega),
      load64_store64_ne _ _ _ _ (by omega) (by omega) (by omega),
      load64_store64_ne _ _ _ _ (by omega) (by omega) (by omega),
      load64_store64_ne _ _ _ _ (by omega) (by omega) (by omega),
      load64_store64_ne _ _ _ _ (by omega) (by omega) (by omega),
      load64_store64_ne _ _ _ _ (by omega) (by omega) (by omega),
      load64_store64_ne _ _ _ _ (by omega) (by omega) (by omega),
      load64_store64_same _ _ _ (by omega)]
  · rw [load64_store64_ne _ _ _ _ (by omega) (by omega) (by omega),
      load64_store64_ne _ _ _ _ (by omega) (by omega) (by omega),
      load64_store64_ne _ _ _ _ (by omega) (by omega) (by omega),
      load64_store64_ne _ _ _ _ (by omega) (by omega) (by omega),
      load64_store64_ne _ _ _ _ (by omega) (by omega) (by omega),
      load64_store64_ne _ _ _ _ (by omega) (by omega) (by omega),
      load64_store64_same _ _ _ (by omega)]
  · rw [load64_store64_ne _ _ _ _ (by omega) (by omega) (by omega),
      load64_store64_ne _ _ _ _ (by omega) (by omega) (by omega),
      load64_store64_ne _ _ _ _ (by omega) (by omega) (by omega),
      load64_store64_ne _ _ _ _ (by omega) (by omega) (by omega),
      load64_store64_ne _ _ _ _ (by omega) (by omega) (by omega),
      load64_store64_same _ _ _ (by omega)]
  · rw [load64_store64_ne _ _ _ _ (by omega) (by omega) (by omega),
      load64_store64_ne _ _ _ _ (by omega) (by omega) (by omega),
      load64_store64_ne _ _ _ _ (by omega) (by omega) (by omega),
      load64_store64_ne _ _ _ _ (by omega) (by omega) (by omega),
      load64_store64_same _ _ _ (by omega)]
  · rw [load64_store64_ne _ _ _ _ (by omega) (by omega) (by omega),
      load64_store64_ne _ _ _ _ (by omega) (by omega) (by omega),
      load64_store64_ne _ _ _ _ (by omega) (by omega) (by omega),
      load64_store64_same _ _ _ (by omega)]
  · rw [load64_store64_ne _ _ _ _ (by omega) (by omega) (by omega),
      load64_store64_ne _ _ _ _ (by omega) (by omega) (by omega),
      load64_store64_same _ _ _ (by omega)]
  · rw [load64_store64_same _ _ _ (by omega)]

/-- Flag bits of a word given as `size + bits`. -/
theorem flags_of_load (m : Mem) (h M b : Nat) (hM : M % 8 = 0) (hb : b < 8)
    (hl : load64 m h = M + b) :
    IS_ALLOC m h = decide (b / 2 % 2 = 1) ∧ IS_PREV_ALLOC m h = decide (b / 4 % 2 = 1) ∧
      IS_NEXT_ALLOC m h = decide (b % 2 = 1) ∧ GET_BITS m h = b := by
  rw [IS_ALLOC_eq, IS_PREV_ALLOC_eq, IS_NEXT_ALLOC_eq, GET_BITS_eq, hl]
  have e1 : (M + b) / 2 % 2 = b / 2 % 2 := by omega
  have e2 : (M + b) / 4 % 2 = b / 4 % 2 := by omega
  have e3 : (M + b) % 2 = b % 2 := by omega
  have e4 : (M + b) % 8 = b := by omega
  rw [e1, e2, e3, e4]
  exact ⟨rfl, rfl, rfl, rfl⟩

/-- The navigation facts that `test52.cc` asserts, for an arena at any word-aligned address
`buf`. -/
theorem m61_memory_buffer_init_nav (buf : Nat) (hb : buf % 8 = 0)
    (hw : buf + 8388608 < 18446744073709551616) (s : Heap)
    (hs : s = m61_memory_buffer_init buf) :
    (s.top_of_heap = buf + 8 ∧ s.free_list_start = buf + 24 ∧ s.end_of_heap = buf + 8388600 ∧
      s.alloc_list_start = 0) ∧
    (FOOTER_FROM_HEADER s.mem (buf + 8) = buf + 16 ∧
      FOOTER_FROM_HEADER s.mem (buf + 24) = buf + 8388592 ∧
      NEXT_FROM_HEADER s.mem (buf + 8) = buf + 24 ∧
      PREV_FROM_HEADER s.mem (buf + 24) = buf + 8 ∧
      NEXT_FROM_HEADER s.mem (buf + 24) = buf + 8388600 ∧
      PREV_FROM_HEADER s.mem (buf + 8388600) = buf + 24 ∧
      LIST_NEXT s.mem (buf + 24) = buf + 8388584 ∧
      LIST_PREV s.mem (buf + 24) = buf + 8388576) ∧
    (GET_SIZE s.mem (buf + 8) = 16 ∧ GET_SIZE s.mem (buf + 24) = 8388576 ∧
      GET_SIZE s.mem (buf + 8388592) = 8388576 ∧ GET_SIZE s.mem (buf + 8388600) = 0) := by
  obtain ⟨w1, w2, w3, w4, w5, w6, w7⟩ := m61_memory_buffer_init_words buf hb hw
  rw [← hs] at w1 w2 w3 w4 w5 w6 w7
  have g1 := GET_SIZE_of_load _ _ 16 6 (by omega) (by omega) w1
  have g2 := GET_SIZE_of_load _ _ 16 6 (by omega) (by omega) w2
  have g3 := GET_SIZE_of_load _ _ 8388576 5 (by omega) (by omega) w3
  have g4 := GET_SIZE_of_load _ _ 8388576 5 (by omega) (by omega) w4
  have g7 := GET_SIZE_of_load _ _ 0 3 (by omega) (by omega) w7
  refine ⟨?_, ⟨?_, ?_, ?_, ?_, ?_, ?_, ?_, ?_⟩, g1, g3, g4, g7⟩
  · rw [hs, m61_memory_buffer_init_eq buf hb hw]
    exact ⟨rfl, rfl, rfl, rfl⟩
  · exact (FOOTER_FROM_HEADER_eq _ _ 16 g1 (by omega) (by omega)).trans (by omega)
  · exact (FOOTER_FROM_HEADER_eq _ _ 8388576 g3 (by omega) (by omega)).trans (by omega)
  · exact (NEXT_FROM_HEADER_eq _ _ 16 g1 (by omega)).trans (by omega)
  · have e : buf + 24 - 8 = buf + 16 := by omega
    exact (PREV_FROM_HEADER_eq _ _ 16 (by omega) (e ▸ g2) (by omega) (by omega)).trans
      (by omega)
  · exact (NEXT_FROM_HEADER_eq _ _ 8388576 g3 (by omega)).trans (by omega)
  · have e : buf + 8388600 - 8 = buf + 8388592 := by omega
    exact (PREV_FROM_HEADER_eq _ _ 8388576 (by omega) (e ▸ g4) (by omega) (by omega)).trans
      (by omega)
  · exact (LIST_NEXT_eq _ _ 8388576 g3 (by omega) (by omega)).trans (by omega)
  · exact (LIST_PREV_eq _ _ 8388576 g3 (by omega) (by omega)).trans (by omega)

/-- C22 (counterexample): the single free block of the fresh arena does not have size
`arena_bytes - 3 * W`. -/
theorem initial_free_block_size_not_three_words :
    GET_SIZE (m61_memory_buffer_init arena_base).mem
      (m61_memory_buffer_init arena_base).free_list_start ≠ 8388608 - 3 * WORD_SIZE := by
  decide!

/-- C22 (amended): after initialization of an arena at any word-aligned address `buf`, the
free list has exactly one block, the fourth word of the arena; its size is
`arena_bytes - 4 * W` (8388576 bytes: the arena without the padding word, the two words of
the prologue and the epilogue word), its flags are exactly `PREV_ALLOC | NEXT_ALLOC`, and
both of its list links are null. -/
theorem m61_memory_buffer_init_free_list (buf : Nat) (hb : buf % 8 = 0)
    (hw : buf + 8388608 < 18446744073709551616) (s : Heap)
    (hs : s = m61_memory_buffer_init buf) :
    s.free_list_start = buf + 3 * WORD_SIZE ∧
    dlist s.mem 0 s.free_list_start [buf + 3 * WORD_SIZE] ∧
    GET_SIZE s.mem s.free_list_start = s.default_buffer.size - 4 * WORD_SIZE ∧
    s.default_buffer.size = 8388608 ∧
    GET_BITS s.mem s.free_list_start = PREV_ALLOC_BIT ||| NEXT_ALLOC_BIT ∧
    load64 s.mem (LIST_NEXT s.mem s.free_list_start) = 0 ∧
    load64 s.mem (LIST_PREV s.mem s.free_list_start) = 0 := by
  obtain ⟨_, _, w3, _, w5, w6, _⟩ := m61_memory_buffer_init_words buf hb hw
  rw [← hs] at w3 w5 w6
  obtain ⟨⟨_, hf, _, _⟩, ⟨_, _, _, _, _, _, hn, hp⟩, _, g3, _, _⟩ :=
    m61_memory_buffer_init_nav buf hb hw s hs
  have hsz : s.default_buffer.size = 8388608 := by
    rw [hs, m61_memory_buffer_init_eq buf hb hw]
  have e3 : buf + 3 * WORD_SIZE = buf + 24 := rfl
  rw [hf, e3, hn, hp, w5, w6, g3, hsz]
  refine ⟨rfl, ⟨rfl, by omega, hp ▸ w6, hn ▸ w5⟩, rfl, rfl, ?_, rfl, rfl⟩
  exact (flags_of_load _ _ 8388576 5 (by omega) (by omega) w3).2.2.2

/-- Witness for C22: the arena of the concrete runs. -/
theorem m61_memory_buffer_init_free_list_witness :
    arena_base % 8 = 0 ∧ arena_base + 8388608 < 18446744073709551616 ∧
    dlist (m61_memory_buffer_init arena_base).mem 0
      (m61_memory_buffer_init arena_base).free_list_start [arena_base + 3 * WORD_SIZE] ∧
    GET_SIZE (m61_memory_buffer_init arena_base).mem
      (m61_memory_buffer_init arena_base).free_list_start = 8388576 :=
  ⟨by decide, by decide,
    (m61_memory_buffer_init_free_list arena_base (by decide) (by decide) _ rfl).2.1,
    ((m61_memory_buffer_init_free_list arena_base (by decide) (by decide) _ rfl).2.2.1).trans
      (by decide!)⟩

/-- C23: after initialization of an arena at any word-aligned address `buf`, the prologue
header is word 1 and its footer word 2, the free header is word 3 and the epilogue header is
the last word, right after the free footer; `NEXT_FROM_HEADER` and `PREV_FROM_HEADER` lead
from the prologue to the free block to the epilogue and back; header and footer of the free
block have the same size, `ALLOC` clear and `PREV_ALLOC` and `NEXT_ALLOC` set; the epilogue
has size 0, `ALLOC` and `NEXT_ALLOC` set and `PREV_ALLOC` clear; and the free-list head is the
free header, with null links. -/
theorem m61_memory_buffer_init_layout (buf : Nat) (hb : buf % 8 = 0)
    (hw : buf + 8388608 < 18446744073709551616) (s : Heap)
    (hs : s = m61_memory_buffer_init buf) :
    (s.top_of_heap = buf + 1 * WORD_SIZE ∧
      FOOTER_FROM_HEADER s.mem s.top_of_heap = buf + 2 * WORD_SIZE ∧
      s.free_list_start = buf + 3 * WORD_SIZE ∧
      s.end_of_heap = buf + s.default_buffer.size - WORD_SIZE ∧
      s.end_of_heap = FOOTER_FROM_HEADER s.mem s.free_list_start + WORD_SIZE) ∧
    (NEXT_FROM_HEADER s.mem s.top_of_heap = s.free_list_start ∧
      PREV_FROM_HEADER s.mem s.free_list_start = s.top_of_heap ∧
      NEXT_FROM_HEADER s.mem s.free_list_start = s.end_of_heap ∧
      PREV_FROM_HEADER s.mem s.end_of_heap = s.free_list_start) ∧
    (GET_SIZE s.mem s.free_list_start
        = GET_SIZE s.mem (FOOTER_FROM_HEADER s.mem s.free_list_start) ∧
      IS_ALLOC s.mem s.free_list_start = false ∧
      IS_ALLOC s.mem (FOOTER_FROM_HEADER s.mem s.free_list_start) = false ∧
      IS_PREV_ALLOC s.mem s.free_list_start = true ∧
      IS_NEXT_ALLOC s.mem s.free_list_start = true ∧
      IS_PREV_ALLOC s.mem (FOOTER_FROM_HEADER s.mem s.free_list_start) = true ∧
      IS_NEXT_ALLOC s.mem (FOOTER_FROM_HEADER s.mem s.free_list_start) = true) ∧
    (GET_SIZE s.mem s.end_of_heap = 0 ∧ IS_ALLOC s.mem s.end_of_heap = true ∧
      IS_NEXT_ALLOC s.mem s.end_of_heap = true ∧ IS_PREV_ALLOC s.mem s.end_of_heap = false) ∧
    (load64 s.mem (LIST_NEXT s.mem s.free_list_start) = 0 ∧
      load64 s.mem (LIST_PREV s.mem s.free_list_start) = 0) := by
  obtain ⟨_, _, w3, w4, w5, w6, w7⟩ := m61_memory_buffer_init_words buf hb hw
  rw [← hs] at w3 w4 w5 w6 w7
  obtain ⟨⟨ht, hf, he, _⟩, ⟨n1, n2, n3, n4, n5, n6, hn, hp⟩, _, g3, g4, g7⟩ :=
    m61_memory_buffer_init_nav buf hb hw s hs
  have hsz : s.default_buffer.size = 8388608 := by
    rw [hs, m61_memory_buffer_init_eq buf hb hw]
  obtain ⟨a3, b3, c3, _⟩ := flags_of_load _ _ 8388576 5 (by omega) (by omega) w3
  obtain ⟨a4, b4, c4, _⟩ := flags_of_load _ _ 8388576 5 (by omega) (by omega) w4
  obtain ⟨a7, b7, c7, _⟩ := flags_of_load _ _ 0 3 (by omega) (by omega) w7
  rw [ht, hf, he, n1, n2, n3, n4, n5, n6, hn, hp, hsz, g3, g4, g7, w5, w6]
  refine ⟨⟨rfl, rfl, rfl, ?_, ?_⟩, ⟨rfl, rfl, rfl, rfl⟩,
    ⟨rfl, a3, a4, b3, c3, b4, c4⟩, ⟨rfl, a7, c7, b7⟩, rfl, rfl⟩
  · simp only [WORD_SIZE]
    omega
  · simp only [WORD_SIZE]

/-- Witness for C23: the arena of the concrete runs. -/
theorem m61_memory_buffer_init_layout_witness :
    arena_base % 8 = 0 ∧ arena_base + 8388608 < 18446744073709551616 ∧
    NEXT_FROM_HEADER (m61_memory_buffer_init arena_base).mem
      (m61_memory_buffer_init arena_base).free_list_start
      = (m61_memory_buffer_init arena_base).end_of_heap ∧
    PREV_FROM_HEADER (m61_memory_buffer_init arena_base).mem
      (m61_memory_buffer_init arena_base).end_of_heap
      = (m61_memory_buffer_init arena_base).free_list_start :=
  ⟨by decide, by decide,
    (m61_memory_buffer_init_layout arena_base (by decide) (by decide) _ rfl).2.1.2.2.1,
    (m61_memory_buffer_init_layout arena_base (by decide) (by decide) _ rfl).2.1.2.2.2⟩

/-! ### The result of `m61_coalesce` (C30) -/

theorem filter_middle (p : Block → Bool) (f1 f2 : List Block) (a : Block) (ha : p a = false) :
    (f1 ++ a :: f2).filter p = (f1 ++ f2).filter p := by
  simp [List.filter_append, List.filter_cons, ha]

theorem block_geom_mk (a T : Nat) (h0 : 0 < a) (h1 : a % 8 = 0) (h2 : T % 8 = 0)
    (h3 : 80 ≤ T) (h4 : a + T < 18446744073709551616) : block_geom ⟨a, T, false⟩ :=
  ⟨h0, h1, h2, h3, h4⟩

/-- The removal of a block `x` of the alloc list of a well-formed heap, as `m61_free` does it
before it calls `m61_coalesce`: only link slots of other allocated blocks change. -/
theorem unlink_alloc_wf {s : Heap} {bs fl al : List Block} (wf : WellFormed s bs fl al)
    (x : Block) (hx : x ∈ al) :
    ∃ t1, m61_unstitch_list s (LIST_PREV s.mem x.addr) (LIST_NEXT s.mem x.addr)
        ListRef.alloc_list = Except.ok t1 ∧
      (∀ w, w % 8 = 0 →
        (∀ A ∈ bs, A.alloc = true → A ≠ x →
          w ≠ A.addr + A.size - 16 ∧ w ≠ A.addr + A.size - 24) →
        load64 t1.mem w = load64 s.mem w) ∧
      t1.free_list_start = s.free_list_start ∧
      (t1.alloc_list_start = 0 ∨
        ∃ A ∈ bs, A.alloc = true ∧ t1.alloc_list_start = A.addr) := by
  have hxb := (wf.alloc_sub x hx).1
  obtain ⟨⟨-, -, -, x3, x4⟩, -, -, -, -⟩ := wf_geom wf x hxb
  have hxs : GET_SIZE s.mem x.addr = x.size := (wf.blocks x hxb).2.2.1
  obtain ⟨a1, a2, hal⟩ := List.append_of_mem hx
  have hxnot : x ∉ a1 ++ a2 :=
    (List.nodup_cons.mp (List.nodup_middle.mp (hal ▸ wf.alloc_nodup))).1
  have hsub : ∀ b ∈ a1 ++ a2, b ∈ al := fun b hb => hal ▸ mem_of_mem_middle hb
  have hl : ∀ b ∈ a1 ++ a2, b ∈ bs ∧ b.alloc = true := fun b hb => wf.alloc_sub b (hsub b hb)
  have hne : ∀ b ∈ a1 ++ a2, b ≠ x := fun b hb e => hxnot (e ▸ hb)
  obtain ⟨t1, W, hrun1, -, -, hfl1, hlinks1, heffW, hW⟩ :=
    m61_unstitch_list_spec s ListRef.alloc_list a1 a2 x (hal ▸ wf_alloc_links wf)
      (fun b hb => (wf_geom wf b (wf.alloc_sub b (hal ▸ hb)).1).1)
      (fun b hb => by
        have hbk := wf.blocks b (hl b hb).1
        refine ⟨hbk.2.2.1, ?_⟩
        rw [hbk.2.2.2.1, (hl b hb).2]
        exact (decide_eq_true rfl).symm)
      (hal ▸ wf_alloc_pairwise wf)
  refine ⟨t1, ?_, fun w hw8 hns => ?_, hfl1 rfl, ?_⟩
  · rw [LIST_PREV_eq _ _ _ hxs (by omega) x4, LIST_NEXT_eq _ _ _ hxs (by omega) x4]
    exact hrun1
  · refine (heffW w hw8 (fun hin => ?_)).2.2 (fun h => by cases h)
    obtain ⟨b, hb, hor⟩ := hW w hin
    have := hns b (hl b hb).1 (hl b hb).2 (hne b hb)
    omega
  · have hfirst : t1.alloc_list_start = first_addr (a1 ++ a2) 0 :=
      links_first _ _ _ _ _ hlinks1
    cases h12 : a1 ++ a2 with
    | nil =>
      rw [h12] at hfirst
      exact Or.inl hfirst
    | cons A r =>
      rw [h12] at hfirst
      have hA := hl A (h12 ▸ List.mem_cons_self _ _)
      exact Or.inr ⟨A, hA.1, hA.2, hfirst⟩

/-- What the navigation macros see of a merged free block at `r` of size `T` that heads the
free list `l`. -/
theorem coalesce_views (s t2 : Heap) (r T : Nat) (l : List Block)
    (hg : block_geom ⟨r, T, false⟩)
    (hload : load64 t2.mem r = T + 5) (hfoot : load64 t2.mem (r + T - 8) = T + 5)
    (hlinks : links t2.mem 0 r (⟨r, T, false⟩ :: l) 0)
    (hsz : ∀ b ∈ l, block_geom b ∧ GET_SIZE t2.mem b.addr = b.size)
    (hnx : IS_PREV_ALLOC t2.mem (r + T) = false)
    (hlow : load64 t2.mem (r - 8) = load64 s.mem (r - 8))
    (hps : GET_SIZE s.mem (r - 8) + 8 ≤ r)
    (hpv : IS_NEXT_ALLOC t2.mem (r - GET_SIZE s.mem (r - 8)) = false) :
    GET_SIZE t2.mem r = T ∧
    load64 t2.mem (FOOTER_FROM_HEADER t2.mem r) = load64 t2.mem r ∧
    GET_BITS t2.mem r = PREV_ALLOC_BIT ||| NEXT_ALLOC_BIT ∧
    dlist t2.mem 0 r (r :: l.map Block.addr) ∧
    IS_NEXT_ALLOC t2.mem (PREV_FROM_HEADER t2.mem r) = false ∧
    IS_PREV_ALLOC t2.mem (NEXT_FROM_HEADER t2.mem r) = false := by
  obtain ⟨g0, g1, g2, g3, g4⟩ := hg
  simp only at g0 g1 g2 g3 g4
  have hS : GET_SIZE t2.mem r = T := GET_SIZE_of_load _ _ _ 5 g2 (by omega) hload
  refine ⟨hS, ?_, ?_, ?_, ?_, ?_⟩
  · rw [FOOTER_FROM_HEADER_eq _ _ _ hS (by omega) g4, hfoot, hload]
  · rw [GET_BITS_eq, hload]
    show (T + 5) % 8 = 5
    omega
  · exact links_dlist _ (⟨r, T, false⟩ :: l) 0 r hlinks (fun b hb => by
      rcases List.mem_cons.mp hb with e | h
      · subst e
        exact ⟨⟨g0, g1, g2, g3, g4⟩, hS⟩
      · exact hsz b h)
  · rw [PREV_FROM_HEADER_of _ _ _ (GET_SIZE_congr hlow) hps (by omega)]
    exact hpv
  · rw [NEXT_FROM_HEADER_eq _ _ _ hS g4]
    exact hnx

/-- The four cases of `m61_coalesce` in one statement about the layout: the merged block
starts at `x` or at its free predecessor, has the sizes of `x` and of its free neighbours, and
heads the free list from which those neighbours are gone. -/
theorem m61_coalesce_layout {s : Heap} {bs fl al : List Block} (wf : WellFormed s bs fl al)
    (hsen : sentinels_ok s bs)
    (x : Block) (hxb : x ∈ bs) (hxa : x.alloc = true) (t1 : Heap)
    (hfr1 : ∀ w, w % 8 = 0 →
      (∀ A ∈ bs, A.alloc = true → A ≠ x →
        w ≠ A.addr + A.size - 16 ∧ w ≠ A.addr + A.size - 24) →
      load64 t1.mem w = load64 s.mem w)
    (hfl1 : t1.free_list_start = s.free_list_start)
    (hals : t1.alloc_list_start = 0 ∨
      ∃ A ∈ bs, A.alloc = true ∧ t1.alloc_list_start = A.addr) :
    ∃ r t2 T, m61_coalesce t1 x.addr = Except.ok (r, t2) ∧
      r = (if IS_PREV_ALLOC s.mem x.addr then x.addr
        else x.addr - GET_SIZE s.mem (x.addr - 8)) ∧
      T = x.size + (if IS_PREV_ALLOC s.mem x.addr then 0 else GET_SIZE s.mem (x.addr - 8))
        + (if IS_NEXT_ALLOC s.mem x.addr then 0 else GET_SIZE s.mem (x.addr + x.size)) ∧
      block_geom ⟨r, T, false⟩ ∧
      load64 t2.mem r = T + 5 ∧ load64 t2.mem (r + T - 8) = T + 5 ∧
      t2.free_list_start = r ∧
      links t2.mem 0 r (⟨r, T, false⟩ :: fl.filter
        (fun b => decide (b.addr + b.size ≠ x.addr ∧ b.addr ≠ x.addr + x.size))) 0 ∧
      (∀ b ∈ fl.filter
          (fun b => decide (b.addr + b.size ≠ x.addr ∧ b.addr ≠ x.addr + x.size)),
        GET_SIZE t2.mem b.addr = b.size) ∧
      IS_PREV_ALLOC t2.mem (r + T) = false ∧
      load64 t2.mem (r - 8) = load64 s.mem (r - 8) ∧
      GET_SIZE s.mem (r - 8) + 8 ≤ r ∧
      IS_NEXT_ALLOC t2.mem (r - GET_SIZE s.mem (r - 8)) = false := by
  obtain ⟨hprev, hnext⟩ := wf_neighbours wf x hxb
  obtain ⟨⟨x0, x1, x2, x3, x4⟩, -, -, -, -⟩ := wf_geom wf x hxb
  obtain ⟨hfx1, hfx2⟩ := neighbour_flags wf hsen x hxb
  rw [hxa] at hfx1 hfx2
  have hnd := wf.free_nodup
  cases hpa : IS_PREV_ALLOC s.mem x.addr <;> cases hna : IS_NEXT_ALLOC s.mem x.addr <;>
    simp only [Bool.false_eq_true, if_false, if_true, Nat.add_zero]
  · -- both neighbours free
    rcases hprev with ⟨_, h⟩ | ⟨Pb, hP, hPa, hPe⟩
    · rw [hpa] at h; cases h
    rcases hnext with ⟨_, h⟩ | ⟨N, hN, hNa, hNe⟩
    · rw [hna] at h; cases h
    have hPf : Pb.alloc = false := hPe.symm.trans hpa
    have hNf : N.alloc = false := hNe.symm.trans hna
    obtain ⟨⟨p0, p1, p2, p3, p4⟩, -, -, -, -⟩ := wf_geom wf Pb hP
    obtain ⟨⟨-, -, n2, n3, n4⟩, -, -, -, -⟩ := wf_geom wf N hN
    obtain ⟨t2, f1, f2, g1, g2, hrun, -, -, hfs, -, ⟨hfl, hg12⟩, hload, hfoot, hlinks, hsz,
        hnx, hpv, hlow⟩ :=
      coalesce_case_both_full wf x hxb hxa t1 hfr1 hfl1 hals hpa hna Pb hP hPa hPf N hN hNa
        hNf
    have hps : GET_SIZE s.mem (x.addr - 8) = Pb.size := by
      have e : x.addr - 8 = Pb.addr + Pb.size - 8 := by omega
      rw [e]
      exact (wf.blocks Pb hP).2.2.2.2
    have hns : GET_SIZE s.mem (x.addr + x.size) = N.size := hNa ▸ (wf.blocks N hN).2.2.1
    obtain ⟨ps, hps0, -, psle, -, -⟩ := prev_info wf Pb hP
    obtain ⟨-, hfP⟩ := neighbour_flags wf hsen Pb hP
    obtain ⟨hfN, -⟩ := neighbour_flags wf hsen N hN
    rw [hfl] at hnd
    have hnd1 := List.nodup_cons.mp (List.nodup_middle.mp hnd)
    rw [hg12] at hnd1
    have hnd2 := List.nodup_cons.mp (List.nodup_middle.mp hnd1.2)
    have hfilt : fl.filter
        (fun b => decide (b.addr + b.size ≠ x.addr ∧ b.addr ≠ x.addr + x.size))
        = g1 ++ g2 := by
      rw [hfl, filter_middle _ _ _ _ (decide_eq_false (fun h => h.1 hPa)), hg12,
        filter_middle _ _ _ _ (decide_eq_false (fun h => h.2 hNa))]
      refine List.filter_eq_self.mpr (fun b hb => decide_eq_true ⟨fun e => ?_, fun e => ?_⟩)
      · have hb1 : b ∈ g1 ++ N :: g2 := mem_of_mem_middle hb
        have hbs : b ∈ bs := (wf.free_sub b (hfl ▸ mem_of_mem_middle (hg12 ▸ hb1))).1
        have := pred_unique wf b Pb hbs hP (e.trans hPa.symm)
        exact hnd1.1 (this ▸ hb1)
      · have hb1 : b ∈ g1 ++ N :: g2 := mem_of_mem_middle hb
        have hbs : b ∈ bs := (wf.free_sub b (hfl ▸ mem_of_mem_middle (hg12 ▸ hb1))).1
        have := succ_unique wf b N hbs hN (e.trans hNa.symm)
        exact hnd2.1 (this ▸ hb)
    rw [hps, hns, hfilt]
    have er : x.addr - Pb.size = Pb.addr := by omega
    have e1 : Pb.addr + (x.size + Pb.size + N.size) = N.addr + N.size := by omega
    rw [er]
    refine ⟨Pb.addr, t2, x.size + Pb.size + N.size, hrun, rfl, rfl,
      block_geom_mk _ _ p0 p1 (by omega) (by omega) (by omega), hload, hfoot, hfs, hlinks, hsz, ?_, hlow,
      by rw [hps0]; exact psle, ?_⟩
    · rw [e1, IS_PREV_ALLOC_congr hnx, hfN, hNf]
    · rw [IS_NEXT_ALLOC_congr hpv, hfP, hPf]
  · -- previous block free, next block allocated
    rcases hprev with ⟨_, h⟩ | ⟨Pb, hP, hPa, hPe⟩
    · rw [hpa] at h; cases h
    have hPf : Pb.alloc = false := hPe.symm.trans hpa
    obtain ⟨⟨p0, p1, p2, p3, p4⟩, -, -, -, -⟩ := wf_geom wf Pb hP
    obtain ⟨t2, f1, f2, hrun, -, -, hfs, -, hfl, hload, hfoot, hlinks, hsz, hnx, hpv, hlow⟩ :=
      coalesce_case_prev_full wf x hxb hxa t1 hfr1 hfl1 hals hpa hna Pb hP hPa hPf
    have hps : GET_SIZE s.mem (x.addr - 8) = Pb.size := by
      have e : x.addr - 8 = Pb.addr + Pb.size - 8 := by omega
      rw [e]
      exact (wf.blocks Pb hP).2.2.2.2
    obtain ⟨ps, hps0, -, psle, -, -⟩ := prev_info wf Pb hP
    obtain ⟨-, hfP⟩ := neighbour_flags wf hsen Pb hP
    rw [hfl] at hnd
    have hnd1 := List.nodup_cons.mp (List.nodup_middle.mp hnd)
    have hfilt : fl.filter
        (fun b => decide (b.addr + b.size ≠ x.addr ∧ b.addr ≠ x.addr + x.size))
        = f1 ++ f2 := by
      rw [hfl, filter_middle _ _ _ _ (decide_eq_false (fun h => h.1 hPa))]
      refine List.filter_eq_self.mpr (fun b hb => decide_eq_true ⟨fun e => ?_, fun e => ?_⟩)
      · have hbs : b ∈ bs := (wf.free_sub b (hfl ▸ mem_of_mem_middle hb)).1
        have := pred_unique wf b Pb hbs hP (e.trans hPa.symm)
        exact hnd1.1 (this ▸ hb)
      · have hbf := wf.free_sub b (hfl ▸ mem_of_mem_middle hb)
        exact no_free_succ wf x hxb hna b hbf.1 hbf.2 e
    rw [hps, hfilt]
    have er : x.addr - Pb.size = Pb.addr := by omega
    have e1 : Pb.addr + (x.size + Pb.size) = x.addr + x.size := by omega
    rw [er]
    refine ⟨Pb.addr, t2, x.size + Pb.size, hrun, rfl, rfl,
      block_geom_mk _ _ p0 p1 (by omega) (by omega) (by omega), hload, hfoot, hfs, hlinks, hsz, ?_, hlow,
      by rw [hps0]; exact psle, ?_⟩
    · rw [e1, IS_PREV_ALLOC_flip _ _ _ hnx, hfx1]
      rfl
    · rw [IS_NEXT_ALLOC_congr hpv, hfP, hPf]
  · -- previous block allocated, next block free
    rcases hnext with ⟨_, h⟩ | ⟨N, hN, hNa, hNe⟩
    · rw [hna] at h; cases h
    have hNf : N.alloc = false := hNe.symm.trans hna
    obtain ⟨⟨-, -, n2, n3, n4⟩, -, -, -, -⟩ := wf_geom wf N hN
    obtain ⟨t2, f1, f2, hrun, -, -, hfs, -, hfl, hload, hfoot, hlinks, hsz, hnx, hpv, hlow⟩ :=
      coalesce_case_next_full wf x hxb hxa t1 hfr1 hfl1 hals hpa hna N hN hNa hNf
    have hns : GET_SIZE s.mem (x.addr + x.size) = N.size := hNa ▸ (wf.blocks N hN).2.2.1
    obtain ⟨ps, hps0, -, psle, -, -⟩ := prev_info wf x hxb
    obtain ⟨hfN, -⟩ := neighbour_flags wf hsen N hN
    rw [hfl] at hnd
    have hnd1 := List.nodup_cons.mp (List.nodup_middle.mp hnd)
    have hfilt : fl.filter
        (fun b => decide (b.addr + b.size ≠ x.addr ∧ b.addr ≠ x.addr + x.size))
        = f1 ++ f2 := by
      rw [hfl, filter_middle _ _ _ _ (decide_eq_false (fun h => h.2 hNa))]
      refine List.filter_eq_self.mpr (fun b hb => decide_eq_true ⟨fun e => ?_, fun e => ?_⟩)
      · have hbf := wf.free_sub b (hfl ▸ mem_of_mem_middle hb)
        exact no_free_pred wf x hxb hpa b hbf.1 hbf.2 e
      · have hbs : b ∈ bs := (wf.free_sub b (hfl ▸ mem_of_mem_middle hb)).1
        have := succ_unique wf b N hbs hN (e.trans hNa.symm)
        exact hnd1.1 (this ▸ hb)
    rw [hns, hfilt]
    have e1 : x.addr + (x.size + N.size) = N.addr + N.size := by omega
    refine ⟨x.addr, t2, x.size + N.size, hrun, rfl, rfl,
      block_geom_mk _ _ x0 x1 (by omega) (by omega) (by omega), hload, hfoot, hfs, hlinks, hsz, ?_, hlow,
      by rw [hps0]; exact psle, ?_⟩
    · rw [e1, IS_PREV_ALLOC_congr hnx, hfN, hNf]
    · rw [IS_NEXT_ALLOC_flip _ _ _ hpv, hfx2]
      rfl
  · -- both neighbours allocated
    obtain ⟨t2, hrun, -, -, hfs, -, hload, hfoot, hlinks, hsz, hnx, hpv, hlow⟩ :=
      coalesce_case_none_full wf x hxb hxa t1 hfr1 hfl1 hals hpa hna
    obtain ⟨ps, hps0, -, psle, -, -⟩ := prev_info wf x hxb
    have hfilt : fl.filter
        (fun b => decide (b.addr + b.size ≠ x.addr ∧ b.addr ≠ x.addr + x.size)) = fl := by
      refine List.filter_eq_self.mpr (fun b hb => decide_eq_true ⟨fun e => ?_, fun e => ?_⟩)
      · exact no_free_pred wf x hxb hpa b (wf.free_sub b hb).1 (wf.free_sub b hb).2 e
      · exact no_free_succ wf x hxb hna b (wf.free_sub b hb).1 (wf.free_sub b hb).2 e
    rw [hfilt]
    refine ⟨x.addr, t2, x.size, hrun, rfl, rfl, ⟨x0, x1, x2, x3, x4⟩, hload, hfoot, hfs,
      hlinks, hsz, ?_, hlow, by rw [hps0]; exact psle, ?_⟩
    · rw [IS_PREV_ALLOC_flip _ _ _ hnx, hfx1]
      rfl
    · rw [IS_NEXT_ALLOC_flip _ _ _ hpv, hfx2]
      rfl

/-- C30: in a well-formed heap (layout `bs`, free list `fl`, alloc list `al`, sentinel flags
consistent), take a block `x` of the alloc list, unlink it as `m61_free` does and call
`m61_coalesce` on it. Both calls return, and for the returned block `r`: `r` is `x` when the
`PREV_ALLOC` bit of `x` is set and its physical predecessor otherwise; the size of `r` is the
size of `x` plus the size of the predecessor if that was free plus the size of the successor
if that was free; footer and header of `r` are equal and its flags are exactly
`PREV_ALLOC | NEXT_ALLOC`; `r` is the head of the free list, which consists of `r` followed by
the old free list without the blocks physically adjacent to `x` (the absorbed neighbours); and
the physical predecessor of `r` has `NEXT_ALLOC` clear and its physical successor has
`PREV_ALLOC` clear. -/
theorem m61_coalesce_result (s : Heap) (bs fl al : List Block) (wf : WellFormed s bs fl al)
    (hsen : sentinels_ok s bs) (x : Block) (hx : x ∈ al) :
    ∃ t1 r t2,
      m61_unstitch_list s (LIST_PREV s.mem x.addr) (LIST_NEXT s.mem x.addr)
        ListRef.alloc_list = Except.ok t1 ∧
      m61_coalesce t1 x.addr = Except.ok (r, t2) ∧
      r = (if IS_PREV_ALLOC t1.mem x.addr then x.addr else PREV_FROM_HEADER t1.mem x.addr) ∧
      GET_SIZE t2.mem r = GET_SIZE t1.mem x.addr
        + (if IS_PREV_ALLOC t1.mem x.addr then 0
            else GET_SIZE t1.mem (PREV_FROM_HEADER t1.mem x.addr))
        + (if IS_NEXT_ALLOC t1.mem x.addr then 0
            else GET_SIZE t1.mem (NEXT_FROM_HEADER t1.mem x.addr)) ∧
      load64 t2.mem (FOOTER_FROM_HEADER t2.mem r) = load64 t2.mem r ∧
      GET_BITS t2.mem r = PREV_ALLOC_BIT ||| NEXT_ALLOC_BIT ∧
      t2.free_list_start = r ∧
      dlist t2.mem 0 t2.free_list_start (r :: (fl.filter
        (fun b => decide (b.addr + b.size ≠ x.addr ∧ b.addr ≠ x.addr + x.size))).map
          Block.addr) ∧
      IS_NEXT_ALLOC t2.mem (PREV_FROM_HEADER t2.mem r) = false ∧
      IS_PREV_ALLOC t2.mem (NEXT_FROM_HEADER t2.mem r) = false := by
  have hxb := (wf.alloc_sub x hx).1
  have hxa := (wf.alloc_sub x hx).2
  obtain ⟨⟨x0, x1, x2, x3, x4⟩, -, -, -, -⟩ := wf_geom wf x hxb
  obtain ⟨t1, hrun1, hfr1, hfl1, hals⟩ := unlink_alloc_wf wf x hx
  obtain ⟨r, t2, T, hrun2, hr, hT, hgeom, hload, hfoot, hfs, hlinks, hsz, hnx, hlow, hps,
      hpv⟩ := m61_coalesce_layout wf hsen x hxb hxa t1 hfr1 hfl1 hals
  obtain ⟨hS, hft, hbits, hdl, hpv2, hnx2⟩ :=
    coalesce_views s t2 r T _ hgeom hload hfoot hlinks
      (fun b hb => ⟨(wf_geom wf b (wf.free_sub b (List.mem_filter.mp hb).1).1).1, hsz b hb⟩)
      hnx hlow hps hpv
  have hxl : load64 t1.mem x.addr = load64 s.mem x.addr :=
    hfr1 _ x1 (not_alloc_slot wf x x hxb _ (le_refl _) (by omega) (Or.inr (Or.inl rfl)))
  have hS1 : GET_SIZE t1.mem x.addr = x.size :=
    (GET_SIZE_congr hxl).trans (wf.blocks x hxb).2.2.1
  obtain ⟨ps, hps0, -, psle, -, pns⟩ := prev_info wf x hxb
  have hps1 : GET_SIZE t1.mem (x.addr - 8) = GET_SIZE s.mem (x.addr - 8) :=
    GET_SIZE_congr (hfr1 _ (by omega) pns)
  have hprev1 : PREV_FROM_HEADER t1.mem x.addr = x.addr - GET_SIZE s.mem (x.addr - 8) :=
    PREV_FROM_HEADER_of _ _ _ hps1 (by rw [hps0]; exact psle) (by omega)
  have hnext1 : NEXT_FROM_HEADER t1.mem x.addr = x.addr + x.size :=
    NEXT_FROM_HEADER_eq _ _ _ hS1 x4
  have hN1 : GET_SIZE t1.mem (x.addr + x.size) = GET_SIZE s.mem (x.addr + x.size) :=
    GET_SIZE_congr (hfr1 _ (by omega) (edge_not_alloc_slot wf x _ (next_info wf x hxb)))
  have hP1 : IS_PREV_ALLOC s.mem x.addr = false →
      GET_SIZE t1.mem (x.addr - GET_SIZE s.mem (x.addr - 8))
        = GET_SIZE s.mem (x.addr - 8) := by
    intro hpa
    rcases (wf_neighbours wf x hxb).1 with ⟨_, h⟩ | ⟨Pb, hP, hPa, _⟩
    · rw [hpa] at h; cases h
    · obtain ⟨-, p1, -, -, -⟩ := (wf_geom wf Pb hP).1
      have e : x.addr - 8 = Pb.addr + Pb.size - 8 := by omega
      rw [e, (wf.blocks Pb hP).2.2.2.2, ← hPa, Nat.add_sub_cancel,
        GET_SIZE_congr (hfr1 _ p1 (edge_not_alloc_slot wf x _ (Or.inl ⟨Pb, hP, rfl⟩)))]
      exact (wf.blocks Pb hP).2.2.1
  refine ⟨t1, r, t2, hrun1, hrun2, ?_, ?_, hft, hbits, hfs, ?_, hpv2, hnx2⟩
  · rw [IS_PREV_ALLOC_congr hxl, hprev1]
    exact hr
  · rw [hS, hT, IS_PREV_ALLOC_congr hxl, IS_NEXT_ALLOC_congr hxl, hS1, hprev1, hnext1, hN1]
    cases hpa : IS_PREV_ALLOC s.mem x.addr
    · rw [hP1 hpa]
    · simp
  · rw [hfs]
    exact hdl

/-- Witness for C30: after `p1 = malloc(100); p2 = malloc(100)` on the fresh arena the heap
is well formed and its sentinel flags are consistent; the block of `p2` is followed by the
free remainder of the arena, which `m61_coalesce` absorbs. -/
theorem m61_coalesce_result_witness :
    WellFormed two_blocks
      [⟨arena_base + 24, 176, true⟩, ⟨arena_base + 200, 176, true⟩,
        ⟨arena_base + 376, 8388224, false⟩]
      [⟨arena_base + 376, 8388224, false⟩]
      [⟨arena_base + 200, 176, true⟩, ⟨arena_base + 24, 176, true⟩] ∧
    sentinels_ok two_blocks
      [⟨arena_base + 24, 176, true⟩, ⟨arena_base + 200, 176, true⟩,
        ⟨arena_base + 376, 8388224, false⟩] ∧
    ∃ t1 r t2,
      m61_unstitch_list two_blocks (LIST_PREV two_blocks.mem (arena_base + 200))
        (LIST_NEXT two_blocks.mem (arena_base + 200)) ListRef.alloc_list = Except.ok t1 ∧
      m61_coalesce t1 (arena_base + 200) = Except.ok (r, t2) ∧
      GET_BITS t2.mem r = PREV_ALLOC_BIT ||| NEXT_ALLOC_BIT ∧ t2.free_list_start = r := by
  refine ⟨by constructor <;> decide!, by decide!, ?_⟩
  obtain ⟨t1, r, t2, h1, h2, -, -, -, h6, h7, -⟩ :=
    m61_coalesce_result two_blocks
      [⟨arena_base + 24, 176, true⟩, ⟨arena_base + 200, 176, true⟩,
        ⟨arena_base + 376, 8388224, false⟩]
      [⟨arena_base + 376, 8388224, false⟩]
      [⟨arena_base + 200, 176, true⟩, ⟨arena_base + 24, 176, true⟩]
      (by constructor <;> decide!) (by decide!) ⟨arena_base + 200, 176, true⟩ (by decide)
  exact ⟨t1, r, t2, h1, h2, h6, h7⟩

/-! ### Heap invariants after `realloc` and `free` (C7, C31 - C37) -/

/-- C7 (evaluation at the failing input): right after the `realloc` of `run_shrink_tail`,
which shrinks the block of `x` in place, the block of `x` has `ALLOC` set, records the
requested size 100 and is reached by the forward links of the alloc list, and
`m61_validate_free` accepts `x`; but `m61_free(x)` stops at a failed assertion instead of
returning. -/
theorem m61_free_accepted_pointer_aborts :
    run_shrink_tail.map (fun r =>
      let t := r.2.2.2.2
      (m61_validate_free run_fuel t r.1, m61_free run_fuel t r.1,
        [load32 t.mem (REQ_SIZE_FROM_PAYLOAD t.mem r.1)],
        [IS_ALLOC t.mem (GET_HEADER_FROM_PAYLOAD r.1),
          decide (list_walk t.mem t.alloc_list_start [arena_base + 296, arena_base + 24])]))
      = Except.ok (Except.ok (true, none), Except.error Fault.assertion, [100], [true, true]) := by
  decide!

/-- C31 (evaluation at the failing input): in the run `run_shrink_reuse`, `free(b)` right
after the `realloc` is accepted by the validator; afterwards the walk of `m61_print_heap`
visits the 96-byte tail that the `realloc` split off at `arena_base + 200` and, right after
it, the block of `b` at `arena_base + 296`, and both have `ALLOC` clear. -/
theorem adjacent_free_blocks_after_shrink :
    (run_shrink_reuse >>= fun r =>
      m61_validate_free run_fuel r.2.2 (r.1.getD 1 0) >>= fun v =>
      (m61_free run_fuel r.2.2 (r.1.getD 1 0)).map (fun u =>
        (v, (m61_print_heap 10 u).map (fun l => l.map (fun h => h - arena_base)),
          [IS_ALLOC u.mem (arena_base + 200), IS_ALLOC u.mem (arena_base + 296),
            decide (NEXT_FROM_HEADER u.mem (arena_base + 200) = arena_base + 296)])))
      = Except.ok ((true, none), Except.ok [24, 200, 296, 472, 648], [false, false, true]) := by
  decide!

/-- C32 (evaluation at the failing input): right after the `realloc` of `run_shrink_tail`,
which returns `x` itself, the block `B` of `y` has `PREV_ALLOC` set although its physical
predecessor, the 96-byte tail split off at `arena_base + 200`, has `ALLOC` clear. -/
theorem prev_alloc_bit_stale_after_shrink :
    run_shrink_tail.map (fun r =>
      let t := r.2.2.2.2
      let B := GET_HEADER_FROM_PAYLOAD r.2.1
      ([B - arena_base, PREV_FROM_HEADER t.mem B - arena_base,
          GET_SIZE t.mem (PREV_FROM_HEADER t.mem B)],
        [decide (r.2.2.1 = r.1), IS_PREV_ALLOC t.mem B,
          IS_ALLOC t.mem (PREV_FROM_HEADER t.mem B)]))
      = Except.ok ([296, 200, 96], [true, true, false]) := by
  decide!

/-- C33 (evaluation at the failing input): right after the `realloc` of `run_shrink_tail`
the walk of `m61_print_heap` visits the block at `arena_base + 200`, whose `ALLOC` bit is
clear, but the forward links from the free-list head visit only the block at
`arena_base + 472`; moreover the forward links from the alloc-list head visit the blocks of
`y` and `x`, while the backward link of the block of `x` does not hold the block of `y`. -/
theorem free_block_not_in_free_list_after_shrink :
    run_shrink_tail.map (fun r =>
      let t := r.2.2.2.2
      ((m61_print_heap 10 t).map (fun l => l.map (fun h => h - arena_base)),
        [IS_ALLOC t.mem (arena_base + 200),
          decide (list_walk t.mem t.free_list_start [arena_base + 472]),
          decide (list_walk t.mem t.alloc_list_start [arena_base + 296, arena_base + 24]),
          decide (load64 t.mem (LIST_PREV t.mem (arena_base + 24)) = arena_base + 296)]))
      = Except.ok (Except.ok [24, 200, 296, 472], [false, true, true, false]) := by
  decide!

/-- From a header with `ALLOC` clear that is its own successor (size 0) the loop of
`m61_print_heap` never gets away. -/
theorem m61_print_heap_loop_stuck (m : Mem) (b : Nat)
    (ha : IS_ALLOC m b = false) (hn : NEXT_FROM_HEADER m b = b) :
    ∀ fuel, m61_print_heap_loop m fuel b = Except.error Fault.fuel := by
  intro fuel
  induction fuel with
  | zero => rfl
  | succ n ih =>
    unfold m61_print_heap_loop
    rw [if_neg (by rw [ha]; simp), hn, ih]
    rfl

/-- C34 (evaluation at the failing input): the second `free(p2)` of `run_free_again` is
accepted by the validator; in the state it leaves, `NEXT_FROM_HEADER` leads from the prologue
to the block at `arena_base + 24` and from there to `arena_base + 552`, a word with size 0 and
`ALLOC` clear that is not the epilogue and is its own successor, so that the walk of
`m61_print_heap` does not end, whatever the step budget. -/
theorem m61_print_heap_never_ends :
    run_free_again.map (fun r => (r.1, decide (r.2 = free_again_state)))
      = Except.ok ((true, none), true) ∧
    NEXT_FROM_HEADER free_again_state.mem free_again_state.top_of_heap = arena_base + 24 ∧
    GET_SIZE free_again_state.mem (arena_base + 24) = 528 ∧
    NEXT_FROM_HEADER free_again_state.mem (arena_base + 24) = arena_base + 552 ∧
    GET_SIZE free_again_state.mem (arena_base + 552) = 0 ∧
    IS_ALLOC free_again_state.mem (arena_base + 552) = false ∧
    NEXT_FROM_HEADER free_again_state.mem (arena_base + 552) = arena_base + 552 ∧
    free_again_state.end_of_heap = arena_base + 8388600 ∧
    ∀ fuel, m61_print_heap fuel free_again_state = Except.error Fault.fuel := by
  have h1 : NEXT_FROM_HEADER free_again_state.mem free_again_state.top_of_heap
      = arena_base + 24 := by decide!
  have h2 : GET_SIZE free_again_state.mem (arena_base + 24) = 528 := by decide!
  have h3 : NEXT_FROM_HEADER free_again_state.mem (arena_base + 24) = arena_base + 552 := by
    decide!
  have h4 : GET_SIZE free_again_state.mem (arena_base + 552) = 0 := by decide!
  have h5 : IS_ALLOC free_again_state.mem (arena_base + 552) = false := by decide!
  have h6 : NEXT_FROM_HEADER free_again_state.mem (arena_base + 552) = arena_base + 552 := by
    decide!
  refine ⟨by decide!, h1, h2, h3, h4, h5, h6, by decide!, fun fuel => ?_⟩
  unfold m61_print_heap
  rw [h1]
  cases fuel with
  | zero => rfl
  | succ n =>
    unfold m61_print_heap_loop
    rw [if_neg (by rw [h2]; simp), h3, m61_print_heap_loop_stuck _ _ h5 h6]
    rfl

/-- On an aligned address the 32-bit load four bytes further is the high half of the 64-bit
word. -/
theorem load32_high (m : Mem) (a : Nat) (ha : a % 8 = 0) :
    load32 m (a + 4) = load64 m a / 4294967296 := by
  unfold load32 load64 load8
  rw [if_pos ha]
  have e0 : (a + 4) / 8 = a / 8 := by omega
  have e1 : (a + 4 + 1) / 8 = a / 8 := by omega
  have e2 : (a + 4 + 2) / 8 = a / 8 := by omega
  have e3 : (a + 4 + 3) / 8 = a / 8 := by omega
  have f0 : (a + 4) % 8 = 4 := by omega
  have f1 : (a + 4 + 1) % 8 = 5 := by omega
  have f2 : (a + 4 + 2) % 8 = 6 := by omega
  have f3 : (a + 4 + 3) % 8 = 7 := by omega
  rw [e0, e1, e2, e3, f0, f1, f2, f3]
  generalize m.cell (a / 8) = c
  norm_num
  omega

/-- C35 (counterexample): after `malloc(100)` called from line 10 on a fresh arena, the word
five words before the footer of the block does not hold the line number in its low half and
the requested size in its high half. -/
theorem metadata_word_not_line_low_size_high :
    ¬ (load64 one_block.mem
          (FOOTER_FROM_HEADER one_block.mem (arena_base + 24) - 5 * WORD_SIZE) % 4294967296
        = 10 ∧
      load64 one_block.mem
          (FOOTER_FROM_HEADER one_block.mem (arena_base + 24) - 5 * WORD_SIZE) / 4294967296
        = 100) := by
  decide!

/-- C35 (amended): after `m61_set_alloc_metadata(header, sz, file, line)` on a block of size
`S` with room for the metadata, `REQ_SIZE_FROM_HEADER` is the address of the word five words
before the footer and `GET_LINE_NUMBER` the address four bytes further; read as a
little-endian 64-bit value, that word holds the requested size `sz` in its low 32 bits and
the line number (as an `unsigned int`) in its high 32 bits. -/
theorem m61_set_alloc_metadata_word (m : Mem) (h S sz file : Nat) (line : Int)
    (hS : GET_SIZE m h = S) (h0 : h % 8 = 0) (hsz : sz + 64 ≤ S)
    (hw : h + S < 18446744073709551616) (h32 : sz < 4294967296)
    (hfile : file < 18446744073709551616) (m' : Mem)
    (hm : m' = m61_set_alloc_metadata m h sz file line) :
    REQ_SIZE_FROM_HEADER m' h = FOOTER_FROM_HEADER m' h - 5 * WORD_SIZE ∧
    GET_LINE_NUMBER m' h = REQ_SIZE_FROM_HEADER m' h + 4 ∧
    load64 m' (FOOTER_FROM_HEADER m' h - 5 * WORD_SIZE) % 4294967296 = sz ∧
    load64 m' (FOOTER_FROM_HEADER m' h - 5 * WORD_SIZE) / 4294967296
      = int_to_unsigned line := by
  have hS8 : S % 8 = 0 := hS ▸ GET_SIZE_mod m h
  obtain ⟨k0, -, k2, -, k4, -⟩ := m61_set_alloc_metadata_spec m h S sz file line hS h0 hsz hw
    h32 hfile
  rw [← hm] at k0 k2 k4
  have hS' : GET_SIZE m' h = S := (GET_SIZE_congr k0).trans hS
  have e : h + S - 8 - 5 * WORD_SIZE = h + S - 48 := by
    simp only [WORD_SIZE]
    omega
  have e4 : h + S - 44 = h + S - 48 + 4 := by omega
  rw [REQ_SIZE_FROM_HEADER_eq m' h S hS' (by omega) hw,
    GET_LINE_NUMBER_eq m' h S hS' (by omega) hw,
    FOOTER_FROM_HEADER_eq m' h S hS' (by omega) hw, e]
  rw [e4] at k4
  rw [load32_low _ _ (by omega)] at k2
  rw [load32_high _ _ (by omega)] at k4
  exact ⟨rfl, e4, k2, k4⟩

/-- Witness for C35: the metadata of a 100-byte request from line 10 in the free block of
the fresh arena. -/
theorem m61_set_alloc_metadata_word_witness :
    GET_SIZE (m61_memory_buffer_init arena_base).mem (arena_base + 24) = 8388576 ∧
    load64 (m61_set_alloc_metadata (m61_memory_buffer_init arena_base).mem (arena_base + 24)
        100 file_name 10)
      (FOOTER_FROM_HEADER (m61_set_alloc_metadata (m61_memory_buffer_init arena_base).mem
        (arena_base + 24) 100 file_name 10) (arena_base + 24) - 5 * WORD_SIZE) % 4294967296
      = 100 :=
  ⟨by decide!,
    (m61_set_alloc_metadata_word (m61_memory_buffer_init arena_base).mem (arena_base + 24)
      8388576 100 file_name 10 (by decide!) (by decide) (by decide) (by decide) (by decide)
      (by decide) _ rfl).2.2.1⟩

/-- C36 (evaluation at the failing input): the `realloc` of `run_shrink_reuse` shrinks the
block of `x` in place from 272 to 176 bytes (the caller never writes to its payload); before
the call the alloc list is the blocks of `x`, `c`, `b` and the forward link of the block of
`x` holds the block of `c`; after the call the forward link read from the block of `x` is
null and the alloc list is the block of `x` alone. -/
theorem alloc_list_cut_by_shrink :
    run_shrink_reuse.map (fun r =>
      let s := r.2.1
      let t := r.2.2
      let h := GET_HEADER_FROM_PAYLOAD (r.1.getD 3 0)
      ([GET_SIZE s.mem h, GET_SIZE t.mem h, load64 s.mem (LIST_NEXT s.mem h) - arena_base,
          load64 t.mem (LIST_NEXT t.mem h)],
        [decide (r.1.getD 4 0 = r.1.getD 3 0),
          decide (dlist s.mem 0 s.alloc_list_start
            [arena_base + 24, arena_base + 472, arena_base + 296]),
          decide (list_walk t.mem t.alloc_list_start [arena_base + 24]),
          IS_ALLOC t.mem (arena_base + 472), IS_ALLOC t.mem (arena_base + 296)]))
      = Except.ok ([272, 176, 472, 0], [true, true, true, true, true]) := by
  decide!

/-- C37 (evaluation at the failing input): the `realloc` of `run_shrink_tail` shrinks the
block of `x` in place from 272 to 176 bytes while its physical successor, the block of `y`,
is allocated; afterwards the 96-byte tail at `arena_base + 200` has `ALLOC` clear, the free
list is the block at `arena_base + 472` alone, and the block that follows the tail, at
`arena_base + 296`, still has `PREV_ALLOC` set. -/
theorem shrink_tail_not_in_free_list :
    run_shrink_tail.map (fun r =>
      let s := r.2.2.2.1
      let t := r.2.2.2.2
      let h := GET_HEADER_FROM_PAYLOAD r.1
      ([GET_SIZE s.mem h, GET_SIZE t.mem h, NEXT_FROM_HEADER t.mem h - arena_base,
          GET_SIZE t.mem (NEXT_FROM_HEADER t.mem h),
          NEXT_FROM_HEADER t.mem (NEXT_FROM_HEADER t.mem h) - arena_base],
        [decide (r.2.2.1 = r.1), IS_ALLOC s.mem (NEXT_FROM_HEADER s.mem h),
          IS_ALLOC t.mem (NEXT_FROM_HEADER t.mem h),
          decide (dlist t.mem 0 t.free_list_start [arena_base + 472]),
          IS_PREV_ALLOC t.mem (NEXT_FROM_HEADER t.mem (NEXT_FROM_HEADER t.mem h))]))
      = Except.ok ([272, 176, 200, 96, 296], [true, true, false, true, true]) := by
  decide!

end M61
